import Mathlib

/-!
# Guest virtual memory of the emulator (`rpcs3/Emu/Memory/vm.cpp`)

A shallow embedding of the page table, the raw address check and the block
allocator (`block_t`) of `vm.cpp`, followed by the properties proved about them.

Conventions of the embedding

* `u32` values are natural numbers; every 32-bit operation that can wrap is
  written with an explicit `% 4294967296`.
* `g_pages` is a total function from page index to flag byte.  The real table
  has `0x100000` entries; every theorem that relies on an access being inside
  the table carries the hypotheses that make it so.
* `fmt::throw_exception` and a failed `verify` are the outcome `Res.fatal`;
  a loop that can be shown never to exit is the outcome `Res.hang`.
* `vm::writer_lock lock(0)` and `_lock_shareable_cache` only synchronise with
  other threads.  The embedding is sequential: no other thread holds a range
  lock, so both return at once and leave `g_addr_lock` at zero.
* Calls to the operating system and to the render thread are recorded, in
  program order, in `VM.trace`; they are assumed to succeed.
-/

namespace vm

/-! ## Constants declared outside the translated sources -/

/-- Values of enumerators and settings that `vm.cpp` uses but that are declared
in headers outside the translated sources (`vm.h`, `sys_memory.h`, the
configuration and the global object registry).  They are parameters of the
embedding. -/
structure Consts where
  page_readable : Nat
  page_writable : Nat
  page_executable : Nat
  page_64k_size : Nat
  page_1m_size : Nat
  page_allocated : Nat
  SYS_MEMORY_PAGE_SIZE_1M : Nat
  SYS_MEMORY_PAGE_SIZE_64K : Nat
  SYS_MEMORY_PAGE_SIZE_MASK : Nat
  /-- The setting `g_cfg.core.ppu_debug`. -/
  ppu_debug : Bool
  /-- Whether `g_fxo->get<rsx::thread>()` yields a render thread. -/
  rsx_present : Bool
  /-- The value of `flags()` of an object made by `utils::shm(size)`. -/
  shm_default_flags : Nat

/-- The constraints on the page flag enumerators that the code relies on:
they are bytes, `page_allocated` is a non-empty set of bits that is disjoint
from the protection and size-class bits, and the readable and the writable
flag are non-empty. -/
structure Consts.WF (c : Consts) : Prop where
  readable_lt : c.page_readable < 256
  writable_lt : c.page_writable < 256
  executable_lt : c.page_executable < 256
  size64k_lt : c.page_64k_size < 256
  size1m_lt : c.page_1m_size < 256
  allocated_lt : c.page_allocated < 256
  allocated_ne : c.page_allocated ≠ 0
  readable_ne : c.page_readable ≠ 0
  writable_ne : c.page_writable ≠ 0
  readable_disj : c.page_readable &&& c.page_allocated = 0
  writable_disj : c.page_writable &&& c.page_allocated = 0
  size64k_disj : c.page_64k_size &&& c.page_allocated = 0
  size1m_disj : c.page_1m_size &&& c.page_allocated = 0

/-- One assignment of the constants (bit 0 readable, bit 1 writable, bit 2
executable, bits 5 and 6 the size classes, bit 7 allocated), used to evaluate
the embedding on concrete inputs. -/
def ps3Consts : Consts where
  page_readable := 1
  page_writable := 2
  page_executable := 4
  page_64k_size := 32
  page_1m_size := 64
  page_allocated := 128
  SYS_MEMORY_PAGE_SIZE_1M := 0x400
  SYS_MEMORY_PAGE_SIZE_64K := 0x200
  SYS_MEMORY_PAGE_SIZE_MASK := 0xf00
  ppu_debug := false
  rsx_present := false
  shm_default_flags := 0

/-! ## Machine arithmetic -/

/-- Truncation of a value to `u32`. -/
def u32 (x : Nat) : Nat := x % 4294967296

/-- Modelled from the spec: `::align(value, align)` is declared in a utility
header outside the translated sources.  It rounds `value` up to the next
multiple of the power of two `align`; the result is converted back to `u32`. -/
def align (value al : Nat) : Nat := u32 ((value + (al - 1)) / al * al)

/-- Number of significant bits of `x`, looking at no more than `fuel` bits. -/
def bit_width : Nat → Nat → Nat
  | 0, _ => 0
  | fuel + 1, x => if x = 0 then 0 else bit_width fuel (x / 2) + 1

/-- The function `std::countl_zero` on a `u32`. -/
def countl_zero (x : Nat) : Nat := 32 - bit_width 32 x

/-! ## Page table -/

/-- The array `g_pages`: page index to the flag byte of `memory_page`. -/
abbrev Pages := Nat → Nat

/-- The loop of `check_addr`: `n` pages starting at page `i` are tested. -/
def check_loop (pages : Pages) (flags : Nat) : Nat → Nat → Bool
  | 0, _ => true
  | n + 1, i =>
    if pages i &&& flags ≠ flags then false else check_loop pages flags n (i + 1)

/-- The function `vm::check_addr`. -/
def check_addr (c : Consts) (pages : Pages) (addr size flags : Nat) : Bool :=
  -- Overflow checking
  if u32 (addr + size) < addr ∧ u32 (addr + size) ≠ 0 then false
  else
    -- Always check this flag
    let flags := flags ||| c.page_allocated
    let first := addr / 4096
    let max := u32 (addr + size + 4294967295) / 4096
    check_loop pages flags (max + 1 - first) first

/-! ## Global state -/

/-- An object of class `utils::shm`, as far as `vm.cpp` looks at it.  Two
handles point to the same object exactly when their `id` agrees. -/
structure Shm where
  id : Nat
  size : Nat
  flags : Nat
deriving DecidableEq

/-- The pointer stored in a `std::shared_ptr<utils::shm>`: the identity of the
object, `none` for a null handle. -/
def shm_ptr (h : Option Shm) : Option Nat := h.map Shm.id

/-- The argument of `utils::memory_protect`. -/
inductive Protection where
  | rw
  | ro
  | no
deriving DecidableEq

/-- What `vm.cpp` does to its collaborators and to the page table, in program
order. -/
inductive Event where
  /-- The call `rsxthr->on_notify_memory_mapped(addr, size)`. -/
  | rsx_mapped (addr size : Nat)
  /-- The call `rsxthr->on_notify_memory_unmapped(addr, size)`. -/
  | rsx_unmapped (addr size : Nat)
  /-- The call `utils::memory_protect(g_base_addr + addr, size, prot)`. -/
  | memory_protect (addr size : Nat) (prot : Protection)
  /-- The two calls `shm->map_critical` at `g_base_addr + addr` and `g_sudo_addr + addr`. -/
  | shm_map (id addr : Nat)
  /-- The two calls `shm->unmap_critical`. -/
  | shm_unmap (id addr : Nat)
  /-- The call `std::memset(g_sudo_addr + addr, 0, size)`. -/
  | memset_zero (addr size : Nat)
  /-- The call `utils::memory_commit(g_exec_addr + addr * 2, size * 2)`. -/
  | exec_commit (addr size : Nat)
  /-- The call `utils::memory_decommit(g_exec_addr + addr * 2, size * 2)`. -/
  | exec_decommit (addr size : Nat)
  /-- The call `utils::memory_commit(g_stat_addr + addr, size)`. -/
  | stat_commit (addr size : Nat)
  /-- The call `utils::memory_decommit(g_stat_addr + addr, size)`. -/
  | stat_decommit (addr size : Nat)
  /-- A store of `value` to `g_pages[index].flags`. -/
  | page_flags (index value : Nat)
deriving DecidableEq

/-- The process-wide state that the block allocator reads and writes. -/
structure VM where
  /-- The array `g_pages`. -/
  g_pages : Pages
  /-- The array `g_shareable`, indexed by 64 KiB page. -/
  g_shareable : Nat → Nat
  /-- Number of `utils::shm` objects created so far; the next one gets this `id`. -/
  next_shm : Nat
  /-- Calls and page-table stores performed so far, oldest first. -/
  trace : List Event

/-- The operation `g_pages[i].flags.exchange(v)` (the old value is read by the
caller before this update). -/
def VM.exchange (s : VM) (i v : Nat) : VM :=
  { s with
    g_pages := fun j => if j = i then v else s.g_pages j
    trace := s.trace ++ [Event.page_flags i v] }

/-- Appends a recorded call. -/
def VM.emit (s : VM) (e : Event) : VM :=
  { s with trace := s.trace ++ [e] }

/-- Stores `v` in `g_shareable[i]` for `n` consecutive indices from `i`. -/
def VM.set_shareable (s : VM) (i n v : Nat) : VM :=
  { s with g_shareable := fun j => if i ≤ j ∧ j < i + n then v else s.g_shareable j }

/-- The statement `std::make_shared<utils::shm>(size)`. -/
def VM.make_shm (c : Consts) (s : VM) (size : Nat) : Shm × VM :=
  ({ id := s.next_shm, size := size, flags := c.shm_default_flags },
   { s with next_shm := s.next_shm + 1 })

/-- Outcome of a call: a normal return with the state and the returned value,
a fatal error (exception) with the state reached when it was raised, or a loop
that never exits. -/
inductive Res (σ α : Type) where
  | ok (s : σ) (v : α)
  | fatal (s : σ)
  | hang (s : σ)

/-- The returned value, when the call returns. -/
def Res.value {σ α : Type} : Res σ α → Option α
  | Res.ok _ v => some v
  | _ => none

/-- The state in which the call ends. -/
def Res.state {σ α : Type} : Res σ α → σ
  | Res.ok s _ => s
  | Res.fatal s => s
  | Res.hang s => s

/-- Sequencing of two calls: `k` runs on the state and the value with which
the first call returned; a fatal error or a hang of the first call ends the
whole computation, its state embedded by `emb`. -/
def Res.and_then {σ τ α β : Type} (r : Res σ α) (emb : σ → τ) (k : σ → α → Res τ β) :
    Res τ β :=
  match r with
  | Res.ok s v => k s v
  | Res.fatal s => Res.fatal (emb s)
  | Res.hang s => Res.hang (emb s)

/-- The statement `verify(HERE), cond`: a fatal error unless `cond` holds. -/
def verify {σ : Type} (cond : Bool) (s : σ) : Res σ Unit :=
  if cond then Res.ok s () else Res.fatal s

/-! ## Mapping and unmapping pages -/

/-- Whether any of the `n` pages from page `i` on has a non-zero flag byte. -/
def any_page_set (pages : Pages) : Nat → Nat → Bool
  | 0, _ => false
  | n + 1, i => if pages i ≠ 0 then true else any_page_set pages n (i + 1)

/-- The last loop of `_page_map`: `exchange(flags | page_allocated)` on `n`
pages from page `i` on, raising "Concurrent access" when an old value is set. -/
def page_map_set (v : Nat) : Nat → Nat → VM → Res VM Unit
  | 0, _, s => Res.ok s ()
  | n + 1, i, s =>
    let old := s.g_pages i
    let s1 := s.exchange i v
    if old ≠ 0 then Res.fatal s1 else page_map_set v n (i + 1) s1

/-- The part of `_page_map` between its two loops: the shareable marks, the
notification of the render thread and the calls that map the memory. -/
def page_map_calls (c : Consts) (s : VM) (addr flags size : Nat) (shm : Option Shm) : VM :=
  let s1 :=
    match shm with
    | some h => if h.flags ≠ 0 then s.set_shareable (addr / 65536) (size / 65536) 1 else s
    | none => s
  -- Notify rsx that range has become valid
  let s2 := if c.rsx_present then s1.emit (Event.rsx_mapped addr size) else s1
  let s3 :=
    match shm with
    | none => s2.emit (Event.memory_protect addr size Protection.rw)
    | some h => s2.emit (Event.shm_map h.id addr)
  let s4 :=
    if flags &&& c.page_executable ≠ 0 then s3.emit (Event.exec_commit addr size) else s3
  if c.ppu_debug then s4.emit (Event.stat_commit addr size) else s4

/-- The function `vm::_page_map`. -/
def _page_map (c : Consts) (s : VM) (addr flags size : Nat) (shm : Option Shm) : Res VM Unit :=
  if size = 0 ∨ (size ||| addr) % 4096 ≠ 0 ∨ flags &&& c.page_allocated ≠ 0 then
    Res.fatal s
  else if any_page_set s.g_pages (size / 4096) (addr / 4096) then
    Res.fatal s
  else
    page_map_set (flags ||| c.page_allocated) (size / 4096) (addr / 4096)
      (page_map_calls c s addr flags size shm)

/-- The first loop of `_page_unmap`, which determines the deallocation size:
at most `n` pages from page `i` on are looked at, `size` and `is_exec` are the
loop variables.  The result is `none` when the `verify` in the loop fails. -/
def page_unmap_scan (c : Consts) (pages : Pages) : Nat → Nat → Nat → Bool → Option (Nat × Bool)
  | 0, _, size, is_exec => some (size, is_exec)
  | n + 1, i, size, is_exec =>
    if pages i &&& c.page_allocated = 0 then some (size, is_exec)
    else if size = 0 then
      page_unmap_scan c pages n (i + 1) (size + 4096) (decide (pages i &&& c.page_executable ≠ 0))
    else if is_exec = decide (pages i &&& c.page_executable ≠ 0) then
      page_unmap_scan c pages n (i + 1) (size + 4096) is_exec
    else none

/-- The second loop of `_page_unmap`: `exchange(0)` on `n` pages from page `i`
on, raising "Concurrent access" when an old value lacks `page_allocated`. -/
def page_unmap_clear (c : Consts) : Nat → Nat → VM → Res VM Unit
  | 0, _, s => Res.ok s ()
  | n + 1, i, s =>
    let old := s.g_pages i
    let s1 := s.exchange i 0
    if old &&& c.page_allocated = 0 then Res.fatal s1 else page_unmap_clear c n (i + 1) s1

/-- The part of `_page_unmap` after its two loops: the shareable marks are
cleared, the render thread is notified and the memory is unmapped. -/
def page_unmap_calls (c : Consts) (s : VM) (addr size : Nat) (shm : Option Shm)
    (is_exec : Bool) : VM :=
  let s2 :=
    if s.g_shareable (addr / 65536) ≠ 0 then
      s.set_shareable (addr / 65536) (size / 65536) 0
    else s
  -- Notify rsx to invalidate range
  let s3 := if c.rsx_present then s2.emit (Event.rsx_unmapped addr size) else s2
  -- Actually unmap memory
  let s4 :=
    match shm with
    | none =>
      (s3.emit (Event.memory_protect addr size Protection.no)).emit
        (Event.memset_zero addr size)
    | some h => s3.emit (Event.shm_unmap h.id addr)
  let s5 := if is_exec then s4.emit (Event.exec_decommit addr size) else s4
  if c.ppu_debug then s5.emit (Event.stat_decommit addr size) else s5

/-- The function `vm::_page_unmap`; the returned value is the number of bytes
unmapped. -/
def _page_unmap (c : Consts) (s : VM) (addr max_size : Nat) (shm : Option Shm) : Res VM Nat :=
  if max_size = 0 ∨ (max_size ||| addr) % 4096 ≠ 0 then Res.fatal s
  else
    -- Determine deallocation size
    match page_unmap_scan c s.g_pages (max_size / 4096) (addr / 4096) 0 false with
    | none => Res.fatal s
    | some (size, is_exec) =>
      (page_unmap_clear c (size / 4096) (addr / 4096) s).and_then id fun s1 _ =>
        Res.ok (page_unmap_calls c s1 addr size shm is_exec) size

/-! ## The sub-allocation map `m_map` -/

/-- The type `std::map<u32, std::pair<u32, std::shared_ptr<utils::shm>>>`: the
entries in increasing order of their key. -/
abbrev SubMap := List (Nat × (Nat × Option Shm))

/-- The call `m_map.find(k)`: the mapped pair, `none` for `m_map.end()`. -/
def m_find (m : SubMap) (k : Nat) : Option (Nat × Option Shm) :=
  match m with
  | [] => none
  | (k1, v1) :: t => if k1 = k then some v1 else m_find t k

/-- The assignment `m_map[k] = v`. -/
def m_insert (k : Nat) (v : Nat × Option Shm) : SubMap → SubMap
  | [] => [(k, v)]
  | (k1, v1) :: t =>
    if k < k1 then (k, v) :: (k1, v1) :: t
    else if k = k1 then (k, v) :: t
    else (k1, v1) :: m_insert k v t

/-- The call `m_map.erase(found)` for the entry found under key `k`. -/
def m_erase (k : Nat) : SubMap → SubMap
  | [] => []
  | (k1, v1) :: t => if k1 = k then t else (k1, v1) :: m_erase k t

/-! ## The block allocator `block_t` -/

/-- The class `vm::block_t`. -/
structure Block where
  addr : Nat
  size : Nat
  flags : Nat
  /-- The member `m_common`, set by the constructor when `flags & 0x100`. -/
  m_common : Option Shm
  /-- The member `m_map`. -/
  m_map : SubMap

/-- The expression `flags & 0x10 ? x : 0`. -/
def guard_off (flags x : Nat) : Nat := if flags &&& 0x10 ≠ 0 then x else 0

/-- The minimal page size `flags & 0x100 ? 0x1000 : 0x10000`. -/
def min_page_size (flags : Nat) : Nat := if flags &&& 0x100 ≠ 0 then 0x1000 else 0x10000

/-- The page flags `pflags` that `alloc` and `falloc` compute from `flags`.
The complement `~SYS_MEMORY_PAGE_SIZE_1M` is taken on 64 bits. -/
def page_flags_of (c : Consts) (flags : Nat) : Nat :=
  let pflags := c.page_readable ||| c.page_writable
  if flags &&& c.SYS_MEMORY_PAGE_SIZE_64K = c.SYS_MEMORY_PAGE_SIZE_64K then
    pflags ||| c.page_64k_size
  else if flags &&& (c.SYS_MEMORY_PAGE_SIZE_MASK
      &&& (c.SYS_MEMORY_PAGE_SIZE_1M ^^^ 18446744073709551615)) = 0 then
    pflags ||| c.page_1m_size
  else pflags

/-- The guard pages of `block_t::try_alloc`: both are marked as allocated,
each `exchange` followed by the `verify` that the page was free. -/
def mark_guard_pages (c : Consts) (s : VM) (addr size : Nat) : Res VM Unit :=
  let lo := addr / 4096
  (verify (decide (s.g_pages lo = 0)) (s.exchange lo c.page_allocated)).and_then id fun s1 _ =>
    let hi := u32 (addr / 4096 + size / 4096 + 4294967295)
    verify (decide (s1.g_pages hi = 0)) (s1.exchange hi c.page_allocated)

/-- The method `block_t::try_alloc`. -/
def Block.try_alloc (c : Consts) (b : Block) (s : VM) (addr flags size : Nat)
    (shm : Option Shm) : Res (Block × VM) Bool :=
  -- Check if memory area is already mapped
  if any_page_set s.g_pages (u32 (addr + size + 4294967295) / 4096 + 1 - addr / 4096)
      (addr / 4096) then
    Res.ok (b, s) false
  else
    let page_addr := u32 (addr + guard_off b.flags 0x1000)
    let page_size := u32 (size + 4294967296 - guard_off b.flags 0x2000)
    -- Mark overflow/underflow guard pages as allocated
    (if b.flags &&& 0x10 ≠ 0 then mark_guard_pages c s addr size else Res.ok s ()).and_then
      (Prod.mk b) fun s2 _ =>
        -- Map "real" memory pages
        (_page_map c s2 page_addr flags page_size shm).and_then (Prod.mk b) fun s3 _ =>
          -- Add entry
          Res.ok ({ b with m_map := m_insert addr (size, shm) b.m_map }, s3) true

/-- The search loop of `block_t::alloc`.  `fuel` bounds the number of
positions tried; the positions `addr, addr + align, ...` are taken modulo
`2^32` and a failed `try_alloc` changes nothing, so a loop that has not left
after `2^32 / align` positions repeats itself for ever. -/
def Block.alloc_loop (c : Consts) (b : Block) (flags al size pflags : Nat) (shm : Option Shm) :
    Nat → Nat → VM → Res (Block × VM) Nat
  | 0, _, s => Res.hang (b, s)
  | fuel + 1, addr, s =>
    if addr + size ≤ b.addr + b.size then
      (b.try_alloc c s addr pflags size shm).and_then id fun x done =>
        if done then Res.ok x (u32 (addr + guard_off flags 0x1000))
        else Block.alloc_loop c b flags al size pflags shm fuel (u32 (addr + al)) x.2
    else Res.ok (b, s) 0

/-- The method `block_t::alloc`.  `src` is `none` for a null pointer and
`some h` for a pointer to the handle `h`. -/
def Block.alloc (c : Consts) (b : Block) (s : VM) (orig_size al : Nat)
    (src : Option (Option Shm)) (flags : Nat) : Res (Block × VM) Nat :=
  -- Use the block's flags
  let flags := if src.isNone then b.flags else flags
  -- Determine minimal alignment
  let mps := min_page_size flags
  -- Align to minimal page size
  let size := u32 (align orig_size mps + guard_off flags 0x2000)
  -- Check alignment
  if al < mps ∨ al ≠ 0x80000000 >>> countl_zero al then Res.fatal (b, s)
  -- Return if size is invalid
  else if orig_size = 0 ∨ size = 0 ∨ orig_size > size ∨ size > b.size then Res.ok (b, s) 0
  else
    let pflags := page_flags_of c flags
    -- Create or import shared memory object
    match b.m_common, src with
    | some _, some _ => Res.fatal (b, s)
    | some _, none =>
      Block.alloc_loop c b flags al size pflags none (4294967296 / al) (align b.addr al) s
    | none, some h =>
      Block.alloc_loop c b flags al size pflags h (4294967296 / al) (align b.addr al) s
    | none, none =>
      Block.alloc_loop c b flags al size pflags (some (s.make_shm c size).1) (4294967296 / al)
        (align b.addr al) (s.make_shm c size).2

/-- The end of `block_t::falloc`: the call of `try_alloc` and the returned
address. -/
def Block.falloc_finish (c : Consts) (b : Block) (s : VM) (addr pflags size : Nat)
    (shm : Option Shm) : Res (Block × VM) Nat :=
  (b.try_alloc c s addr pflags size shm).and_then id fun x done =>
    if done then Res.ok x addr else Res.ok x 0

/-- The method `block_t::falloc`. -/
def Block.falloc (c : Consts) (b : Block) (s : VM) (addr orig_size : Nat)
    (src : Option (Option Shm)) (flags : Nat) : Res (Block × VM) Nat :=
  -- Use the block's flags
  let flags := if src.isNone then b.flags else flags
  -- Determine minimal alignment
  let mps := min_page_size flags
  -- Align to minimal page size
  let size := align orig_size mps
  -- return if addr or size is invalid
  if size = 0 ∨ addr < b.addr ∨ orig_size > size ∨ addr + size > b.addr + b.size
      ∨ flags &&& 0x10 ≠ 0 then
    Res.ok (b, s) 0
  else
    let pflags := page_flags_of c flags
    -- Create or import shared memory object
    match b.m_common, src with
    | some _, some _ => Res.fatal (b, s)
    | some _, none => b.falloc_finish c s addr pflags size none
    | none, some h => b.falloc_finish c s addr pflags size h
    | none, none =>
      b.falloc_finish c (s.make_shm c size).2 addr pflags size (some (s.make_shm c size).1)

/-- The test `src && found->second.second.get() != src->get()` of
`block_t::dealloc`. -/
def owner_mismatch (src : Option (Option Shm)) (fshm : Option Shm) : Bool :=
  match src with
  | none => false
  | some h => decide (shm_ptr fshm ≠ shm_ptr h)

/-- The guard pages of `block_t::dealloc`: both are cleared, each `exchange`
followed by the `verify` that the page held exactly `page_allocated`. -/
def clear_guard_pages (c : Consts) (s : VM) (addr size : Nat) : Res VM Unit :=
  let lo := u32 (addr / 4096 + 4294967295)
  (verify (decide (s.g_pages lo = c.page_allocated)) (s.exchange lo 0)).and_then id fun s1 _ =>
    let hi := addr / 4096 + size / 4096
    verify (decide (s1.g_pages hi = c.page_allocated)) (s1.exchange hi 0)

/-- The part of `block_t::dealloc` that follows a successful `m_map.find`:
`key` is the key of the entry found, `fsize` and `fshm` its size and handle. -/
def Block.dealloc_found (c : Consts) (b : Block) (s : VM) (addr : Nat)
    (src : Option (Option Shm)) (key fsize : Nat) (fshm : Option Shm) : Res (Block × VM) Nat :=
  if owner_mismatch src fshm then Res.ok (b, s) 0
  else
    -- Get allocation size
    let size := u32 (fsize + 4294967296 - guard_off b.flags 0x2000)
    -- Clear guard pages
    (if b.flags &&& 0x10 ≠ 0 then clear_guard_pages c s addr size else Res.ok s ()).and_then
      (Prod.mk b) fun s2 _ =>
        -- Unmap "real" memory pages
        (_page_unmap c s2 addr size fshm).and_then (Prod.mk b) fun s3 r =>
          (verify (decide (size = r)) (b, s3)).and_then id fun x _ =>
            -- Remove entry
            Res.ok ({ b with m_map := m_erase key b.m_map }, x.2) size

/-- The method `block_t::dealloc`. -/
def Block.dealloc (c : Consts) (b : Block) (s : VM) (addr : Nat)
    (src : Option (Option Shm)) : Res (Block × VM) Nat :=
  let key := u32 (addr + 4294967296 - guard_off b.flags 0x1000)
  match m_find b.m_map key with
  | none => Res.ok (b, s) 0
  | some (fsize, fshm) => b.dealloc_found c s addr src key fsize fshm

/-- The constructor `block_t::block_t(addr, size, flags)`; with flag `0x100`
one shared memory object is created and mapped for the whole block. -/
def Block.create (c : Consts) (s : VM) (addr size flags : Nat) : Block × VM :=
  if flags &&& 0x100 ≠ 0 then
    ({ addr := addr, size := size, flags := flags, m_common := some (s.make_shm c size).1,
       m_map := [] },
     (s.make_shm c size).2.emit (Event.shm_map (s.make_shm c size).1.id addr))
  else
    ({ addr := addr, size := size, flags := flags, m_common := none, m_map := [] }, s)

/-! ## Consistency of a block with the page table -/

/-- A block is consistent with a page table when its range lies in the 32-bit
address space and the entries of its sub-allocation map are non-empty, describe
pairwise disjoint ranges `[base, base + size)`, and every page of every entry
has the allocated bits set. -/
structure Block.Consistent (c : Consts) (b : Block) (pages : Pages) : Prop where
  range : b.addr + b.size ≤ 4294967296
  nonempty : ∀ e ∈ b.m_map, 0 < e.2.1
  mapped : ∀ e ∈ b.m_map, ∀ j, e.1 / 4096 ≤ j → j < (e.1 + e.2.1 + 4095) / 4096 →
    pages j &&& c.page_allocated = c.page_allocated
  disjoint : b.m_map.Pairwise fun e1 e2 => e1.1 + e1.2.1 ≤ e2.1 ∨ e2.1 + e2.2.1 ≤ e1.1

/-! ## Concrete states used to evaluate the embedding -/

/-- A state in which no page is mapped, as at the start of the emulation. -/
def VM.empty : VM :=
  { g_pages := fun _ => 0, g_shareable := fun _ => 0, next_shm := 0, trace := [] }

/-- The block of the location "user 64k" as `vm::init` makes it, with
`0x20000000` and `0x10000000` for the constants `mem_user64k_base` and
`mem_user64k_size`, which are declared outside `vm.cpp`. -/
def user64k_block : Block :=
  (Block.create ps3Consts VM.empty 0x20000000 0x10000000 0x201).1

/-- The block of the location "stack" as `vm::init` makes it (flags `0x111`:
guard pages, 4 KiB granularity), with `0xD0000000` and `0x10000000` for the
constants `mem_stack_base` and `mem_stack_size`. -/
def stack_block : Block :=
  (Block.create ps3Consts VM.empty 0xD0000000 0x10000000 0x111).1

/-- The state in which `stack_block` has been constructed. -/
def stack_vm : VM :=
  (Block.create ps3Consts VM.empty 0xD0000000 0x10000000 0x111).2

/-- The block "SPU reserved" as `vm::init` makes it: the last `0x20000000`
bytes of the address space, no flags. -/
def spu_block : Block :=
  (Block.create ps3Consts VM.empty 0xE0000000 0x20000000 0).1

/-! ## Looking up the backing of an address: `block_t::get` -/

/-- The expression `std::prev(m_map.upper_bound(addr))` on the entries in the
order of the map: the entry before the first entry whose key is greater than
`addr`.  `prev` is the entry passed last, `none` at `m_map.begin()`; the
result `none` is the case `upper == m_map.begin()`. -/
def m_upper_prev (addr : Nat) :
    SubMap → Option (Nat × (Nat × Option Shm)) → Option (Nat × (Nat × Option Shm))
  | [], prev => prev
  | e :: t, prev => if addr < e.1 then prev else m_upper_prev addr t (some e)

/-- The method `block_t::get`: the pair of the base address and the handle.
The result `none` stands for the undefined behaviour of
`found->second.second->size()` on an entry with a null handle. -/
def Block.get (b : Block) (addr size : Nat) : Option (Nat × Option Shm) :=
  if addr < b.addr ∨ addr + size > b.addr + b.size then some (addr, none)
  else
    match m_upper_prev addr b.m_map none with
    | none => some (addr, none)
    | some found =>
      -- Exact address condition (size == 0)
      if size = 0 ∧ found.1 ≠ addr then some (addr, none)
      else
        -- Special path
        match b.m_common with
        | some common => some (b.addr, some common)
        | none =>
          match found.2.2 with
          | none => none
          | some h =>
            -- Range check
            if addr + size > found.1 + h.size then some (addr, none)
            else some (found.1, some h)

/-- The method `block_t::imp_used`: the sum, in `u32`, of the sizes of the
entries without their guard pages. -/
def Block.imp_used (b : Block) : Nat :=
  b.m_map.foldl
    (fun result entry => u32 (result + u32 (entry.2.1 + 4294967296 - guard_off b.flags 0x2000))) 0

/-! ## Raw access: `try_access` -/

/-- The memory that `try_access` copies between: `mem a` is the byte of guest
memory at `g_sudo_addr + a`, `buf i` the byte at `ptr + i` of the caller's
buffer. -/
structure AccessState where
  mem : Nat → Nat
  buf : Nat → Nat

/-- Copies `size` bytes of the buffer to guest memory at `addr`. -/
def AccessState.store (st : AccessState) (addr size : Nat) : AccessState :=
  { st with mem := fun a => if addr ≤ a ∧ a < addr + size then st.buf (a - addr) else st.mem a }

/-- Copies `size` bytes of guest memory at `addr` to the buffer. -/
def AccessState.load (st : AccessState) (addr size : Nat) : AccessState :=
  { st with buf := fun i => if i < size then st.mem (addr + i) else st.buf i }

/-- The function `vm::try_access`.  The atomic stores of 1, 2, 4, 8 or 16
bytes write the same bytes as `std::memcpy`. -/
def try_access (c : Consts) (pages : Pages) (st : AccessState) (addr size : Nat)
    (is_write : Bool) : Res AccessState Bool :=
  if size = 0 then Res.ok st true
  else if check_addr c pages addr size (if is_write then c.page_writable else c.page_readable) then
    if size ≤ 16 ∧ size &&& (size - 1) = 0 ∧ addr &&& (size - 1) = 0 ∧ is_write = true then
      Res.ok (st.store addr size) true
    else if is_write then Res.ok (st.store addr size) true
    else Res.ok (st.load addr size) true
  else Res.ok st false

/-! ## Changing the protection of pages: `page_protect` -/

/-- The complement `~x` of a `u8`, converted back to `u8`. -/
def u8_not (x : Nat) : Nat := 255 ^^^ x

/-- The first loop of `page_protect`: whether each of the `n` pages from page
`i` on passes the test against `flags_test`. -/
def page_protect_test (c : Consts) (pages : Pages) (flags_test : Nat) : Nat → Nat → Bool
  | 0, _ => true
  | n + 1, i =>
    if pages i &&& flags_test ≠ flags_test ||| c.page_allocated then false
    else page_protect_test c pages flags_test n (i + 1)

/-- The protection that `page_protect` requests for a run of pages whose
readable and writable bits are `start_value`. -/
def protection_of (c : Consts) (start_value : Nat) : Protection :=
  if start_value &&& c.page_writable ≠ 0 then Protection.rw
  else if start_value &&& c.page_readable ≠ 0 then Protection.ro
  else Protection.no

/-- The second loop of `page_protect`, `n` iterations from `i` on; `last` is
the loop bound `end`, `start` and `start_value` are the loop variables. -/
def page_protect_loop (c : Consts) (flags_set flags_clear last : Nat) :
    Nat → Nat → Nat → Nat → VM → VM
  | 0, _, _, _, s => s
  | n + 1, i, start, start_value, s =>
    let stored := (s.g_pages i ||| flags_set) &&& u8_not flags_clear
    let s1 := if i < last then s.exchange i stored else s
    let new_val := if i < last then stored &&& (c.page_readable ||| c.page_writable) else 0xff
    if new_val ≠ start_value then
      let page_size := u32 ((i - start) * 4096)
      let s2 :=
        if page_size ≠ 0 then
          s1.emit (Event.memory_protect (start * 4096) page_size (protection_of c start_value))
        else s1
      page_protect_loop c flags_set flags_clear last n (i + 1) i new_val s2
    else page_protect_loop c flags_set flags_clear last n (i + 1) start start_value s1

/-- The function `vm::page_protect`. -/
def page_protect (c : Consts) (s : VM) (addr size flags_test flags_set flags_clear : Nat) :
    Res VM Bool :=
  if size = 0 ∨ (size ||| addr) % 4096 ≠ 0 then Res.fatal s
  else
    let flags_both := flags_set &&& flags_clear
    let flags_test := flags_test ||| c.page_allocated
    let flags_set := flags_set &&& u8_not flags_both
    let flags_clear := flags_clear &&& u8_not flags_both
    if ¬ page_protect_test c s.g_pages flags_test (size / 4096) (addr / 4096) then Res.ok s false
    else if flags_set = 0 ∧ flags_clear = 0 then Res.ok s true
    else
      Res.ok
        (page_protect_loop c flags_set flags_clear (addr / 4096 + size / 4096)
          (size / 4096 + 1) (addr / 4096) (addr / 4096) 0xff s)
        true

/-! ## The registry of blocks `g_locations` -/

/-- Address constants and enumerators of `memory_location_t` that `vm.cpp`
uses and that are declared outside it.  They are parameters of the embedding. -/
structure Layout where
  mem_user64k_base : Nat
  mem_user64k_size : Nat
  mem_rsx_base : Nat
  mem_rsx_size : Nat
  mem_stack_base : Nat
  mem_stack_size : Nat
  /-- The enumerator `memory_location_max`: the number of well-known locations. -/
  memory_location_max : Nat
  /-- The enumerator `any`. -/
  any : Nat

/-- The constraints on the layout that the registry code relies on: the
constants are `u32` values and the two bounds of the search of `_find_map` are
not zero. -/
structure Layout.WF (lay : Layout) : Prop where
  user64k_pos : 1 ≤ lay.mem_user64k_base
  user64k_lt : lay.mem_user64k_base < 4294967296
  rsx_pos : 1 ≤ lay.mem_rsx_base
  rsx_lt : lay.mem_rsx_base < 4294967296

/-- One assignment of the layout constants, used to evaluate the embedding on
concrete inputs. -/
def ps3Layout : Layout where
  mem_user64k_base := 0x20000000
  mem_user64k_size := 0x10000000
  mem_rsx_base := 0xC0000000
  mem_rsx_size := 0x10000000
  mem_stack_base := 0xD0000000
  mem_stack_size := 0x10000000
  memory_location_max := 7
  any := 0xffffffff

/-- The vector `g_locations`: `none` is a null pointer. -/
abbrev Registry := List (Option Block)

/-- Modelled from the spec: the class `utils::address_range` is declared
outside `vm.cpp`.  A range is the set of addresses from `start` to `end`, both
included. -/
structure address_range where
  start : Nat
  end_ : Nat

/-- Modelled from the spec: `address_range::start_length`, the range of
`length` addresses from `start` on, its last address computed in `u32`. -/
def address_range.start_length (start length : Nat) : address_range :=
  { start := start, end_ := u32 (start + length + 4294967295) }

/-- Modelled from the spec: `address_range::valid`, whether the last address
is not below the first. -/
def address_range.valid (r : address_range) : Bool := decide (r.start ≤ r.end_)

/-- Modelled from the spec: `address_range::overlaps`, whether two ranges have
an address in common. -/
def address_range.overlaps (r other : address_range) : Bool :=
  decide (r.start ≤ other.end_ ∧ other.start ≤ r.end_)

/-- The function `vm::_test_map`. -/
def _test_map (reg : Registry) (addr size : Nat) : Bool :=
  if ¬ (address_range.start_length addr size).valid then false
  else
    reg.all fun slot =>
      match slot with
      | none => true
      | some block =>
        ! (address_range.start_length addr size).overlaps
            (address_range.start_length block.addr block.size)

/-- The loop of `vm::_find_map`: the address found, `some none` when the loop
ends without one, `none` when `fuel` positions did not suffice. -/
def find_map_loop (lay : Layout) (reg : Registry) (size al : Nat) :
    Nat → Nat → Option (Option Nat)
  | 0, _ => none
  | fuel + 1, addr =>
    if u32 (addr + 4294967295) < u32 (lay.mem_rsx_base + 4294967295) then
      if _test_map reg addr size then some (some addr)
      else find_map_loop lay reg size al fuel (u32 (addr + al))
    else some none

/-- The end of `vm::_find_map`: the new block at the address the loop found,
null when the loop ended without one. -/
def find_map_result (c : Consts) (s : VM) (size flags : Nat) :
    Option (Option Nat) → Res VM (Option Block)
  | none => Res.hang s
  | some none => Res.ok s none
  | some (some addr) =>
    Res.ok (Block.create c s addr size flags).2 (some (Block.create c s addr size flags).1)

/-- The function `vm::_find_map`.  The positions grow by `al` until they leave
the `u32` range, so `2^32 / al + 1` positions suffice. -/
def _find_map (c : Consts) (lay : Layout) (reg : Registry) (s : VM) (size al flags : Nat) :
    Res VM (Option Block) :=
  find_map_result c s size flags
    (find_map_loop lay reg size al (4294967296 / al + 1) (align lay.mem_user64k_base al))

/-- The function `vm::_map`. -/
def _map (c : Consts) (reg : Registry) (s : VM) (addr size flags : Nat) :
    Res (Registry × VM) (Option Block) :=
  if size = 0 ∨ (size ||| addr) % 4096 ≠ 0 then Res.fatal (reg, s)
  else if ¬ _test_map reg addr size then Res.ok (reg, s) none
  else if any_page_set s.g_pages (size / 4096) (addr / 4096) then Res.fatal (reg, s)
  else
    Res.ok (reg ++ [some (Block.create c s addr size flags).1], (Block.create c s addr size flags).2)
      (some (Block.create c s addr size flags).1)

/-- The search by address of `vm::_get_map`. -/
def get_map_by_addr (addr : Nat) : Registry → Option Block
  | [] => none
  | none :: t => get_map_by_addr addr t
  | some block :: t =>
    if addr ≥ block.addr ∧ addr ≤ u32 (block.addr + block.size + 4294967295) then some block
    else get_map_by_addr addr t

/-- The function `vm::_get_map`. -/
def _get_map (lay : Layout) (reg : Registry) (location addr : Nat) : Option Block :=
  if location ≠ lay.any then
    -- return selected location
    if location < reg.length then reg.getD location none else none
  else
    -- search location by address
    get_map_by_addr addr reg

/-- The function `vm::get`. -/
def get (lay : Layout) (reg : Registry) (location addr : Nat) : Option Block :=
  _get_map lay reg location addr

/-- The function `vm::map`. -/
def map (c : Consts) (reg : Registry) (s : VM) (addr size flags : Nat) :
    Res (Registry × VM) (Option Block) :=
  _map c reg s addr size flags

/-- The function `vm::find_map`. -/
def find_map (c : Consts) (lay : Layout) (reg : Registry) (s : VM) (orig_size al flags : Nat) :
    Res (Registry × VM) (Option Block) :=
  -- Check alignment
  if al < 0x10000 ∨ al ≠ 0x80000000 >>> countl_zero al then Res.fatal (reg, s)
  -- Return if size is invalid
  else if align orig_size 0x10000 = 0 then Res.ok (reg, s) none
  else
    (_find_map c lay reg s (align orig_size 0x10000) al flags).and_then (Prod.mk reg)
      fun s1 block =>
        match block with
        | some b => Res.ok (reg ++ [some b], s1) (some b)
        | none => Res.ok (reg, s1) none

/-- The loop of `vm::unmap` over the slots `rest`, the first of which has the
index `i` in `reg`.  `use_count i` is the value of `use_count()` of the pointer
in slot `i`: the number of owners of the block, the registry included. -/
def unmap_loop (reg : Registry) (use_count : Nat → Nat) (addr : Nat) (must_be_empty : Bool) :
    Nat → List (Option Block) → Registry × Option Block
  | _, [] => (reg, none)
  | i, none :: t => unmap_loop reg use_count addr must_be_empty (i + 1) t
  | i, some block :: t =>
    if block.addr = addr then
      if must_be_empty = true ∧ block.flags &&& 0x3 ≠ 0 then
        unmap_loop reg use_count addr must_be_empty (i + 1) t
      else if must_be_empty = false ∧ block.flags &&& 0x3 ≠ 2 then
        unmap_loop reg use_count addr must_be_empty (i + 1) t
      else if must_be_empty = true ∧ (use_count i ≠ 1 ∨ block.imp_used ≠ 0) then
        (reg, some block)
      else (reg.eraseIdx i, some block)
    else unmap_loop reg use_count addr must_be_empty (i + 1) t

/-- The function `vm::unmap`: the registry after the call and the pointer
returned. -/
def unmap (lay : Layout) (reg : Registry) (use_count : Nat → Nat) (addr : Nat)
    (must_be_empty : Bool) : Registry × Option Block :=
  unmap_loop reg use_count addr must_be_empty lay.memory_location_max
    (reg.drop lay.memory_location_max)

/-- The function `vm::reserve_map`. -/
def reserve_map (c : Consts) (lay : Layout) (reg : Registry) (s : VM)
    (location addr area_size flags : Nat) : Res (Registry × VM) (Option Block) :=
  match _get_map lay reg location addr with
  | some area => Res.ok (reg, s) (some area)
  | none =>
    -- Allocation on arbitrary address
    if location ≠ lay.any ∧ location < reg.length then
      match reg.getD location none with
      | some loc => Res.ok (reg, s) (some loc)
      | none =>
        -- Deferred allocation
        (_find_map c lay reg s area_size 0x10000000 flags).and_then (Prod.mk reg)
          fun s1 block => Res.ok (reg.set location block, s1) block
    else
      -- Fixed address allocation
      match _get_map lay reg location addr with
      | some area => Res.ok (reg, s) (some area)
      | none => _map c reg s addr area_size flags

/-- The assignment to `g_locations` in `vm::init`, the blocks constructed from
left to right, followed by the clearing of `g_shareable`. -/
def init (c : Consts) (lay : Layout) (s : VM) : Registry × VM :=
  let main := Block.create c s 0x00010000 0x1FFF0000 0x200
  let user64k := Block.create c main.2 lay.mem_user64k_base lay.mem_user64k_size 0x201
  let video := Block.create c user64k.2 lay.mem_rsx_base lay.mem_rsx_size 0
  let stack := Block.create c video.2 lay.mem_stack_base lay.mem_stack_size 0x111
  let spu := Block.create c stack.2 0xE0000000 0x20000000 0
  ([some main.1, some user64k.1, none, none, some video.1, some stack.1, some spu.1],
   { spu.2 with g_shareable := fun _ => 0 })

/-- Whether a slot is empty or holds a block with a non-empty range inside the
32-bit address space. -/
def slot_ok (slot : Option Block) : Bool :=
  match slot with
  | none => true
  | some block => decide (1 ≤ block.size ∧ block.addr + block.size ≤ 4294967296)

/-- Whether two slots do not both hold blocks whose ranges
`[addr, addr + size)` have an address in common. -/
def slots_disjoint (x y : Option Block) : Bool :=
  match x, y with
  | some b1, some b2 => decide (b1.addr + b1.size ≤ b2.addr ∨ b2.addr + b2.size ≤ b1.addr)
  | _, _ => true

/-- Every live block of the registry has a non-empty range inside the 32-bit
address space. -/
def Registry.WF (reg : Registry) : Prop := ∀ slot ∈ reg, slot_ok slot = true

/-- The address ranges of the live blocks of the registry are pairwise
disjoint. -/
def Registry.Disjoint (reg : Registry) : Prop :=
  reg.Pairwise fun x y => slots_disjoint x y = true

/-- A block of `size` bytes at `addr` lies in the 32-bit address space and
overlaps no live block of the registry. -/
def Registry.Free (reg : Registry) (addr size : Nat) : Prop :=
  1 ≤ size ∧ addr + size ≤ 4294967296 ∧
    ∀ block, some block ∈ reg → block.addr + block.size ≤ addr ∨ addr + size ≤ block.addr

/-- The page invariant: a page is fully unallocated or has the allocated bits
set. -/
def PageInv (c : Consts) (pages : Pages) : Prop :=
  ∀ i, pages i = 0 ∨ pages i &&& c.page_allocated = c.page_allocated

/-! ## Range locks and the writer lock

`range_lock` and the constructor of `writer_lock` synchronise through the
atomic variables `g_addr_lock` and `g_range_locks` and through `g_mutex`.  They
are embedded as two threads that take turns in any order; one step of a thread
is one access to a shared variable.  No processor thread is registered in
`g_locks` and the thread that constructs `writer_lock` is not one either (its
`cpu` is null), so the two loops of `writer_lock` over `g_locks` and its call of
`_register_lock` do nothing; `g_shareable` does not change while the two
threads run. -/

/-- The lambda `test_addr` of `vm::range_lock`: the lock value for
`[addr, end_)`, or 0 when `target`, the value of `g_addr_lock`, stands in the
way.  `shareable` is the array `g_shareable`. -/
def test_addr (shareable : Nat → Nat) (target addr end_ : Nat) : Nat :=
  if u32 (target >>> 32) ≠ 0 then
    -- Shareable info is being modified
    if addr ≥ u32 (u32 target + u32 (target >>> 32)) ∨ end_ ≤ u32 target then
      -- Outside of the locked range: proceed normally
      if shareable (addr >>> 16) ≠ 0 then
        ((u32 (end_ + 4294967295) &&& 0xffff) + 1) <<< 32 ||| (addr &&& 0xffff)
      else end_ <<< 32 ||| addr
    else 0
  else
    -- Target within shareable memory range
    let target1 := if shareable (target >>> 16) ≠ 0 then target &&& 0xffff else target
    -- Track shareable memory locks in 0x0..0xffff address range
    let end1 :=
      if shareable (addr >>> 16) ≠ 0 then (u32 (end_ + 4294967295) &&& 0xffff) + 1 else end_
    let addr1 := if shareable (addr >>> 16) ≠ 0 then addr &&& 0xffff else addr
    if addr1 > target1 ∨ end1 ≤ target1 then end1 <<< 32 ||| addr1 else 0

/-- The two tests of the drain loop of `writer_lock` on the value of a slot:
whether the loop leaves the slot behind instead of waiting. -/
def drain_passes (addr value : Nat) : Bool :=
  -- Test beginning address
  if u32 value > addr then true
  -- Test end address
  else if u32 (value >>> 32) ≤ addr then true
  else false

/-- The index after `i` in the scan of `_register_range_lock`: the `for` loop
over the six slots runs inside `while (true)`. -/
def next_slot (i : Nat) : Nat := if i + 1 = 6 then 0 else i + 1

/-- Where the thread that runs `range_lock(addr, end)` stands. -/
inductive RangePc where
  /-- Before the first load of `g_addr_lock`. -/
  | start
  /-- In `_register_range_lock(_a1)`, before the test of slot `i`. -/
  | register (a1 i : Nat)
  /-- Slot `i` holds `_a1`; before the second load of `g_addr_lock`. -/
  | recheck (a1 i : Nat)
  /-- Before the store `*_ret = 0` to slot `i`. -/
  | clear (i : Nat)
  /-- Before `::reader_lock lock(g_mutex)`. -/
  | lock_shared
  /-- In `_register_range_lock(test_addr(UINT32_MAX, addr, end))` under the
  shared lock, before the test of slot `i`. -/
  | register_locked (i : Nat)
  /-- Slot `i` is claimed; before the shared lock is released. -/
  | unlock_shared (i : Nat)
  /-- The call has returned the pointer to slot `i`; the caller holds the
  range lock. -/
  | returned (i : Nat)
  /-- The caller has released the range lock by storing 0 to the slot. -/
  | released
deriving DecidableEq

/-- Where the thread that constructs and destroys `writer_lock(addr)` stands. -/
inductive WriterPc where
  /-- Before `g_mutex.lock()`. -/
  | start
  /-- The mutex is held; before the store to `g_addr_lock`. -/
  | set_addr
  /-- In the loop that waits for the range locks to clear, at slot `i`. -/
  | drain (i : Nat)
  /-- The constructor is done: the holder of the lock changes pages. -/
  | locked
  /-- In the destructor, `g_addr_lock` is released; before `g_mutex.unlock()`. -/
  | unlock
  /-- The destructor is done. -/
  | done
deriving DecidableEq

/-- The shared variables and the positions of the two threads. -/
structure Sys where
  /-- The variable `g_addr_lock`. -/
  g_addr_lock : Nat
  /-- The array `g_range_locks`; its six slots have the indices 0 to 5. -/
  g_range_locks : Nat → Nat
  /-- Whether `g_mutex` is held exclusively. -/
  writer_held : Bool
  /-- The number of shared holders of `g_mutex`. -/
  readers : Nat
  rpc : RangePc
  wpc : WriterPc

/-- The store of `v` to slot `i`. -/
def Sys.set_lock (s : Sys) (i v : Nat) : Sys :=
  { s with g_range_locks := fun j => if j = i then v else s.g_range_locks j }

/-- One step of the thread in `range_lock(addr, end_)`.  A step that cannot be
taken (the mutex is held by the writer) leaves the state as it is.  The test
`!lock` and the compare-and-swap of `_register_range_lock` are one step: no
other thread of the model stores to a slot between them.  The last step is the
caller giving the range lock back. -/
def step_range (shareable : Nat → Nat) (addr end_ : Nat) (s : Sys) : Sys :=
  match s.rpc with
  | RangePc.start =>
    if test_addr shareable s.g_addr_lock addr end_ ≠ 0 then
      -- Optimistic path (hope that address range is not locked)
      { s with rpc := RangePc.register (test_addr shareable s.g_addr_lock addr end_) 0 }
    else { s with rpc := RangePc.lock_shared }
  | RangePc.register a1 i =>
    if s.g_range_locks i = 0 then { s.set_lock i a1 with rpc := RangePc.recheck a1 i }
    else { s with rpc := RangePc.register a1 (next_slot i) }
  | RangePc.recheck a1 i =>
    if a1 = test_addr shareable s.g_addr_lock addr end_ then { s with rpc := RangePc.returned i }
    else { s with rpc := RangePc.clear i }
  | RangePc.clear i => { s.set_lock i 0 with rpc := RangePc.lock_shared }
  | RangePc.lock_shared =>
    if s.writer_held then s
    else { s with readers := s.readers + 1, rpc := RangePc.register_locked 0 }
  | RangePc.register_locked i =>
    if s.g_range_locks i = 0 then
      { s.set_lock i (test_addr shareable 0xffffffff addr end_) with
        rpc := RangePc.unlock_shared i }
    else { s with rpc := RangePc.register_locked (next_slot i) }
  | RangePc.unlock_shared i => { s with readers := s.readers - 1, rpc := RangePc.returned i }
  | RangePc.returned i => { s.set_lock i 0 with rpc := RangePc.released }
  | RangePc.released => s

/-- One step of the thread that constructs `writer_lock(addr)`, changes pages
and destroys the lock.  A step that cannot be taken (the mutex is held, or the
slot of the drain loop holds a range around the address) leaves the state as
it is. -/
def step_writer (shareable : Nat → Nat) (addr : Nat) (s : Sys) : Sys :=
  match s.wpc with
  | WriterPc.start =>
    if s.writer_held = false ∧ s.readers = 0 then
      { s with writer_held := true, wpc := WriterPc.set_addr }
    else s
  | WriterPc.set_addr =>
    if addr ≥ 0x10000 then { s with g_addr_lock := addr, wpc := WriterPc.drain 0 }
    else { s with wpc := WriterPc.locked }
  | WriterPc.drain i =>
    if drain_passes
        -- Reservation address in shareable memory range
        (if shareable (addr >>> 16) ≠ 0 then addr &&& 0xffff else addr)
        (s.g_range_locks i) then
      if i + 1 = 6 then { s with wpc := WriterPc.locked }
      else { s with wpc := WriterPc.drain (i + 1) }
    else s
  | WriterPc.locked => { s with g_addr_lock := 0, wpc := WriterPc.unlock }
  | WriterPc.unlock => { s with writer_held := false, wpc := WriterPc.done }
  | WriterPc.done => s

/-- The two threads. -/
inductive Tid where
  | range
  | writer
deriving DecidableEq

/-- The state after the threads have taken the steps of `schedule`, in its
order, from the state `s`. -/
def run (shareable : Nat → Nat) (addr end_ t : Nat) : List Tid → Sys → Sys
  | [], s => s
  | Tid.range :: rest, s => run shareable addr end_ t rest (step_range shareable addr end_ s)
  | Tid.writer :: rest, s => run shareable addr end_ t rest (step_writer shareable t s)

/-- The state in which neither thread has started: no writer is active, the
mutex is free, the slots hold `locks`. -/
def Sys.init (locks : Nat → Nat) : Sys :=
  { g_addr_lock := 0, g_range_locks := locks, writer_held := false, readers := 0,
    rpc := RangePc.start, wpc := WriterPc.start }

/-- Whether the writer stands between its store to `g_addr_lock` and the
release of `g_addr_lock` in the destructor. -/
def WriterPc.has_addr : WriterPc → Bool
  | WriterPc.drain _ => true
  | WriterPc.locked => true
  | _ => false

/-- Whether the writer holds `g_mutex`. -/
def WriterPc.has_mutex : WriterPc → Bool
  | WriterPc.set_addr => true
  | WriterPc.drain _ => true
  | WriterPc.locked => true
  | WriterPc.unlock => true
  | _ => false

/-- Whether the thread in `range_lock` holds `g_mutex` as a reader. -/
def RangePc.has_shared : RangePc → Bool
  | RangePc.register_locked _ => true
  | RangePc.unlock_shared _ => true
  | _ => false

/-- Whether the thread in `range_lock` is still looking for a free slot: it
has claimed none, and the index of its scan is one of the six slots. -/
def RangePc.searching : RangePc → Prop
  | RangePc.start => True
  | RangePc.register _ i => i < 6
  | RangePc.lock_shared => True
  | RangePc.register_locked i => i < 6
  | _ => False

/-- Whether the slot index at a position of the thread in `range_lock` is one
of the six slots. -/
def RangePc.index_ok : RangePc → Prop
  | RangePc.register _ i => i < 6
  | RangePc.recheck _ i => i < 6
  | RangePc.clear i => i < 6
  | RangePc.register_locked i => i < 6
  | RangePc.unlock_shared i => i < 6
  | RangePc.returned i => i < 6
  | _ => True

/-- No page is shareable. -/
def no_shareable : Nat → Nat := fun _ => 0

/-- All slots are in use. -/
def full_locks : Nat → Nat := fun _ => 1

/-- All slots are free. -/
def free_locks : Nat → Nat := fun _ => 0

/-- A schedule in which `range_lock` loads `g_addr_lock` before the writer
stores to it and claims slot 0 after the drain loop has left slot 0 behind. -/
def late_claim : List Tid :=
  [Tid.range, Tid.writer, Tid.writer, Tid.writer, Tid.range,
   Tid.writer, Tid.writer, Tid.writer, Tid.writer, Tid.writer]

/-! ## States and predicates used in the statements -/

/-- A state in which page 16 (address `0x10000`) is mapped readable and
writable and no other page is mapped. -/
def one_page_vm : VM :=
  { g_pages := fun i => if i = 16 then 131 else 0, g_shareable := fun _ => 0, next_shm := 0,
    trace := [] }

/-- Whether an entry of the sub-allocation map carries a handle, and one whose
size is not above the size of the entry. -/
def handle_fits (e : Nat × (Nat × Option Shm)) : Bool :=
  match e.2.2 with
  | some h => decide (h.size ≤ e.2.1)
  | none => false

/-- The keys of the map are strictly increasing, as in every `std::map`. -/
def SubMap.Sorted (m : SubMap) : Prop := m.Pairwise fun x y => x.1 < y.1

/-- The registry after a block of `0x10000` bytes was mapped at `0x30000000`
in the registry made by `init`. -/
def mapped_registry : Registry :=
  (map ps3Consts (init ps3Consts ps3Layout VM.empty).1 VM.empty 0x30000000 0x10000 0).state.1

/-- Whether an event is a store to a page-table entry. -/
def Event.is_page_store : Event → Bool
  | Event.page_flags _ _ => true
  | _ => false

/-- The stores of `value` to the `n` page-table entries from index `i` on, in
increasing order of the index. -/
def page_stores (value : Nat) : Nat → Nat → List Event
  | 0, _ => []
  | n + 1, i => Event.page_flags i value :: page_stores value n (i + 1)

/-- The constants of `ps3Consts` with a render thread present. -/
def rsxConsts : Consts := { ps3Consts with rsx_present := true }

/-- The number of calls of `try_alloc` that the search loop of
`block_t::alloc` makes: the recursion of `Block.alloc_loop`, counting the calls
instead of returning the address. -/
def Block.alloc_probes (c : Consts) (b : Block) (al size pflags : Nat) (shm : Option Shm) :
    Nat → Nat → VM → Nat
  | 0, _, _ => 0
  | fuel + 1, addr, s =>
    if addr + size ≤ b.addr + b.size then
      match b.try_alloc c s addr pflags size shm with
      | Res.ok x false =>
        Block.alloc_probes c b al size pflags shm fuel (u32 (addr + al)) x.2 + 1
      | _ => 1
    else 0

/-- The total size of a sub-allocation of `orig_size` bytes in a block with
the flags `flags`: `orig_size` rounded up to the minimum page size, plus the
two guard pages of a guard-paged block. -/
def total_size (flags orig_size : Nat) : Nat :=
  (orig_size + (min_page_size flags - 1)) / min_page_size flags * min_page_size flags
    + guard_off flags 0x2000

/-- Every page touched by `[a, a + size)` has zero flags. -/
def range_free (pages : Pages) (a size : Nat) : Prop :=
  ∀ j, a / 4096 ≤ j → j ≤ (a + size - 1) / 4096 → pages j = 0

/-- A block of `0x10000` bytes at address 0, without flags. -/
def zero_block : Block := (Block.create ps3Consts VM.empty 0 0x10000 0).1

/-- The address that `test_addr` and `writer_lock` compare: the offset inside
the 64 KiB page when the page of the address is shareable. -/
def canon_addr (shareable : Nat → Nat) (addr : Nat) : Nat :=
  if shareable (addr >>> 16) ≠ 0 then addr &&& 0xffff else addr

/-- The end of the range `[addr, end_)` that `test_addr` compares and stores:
`((end - 1) & 0xffff) + 1` when the page of `addr` is shareable. -/
def canon_end (shareable : Nat → Nat) (addr end_ : Nat) : Nat :=
  if shareable (addr >>> 16) ≠ 0 then (u32 (end_ + 4294967295) &&& 0xffff) + 1 else end_

/-- The value that `_lock_shareable_cache(value, addr, end_)` stores to
`g_addr_lock`. -/
def shareable_lock_value (addr end_ : Nat) : Nat :=
  addr ||| (u32 (end_ + 4294967296 - addr) <<< 32)

/-- Every page is shareable. -/
def all_shareable : Nat → Nat := fun _ => 1

/-- Whether the call never returns: its search loop never exits. -/
def Res.hangs {σ α : Type} : Res σ α → Bool
  | Res.hang _ => true
  | _ => false

/-- The state after `n` calls `alloc(orig_size, align)` on a block, each call
made on the block and the state that the previous one left. -/
def alloc_times (c : Consts) (orig_size al : Nat) : Nat → Block × VM → Block × VM
  | 0, x => x
  | n + 1, x => alloc_times c orig_size al n (x.1.alloc c x.2 orig_size al none 0).state

/-- The invariant of a block that `alloc`, `falloc` and `dealloc` maintain: the
block is consistent with the page table, and every entry of its sub-allocation
map ends inside the 32-bit address space, is larger than the two guard pages
of a guard-paged block, and starts and ends at a multiple of 4096. -/
structure Block.Sound (c : Consts) (b : Block) (pages : Pages) : Prop where
  consistent : b.Consistent c pages
  bounded : ∀ e ∈ b.m_map, e.1 + e.2.1 ≤ 4294967296
  guarded : ∀ e ∈ b.m_map, 2 * guard_off b.flags 0x1000 < e.2.1
  aligned : ∀ e ∈ b.m_map, e.1 % 4096 = 0 ∧ e.2.1 % 4096 = 0

/-- Whether the runs `(first page, number of pages)` tile the pages
`[lo, hi)` in increasing order: every run is non-empty and starts where the
previous one ends, the first one at `lo`, and the last one ends at `hi`. -/
def runs_tile : List (Nat × Nat) → Nat → Nat → Bool
  | [], lo, hi => decide (lo = hi)
  | r :: rs, lo, hi => decide (r.1 = lo) && decide (1 ≤ r.2) && runs_tile rs (lo + r.2) hi

/-- The calls among the events: the events that are not stores to the page
table. -/
def calls_of (evs : List Event) : List Event := evs.filter fun e => !e.is_page_store

/-! ## Definitions for calls with a handle and for the lock invariant -/

/-- The flags that `alloc` and `falloc` work with: the statement
`if (!src) flags = this->flags`. -/
def Block.flags_in_force (b : Block) (src : Option (Option Shm)) (flags : Nat) : Nat :=
  if src.isNone then b.flags else flags

/-- A guard-paged block without a common backing: `0x10000000` bytes at
`0x40000000` with the flags `0x10`. -/
def guard_block : Block :=
  (Block.create ps3Consts VM.empty 0x40000000 0x10000000 0x10).1

/-- A shared memory object of `0x20000` bytes that a caller passes to `alloc`. -/
def ext_shm : Shm := { id := 100, size := 0x20000, flags := 0 }

/-- The page table `pages1` differs from `pages` only in entries that have the
allocated bits: what stores of `try_alloc` and `_page_map` do to the table. -/
def PageGain (c : Consts) (pages pages1 : Pages) : Prop :=
  ∀ j, pages1 j = pages j ∨ pages1 j &&& c.page_allocated = c.page_allocated

/-- The stack block after `alloc(0x1000, 0x1000)`, which returns `0xD0001000`,
and the state after `page_protect(0xD0000000, 0x1000, 0, page_readable, 0)`
then made the lower guard page of the allocation readable. -/
def protected_guard : Block × VM :=
  ((stack_block.alloc ps3Consts stack_vm 0x1000 0x1000 none 0).state.1,
   (page_protect ps3Consts (stack_block.alloc ps3Consts stack_vm 0x1000 0x1000 none 0).state.2
      0xD0000000 0x1000 0 ps3Consts.page_readable 0).state)

/-- What is known of the slots at each position of the thread in
`range_lock(addr, end_)`, when the writer targets `t`: a slot it has claimed
holds the value it stored; a slot that has been returned holds a non-zero
value unless the value of the slow path is zero, and the drain loop of the
writer waits at a returned slot that is not zero. -/
def range_ok (shareable : Nat → Nat) (addr end_ t : Nat) (locks : Nat → Nat) : RangePc → Prop
  | RangePc.register a1 i => a1 = test_addr shareable 0 addr end_ ∧ a1 ≠ 0 ∧ i < 6
  | RangePc.recheck a1 i =>
    a1 = test_addr shareable 0 addr end_ ∧ a1 ≠ 0 ∧ i < 6 ∧ locks i = a1
  | RangePc.clear i => i < 6
  | RangePc.register_locked i => i < 6
  | RangePc.unlock_shared i => i < 6 ∧ locks i = test_addr shareable 0xffffffff addr end_
  | RangePc.returned i =>
    i < 6 ∧
      (locks i ≠ 0 →
        drain_passes (if shareable (t >>> 16) ≠ 0 then t &&& 0xffff else t) (locks i) = false) ∧
      (test_addr shareable 0xffffffff addr end_ ≠ 0 → locks i ≠ 0)
  | _ => True

/-- What is known at each position of the writer: the drain loop has not gone
past a non-zero slot that `range_lock` has returned, and no non-zero slot is
returned and held while the writer holds the lock. -/
def writer_ok (locks : Nat → Nat) (rpc : RangePc) : WriterPc → Prop
  | WriterPc.drain k => k < 6 ∧ ∀ i, rpc = RangePc.returned i → locks i ≠ 0 → k ≤ i
  | WriterPc.locked => ∀ i, rpc = RangePc.returned i → locks i = 0
  | _ => True

/-- The invariant of the two threads `range_lock(addr, end_)` and
`writer_lock(t)`. -/
structure LockInv (shareable : Nat → Nat) (addr end_ t : Nat) (s : Sys) : Prop where
  addr_lock : s.g_addr_lock = if s.wpc.has_addr then t else 0
  mutex : s.writer_held = s.wpc.has_mutex
  shared : s.readers = if s.rpc.has_shared then 1 else 0
  exclusive : s.rpc.has_shared = true → s.wpc.has_mutex = false
  range : range_ok shareable addr end_ t s.g_range_locks s.rpc
  writer : writer_ok s.g_range_locks s.rpc s.wpc

/-- Schedules of `n` steps of `range_lock` followed by `m` steps of the
writer. -/
def range_then_writer (n m : Nat) : List Tid :=
  List.replicate n Tid.range ++ List.replicate m Tid.writer

/-! ## Bit masks -/

theorem and_or_eq_iff (p f a : Nat) :
    p &&& (f ||| a) = f ||| a ↔ p &&& a = a ∧ p &&& f = f := by
  constructor
  · intro h
    constructor
    · apply Nat.eq_of_testBit_eq
      intro i
      have hi := congrArg (fun x => Nat.testBit x i) h
      simp only [Nat.testBit_and, Nat.testBit_or] at hi ⊢
      cases hp : p.testBit i <;> cases hf : f.testBit i <;> cases ha : a.testBit i <;>
        simp [hp, hf, ha] at hi ⊢
    · apply Nat.eq_of_testBit_eq
      intro i
      have hi := congrArg (fun x => Nat.testBit x i) h
      simp only [Nat.testBit_and, Nat.testBit_or] at hi ⊢
      cases hp : p.testBit i <;> cases hf : f.testBit i <;> cases ha : a.testBit i <;>
        simp [hp, hf, ha] at hi ⊢
  · rintro ⟨ha, hf⟩
    apply Nat.eq_of_testBit_eq
    intro i
    have hia := congrArg (fun x => Nat.testBit x i) ha
    have hif := congrArg (fun x => Nat.testBit x i) hf
    simp only [Nat.testBit_and, Nat.testBit_or] at hia hif ⊢
    cases hp : p.testBit i <;> cases hf : f.testBit i <;> cases ha : a.testBit i <;>
      simp [hp, hf, ha] at hia hif ⊢

/-! ## `check_addr` -/

theorem check_loop_eq_true (pages : Pages) (flags : Nat) (n i : Nat) :
    check_loop pages flags n i = true ↔
      ∀ j, i ≤ j → j < i + n → pages j &&& flags = flags := by
  induction n generalizing i with
  | zero =>
    simp only [check_loop, true_iff]
    intro j h1 h2
    omega
  | succ n ih =>
    simp only [check_loop]
    by_cases h : pages i &&& flags = flags
    · simp only [h, ne_eq, not_true_eq_false, if_false, ih]
      constructor
      · intro hj j h1 h2
        by_cases hji : j = i
        · subst hji
          exact h
        · exact hj j (by omega) (by omega)
      · intro hj j h1 h2
        exact hj j (by omega) (by omega)
    · simp only [h, ne_eq, not_false_eq_true, if_true, Bool.false_eq_true, false_iff]
      intro hj
      exact h (hj i (Nat.le_refl i) (by omega))

/-- C1: for a range of at least one byte that ends inside the 32-bit address
space, `check_addr` is true exactly when every 4 KiB page with index from
`addr / 4096` to `(addr + size - 1) / 4096` has the allocated bits and every
bit of `flags` set. -/
theorem check_addr_iff (c : Consts) (pages : Pages) (addr size flags : Nat)
    (hsize : 1 ≤ size) (hend : addr + size ≤ 4294967296) :
    check_addr c pages addr size flags = true ↔
      ∀ i, addr / 4096 ≤ i → i ≤ (addr + size - 1) / 4096 →
        pages i &&& c.page_allocated = c.page_allocated ∧ pages i &&& flags = flags := by
  have hov : ¬ (u32 (addr + size) < addr ∧ u32 (addr + size) ≠ 0) := by
    unfold u32
    omega
  have hmax : u32 (addr + size + 4294967295) = addr + size - 1 := by
    unfold u32
    omega
  unfold check_addr
  simp only [hov, if_false, hmax, check_loop_eq_true, and_or_eq_iff]
  constructor
  · intro h i h1 h2
    exact h i h1 (by omega)
  · intro h i h1 h2
    exact h i h1 (by omega)

/-- Witness of C1: the one-byte range at address `0x10000` of a table whose
only mapped page is page 16. -/
theorem check_addr_iff_witness :
    check_addr ps3Consts (fun i => if i = 16 then 131 else 0) 0x10000 1 3 = true ↔
      ∀ i, 0x10000 / 4096 ≤ i → i ≤ (0x10000 + 1 - 1) / 4096 →
        (fun i => if i = 16 then 131 else 0) i &&& ps3Consts.page_allocated
            = ps3Consts.page_allocated ∧
          (fun i => if i = 16 then 131 else 0) i &&& 3 = 3 :=
  check_addr_iff ps3Consts (fun i => if i = 16 then 131 else 0) 0x10000 1 3
    (by decide) (by decide)

/-- C2: a range whose exact end `addr + size` lies beyond `2^32` is rejected,
whatever the page table holds. -/
theorem check_addr_wrap (c : Consts) (pages : Pages) (addr size flags : Nat)
    (haddr : addr < 4294967296) (hsize : size < 4294967296)
    (hwrap : 4294967296 < addr + size) :
    check_addr c pages addr size flags = false := by
  have hov : u32 (addr + size) < addr ∧ u32 (addr + size) ≠ 0 := by
    unfold u32
    omega
  unfold check_addr
  rw [if_pos hov]

/-- Witness of C2: two bytes at the last address, every page fully mapped. -/
theorem check_addr_wrap_witness :
    check_addr ps3Consts (fun _ => 255) 0xFFFFFFFF 2 0 = false :=
  check_addr_wrap ps3Consts (fun _ => 255) 0xFFFFFFFF 2 0 (by decide) (by decide) (by decide)

/-! ## Lemmas on the page operations -/

theorem mod_two_pow_eq_zero_iff (x n : Nat) :
    x % 2 ^ n = 0 ↔ ∀ i, i < n → x.testBit i = false := by
  constructor
  · intro h i hi
    have h1 := Nat.testBit_mod_two_pow x n i
    rw [h] at h1
    simp [hi] at h1
    exact h1
  · intro h
    apply Nat.eq_of_testBit_eq
    intro i
    rw [Nat.testBit_mod_two_pow]
    by_cases hi : i < n
    · simp [hi, h i hi]
    · simp [hi]

theorem or_mod_4096 (a b : Nat) :
    (a ||| b) % 4096 = 0 ↔ a % 4096 = 0 ∧ b % 4096 = 0 := by
  have e : (4096 : Nat) = 2 ^ 12 := by norm_num
  rw [e, mod_two_pow_eq_zero_iff, mod_two_pow_eq_zero_iff, mod_two_pow_eq_zero_iff]
  constructor
  · intro h
    constructor
    · intro i hi
      have := h i hi
      rw [Nat.testBit_or, Bool.or_eq_false_iff] at this
      exact this.1
    · intro i hi
      have := h i hi
      rw [Nat.testBit_or, Bool.or_eq_false_iff] at this
      exact this.2
  · rintro ⟨h1, h2⟩ i hi
    rw [Nat.testBit_or, h1 i hi, h2 i hi]
    rfl

theorem or_and_right_self (x a : Nat) : (x ||| a) &&& a = a := by
  apply Nat.eq_of_testBit_eq
  intro i
  simp only [Nat.testBit_and, Nat.testBit_or]
  cases x.testBit i <;> cases a.testBit i <;> rfl

theorem or_and_of_and (x y m : Nat) (h : x &&& m = m) : (x ||| y) &&& m = m := by
  apply Nat.eq_of_testBit_eq
  intro i
  have hi := congrArg (fun z => Nat.testBit z i) h
  simp only [Nat.testBit_and, Nat.testBit_or] at hi ⊢
  cases hx : x.testBit i <;> cases hy : y.testBit i <;> cases hm : m.testBit i <;>
    simp [hx, hy, hm] at hi ⊢

theorem or_and_eq_zero (x y a : Nat) (hx : x &&& a = 0) (hy : y &&& a = 0) :
    (x ||| y) &&& a = 0 := by
  apply Nat.eq_of_testBit_eq
  intro i
  have hxi := congrArg (fun z => Nat.testBit z i) hx
  have hyi := congrArg (fun z => Nat.testBit z i) hy
  simp only [Nat.testBit_and, Nat.testBit_or, Nat.zero_testBit] at hxi hyi ⊢
  cases hx : x.testBit i <;> cases hy : y.testBit i <;> cases ha : a.testBit i <;>
    simp [hx, hy, ha] at hxi hyi ⊢

theorem and_then_ok {σ τ α β : Type} (s : σ) (v : α) (emb : σ → τ) (k : σ → α → Res τ β) :
    (Res.ok s v).and_then emb k = k s v := rfl

theorem verify_ok {σ : Type} (p : Prop) [Decidable p] (h : p) (s : σ) :
    verify (decide p) s = Res.ok s () := by
  unfold verify
  rw [decide_eq_true h, if_pos rfl]

@[simp] theorem exchange_g_pages (s : VM) (i v j : Nat) :
    (s.exchange i v).g_pages j = if j = i then v else s.g_pages j := rfl
@[simp] theorem exchange_g_shareable (s : VM) (i v : Nat) :
    (s.exchange i v).g_shareable = s.g_shareable := rfl
@[simp] theorem exchange_next_shm (s : VM) (i v : Nat) :
    (s.exchange i v).next_shm = s.next_shm := rfl
@[simp] theorem emit_g_pages (s : VM) (e : Event) : (s.emit e).g_pages = s.g_pages := rfl
@[simp] theorem emit_next_shm (s : VM) (e : Event) : (s.emit e).next_shm = s.next_shm := rfl
@[simp] theorem set_shareable_g_pages (s : VM) (i n v : Nat) :
    (s.set_shareable i n v).g_pages = s.g_pages := rfl
@[simp] theorem set_shareable_next_shm (s : VM) (i n v : Nat) :
    (s.set_shareable i n v).next_shm = s.next_shm := rfl

theorem any_page_set_eq_false (pages : Pages) (n i : Nat) :
    any_page_set pages n i = false ↔ ∀ j, i ≤ j → j < i + n → pages j = 0 := by
  induction n generalizing i with
  | zero =>
    simp only [any_page_set, true_iff]
    intro j h1 h2
    omega
  | succ n ih =>
    simp only [any_page_set]
    by_cases h : pages i = 0
    · simp only [h, ne_eq, not_true_eq_false, if_false, ih]
      constructor
      · intro hj j h1 h2
        by_cases hji : j = i
        · subst hji
          exact h
        · exact hj j (by omega) (by omega)
      · intro hj j h1 h2
        exact hj j (by omega) (by omega)
    · simp only [h, ne_eq, not_false_eq_true, if_true, Bool.true_eq_false, false_iff]
      intro hj
      exact h (hj i (Nat.le_refl i) (by omega))

theorem page_map_set_ok (v : Nat) (n i : Nat) (s : VM)
    (hz : ∀ j, i ≤ j → j < i + n → s.g_pages j = 0) :
    ∃ s1, page_map_set v n i s = Res.ok s1 () ∧
      (∀ j, s1.g_pages j = if i ≤ j ∧ j < i + n then v else s.g_pages j) ∧
      s1.next_shm = s.next_shm := by
  induction n generalizing i s with
  | zero =>
    refine ⟨s, rfl, ?_, rfl⟩
    intro j
    have : ¬ (i ≤ j ∧ j < i + 0) := by omega
    rw [if_neg this]
  | succ n ih =>
    have h0 : s.g_pages i = 0 := hz i (Nat.le_refl i) (by omega)
    have hz1 : ∀ j, i + 1 ≤ j → j < i + 1 + n → (s.exchange i v).g_pages j = 0 := by
      intro j h1 h2
      rw [exchange_g_pages, if_neg (by omega)]
      exact hz j (by omega) (by omega)
    obtain ⟨s1, e1, p1, n1⟩ := ih (i + 1) (s.exchange i v) hz1
    refine ⟨s1, ?_, ?_, ?_⟩
    · simp only [page_map_set, h0, ne_eq, not_true_eq_false, if_false]
      exact e1
    · intro j
      rw [p1 j, exchange_g_pages]
      by_cases hj : j = i
      · subst hj
        simp
      · by_cases hr : i ≤ j ∧ j < i + (n + 1)
        · have : i + 1 ≤ j ∧ j < i + 1 + n := by omega
          rw [if_pos this, if_pos hr]
        · have : ¬ (i + 1 ≤ j ∧ j < i + 1 + n) := by omega
          rw [if_neg this, if_neg hr, if_neg hj]
    · rw [n1, exchange_next_shm]

theorem page_map_calls_g_pages (c : Consts) (s : VM) (addr flags size : Nat)
    (shm : Option Shm) : (page_map_calls c s addr flags size shm).g_pages = s.g_pages := by
  unfold page_map_calls
  cases shm <;> simp only [] <;> split_ifs <;> rfl

theorem page_map_calls_next_shm (c : Consts) (s : VM) (addr flags size : Nat)
    (shm : Option Shm) : (page_map_calls c s addr flags size shm).next_shm = s.next_shm := by
  unfold page_map_calls
  cases shm <;> simp only [] <;> split_ifs <;> rfl

theorem _page_map_ok (c : Consts) (s : VM) (addr flags size : Nat) (shm : Option Shm)
    (hsize : size ≠ 0) (hs4 : size % 4096 = 0) (ha4 : addr % 4096 = 0)
    (hflags : flags &&& c.page_allocated = 0)
    (hz : ∀ j, addr / 4096 ≤ j → j < addr / 4096 + size / 4096 → s.g_pages j = 0) :
    ∃ s1, _page_map c s addr flags size shm = Res.ok s1 () ∧
      (∀ j, s1.g_pages j =
        if addr / 4096 ≤ j ∧ j < addr / 4096 + size / 4096 then flags ||| c.page_allocated
        else s.g_pages j) ∧
      s1.next_shm = s.next_shm := by
  have h1 : ¬ (size = 0 ∨ (size ||| addr) % 4096 ≠ 0 ∨ flags &&& c.page_allocated ≠ 0) := by
    have := (or_mod_4096 size addr).2 ⟨hs4, ha4⟩
    simp [hsize, this, hflags]
  have h2 : any_page_set s.g_pages (size / 4096) (addr / 4096) = false :=
    (any_page_set_eq_false _ _ _).2 hz
  have hz5 : ∀ j, addr / 4096 ≤ j → j < addr / 4096 + size / 4096 →
      (page_map_calls c s addr flags size shm).g_pages j = 0 := by
    intro j hj1 hj2
    rw [page_map_calls_g_pages]
    exact hz j hj1 hj2
  obtain ⟨s1, e1, p1, n1⟩ :=
    page_map_set_ok (flags ||| c.page_allocated) (size / 4096) (addr / 4096) _ hz5
  refine ⟨s1, ?_, ?_, ?_⟩
  · unfold _page_map
    rw [if_neg h1, h2]
    simp only [Bool.false_eq_true, if_false]
    exact e1
  · intro j
    rw [p1 j, page_map_calls_g_pages]
  · rw [n1, page_map_calls_next_shm]

/-! ### Unmapping -/

theorem page_unmap_calls_g_pages (c : Consts) (s : VM) (addr size : Nat)
    (shm : Option Shm) (e : Bool) :
    (page_unmap_calls c s addr size shm e).g_pages = s.g_pages := by
  unfold page_unmap_calls
  cases shm <;> simp only [] <;> split_ifs <;> rfl

theorem page_unmap_calls_next_shm (c : Consts) (s : VM) (addr size : Nat)
    (shm : Option Shm) (e : Bool) :
    (page_unmap_calls c s addr size shm e).next_shm = s.next_shm := by
  unfold page_unmap_calls
  cases shm <;> simp only [] <;> split_ifs <;> rfl

theorem page_unmap_scan_const (c : Consts) (pages : Pages) (v : Nat)
    (hv : v &&& c.page_allocated ≠ 0) (n i size : Nat) (e : Bool)
    (hp : ∀ j, i ≤ j → j < i + n → pages j = v)
    (he : size ≠ 0 → e = decide (v &&& c.page_executable ≠ 0)) :
    ∃ e1, page_unmap_scan c pages n i size e = some (size + 4096 * n, e1) := by
  induction n generalizing i size e with
  | zero => exact ⟨e, rfl⟩
  | succ n ih =>
    have hi : pages i = v := hp i (Nat.le_refl i) (by omega)
    have hp1 : ∀ j, i + 1 ≤ j → j < i + 1 + n → pages j = v := by
      intro j h1 h2
      exact hp j (by omega) (by omega)
    simp only [page_unmap_scan, hi, hv, if_false]
    by_cases hs : size = 0
    · rw [if_pos hs]
      obtain ⟨e1, h1⟩ := ih (i + 1) (size + 4096) (decide (v &&& c.page_executable ≠ 0)) hp1
        (fun _ => rfl)
      exact ⟨e1, by rw [h1]; congr 2; omega⟩
    · rw [if_neg hs, if_pos (he hs)]
      obtain ⟨e1, h1⟩ := ih (i + 1) (size + 4096) e hp1 (fun _ => he hs)
      exact ⟨e1, by rw [h1]; congr 2; omega⟩

theorem page_unmap_clear_ok (c : Consts) (n i : Nat) (s : VM)
    (hp : ∀ j, i ≤ j → j < i + n → s.g_pages j &&& c.page_allocated ≠ 0) :
    ∃ s1, page_unmap_clear c n i s = Res.ok s1 () ∧
      (∀ j, s1.g_pages j = if i ≤ j ∧ j < i + n then 0 else s.g_pages j) ∧
      s1.next_shm = s.next_shm := by
  induction n generalizing i s with
  | zero =>
    refine ⟨s, rfl, ?_, rfl⟩
    intro j
    have : ¬ (i ≤ j ∧ j < i + 0) := by omega
    rw [if_neg this]
  | succ n ih =>
    have h0 : s.g_pages i &&& c.page_allocated ≠ 0 := hp i (Nat.le_refl i) (by omega)
    have hp1 : ∀ j, i + 1 ≤ j → j < i + 1 + n →
        (s.exchange i 0).g_pages j &&& c.page_allocated ≠ 0 := by
      intro j h1 h2
      rw [exchange_g_pages, if_neg (by omega)]
      exact hp j (by omega) (by omega)
    obtain ⟨s1, e1, p1, n1⟩ := ih (i + 1) (s.exchange i 0) hp1
    refine ⟨s1, ?_, ?_, ?_⟩
    · simp only [page_unmap_clear, h0, if_false]
      exact e1
    · intro j
      rw [p1 j, exchange_g_pages]
      by_cases hj : j = i
      · subst hj
        simp
      · by_cases hr : i ≤ j ∧ j < i + (n + 1)
        · have : i + 1 ≤ j ∧ j < i + 1 + n := by omega
          rw [if_pos this, if_pos hr]
        · have : ¬ (i + 1 ≤ j ∧ j < i + 1 + n) := by omega
          rw [if_neg this, if_neg hr, if_neg hj]
    · rw [n1, exchange_next_shm]

theorem _page_unmap_ok (c : Consts) (s : VM) (addr size v : Nat) (shm : Option Shm)
    (hsize : size ≠ 0) (hs4 : size % 4096 = 0) (ha4 : addr % 4096 = 0)
    (hv : v &&& c.page_allocated ≠ 0)
    (hp : ∀ j, addr / 4096 ≤ j → j < addr / 4096 + size / 4096 → s.g_pages j = v) :
    ∃ s1, _page_unmap c s addr size shm = Res.ok s1 size ∧
      (∀ j, s1.g_pages j =
        if addr / 4096 ≤ j ∧ j < addr / 4096 + size / 4096 then 0 else s.g_pages j) ∧
      s1.next_shm = s.next_shm := by
  have h1 : ¬ (size = 0 ∨ (size ||| addr) % 4096 ≠ 0) := by
    have := (or_mod_4096 size addr).2 ⟨hs4, ha4⟩
    simp [hsize, this]
  obtain ⟨e, hscan⟩ := page_unmap_scan_const c s.g_pages v hv (size / 4096) (addr / 4096) 0
    false hp (fun h => absurd rfl h)
  have hsz : 0 + 4096 * (size / 4096) = size := by omega
  rw [hsz] at hscan
  have hp2 : ∀ j, addr / 4096 ≤ j → j < addr / 4096 + size / 4096 →
      s.g_pages j &&& c.page_allocated ≠ 0 := by
    intro j h1 h2
    rw [hp j h1 h2]
    exact hv
  obtain ⟨s1, e1, p1, n1⟩ := page_unmap_clear_ok c (size / 4096) (addr / 4096) s hp2
  refine ⟨page_unmap_calls c s1 addr size shm e, ?_, ?_, ?_⟩
  · unfold _page_unmap
    rw [if_neg h1, hscan]
    simp only []
    rw [e1, and_then_ok]
  · intro j
    rw [page_unmap_calls_g_pages, p1 j]
  · rw [page_unmap_calls_next_shm, n1]

/-! ### `try_alloc` -/

theorem guard_off_cases (flags x : Nat) :
    (flags &&& 0x10 ≠ 0 ∧ guard_off flags x = x) ∨ (flags &&& 0x10 = 0 ∧ guard_off flags x = 0) := by
  unfold guard_off
  by_cases h : flags &&& 0x10 = 0
  · right
    exact ⟨h, by rw [if_neg (not_not.2 h)]⟩
  · left
    exact ⟨h, by rw [if_pos h]⟩

theorem try_alloc_busy (c : Consts) (b : Block) (s : VM) (addr pflags size : Nat)
    (shm : Option Shm) (hsize : 1 ≤ size) (hend : addr + size ≤ 4294967296)
    (j : Nat) (hj1 : addr / 4096 ≤ j) (hj2 : j ≤ (addr + size - 1) / 4096)
    (hj : s.g_pages j ≠ 0) :
    b.try_alloc c s addr pflags size shm = Res.ok (b, s) false := by
  have hmax : u32 (addr + size + 4294967295) = addr + size - 1 := by
    unfold u32
    omega
  have hany : any_page_set s.g_pages ((addr + size - 1) / 4096 + 1 - addr / 4096) (addr / 4096)
      = true := by
    rw [← Bool.not_eq_false, any_page_set_eq_false]
    intro h
    exact hj (h j hj1 (by omega))
  unfold Block.try_alloc
  rw [hmax, hany, if_pos rfl]

theorem try_alloc_ok (c : Consts) (b : Block) (s : VM) (addr pflags size : Nat)
    (shm : Option Shm) (ha4 : addr % 4096 = 0) (hs4 : size % 4096 = 0)
    (hsize : 2 * guard_off b.flags 0x1000 < size) (hs32 : size < 4294967296)
    (hend : addr + size ≤ 4294967296)
    (hpf : pflags &&& c.page_allocated = 0)
    (hz : ∀ j, addr / 4096 ≤ j → j < addr / 4096 + size / 4096 → s.g_pages j = 0) :
    ∃ s1, b.try_alloc c s addr pflags size shm
        = Res.ok ({ b with m_map := m_insert addr (size, shm) b.m_map }, s1) true ∧
      (∀ j, s1.g_pages j =
        if addr / 4096 + guard_off b.flags 1 ≤ j
            ∧ j + guard_off b.flags 1 < addr / 4096 + size / 4096 then
          pflags ||| c.page_allocated
        else if addr / 4096 ≤ j ∧ j < addr / 4096 + size / 4096 then c.page_allocated
        else s.g_pages j) ∧
      s1.next_shm = s.next_shm := by
  have hmax : u32 (addr + size + 4294967295) / 4096 + 1 - addr / 4096 = size / 4096 := by
    unfold u32
    omega
  have hany : any_page_set s.g_pages (size / 4096) (addr / 4096) = false :=
    (any_page_set_eq_false _ _ _).2 hz
  unfold Block.try_alloc
  rw [hmax, hany]
  simp only [Bool.false_eq_true, if_false]
  rcases guard_off_cases b.flags 0x1000 with ⟨hg, h1⟩ | ⟨hg, h1⟩
  · -- guard pages
    have h2 : guard_off b.flags 0x2000 = 0x2000 := by
      unfold guard_off; rw [if_pos hg]
    have h3 : guard_off b.flags 1 = 1 := by
      unfold guard_off; rw [if_pos hg]
    rw [h1] at hsize
    have hlo : s.g_pages (addr / 4096) = 0 := hz _ (Nat.le_refl _) (by omega)
    have hhi_eq : u32 (addr / 4096 + size / 4096 + 4294967295) = addr / 4096 + size / 4096 - 1 := by
      unfold u32
      omega
    have hhi : (s.exchange (addr / 4096) c.page_allocated).g_pages
        (addr / 4096 + size / 4096 - 1) = 0 := by
      rw [exchange_g_pages, if_neg (by omega)]
      exact hz _ (by omega) (by omega)
    have hpa : u32 (addr + 0x1000) = addr + 0x1000 := by
      unfold u32
      omega
    have hps : u32 (size + 4294967296 - 0x2000) = size - 0x2000 := by
      unfold u32
      omega
    obtain ⟨s1, e1, p1, n1⟩ := _page_map_ok c
      ((s.exchange (addr / 4096) c.page_allocated).exchange (addr / 4096 + size / 4096 - 1)
        c.page_allocated)
      (addr + 0x1000) pflags (size - 0x2000) shm (by omega) (by omega) (by omega) hpf
      (by
        intro j hj1 hj2
        rw [exchange_g_pages, if_neg (by omega), exchange_g_pages, if_neg (by omega)]
        exact hz j (by omega) (by omega))
    refine ⟨s1, ?_, ?_, ?_⟩
    · rw [if_pos hg, h1, h2, hpa, hps]
      unfold mark_guard_pages
      simp only []
      rw [hhi_eq, verify_ok _ hlo, and_then_ok, verify_ok _ hhi, and_then_ok, e1, and_then_ok]
    · intro j
      rw [p1 j, h3, exchange_g_pages, exchange_g_pages]
      by_cases hr : addr / 4096 + 1 ≤ j ∧ j + 1 < addr / 4096 + size / 4096
      · have : (addr + 0x1000) / 4096 ≤ j ∧ j < (addr + 0x1000) / 4096 + (size - 0x2000) / 4096 := by
          omega
        rw [if_pos this, if_pos hr]
      · have : ¬ ((addr + 0x1000) / 4096 ≤ j ∧ j < (addr + 0x1000) / 4096 + (size - 0x2000) / 4096) := by
          omega
        rw [if_neg this, if_neg hr]
        by_cases hin : addr / 4096 ≤ j ∧ j < addr / 4096 + size / 4096
        · rw [if_pos hin]
          have : j = addr / 4096 + size / 4096 - 1 ∨ j = addr / 4096 := by omega
          rcases this with h | h
          · rw [if_pos h]
          · by_cases h' : j = addr / 4096 + size / 4096 - 1
            · rw [if_pos h']
            · rw [if_neg h', if_pos h]
        · rw [if_neg hin, if_neg (by omega), if_neg (by omega)]
    · rw [n1, exchange_next_shm, exchange_next_shm]
  · -- no guard pages
    have h2 : guard_off b.flags 0x2000 = 0 := by
      unfold guard_off; rw [if_neg (not_not.2 hg)]
    have h3 : guard_off b.flags 1 = 0 := by
      unfold guard_off; rw [if_neg (not_not.2 hg)]
    have hpa : u32 (addr + 0) = addr := by
      unfold u32
      omega
    have hps : u32 (size + 4294967296 - 0) = size := by
      unfold u32
      omega
    obtain ⟨s1, e1, p1, n1⟩ := _page_map_ok c s addr pflags size shm (by omega) hs4 ha4 hpf hz
    refine ⟨s1, ?_, ?_, n1⟩
    · rw [if_neg (not_not.2 hg), h1, h2, hpa, hps, and_then_ok, e1, and_then_ok]
    · intro j
      rw [p1 j, h3]
      by_cases hr : addr / 4096 ≤ j ∧ j < addr / 4096 + size / 4096
      · rw [if_pos hr, if_pos (by omega)]
      · rw [if_neg hr, if_neg (by omega), if_neg hr]

/-! ### The sub-allocation map -/

theorem m_find_insert_self (k : Nat) (v : Nat × Option Shm) (m : SubMap) :
    m_find (m_insert k v m) k = some v := by
  induction m with
  | nil => simp [m_insert, m_find]
  | cons e t ih =>
    obtain ⟨k1, v1⟩ := e
    unfold m_insert
    by_cases h1 : k < k1
    · rw [if_pos h1]
      simp [m_find]
    · rw [if_neg h1]
      by_cases h2 : k = k1
      · rw [if_pos h2]
        simp [m_find]
      · rw [if_neg h2]
        have h3 : ¬ k1 = k := fun h => h2 h.symm
        simp only [m_find, if_neg h3]
        exact ih

theorem m_find_insert_ne (k k2 : Nat) (v : Nat × Option Shm) (m : SubMap) (h : k2 ≠ k) :
    m_find (m_insert k v m) k2 = m_find m k2 := by
  induction m with
  | nil =>
    have h3 : ¬ k = k2 := fun h' => h h'.symm
    simp [m_insert, m_find, h3]
  | cons e t ih =>
    obtain ⟨k1, v1⟩ := e
    have h3 : ¬ k = k2 := fun h' => h h'.symm
    unfold m_insert
    by_cases h1 : k < k1
    · rw [if_pos h1]
      simp only [m_find, if_neg h3]
    · rw [if_neg h1]
      by_cases h2 : k = k1
      · rw [if_pos h2]
        subst h2
        simp only [m_find, if_neg h3]
      · rw [if_neg h2]
        simp only [m_find]
        rw [ih]

theorem m_erase_insert (k : Nat) (v : Nat × Option Shm) (m : SubMap)
    (h : m_find m k = none) : m_erase k (m_insert k v m) = m := by
  induction m with
  | nil => simp [m_insert, m_erase]
  | cons e t ih =>
    obtain ⟨k1, v1⟩ := e
    have hk : ¬ k1 = k := by
      intro hk
      simp [m_find, hk] at h
    have ht : m_find t k = none := by
      simpa [m_find, hk] using h
    unfold m_insert
    by_cases h1 : k < k1
    · rw [if_pos h1]
      simp [m_erase]
    · rw [if_neg h1, if_neg (fun h' => hk h'.symm)]
      simp only [m_erase, if_neg hk]
      rw [ih ht]

theorem m_find_eq_none_iff (m : SubMap) (k : Nat) :
    m_find m k = none ↔ ∀ e ∈ m, e.1 ≠ k := by
  induction m with
  | nil => simp [m_find]
  | cons e t ih =>
    obtain ⟨k1, v1⟩ := e
    by_cases hk : k1 = k
    · simp [m_find, hk]
    · simp [m_find, hk, ih]

theorem m_erase_of_find_none (m : SubMap) (k : Nat) (h : m_find m k = none) :
    m_erase k m = m := by
  induction m with
  | nil => rfl
  | cons e t ih =>
    obtain ⟨k1, v1⟩ := e
    have hk : ¬ k1 = k := by
      intro hk
      simp [m_find, hk] at h
    have ht : m_find t k = none := by
      simpa [m_find, hk] using h
    simp only [m_erase, if_neg hk, ih ht]

/-! ### Sequencing -/

theorem and_then_eq_ok {σ τ α β : Type} (r : Res σ α) (emb : σ → τ) (k : σ → α → Res τ β)
    (x : τ) (v : β) (h : r.and_then emb k = Res.ok x v) :
    ∃ s0 v0, r = Res.ok s0 v0 ∧ k s0 v0 = Res.ok x v := by
  cases r with
  | ok s0 v0 => exact ⟨s0, v0, rfl, h⟩
  | fatal s0 => exact absurd h (by simp [Res.and_then])
  | hang s0 => exact absurd h (by simp [Res.and_then])

theorem state_ok {σ α : Type} (s : σ) (v : α) : (Res.ok s v).state = s := rfl

/-! ### Alignment -/

theorem valid_align (al : Nat) (h1 : 4096 ≤ al) (h2 : al = 0x80000000 >>> countl_zero al) :
    4096 ∣ al ∧ al ∣ 4294967296 ∧ al ≤ 2147483648 := by
  have hk : countl_zero al ≤ 32 := Nat.sub_le _ _
  generalize countl_zero al = k at h2 hk
  interval_cases k <;> simp at h2 <;> subst h2 <;> omega

theorem align_dvd (value al : Nat) (hal : al ∣ 4294967296) : al ∣ align value al := by
  unfold align u32
  rw [Nat.dvd_mod_iff hal]
  exact Nat.dvd_mul_left _ _

theorem u32_add_dvd (x al : Nat) (hal : al ∣ 4294967296) (hx : al ∣ x) : al ∣ u32 (x + al) := by
  unfold u32
  rw [Nat.dvd_mod_iff hal]
  exact Nat.dvd_add hx (Nat.dvd_refl _)

theorem u32_lt (x : Nat) : u32 x < 4294967296 := by
  unfold u32
  omega

/-- What the size checks of `alloc` establish about the rounded size. -/
theorem alloc_size_facts (flags orig bsize : Nat) (horig : orig < 4294967296)
    (h : ¬ (orig = 0 ∨ u32 (align orig (min_page_size flags) + guard_off flags 0x2000) = 0
      ∨ orig > u32 (align orig (min_page_size flags) + guard_off flags 0x2000)
      ∨ u32 (align orig (min_page_size flags) + guard_off flags 0x2000) > bsize)) :
    1 ≤ orig ∧ orig ≤ align orig (min_page_size flags)
      ∧ align orig (min_page_size flags) % 4096 = 0
      ∧ u32 (align orig (min_page_size flags) + guard_off flags 0x2000)
        = align orig (min_page_size flags) + guard_off flags 0x2000
      ∧ align orig (min_page_size flags) + guard_off flags 0x2000 < 4294967296
      ∧ align orig (min_page_size flags) + guard_off flags 0x2000 ≤ bsize := by
  unfold align u32 min_page_size guard_off at *
  split_ifs at * <;> omega

theorem try_alloc_eq_ok_false (c : Consts) (b : Block) (s : VM) (addr pflags size : Nat)
    (shm : Option Shm) (x : Block × VM)
    (h : b.try_alloc c s addr pflags size shm = Res.ok x false) : x = (b, s) := by
  unfold Block.try_alloc at h
  by_cases hany : any_page_set s.g_pages
      (u32 (addr + size + 4294967295) / 4096 + 1 - addr / 4096) (addr / 4096) = true
  · rw [if_pos hany] at h
    injection h with h1 h2
    exact h1.symm
  · rw [if_neg hany] at h
    obtain ⟨s2, v2, _, h2⟩ := and_then_eq_ok _ _ _ _ _ h
    obtain ⟨s3, v3, _, h3⟩ := and_then_eq_ok _ _ _ _ _ h2
    injection h3 with h4 h5
    exact absurd h5 (by decide)

theorem try_alloc_eq_ok_true (c : Consts) (b : Block) (s : VM) (addr pflags size : Nat)
    (shm : Option Shm) (x : Block × VM)
    (h : b.try_alloc c s addr pflags size shm = Res.ok x true) :
    any_page_set s.g_pages
      (u32 (addr + size + 4294967295) / 4096 + 1 - addr / 4096) (addr / 4096) = false := by
  unfold Block.try_alloc at h
  by_cases hany : any_page_set s.g_pages
      (u32 (addr + size + 4294967295) / 4096 + 1 - addr / 4096) (addr / 4096) = true
  · rw [if_pos hany] at h
    injection h with h1 h2
    exact absurd h2 (by decide)
  · exact Bool.not_eq_true _ ▸ hany

/-- A successful search of `alloc` stopped at a position where `try_alloc`
succeeded, or left the loop with the result 0 and nothing changed. -/
theorem alloc_loop_eq_ok (c : Consts) (b : Block) (flags al size pflags : Nat)
    (shm : Option Shm) (P : Nat → Prop) (hP : ∀ x, P x → P (u32 (x + al)))
    (fuel a : Nat) (s : VM) (x : Block × VM) (r : Nat) (ha : P a)
    (h : Block.alloc_loop c b flags al size pflags shm fuel a s = Res.ok x r) :
    (x = (b, s) ∧ r = 0) ∨
      ∃ addr, P addr ∧ addr + size ≤ b.addr + b.size ∧
        b.try_alloc c s addr pflags size shm = Res.ok x true ∧
        r = u32 (addr + guard_off flags 0x1000) := by
  induction fuel generalizing a with
  | zero =>
    unfold Block.alloc_loop at h
    exact absurd h (by simp)
  | succ fuel ih =>
    unfold Block.alloc_loop at h
    by_cases hc : a + size ≤ b.addr + b.size
    · rw [if_pos hc] at h
      obtain ⟨x1, done, e1, h1⟩ := and_then_eq_ok _ _ _ _ _ h
      cases done with
      | true =>
        rw [if_pos rfl] at h1
        injection h1 with h2 h3
        subst h2
        exact Or.inr ⟨a, ha, hc, e1, h3.symm⟩
      | false =>
        have hx1 := try_alloc_eq_ok_false c b s a pflags size shm x1 e1
        subst hx1
        rw [if_neg (by decide)] at h1
        exact ih (u32 (a + al)) (hP a ha) h1
    · rw [if_neg hc] at h
      injection h with h2 h3
      exact Or.inl ⟨h2.symm, h3.symm⟩

theorem page_flags_of_disj (c : Consts) (hc : c.WF) (flags : Nat) :
    page_flags_of c flags &&& c.page_allocated = 0 := by
  have hrw : (c.page_readable ||| c.page_writable) &&& c.page_allocated = 0 :=
    or_and_eq_zero _ _ _ hc.readable_disj hc.writable_disj
  unfold page_flags_of
  simp only []
  split_ifs
  · exact or_and_eq_zero _ _ _ hrw hc.size64k_disj
  · exact or_and_eq_zero _ _ _ hrw hc.size1m_disj
  · exact hrw

theorem page_flags_of_rw (c : Consts) (flags : Nat) :
    page_flags_of c flags &&& (c.page_readable ||| c.page_writable)
      = c.page_readable ||| c.page_writable := by
  have hrw : (c.page_readable ||| c.page_writable) &&& (c.page_readable ||| c.page_writable)
      = c.page_readable ||| c.page_writable := Nat.and_self _
  unfold page_flags_of
  simp only []
  split_ifs
  · exact or_and_of_and _ _ _ hrw
  · exact or_and_of_and _ _ _ hrw
  · exact hrw

/-- The state of the page table and of the block after a successful
`alloc(orig_size, al)` that returned a non-zero address `r`: the entry starts
at `r - guard_off b.flags 0x1000`, its pages were free before, the pages of
`[r, r + rounded size)` hold `pflags | page_allocated`, the guard pages hold
`page_allocated`, and nothing else changed. -/
theorem alloc_ok_spec (c : Consts) (hc : c.WF) (b : Block) (s : VM) (orig al flags : Nat)
    (hb : b.addr + b.size ≤ 4294967296) (horig : orig < 4294967296)
    (b1 : Block) (s1 : VM) (r : Nat)
    (h : b.alloc c s orig al none flags = Res.ok (b1, s1) r) (hr : r ≠ 0) :
    ∃ addr shm,
      1 ≤ orig ∧ orig ≤ align orig (min_page_size b.flags) ∧
      align orig (min_page_size b.flags) % 4096 = 0 ∧
      al ∣ addr ∧ addr % 4096 = 0 ∧
      align orig (min_page_size b.flags) + guard_off b.flags 0x2000 < 4294967296 ∧
      r = addr + guard_off b.flags 0x1000 ∧
      addr + (align orig (min_page_size b.flags) + guard_off b.flags 0x2000)
        ≤ b.addr + b.size ∧
      (∀ j, addr / 4096 ≤ j →
        j < addr / 4096 + (align orig (min_page_size b.flags) + guard_off b.flags 0x2000) / 4096 →
        s.g_pages j = 0) ∧
      b1 = { b with
        m_map := m_insert addr
          (align orig (min_page_size b.flags) + guard_off b.flags 0x2000, shm) b.m_map } ∧
      (∀ j, s1.g_pages j =
        if addr / 4096 + guard_off b.flags 1 ≤ j ∧ j + guard_off b.flags 1
            < addr / 4096
              + (align orig (min_page_size b.flags) + guard_off b.flags 0x2000) / 4096 then
          page_flags_of c b.flags ||| c.page_allocated
        else if addr / 4096 ≤ j ∧ j
            < addr / 4096
              + (align orig (min_page_size b.flags) + guard_off b.flags 0x2000) / 4096 then
          c.page_allocated
        else s.g_pages j) := by
  unfold Block.alloc at h
  simp only [Option.isNone_none, if_true] at h
  by_cases halign : al < min_page_size b.flags ∨ al ≠ 0x80000000 >>> countl_zero al
  · rw [if_pos halign] at h
    exact absurd h (by simp)
  rw [if_neg halign] at h
  by_cases hsz : orig = 0 ∨ u32 (align orig (min_page_size b.flags) + guard_off b.flags 0x2000) = 0
      ∨ orig > u32 (align orig (min_page_size b.flags) + guard_off b.flags 0x2000)
      ∨ u32 (align orig (min_page_size b.flags) + guard_off b.flags 0x2000) > b.size
  · rw [if_pos hsz] at h
    injection h with h1 h2
    exact absurd h2.symm hr
  rw [if_neg hsz] at h
  obtain ⟨ho1, ho2, hA4, hsize, hs32, hsb⟩ := alloc_size_facts b.flags orig b.size horig hsz
  rw [hsize] at h
  -- the alignment is a power of two not below the page size
  have hmps : 4096 ≤ min_page_size b.flags := by
    unfold min_page_size
    split_ifs <;> omega
  obtain ⟨hal1, hal2, _⟩ := valid_align al (by omega) (by
    by_contra hne
    exact halign (Or.inr hne))
  -- the handle and the state with which the search starts
  have hloop : ∃ shm s0, s0.g_pages = s.g_pages ∧
      Block.alloc_loop c b b.flags al
        (align orig (min_page_size b.flags) + guard_off b.flags 0x2000)
        (page_flags_of c b.flags) shm (4294967296 / al) (align b.addr al) s0
        = Res.ok (b1, s1) r := by
    cases hm : b.m_common with
    | some m =>
      rw [hm] at h
      simp only [] at h
      exact ⟨none, s, rfl, h⟩
    | none =>
      rw [hm] at h
      simp only [] at h
      exact ⟨_, (s.make_shm c _).2, rfl, h⟩
  obtain ⟨shm, s0, hs0, hl⟩ := hloop
  rcases alloc_loop_eq_ok c b b.flags al _ _ shm (fun x => al ∣ x)
      (fun x hx => u32_add_dvd x al hal2 hx) _ _ s0 (b1, s1) r (align_dvd b.addr al hal2) hl
    with ⟨_, h0⟩ | ⟨addr, hdvd, hend, hta, hraddr⟩
  · exact absurd h0 hr
  have ha4 : addr % 4096 = 0 := Nat.mod_eq_zero_of_dvd (Nat.dvd_trans hal1 hdvd)
  have hg := guard_off_cases b.flags 0x1000
  have hg2 : guard_off b.flags 0x2000 = 2 * guard_off b.flags 0x1000 := by
    unfold guard_off
    split_ifs <;> rfl
  have hg1 : guard_off b.flags 0x1000 = 4096 * guard_off b.flags 1 := by
    unfold guard_off
    split_ifs <;> rfl
  have hg01 : guard_off b.flags 1 ≤ 1 := by
    unfold guard_off
    split_ifs <;> omega
  have hany := try_alloc_eq_ok_true c b s0 addr _ _ shm _ hta
  rw [any_page_set_eq_false] at hany
  have hz0 : ∀ j, addr / 4096 ≤ j →
      j < addr / 4096 + (align orig (min_page_size b.flags) + guard_off b.flags 0x2000) / 4096 →
      s0.g_pages j = 0 := by
    intro j hj1 hj2
    apply hany j hj1
    unfold u32
    omega
  obtain ⟨s1', e1, p1, _⟩ := try_alloc_ok c b s0 addr (page_flags_of c b.flags)
    (align orig (min_page_size b.flags) + guard_off b.flags 0x2000) shm ha4 (by omega)
    (by omega) hs32 (by omega) (page_flags_of_disj c hc b.flags) hz0
  rw [e1] at hta
  injection hta with hx _
  injection hx with hb1 hs1
  subst hs1
  refine ⟨addr, shm, ho1, ho2, hA4, hdvd, ha4, hs32, ?_, hend, ?_, hb1.symm, ?_⟩
  · rw [hraddr]
    unfold u32
    omega
  · intro j hj1 hj2
    rw [← hs0]
    exact hz0 j hj1 hj2
  · intro j
    rw [p1 j, hs0]

/-- Deallocation of a live entry: the entry of `b.m_map` at `addr` spans the
guard pages and the pages of `[addr + guard, addr + guard + size)`, all mapped
with the same flags `v`. -/
theorem dealloc_mapped (c : Consts) (b : Block) (s : VM) (addr size v : Nat)
    (src : Option (Option Shm)) (shm : Option Shm)
    (hv : v &&& c.page_allocated ≠ 0)
    (ha4 : addr % 4096 = 0) (hs4 : size % 4096 = 0) (hs0 : 0 < size)
    (hs32 : size + guard_off b.flags 0x2000 < 4294967296)
    (hend : addr + (size + guard_off b.flags 0x2000) ≤ 4294967296)
    (hfind : m_find b.m_map addr = some (size + guard_off b.flags 0x2000, shm))
    (hown : owner_mismatch src shm = false)
    (hp : ∀ j, s.g_pages j =
        if addr / 4096 + guard_off b.flags 1 ≤ j
            ∧ j + guard_off b.flags 1 < addr / 4096 + (size + guard_off b.flags 0x2000) / 4096 then
          v
        else if addr / 4096 ≤ j
            ∧ j < addr / 4096 + (size + guard_off b.flags 0x2000) / 4096 then
          c.page_allocated
        else s.g_pages j) :
    ∃ s2, b.dealloc c s (addr + guard_off b.flags 0x1000) src
        = Res.ok ({ b with m_map := m_erase addr b.m_map }, s2) size ∧
      (∀ j, s2.g_pages j =
        if addr / 4096 ≤ j ∧ j < addr / 4096 + (size + guard_off b.flags 0x2000) / 4096 then 0
        else s.g_pages j) ∧
      s2.next_shm = s.next_shm := by
  have hkey : u32 (addr + guard_off b.flags 0x1000 + 4294967296 - guard_off b.flags 0x1000)
      = addr := by
    unfold u32 guard_off at *
    split_ifs at * <;> omega
  have hsz : u32 (size + guard_off b.flags 0x2000 + 4294967296 - guard_off b.flags 0x2000)
      = size := by
    unfold u32 guard_off at *
    split_ifs at * <;> omega
  unfold Block.dealloc
  simp only []
  rw [hkey, hfind]
  simp only []
  unfold Block.dealloc_found
  simp only []
  rw [hown, hsz, if_neg (by decide)]
  rcases guard_off_cases b.flags 0x1000 with ⟨hg, h1⟩ | ⟨hg, h1⟩
  · -- guard pages
    have h2 : guard_off b.flags 0x2000 = 0x2000 := by
      unfold guard_off; rw [if_pos hg]
    have h3 : guard_off b.flags 1 = 1 := by
      unfold guard_off; rw [if_pos hg]
    rw [h2, h3] at hp
    rw [h2] at hend
    have hlo_eq : u32 ((addr + 0x1000) / 4096 + 4294967295) = addr / 4096 := by
      unfold u32
      omega
    have hhi_eq : (addr + 0x1000) / 4096 + size / 4096 = addr / 4096 + size / 4096 + 1 := by
      omega
    have hlo : s.g_pages (addr / 4096) = c.page_allocated := by
      rw [hp]
      rw [if_neg (by omega), if_pos (by omega)]
    have hhi : (s.exchange (addr / 4096) 0).g_pages (addr / 4096 + size / 4096 + 1)
        = c.page_allocated := by
      rw [exchange_g_pages, if_neg (by omega), hp, if_neg (by omega), if_pos (by omega)]
    obtain ⟨s3, e3, p3, n3⟩ := _page_unmap_ok c
      ((s.exchange (addr / 4096) 0).exchange (addr / 4096 + size / 4096 + 1) 0)
      (addr + 0x1000) size v shm (by omega) hs4 (by omega) hv
      (by
        intro j hj1 hj2
        rw [exchange_g_pages, if_neg (by omega), exchange_g_pages, if_neg (by omega), hp,
          if_pos (by omega)])
    refine ⟨s3, ?_, ?_, ?_⟩
    · rw [if_pos hg, h1]
      unfold clear_guard_pages
      simp only []
      rw [hlo_eq, hhi_eq, verify_ok _ hlo, and_then_ok, verify_ok _ hhi, and_then_ok, e3,
        and_then_ok, verify_ok _ rfl, and_then_ok]
    · intro j
      rw [p3 j, h2, exchange_g_pages, exchange_g_pages]
      by_cases hr : (addr + 0x1000) / 4096 ≤ j ∧ j < (addr + 0x1000) / 4096 + size / 4096
      · rw [if_pos hr, if_pos (by omega)]
      · rw [if_neg hr]
        by_cases hj1 : j = addr / 4096 + size / 4096 + 1
        · rw [if_pos hj1, if_pos (by omega)]
        · rw [if_neg hj1]
          by_cases hj2 : j = addr / 4096
          · rw [if_pos hj2, if_pos (by omega)]
          · rw [if_neg hj2, if_neg (by omega)]
    · rw [n3, exchange_next_shm, exchange_next_shm]
  · -- no guard pages
    have h2 : guard_off b.flags 0x2000 = 0 := by
      unfold guard_off; rw [if_neg (not_not.2 hg)]
    have h3 : guard_off b.flags 1 = 0 := by
      unfold guard_off; rw [if_neg (not_not.2 hg)]
    rw [h2, h3] at hp
    rw [h2] at hend
    obtain ⟨s3, e3, p3, n3⟩ := _page_unmap_ok c s addr size v shm (by omega) hs4 ha4 hv
      (by
        intro j hj1 hj2
        rw [hp, if_pos (by omega)])
    refine ⟨s3, ?_, ?_, n3⟩
    · rw [if_neg (not_not.2 hg), h1, and_then_ok, Nat.add_zero, e3, and_then_ok,
        verify_ok _ rfl, and_then_ok]
    · intro j
      rw [p3 j, h2, Nat.add_zero]

theorem ps3Consts_wf : ps3Consts.WF := by
  constructor <;> decide

theorem and_ne_of_disj (a r : Nat) (hr : r ≠ 0) (hd : r &&& a = 0) : a &&& r ≠ r := by
  intro h
  rw [Nat.land_comm] at h
  exact hr (h ▸ hd)

theorem ne_zero_of_and_eq (p a : Nat) (ha : a ≠ 0) (h : p &&& a = a) : p ≠ 0 := by
  intro hp
  rw [hp, Nat.zero_and] at h
  exact ha h.symm

theorem consistent_of_map_nil (c : Consts) (b : Block) (pages : Pages)
    (hr : b.addr + b.size ≤ 4294967296) (hm : b.m_map = []) : b.Consistent c pages := by
  constructor
  · exact hr
  · intro e he
    rw [hm] at he
    cases he
  · intro e he
    rw [hm] at he
    cases he
  · rw [hm]
    exact List.Pairwise.nil

/-- C3: after a successful `alloc(orig, al)` made with the block's own flags
that returned the non-zero address `r`, `check_addr(r, orig, readable | writable)`
is true. -/
theorem alloc_check_addr (c : Consts) (hc : c.WF) (b : Block) (s : VM) (orig al flags : Nat)
    (hcons : b.Consistent c s.g_pages) (horig : orig < 4294967296)
    (b1 : Block) (s1 : VM) (r : Nat)
    (h : b.alloc c s orig al none flags = Res.ok (b1, s1) r) (hr : r ≠ 0) :
    check_addr c s1.g_pages r orig (c.page_readable ||| c.page_writable) = true := by
  obtain ⟨addr, shm, ho1, ho2, hA4, _, ha4, _, hra, hend, _, _, hp⟩ :=
    alloc_ok_spec c hc b s orig al flags hcons.range horig b1 s1 r h hr
  have hb := hcons.range
  have hg2 : guard_off b.flags 0x2000 = 2 * guard_off b.flags 0x1000 := by
    unfold guard_off
    split_ifs <;> rfl
  have hg1 : guard_off b.flags 0x1000 = 4096 * guard_off b.flags 1 := by
    unfold guard_off
    split_ifs <;> rfl
  rw [check_addr_iff c s1.g_pages r orig _ ho1 (by omega)]
  intro i hi1 hi2
  rw [hp i, if_pos (by omega)]
  exact ⟨or_and_right_self _ _, or_and_of_and _ _ _ (page_flags_of_rw c b.flags)⟩

/-- Witness of C3: 0x10000 bytes with alignment 0x10000 in the user-64k block
of an empty address space. -/
theorem alloc_check_addr_witness :
    (user64k_block.alloc ps3Consts VM.empty 0x10000 0x10000 none 0).value = some 0x20000000 ∧
    check_addr ps3Consts
      (user64k_block.alloc ps3Consts VM.empty 0x10000 0x10000 none 0).state.2.g_pages
      0x20000000 0x10000 (ps3Consts.page_readable ||| ps3Consts.page_writable) = true :=
  ⟨by decide,
   alloc_check_addr ps3Consts ps3Consts_wf user64k_block VM.empty 0x10000 0x10000 0
    (consistent_of_map_nil _ _ _ (by decide) rfl) (by decide)
    (user64k_block.alloc ps3Consts VM.empty 0x10000 0x10000 none 0).state.1
    (user64k_block.alloc ps3Consts VM.empty 0x10000 0x10000 none 0).state.2
    0x20000000 (by rfl) (by decide)⟩


theorem owner_mismatch_none (fshm : Option Shm) : owner_mismatch none fshm = false := rfl

theorem block_with_map_self (b : Block) : { b with m_map := b.m_map } = b := by
  cases b
  rfl

/-- A successful `alloc` made with the block's own flags, followed by `dealloc`
of the returned address: the call returns the rounded size, the block is as
before the `alloc` and so is every entry of the page table. -/
theorem alloc_then_dealloc (c : Consts) (hc : c.WF) (b : Block) (s : VM) (orig al flags : Nat)
    (hcons : b.Consistent c s.g_pages) (horig : orig < 4294967296)
    (b1 : Block) (s1 : VM) (r : Nat)
    (h : b.alloc c s orig al none flags = Res.ok (b1, s1) r) (hr : r ≠ 0) :
    ∃ s2, b1.dealloc c s1 r none = Res.ok (b, s2) (align orig (min_page_size b.flags)) ∧
      (∀ j, s2.g_pages j = s.g_pages j) ∧
      (∀ j, r / 4096 ≤ j → j < r / 4096 + align orig (min_page_size b.flags) / 4096 →
        s.g_pages j = 0) := by
  obtain ⟨addr, shm, ho1, ho2, hA4, _, ha4, hs32, hra, hend, hz, hb1, hp⟩ :=
    alloc_ok_spec c hc b s orig al flags hcons.range horig b1 s1 r h hr
  have hb := hcons.range
  have hg2 : guard_off b.flags 0x2000 = 2 * guard_off b.flags 0x1000 := by
    unfold guard_off
    split_ifs <;> rfl
  have hg1 : guard_off b.flags 0x1000 = 4096 * guard_off b.flags 1 := by
    unfold guard_off
    split_ifs <;> rfl
  have hg01 : guard_off b.flags 1 ≤ 1 := by
    unfold guard_off
    split_ifs <;> omega
  -- the key was not in the map before
  have hnone : m_find b.m_map addr = none := by
    rw [m_find_eq_none_iff]
    intro e he hk
    have h1 := hcons.mapped e he (e.1 / 4096) (Nat.le_refl _) (by
      have := hcons.nonempty e he
      omega)
    have h2 := hz (e.1 / 4096) (by rw [hk]) (by rw [hk]; omega)
    exact ne_zero_of_and_eq _ _ hc.allocated_ne h1 h2
  have hfl : b1.flags = b.flags := by rw [hb1]
  have hmap : b1.m_map = m_insert addr
      (align orig (min_page_size b.flags) + guard_off b.flags 0x2000, shm) b.m_map := by
    rw [hb1]
  obtain ⟨s2, e2, p2, _⟩ := dealloc_mapped c b1 s1 addr (align orig (min_page_size b.flags))
    (page_flags_of c b.flags ||| c.page_allocated) none shm
    (by rw [or_and_right_self]; exact hc.allocated_ne) ha4 hA4 (by omega)
    (by rw [hfl]; omega) (by rw [hfl]; omega)
    (by rw [hfl, hmap, m_find_insert_self])
    (owner_mismatch_none shm)
    (by
      intro j
      rw [hfl]
      by_cases h1 : addr / 4096 + guard_off b.flags 1 ≤ j ∧ j + guard_off b.flags 1
          < addr / 4096
            + (align orig (min_page_size b.flags) + guard_off b.flags 0x2000) / 4096
      · rw [if_pos h1, hp j, if_pos h1]
      · rw [if_neg h1]
        by_cases h2 : addr / 4096 ≤ j ∧ j
            < addr / 4096
              + (align orig (min_page_size b.flags) + guard_off b.flags 0x2000) / 4096
        · rw [if_pos h2, hp j, if_neg h1, if_pos h2]
        · rw [if_neg h2])
  have hblk : { b1 with m_map := m_erase addr b1.m_map } = b := by
    rw [hmap, m_erase_insert _ _ _ hnone, hb1]
  rw [hblk, hfl, ← hra] at e2
  rw [hfl] at p2
  refine ⟨s2, e2, ?_, ?_⟩
  · intro j
    rw [p2 j, hp j]
    by_cases h2 : addr / 4096 ≤ j ∧ j
        < addr / 4096
          + (align orig (min_page_size b.flags) + guard_off b.flags 0x2000) / 4096
    · rw [if_pos h2, hz j h2.1 h2.2]
    · rw [if_neg h2, if_neg (by omega), if_neg h2]
  · intro j hj1 hj2
    exact hz j (by omega) (by omega)


/-- C6: `dealloc` of the address returned by a successful `alloc(orig, al)`
made with the block's own flags returns `orig` rounded up to the block's
minimum page size (`0x1000` with block flag `0x100`, else `0x10000`): the
least multiple of it that is not below `orig`.  The guard pages are not
counted. -/
theorem alloc_dealloc_size (c : Consts) (hc : c.WF) (b : Block) (s : VM)
    (orig al flags : Nat) (hcons : b.Consistent c s.g_pages) (horig : orig < 4294967296)
    (b1 : Block) (s1 : VM) (r : Nat)
    (h : b.alloc c s orig al none flags = Res.ok (b1, s1) r) (hr : r ≠ 0) :
    ∃ x, b1.dealloc c s1 r none = Res.ok x (align orig (min_page_size b.flags)) ∧
      min_page_size b.flags = (if b.flags &&& 0x100 ≠ 0 then 0x1000 else 0x10000) ∧
      align orig (min_page_size b.flags) % min_page_size b.flags = 0 ∧
      orig ≤ align orig (min_page_size b.flags) ∧
      align orig (min_page_size b.flags) < orig + min_page_size b.flags := by
  obtain ⟨s2, e2, _, _⟩ := alloc_then_dealloc c hc b s orig al flags hcons horig b1 s1 r h hr
  obtain ⟨_, _, ho1, ho2, _⟩ :=
    alloc_ok_spec c hc b s orig al flags hcons.range horig b1 s1 r h hr
  refine ⟨_, e2, rfl, ?_, ho2, ?_⟩
  · unfold align u32 min_page_size at *
    split_ifs at * <;> omega
  · unfold align u32 min_page_size at *
    split_ifs at * <;> omega

/-- Witness of C6: `dealloc` returns 0x10000 for a 0x10000-byte allocation in
the user-64k block. -/
theorem alloc_dealloc_size_witness :
    ((user64k_block.alloc ps3Consts VM.empty 0x10000 0x10000 none 0).state.1.dealloc ps3Consts
      (user64k_block.alloc ps3Consts VM.empty 0x10000 0x10000 none 0).state.2
      0x20000000 none).value = some 0x10000 := by
  obtain ⟨x, hx, _⟩ := alloc_dealloc_size ps3Consts ps3Consts_wf user64k_block VM.empty
    0x10000 0x10000 0 (consistent_of_map_nil _ _ _ (by decide) rfl) (by decide)
    (user64k_block.alloc ps3Consts VM.empty 0x10000 0x10000 none 0).state.1
    (user64k_block.alloc ps3Consts VM.empty 0x10000 0x10000 none 0).state.2 0x20000000
    (by rfl) (by decide)
  rw [hx]
  rfl

/-- C4, evaluation at the failing input.  In the block "SPU reserved", which
ends at `2^32`, `::align(0xE0000000, 0x40000000)` wraps to 0: a first
`alloc(0x10000, 0x40000000)` maps the pages of `[0, 0x10000)` and returns 0;
the same call again returns `0x40000000`, an address below the block. -/
theorem alloc_leaves_block :
    (spu_block.alloc ps3Consts VM.empty 0x10000 0x40000000 none 0).value = some 0 ∧
    (spu_block.alloc ps3Consts VM.empty 0x10000 0x40000000 none 0).state.2.g_pages 0 = 195 ∧
    ((spu_block.alloc ps3Consts VM.empty 0x10000 0x40000000 none 0).state.1.alloc ps3Consts
      (spu_block.alloc ps3Consts VM.empty 0x10000 0x40000000 none 0).state.2
      0x10000 0x40000000 none 0).value = some 0x40000000 ∧
    spu_block.addr = 0xE0000000 ∧ ¬ spu_block.addr ≤ 0x40000000 := by
  decide

theorem make_shm_g_pages (c : Consts) (s : VM) (size : Nat) :
    (s.make_shm c size).2.g_pages = s.g_pages := rfl

/-- The two states in which `falloc` and `alloc` call `try_alloc`, depending
on `m_common`, have the page table of the state before the call. -/
theorem falloc_own_flags (c : Consts) (b : Block) (s : VM) (addr orig flags : Nat)
    (h : ¬ (align orig (min_page_size b.flags) = 0 ∨ addr < b.addr
      ∨ orig > align orig (min_page_size b.flags)
      ∨ addr + align orig (min_page_size b.flags) > b.addr + b.size ∨ b.flags &&& 0x10 ≠ 0)) :
    ∃ shm s0, s0.g_pages = s.g_pages ∧
      b.falloc c s addr orig none flags
        = b.falloc_finish c s0 addr (page_flags_of c b.flags)
            (align orig (min_page_size b.flags)) shm := by
  unfold Block.falloc
  simp only [Option.isNone_none, if_true]
  rw [if_neg h]
  cases hm : b.m_common with
  | some m => exact ⟨none, s, rfl, rfl⟩
  | none => exact ⟨_, (s.make_shm c _).2, rfl, rfl⟩

/-- C8: when a page touched by `[addr, addr + rounded size)` has non-zero
flags, `falloc(addr, orig)` returns 0, the block (hence its sub-allocation
map) is unchanged and so is every entry of the page table. -/
theorem falloc_busy (c : Consts) (b : Block) (s : VM) (addr orig flags : Nat)
    (hb : b.addr + b.size ≤ 4294967296)
    (j : Nat) (hj1 : addr / 4096 ≤ j)
    (hj2 : j ≤ (addr + align orig (min_page_size b.flags) - 1) / 4096)
    (hj : s.g_pages j ≠ 0) :
    ∃ s1, b.falloc c s addr orig none flags = Res.ok (b, s1) 0 ∧
      ∀ i, s1.g_pages i = s.g_pages i := by
  by_cases h : align orig (min_page_size b.flags) = 0 ∨ addr < b.addr
      ∨ orig > align orig (min_page_size b.flags)
      ∨ addr + align orig (min_page_size b.flags) > b.addr + b.size ∨ b.flags &&& 0x10 ≠ 0
  · refine ⟨s, ?_, fun _ => rfl⟩
    unfold Block.falloc
    simp only [Option.isNone_none, if_true]
    rw [if_pos h]
  · obtain ⟨shm, s0, hs0, e0⟩ := falloc_own_flags c b s addr orig flags h
    have hbusy := try_alloc_busy c b s0 addr (page_flags_of c b.flags)
      (align orig (min_page_size b.flags)) shm (by omega) (by omega) j hj1 hj2
      (by rw [hs0]; exact hj)
    refine ⟨s0, ?_, fun i => by rw [hs0]⟩
    rw [e0]
    unfold Block.falloc_finish
    rw [hbusy, and_then_ok, if_neg (by decide)]

/-- Witness of C8: `falloc` at an address covered by a live allocation of the
user-64k block. -/
theorem falloc_busy_witness :
    ∃ s1,
      (user64k_block.alloc ps3Consts VM.empty 0x10000 0x10000 none 0).state.1.falloc ps3Consts
        (user64k_block.alloc ps3Consts VM.empty 0x10000 0x10000 none 0).state.2
        0x20000000 0x1000 none 0
      = Res.ok ((user64k_block.alloc ps3Consts VM.empty 0x10000 0x10000 none 0).state.1, s1) 0 ∧
      ∀ i, s1.g_pages i
        = (user64k_block.alloc ps3Consts VM.empty 0x10000 0x10000 none 0).state.2.g_pages i :=
  falloc_busy ps3Consts
    (user64k_block.alloc ps3Consts VM.empty 0x10000 0x10000 none 0).state.1
    (user64k_block.alloc ps3Consts VM.empty 0x10000 0x10000 none 0).state.2
    0x20000000 0x1000 0 (by decide) 0x20000 (by decide) (by decide) (by decide)

/-- C9: `falloc(addr, orig)` with the block's own flags, in a block without
guard pages, at a 4 KiB-aligned address whose rounded range lies in the block
and is free: it returns `addr`, the pages of the rounded range get
`pflags | page_allocated` (so the allocated, readable and writable bits), the
entry `(addr, rounded size)` is recorded and no other page changes. -/
theorem falloc_maps (c : Consts) (hc : c.WF) (b : Block) (s : VM) (addr orig flags : Nat)
    (hb : b.addr + b.size ≤ 4294967296) (hbs : b.size < 4294967296)
    (hng : b.flags &&& 0x10 = 0) (ha4 : addr % 4096 = 0) (ho : 1 ≤ orig)
    (hlo : b.addr ≤ addr)
    (hhi : addr + (orig + (min_page_size b.flags - 1)) / min_page_size b.flags
      * min_page_size b.flags ≤ b.addr + b.size)
    (hz : ∀ j, addr / 4096 ≤ j →
      j < (addr + (orig + (min_page_size b.flags - 1)) / min_page_size b.flags
        * min_page_size b.flags) / 4096 → s.g_pages j = 0) :
    ∃ shm s1,
      b.falloc c s addr orig none flags
        = Res.ok ({ b with
            m_map := m_insert addr
              ((orig + (min_page_size b.flags - 1)) / min_page_size b.flags
                * min_page_size b.flags, shm) b.m_map }, s1) addr ∧
      m_find (m_insert addr
          ((orig + (min_page_size b.flags - 1)) / min_page_size b.flags
            * min_page_size b.flags, shm) b.m_map) addr
        = some ((orig + (min_page_size b.flags - 1)) / min_page_size b.flags
            * min_page_size b.flags, shm) ∧
      (∀ j, addr / 4096 ≤ j →
        j < (addr + (orig + (min_page_size b.flags - 1)) / min_page_size b.flags
          * min_page_size b.flags) / 4096 →
        s1.g_pages j = page_flags_of c b.flags ||| c.page_allocated ∧
        s1.g_pages j &&& c.page_allocated = c.page_allocated ∧
        s1.g_pages j &&& c.page_readable = c.page_readable ∧
        s1.g_pages j &&& c.page_writable = c.page_writable) ∧
      (∀ j, ¬ (addr / 4096 ≤ j ∧
        j < (addr + (orig + (min_page_size b.flags - 1)) / min_page_size b.flags
          * min_page_size b.flags) / 4096) → s1.g_pages j = s.g_pages j) := by
  have hal : align orig (min_page_size b.flags)
      = (orig + (min_page_size b.flags - 1)) / min_page_size b.flags * min_page_size b.flags := by
    unfold align u32 min_page_size at *
    split_ifs at * <;> omega
  rw [← hal] at hhi hz ⊢
  have hfacts : 1 ≤ align orig (min_page_size b.flags)
      ∧ orig ≤ align orig (min_page_size b.flags)
      ∧ align orig (min_page_size b.flags) % 4096 = 0 := by
    rw [hal]
    unfold min_page_size
    split_ifs <;> omega
  obtain ⟨hs1, hs2, hs4⟩ := hfacts
  have h : ¬ (align orig (min_page_size b.flags) = 0 ∨ addr < b.addr
      ∨ orig > align orig (min_page_size b.flags)
      ∨ addr + align orig (min_page_size b.flags) > b.addr + b.size ∨ b.flags &&& 0x10 ≠ 0) := by
    intro h
    rcases h with h | h | h | h | h
    · omega
    · omega
    · omega
    · omega
    · exact h hng
  obtain ⟨shm, s0, hs0, e0⟩ := falloc_own_flags c b s addr orig flags h
  have hg1 : guard_off b.flags 0x1000 = 0 := by
    unfold guard_off; rw [if_neg (not_not.2 hng)]
  have hg0 : guard_off b.flags 1 = 0 := by
    unfold guard_off; rw [if_neg (not_not.2 hng)]
  obtain ⟨s1, e1, p1, _⟩ := try_alloc_ok c b s0 addr (page_flags_of c b.flags)
    (align orig (min_page_size b.flags)) shm ha4 hs4 (by omega) (by omega) (by omega)
    (page_flags_of_disj c hc b.flags)
    (by
      intro j hj1 hj2
      rw [hs0]
      exact hz j hj1 (by omega))
  rw [hg0] at p1
  refine ⟨shm, s1, ?_, m_find_insert_self _ _ _, ?_, ?_⟩
  · rw [e0]
    unfold Block.falloc_finish
    rw [e1, and_then_ok, if_pos rfl]
  · intro j hj1 hj2
    have hv : s1.g_pages j = page_flags_of c b.flags ||| c.page_allocated := by
      rw [p1 j, if_pos (by omega)]
    have hrw := page_flags_of_rw c b.flags
    rw [and_or_eq_iff] at hrw
    rw [hv]
    exact ⟨rfl, or_and_right_self _ _, or_and_of_and _ _ _ hrw.2, or_and_of_and _ _ _ hrw.1⟩
  · intro j hj
    rw [p1 j, if_neg (by omega), if_neg (by omega), hs0]

/-- Witness of C9: 0x10000 bytes at `0x20010000` in the empty user-64k block. -/
theorem falloc_maps_witness :
    (user64k_block.falloc ps3Consts VM.empty 0x20010000 0x10000 none 0).value
      = some 0x20010000 := by
  obtain ⟨shm, s1, h, _⟩ := falloc_maps ps3Consts ps3Consts_wf user64k_block VM.empty
    0x20010000 0x10000 0 (by decide) (by decide) (by decide) (by decide) (by decide) (by decide)
    (by decide) (fun _ _ _ => rfl)
  rw [h]
  rfl

/-! ## The backing of an address: `block_t::get` -/

theorem m_upper_prev_all_gt (a : Nat) (m : SubMap) (prev : Option (Nat × (Nat × Option Shm)))
    (h : ∀ e ∈ m, a < e.1) : m_upper_prev a m prev = prev := by
  cases m with
  | nil => rfl
  | cons x t =>
    unfold m_upper_prev
    rw [if_pos (h x (List.mem_cons_self _ _))]

theorem m_upper_prev_mem (a : Nat) (m : SubMap) (prev : Option (Nat × (Nat × Option Shm)))
    (e : Nat × (Nat × Option Shm)) (h : m_upper_prev a m prev = some e) :
    (e ∈ m ∧ e.1 ≤ a) ∨ prev = some e := by
  induction m generalizing prev with
  | nil => exact Or.inr h
  | cons x t ih =>
    unfold m_upper_prev at h
    by_cases hx : a < x.1
    · rw [if_pos hx] at h
      exact Or.inr h
    · rw [if_neg hx] at h
      rcases ih (some x) h with ⟨h1, h2⟩ | h1
      · exact Or.inl ⟨List.mem_cons_of_mem _ h1, h2⟩
      · injection h1 with h1
        subst h1
        exact Or.inl ⟨List.mem_cons_self _ _, by omega⟩

theorem m_upper_prev_sorted (a : Nat) (m : SubMap) (prev : Option (Nat × (Nat × Option Shm)))
    (e : Nat × (Nat × Option Shm)) (hs : SubMap.Sorted m)
    (he : e ∈ m) (hle : e.1 ≤ a) (hno : ∀ x ∈ m, e.1 < x.1 → a < x.1) :
    m_upper_prev a m prev = some e := by
  induction m generalizing prev with
  | nil => cases he
  | cons x t ih =>
    unfold SubMap.Sorted at hs
    rw [List.pairwise_cons] at hs
    obtain ⟨hx, hst⟩ := hs
    have hxa : ¬ a < x.1 := by
      intro hlt
      rcases List.mem_cons.1 he with h | h
      · subst h
        omega
      · have := hx e h
        omega
    unfold m_upper_prev
    rw [if_neg hxa]
    rcases List.mem_cons.1 he with h | h
    · subst h
      apply m_upper_prev_all_gt
      intro y hy
      exact hno y (List.mem_cons_of_mem _ hy) (hx y hy)
    · exact ih (some x) hst h (fun y hy => hno y (List.mem_cons_of_mem _ hy))

/-- C11, evaluation at the failing input: the second `alloc(0x10000,
0x40000000)` in the block "SPU reserved" returns `0x40000000`, and `get` of
that sub-allocation returns a null handle. -/
theorem get_after_wrapped_alloc :
    ((spu_block.alloc ps3Consts VM.empty 0x10000 0x40000000 none 0).state.1.alloc ps3Consts
      (spu_block.alloc ps3Consts VM.empty 0x10000 0x40000000 none 0).state.2
      0x10000 0x40000000 none 0).value = some 0x40000000 ∧
    ((spu_block.alloc ps3Consts VM.empty 0x10000 0x40000000 none 0).state.1.alloc ps3Consts
      (spu_block.alloc ps3Consts VM.empty 0x10000 0x40000000 none 0).state.2
      0x10000 0x40000000 none 0).state.1.get 0x40000000 0x10000 = some (0x40000000, none) := by
  decide

/-! ## Raw access: `try_access` -/

/-- C14: `try_access` always returns (it raises no error): with `true` when
`size = 0`, and for `size >= 1` with the value of `check_addr` for the
writable flag on a write and the readable flag on a read; when it returns
`false` guest memory and the buffer are as before. -/
theorem try_access_spec (c : Consts) (pages : Pages) (st : AccessState) (addr size : Nat)
    (is_write : Bool) :
    ∃ st1 ret, try_access c pages st addr size is_write = Res.ok st1 ret ∧
      (size = 0 → ret = true) ∧
      (1 ≤ size → ret = check_addr c pages addr size
        (if is_write then c.page_writable else c.page_readable)) ∧
      (ret = false → st1 = st) := by
  unfold try_access
  generalize (if is_write = true then c.page_writable else c.page_readable) = f
  by_cases h0 : size = 0
  · rw [if_pos h0]
    exact ⟨st, true, rfl, fun _ => rfl, fun h => absurd h0 (by omega), fun h => by cases h⟩
  · rw [if_neg h0]
    by_cases hc : check_addr c pages addr size f = true
    · rw [if_pos hc]
      by_cases h1 : size ≤ 16 ∧ size &&& (size - 1) = 0 ∧ addr &&& (size - 1) = 0
          ∧ is_write = true
      · rw [if_pos h1]
        exact ⟨_, true, rfl, fun _ => rfl, fun _ => hc.symm, fun h => by cases h⟩
      · rw [if_neg h1]
        by_cases h2 : is_write = true
        · rw [if_pos h2]
          exact ⟨_, true, rfl, fun _ => rfl, fun _ => hc.symm, fun h => by cases h⟩
        · rw [if_neg h2]
          exact ⟨_, true, rfl, fun _ => rfl, fun _ => hc.symm, fun h => by cases h⟩
    · rw [if_neg hc]
      refine ⟨st, false, rfl, fun h => absurd h h0, fun _ => ?_, fun _ => rfl⟩
      rw [Bool.not_eq_true] at hc
      exact hc.symm

/-! ## The registry of blocks -/

theorem slot_ok_some (b : Block) (h : slot_ok (some b) = true) :
    1 ≤ b.size ∧ b.addr + b.size ≤ 4294967296 := by
  unfold slot_ok at h
  exact of_decide_eq_true h

theorem block_last_addr (b : Block) (h : 1 ≤ b.size ∧ b.addr + b.size ≤ 4294967296) :
    u32 (b.addr + b.size + 4294967295) = b.addr + b.size - 1 := by
  unfold u32
  omega

theorem get_map_by_addr_some (a : Nat) (reg : Registry) (b : Block)
    (h : get_map_by_addr a reg = some b) :
    some b ∈ reg ∧ a ≥ b.addr ∧ a ≤ u32 (b.addr + b.size + 4294967295) := by
  induction reg with
  | nil => cases h
  | cons x t ih =>
    cases x with
    | none =>
      unfold get_map_by_addr at h
      obtain ⟨h1, h2⟩ := ih h
      exact ⟨List.mem_cons_of_mem _ h1, h2⟩
    | some b1 =>
      unfold get_map_by_addr at h
      by_cases hc : a ≥ b1.addr ∧ a ≤ u32 (b1.addr + b1.size + 4294967295)
      · rw [if_pos hc] at h
        injection h with h
        subst h
        exact ⟨List.mem_cons_self _ _, hc⟩
      · rw [if_neg hc] at h
        obtain ⟨h1, h2⟩ := ih h
        exact ⟨List.mem_cons_of_mem _ h1, h2⟩

theorem get_map_by_addr_none (a : Nat) (reg : Registry)
    (h : get_map_by_addr a reg = none) (b : Block) (hb : some b ∈ reg) :
    ¬ (a ≥ b.addr ∧ a ≤ u32 (b.addr + b.size + 4294967295)) := by
  induction reg with
  | nil => cases hb
  | cons x t ih =>
    cases x with
    | none =>
      unfold get_map_by_addr at h
      rcases List.mem_cons.1 hb with hb | hb
      · cases hb
      · exact ih h hb
    | some b1 =>
      unfold get_map_by_addr at h
      by_cases hc : a ≥ b1.addr ∧ a ≤ u32 (b1.addr + b1.size + 4294967295)
      · rw [if_pos hc] at h
        cases h
      · rw [if_neg hc] at h
        rcases List.mem_cons.1 hb with hb | hb
        · injection hb with hb
          subst hb
          exact hc
        · exact ih h hb

/-- C19: `get(any, a)` returns a live block whose range contains `a` when
there is one and null otherwise; `get(L, a)` for a location `L` other than
`any` returns the content of slot `L`, and null when `L` is no index of the
registry. -/
theorem get_spec (lay : Layout) (reg : Registry) (location a : Nat) (hwf : reg.WF) :
    (location = lay.any →
      ((∃ b, some b ∈ reg ∧ b.addr ≤ a ∧ a ≤ b.addr + b.size - 1) →
        ∃ b, get lay reg location a = some b ∧ some b ∈ reg ∧
          b.addr ≤ a ∧ a ≤ b.addr + b.size - 1) ∧
      ((¬ ∃ b, some b ∈ reg ∧ b.addr ≤ a ∧ a ≤ b.addr + b.size - 1) →
        get lay reg location a = none)) ∧
    (location ≠ lay.any →
      (∀ h : location < reg.length, get lay reg location a = reg.get ⟨location, h⟩) ∧
      (reg.length ≤ location → get lay reg location a = none)) := by
  constructor
  · intro hany
    have hget : get lay reg location a = get_map_by_addr a reg := by
      unfold get _get_map
      rw [if_neg (not_not.2 hany)]
    rw [hget]
    constructor
    · rintro ⟨b, hb, h1, h2⟩
      cases hres : get_map_by_addr a reg with
      | none =>
        exfalso
        apply get_map_by_addr_none a reg hres b hb
        rw [block_last_addr b (slot_ok_some b (hwf _ hb))]
        exact ⟨h1, h2⟩
      | some b1 =>
        obtain ⟨hm, h3, h4⟩ := get_map_by_addr_some a reg b1 hres
        rw [block_last_addr b1 (slot_ok_some b1 (hwf _ hm))] at h4
        exact ⟨b1, rfl, hm, h3, h4⟩
    · intro hno
      cases hres : get_map_by_addr a reg with
      | none => rfl
      | some b1 =>
        exfalso
        obtain ⟨hm, h3, h4⟩ := get_map_by_addr_some a reg b1 hres
        rw [block_last_addr b1 (slot_ok_some b1 (hwf _ hm))] at h4
        exact hno ⟨b1, hm, h3, h4⟩
  · intro hne
    unfold get _get_map
    rw [if_pos hne]
    constructor
    · intro h
      rw [if_pos h, List.getD_eq_getElem _ _ h, List.get_eq_getElem]
    · intro h
      rw [if_neg (by omega)]

theorem init_wf : (init ps3Consts ps3Layout VM.empty).1.WF := by
  unfold Registry.WF
  decide

/-- Witness of C19: in the registry made by `init`, the address `0x20001000`
belongs to a live block, which `get(any, 0x20001000)` returns. -/
theorem get_spec_witness :
    ∃ b, get ps3Layout (init ps3Consts ps3Layout VM.empty).1 ps3Layout.any 0x20001000 = some b ∧
      some b ∈ (init ps3Consts ps3Layout VM.empty).1 ∧
      b.addr ≤ 0x20001000 ∧ 0x20001000 ≤ b.addr + b.size - 1 :=
  ((get_spec ps3Layout (init ps3Consts ps3Layout VM.empty).1 ps3Layout.any 0x20001000
    init_wf).1 rfl).1
    ⟨user64k_block, List.mem_cons_of_mem _ (List.mem_cons_self _ _), by decide, by decide⟩

/-! ### Mapping blocks -/

theorem create_addr (c : Consts) (s : VM) (addr size flags : Nat) :
    (Block.create c s addr size flags).1.addr = addr := by
  unfold Block.create
  split_ifs <;> rfl

theorem create_size (c : Consts) (s : VM) (addr size flags : Nat) :
    (Block.create c s addr size flags).1.size = size := by
  unfold Block.create
  split_ifs <;> rfl

theorem create_flags (c : Consts) (s : VM) (addr size flags : Nat) :
    (Block.create c s addr size flags).1.flags = flags := by
  unfold Block.create
  split_ifs <;> rfl

theorem create_m_map (c : Consts) (s : VM) (addr size flags : Nat) :
    (Block.create c s addr size flags).1.m_map = [] := by
  unfold Block.create
  split_ifs <;> rfl

/-- On a registry of well-formed blocks `_test_map` decides whether the range
is free. -/
theorem test_map_iff (reg : Registry) (addr size : Nat) (hwf : reg.WF)
    (hs32 : size < 4294967296) (hpos : 1 ≤ size ∨ 1 ≤ addr) :
    _test_map reg addr size = true ↔ reg.Free addr size := by
  unfold _test_map address_range.valid address_range.start_length Registry.Free
  simp only []
  by_cases hv : addr ≤ u32 (addr + size + 4294967295)
  · have hfit : 1 ≤ size ∧ addr + size ≤ 4294967296 := by
      unfold u32 at hv
      omega
    have hend : u32 (addr + size + 4294967295) = addr + size - 1 := by
      unfold u32
      omega
    rw [if_neg (by rw [decide_eq_true hv]; decide), List.all_eq_true]
    constructor
    · intro h
      refine ⟨hfit.1, hfit.2, ?_⟩
      intro block hb
      have h1 := h _ hb
      have hbw := slot_ok_some block (hwf _ hb)
      simp only [address_range.overlaps, Bool.not_eq_true', decide_eq_false_iff_not] at h1
      rw [hend, block_last_addr block hbw] at h1
      omega
    · rintro ⟨_, _, h⟩ slot hslot
      cases slot with
      | none => rfl
      | some block =>
        have h1 := h block hslot
        have hbw := slot_ok_some block (hwf _ hslot)
        simp only [address_range.overlaps, Bool.not_eq_true', decide_eq_false_iff_not]
        rw [hend, block_last_addr block hbw]
        omega
  · rw [if_pos (by rw [decide_eq_false hv]; decide)]
    constructor
    · intro h
      cases h
    · rintro ⟨h1, h2, _⟩
      exfalso
      apply hv
      unfold u32
      omega

theorem wf_append (reg : Registry) (x : Option Block) (hwf : reg.WF) (hx : slot_ok x = true) :
    Registry.WF (reg ++ [x]) := by
  intro slot hslot
  rcases List.mem_append.1 hslot with h | h
  · exact hwf slot h
  · rw [List.mem_singleton] at h
    rw [h]
    exact hx

theorem slots_disjoint_symm (x y : Option Block) (h : slots_disjoint x y = true) :
    slots_disjoint y x = true := by
  cases x <;> cases y <;> try rfl
  unfold slots_disjoint at h ⊢
  simp only [decide_eq_true_eq] at h ⊢
  omega

theorem slots_disjoint_of_free (reg : Registry) (b : Block) (h : reg.Free b.addr b.size)
    (x : Option Block) (hx : x ∈ reg) : slots_disjoint x (some b) = true := by
  cases x with
  | none => rfl
  | some b1 =>
    unfold slots_disjoint
    simp only [decide_eq_true_eq]
    have := h.2.2 b1 hx
    omega

theorem disjoint_append (reg : Registry) (b : Block) (hd : reg.Disjoint)
    (h : reg.Free b.addr b.size) : Registry.Disjoint (reg ++ [some b]) := by
  unfold Registry.Disjoint at hd ⊢
  rw [List.pairwise_append]
  refine ⟨hd, List.pairwise_singleton _ _, ?_⟩
  intro x hx y hy
  rw [List.mem_singleton] at hy
  rw [hy]
  exact slots_disjoint_of_free reg b h x hx

theorem slot_ok_of_free (reg : Registry) (b : Block) (h : reg.Free b.addr b.size) :
    slot_ok (some b) = true := by
  unfold slot_ok
  simp only [decide_eq_true_eq]
  exact ⟨h.1, h.2.1⟩

theorem pairwise_set {α : Type} (R : α → α → Prop) (l : List α) (i : Nat) (y : α)
    (hl : l.Pairwise R) (h1 : ∀ x ∈ l, R x y) (h2 : ∀ x ∈ l, R y x) :
    (l.set i y).Pairwise R := by
  induction l generalizing i with
  | nil => exact List.Pairwise.nil
  | cons a t ih =>
    rw [List.pairwise_cons] at hl
    cases i with
    | zero =>
      rw [List.set_cons_zero, List.pairwise_cons]
      exact ⟨fun x hx => h2 x (List.mem_cons_of_mem _ hx), hl.2⟩
    | succ n =>
      rw [List.set_cons_succ, List.pairwise_cons]
      refine ⟨?_, ih n hl.2 (fun x hx => h1 x (List.mem_cons_of_mem _ hx))
        (fun x hx => h2 x (List.mem_cons_of_mem _ hx))⟩
      intro x hx
      rcases List.mem_or_eq_of_mem_set hx with h | h
      · exact hl.1 x h
      · rw [h]
        exact h1 a (List.mem_cons_self _ _)

/-- The registry invariant after a slot is given a block at a free range, or
is emptied. -/
theorem inv_set (reg : Registry) (i : Nat) (y : Option Block) (hwf : reg.WF)
    (hd : reg.Disjoint) (hy : ∀ b, y = some b → reg.Free b.addr b.size) :
    Registry.WF (reg.set i y) ∧ Registry.Disjoint (reg.set i y) := by
  have hrel : ∀ x ∈ reg, slots_disjoint x y = true := by
    intro x hx
    cases y with
    | none => cases x <;> rfl
    | some b => exact slots_disjoint_of_free reg b (hy b rfl) x hx
  constructor
  · intro slot hslot
    rcases List.mem_or_eq_of_mem_set hslot with h | h
    · exact hwf slot h
    · rw [h]
      cases y with
      | none => rfl
      | some b => exact slot_ok_of_free reg b (hy b rfl)
  · exact pairwise_set _ reg i y hd hrel (fun x hx => slots_disjoint_symm _ _ (hrel x hx))

theorem inv_map (c : Consts) (reg : Registry) (s : VM) (addr size flags : Nat)
    (hwf : reg.WF) (hd : reg.Disjoint) (hs32 : size < 4294967296) :
    (_map c reg s addr size flags).state.1.WF ∧ (_map c reg s addr size flags).state.1.Disjoint := by
  unfold _map
  by_cases h1 : size = 0 ∨ (size ||| addr) % 4096 ≠ 0
  · rw [if_pos h1]
    exact ⟨hwf, hd⟩
  rw [if_neg h1]
  by_cases h2 : ¬ _test_map reg addr size = true
  · rw [if_pos h2]
    exact ⟨hwf, hd⟩
  rw [if_neg h2]
  by_cases h3 : any_page_set s.g_pages (size / 4096) (addr / 4096) = true
  · rw [if_pos h3]
    exact ⟨hwf, hd⟩
  rw [if_neg h3, state_ok]
  rw [not_not, test_map_iff reg addr size hwf hs32 (Or.inl (by omega))] at h2
  have hfree : reg.Free (Block.create c s addr size flags).1.addr
      (Block.create c s addr size flags).1.size := by
    rw [create_addr, create_size]
    exact h2
  exact ⟨wf_append reg _ hwf (slot_ok_of_free reg _ hfree), disjoint_append reg _ hd hfree⟩

/-! ### Searching a free range -/

theorem find_cond_iff (lay : Layout) (hlay : lay.WF) (a : Nat) (ha : a < 4294967296) :
    u32 (a + 4294967295) < u32 (lay.mem_rsx_base + 4294967295) ↔
      1 ≤ a ∧ a < lay.mem_rsx_base := by
  have h1 := hlay.rsx_pos
  have h2 := hlay.rsx_lt
  unfold u32
  omega

theorem multiple_step (al t y : Nat) (h1 : al ∣ t) (h2 : al ∣ y) (h3 : t < y) : t + al ≤ y := by
  have hd : al ∣ y - t := Nat.dvd_sub' h2 h1
  have := Nat.le_of_dvd (by omega) hd
  omega

/-- The loop of `_find_map` started at a multiple `a` of `al` with enough fuel:
it ends, either at the first multiple of `al` from `a` on and below
`mem_rsx_base` that passes `_test_map`, or without an address when there is
none (a start at 0 ends the loop at once). -/
theorem find_map_loop_spec (lay : Layout) (hlay : lay.WF) (reg : Registry) (size al : Nat)
    (hal1 : 1 ≤ al) (fuel a : Nat) (hdvd : al ∣ a)
    (ha : a < 4294967296)
    (hfuel : (a = 0 ∧ 1 ≤ fuel) ∨ ∃ m, a + m * al = 4294967296 ∧ m + 1 ≤ fuel) :
    (∃ x, find_map_loop lay reg size al fuel a = some (some x) ∧ 1 ≤ a ∧ al ∣ x ∧ a ≤ x ∧
      x < lay.mem_rsx_base ∧ _test_map reg x size = true ∧
      ∀ y, al ∣ y → a ≤ y → y < x → _test_map reg y size = false) ∨
    (find_map_loop lay reg size al fuel a = some none ∧
      (1 ≤ a → ∀ y, al ∣ y → a ≤ y → y < lay.mem_rsx_base → _test_map reg y size = false)) := by
  induction fuel generalizing a with
  | zero =>
    exfalso
    rcases hfuel with ⟨_, h⟩ | ⟨m, _, h⟩ <;> omega
  | succ fuel ih =>
    rw [find_map_loop]
    by_cases hc : u32 (a + 4294967295) < u32 (lay.mem_rsx_base + 4294967295)
    · rw [if_pos hc]
      rw [find_cond_iff lay hlay a ha] at hc
      by_cases ht : _test_map reg a size = true
      · rw [if_pos ht]
        left
        exact ⟨a, rfl, hc.1, hdvd, Nat.le_refl _, hc.2, ht, fun y _ h1 h2 => by omega⟩
      · rw [if_neg ht]
        rw [Bool.not_eq_true] at ht
        -- the next position
        obtain ⟨m, hm, hmf⟩ : ∃ m, a + m * al = 4294967296 ∧ m + 1 ≤ fuel + 1 := by
          rcases hfuel with ⟨h0, _⟩ | h
          · omega
          · exact h
        have hm1 : 1 ≤ m := by
          rcases Nat.eq_zero_or_pos m with h0 | h0
          · rw [h0] at hm
            omega
          · exact h0
        obtain ⟨m1, rfl⟩ : ∃ m1, m = m1 + 1 := ⟨m - 1, by omega⟩
        rw [Nat.succ_mul] at hm
        by_cases hwrap : a + al = 4294967296
        · -- the position wraps to 0
          have hnext : u32 (a + al) = 0 := by
            unfold u32
            omega
          rw [hnext]
          have hfuel1 : 1 ≤ fuel := by omega
          obtain ⟨f1, rfl⟩ : ∃ f1, fuel = f1 + 1 := ⟨fuel - 1, by omega⟩
          right
          refine ⟨?_, ?_⟩
          · rw [find_map_loop]
            have h0 : ¬ u32 (0 + 4294967295) < u32 (lay.mem_rsx_base + 4294967295) := by
              rw [find_cond_iff lay hlay 0 (by omega)]
              omega
            rw [if_neg h0]
          · intro _ y hy1 hy2 hy3
            rcases Nat.eq_or_lt_of_le hy2 with h | h
            · rw [← h]
              exact ht
            · have := multiple_step al a y hdvd hy1 h
              have := hlay.rsx_lt
              omega
        · have hlt : a + al < 4294967296 := by
            have : 0 ≤ m1 * al := Nat.zero_le _
            omega
          have hnext : u32 (a + al) = a + al := by
            unfold u32
            omega
          rw [hnext]
          rcases ih (a + al) (Nat.dvd_add hdvd (Nat.dvd_refl _)) hlt
              (Or.inr ⟨m1, by omega, by omega⟩) with
            ⟨x, hx, _, hx2, hx3, hx4, hx5, hx6⟩ | ⟨hn, hall⟩
          · left
            refine ⟨x, hx, hc.1, hx2, by omega, hx4, hx5, ?_⟩
            intro y hy1 hy2 hy3
            rcases Nat.eq_or_lt_of_le hy2 with h | h
            · rw [← h]
              exact ht
            · exact hx6 y hy1 (multiple_step al a y hdvd hy1 h) hy3
          · right
            refine ⟨hn, ?_⟩
            intro _ y hy1 hy2 hy3
            rcases Nat.eq_or_lt_of_le hy2 with h | h
            · rw [← h]
              exact ht
            · exact hall (by omega) y hy1 (multiple_step al a y hdvd hy1 h) hy3
    · rw [if_neg hc]
      right
      refine ⟨rfl, ?_⟩
      intro h1 y hy1 hy2 hy3
      rw [find_cond_iff lay hlay a ha] at hc
      omega

/-- The start of the search: `::align(v, al)` is the least multiple of `al`
that is not below `v`, or 0 when that multiple is `2^32`. -/
theorem align_least (v al : Nat) (hv : v < 4294967296) (hal : al ∣ 4294967296)
    (hal1 : 1 ≤ al) :
    al ∣ align v al ∧ align v al < 4294967296 ∧
    ((v ≤ align v al ∧ ∀ y, al ∣ y → v ≤ y → align v al ≤ y) ∨
     (align v al = 0 ∧ ∀ y, al ∣ y → v ≤ y → 4294967296 ≤ y)) := by
  have hdvd := align_dvd v al hal
  have hlt := u32_lt ((v + (al - 1)) / al * al)
  refine ⟨hdvd, hlt, ?_⟩
  have hmod := Nat.div_add_mod (v + (al - 1)) al
  have hr := Nat.mod_lt (v + (al - 1)) (show al > 0 by omega)
  rw [Nat.mul_comm] at hmod
  have ht_dvd : al ∣ (v + (al - 1)) / al * al := Nat.dvd_mul_left _ _
  have hleast : ∀ y, al ∣ y → v ≤ y → (v + (al - 1)) / al * al ≤ y := by
    intro y hy hvy
    by_contra hgt
    have := multiple_step al y _ hy ht_dvd (by omega)
    omega
  by_cases hw : (v + (al - 1)) / al * al < 4294967296
  · left
    have he : align v al = (v + (al - 1)) / al * al := by
      unfold align u32
      exact Nat.mod_eq_of_lt hw
    rw [he]
    exact ⟨by omega, hleast⟩
  · right
    have h32 : (v + (al - 1)) / al * al = 4294967296 := by
      have := hleast 4294967296 hal (by omega)
      omega
    refine ⟨?_, ?_⟩
    · unfold align u32
      rw [h32]
    · intro y hy hvy
      rw [← h32]
      exact hleast y hy hvy

/-- Positions `a, a + al, ...` reach `n` within `n / al` steps. -/
theorem fuel_bound (n a al : Nat) (hal : al ∣ n) (hdvd : al ∣ a) (hlt : a < n) :
    ∃ m, a + m * al = n ∧ m + 1 ≤ n / al + 1 := by
  refine ⟨(n - a) / al, ?_, ?_⟩
  · rw [Nat.div_mul_cancel (Nat.dvd_sub' hal hdvd)]
    omega
  · have := @Nat.div_le_div_right (n - a) n al (Nat.sub_le n a)
    omega

/-- The function `_find_map` is its loop followed by `find_map_result`. -/
theorem _find_map_eq (c : Consts) (lay : Layout) (reg : Registry) (s : VM)
    (size al flags : Nat) :
    _find_map c lay reg s size al flags = find_map_result c s size flags
      (find_map_loop lay reg size al (4294967296 / al + 1)
        (align lay.mem_user64k_base al)) := rfl

/-- The result of `_find_map` on a registry of well-formed blocks: a new block
at the lowest multiple of `al` in `[mem_user64k_base, mem_rsx_base)` at which
the range is free, or null when there is no such multiple. -/
theorem _find_map_spec (c : Consts) (lay : Layout) (hlay : lay.WF) (reg : Registry) (s : VM)
    (size al flags : Nat) (hwf : reg.WF) (hal : al ∣ 4294967296) (hal1 : 1 ≤ al)
    (hs32 : size < 4294967296) :
    (∃ a, _find_map c lay reg s size al flags
        = Res.ok (Block.create c s a size flags).2 (some (Block.create c s a size flags).1) ∧
      al ∣ a ∧ lay.mem_user64k_base ≤ a ∧ a < lay.mem_rsx_base ∧ reg.Free a size ∧
      ∀ y, al ∣ y → lay.mem_user64k_base ≤ y → y < a → ¬ reg.Free y size) ∨
    (_find_map c lay reg s size al flags = Res.ok s none ∧
      ∀ y, al ∣ y → lay.mem_user64k_base ≤ y → y < lay.mem_rsx_base → ¬ reg.Free y size) := by
  have hbase1 := hlay.user64k_pos
  obtain ⟨hdvd, hlt, hleast⟩ := align_least lay.mem_user64k_base al hlay.user64k_lt hal hal1
  have hfuel : (align lay.mem_user64k_base al = 0 ∧ 1 ≤ 4294967296 / al + 1) ∨
      ∃ m, align lay.mem_user64k_base al + m * al = 4294967296 ∧
        m + 1 ≤ 4294967296 / al + 1 := by
    exact Or.inr (fuel_bound _ _ _ hal hdvd hlt)
  have htest : ∀ y, lay.mem_user64k_base ≤ y →
      (_test_map reg y size = true ↔ reg.Free y size) := by
    intro y hy
    exact test_map_iff reg y size hwf hs32 (Or.inr (by omega))
  rcases find_map_loop_spec lay hlay reg size al hal1 _ _ hdvd hlt hfuel with
    ⟨x, hx, hx1, hx2, hx3, hx4, hx5, hx6⟩ | ⟨hn, hall⟩
  · -- an address was found
    have hge : lay.mem_user64k_base ≤ align lay.mem_user64k_base al ∧
        ∀ y, al ∣ y → lay.mem_user64k_base ≤ y → align lay.mem_user64k_base al ≤ y := by
      rcases hleast with h | ⟨h0, _⟩
      · exact h
      · omega
    left
    refine ⟨x, ?_, hx2, by omega, hx4, (htest x (by omega)).1 hx5, ?_⟩
    · rw [_find_map_eq, hx]
      rfl
    · intro y hy1 hy2 hy3 hfree
      have := hx6 y hy1 (hge.2 y hy1 hy2) hy3
      rw [(htest y hy2).2 hfree] at this
      cases this
  · right
    refine ⟨?_, ?_⟩
    · rw [_find_map_eq, hn]
      rfl
    · intro y hy1 hy2 hy3 hfree
      rcases hleast with ⟨h1, h2⟩ | ⟨_, h2⟩
      · have := hall (by omega) y hy1 (h2 y hy1 hy2) hy3
        rw [(htest y hy2).2 hfree] at this
        cases this
      · have := h2 y hy1 hy2
        have := hlay.rsx_lt
        omega

theorem create_free (c : Consts) (reg : Registry) (s : VM) (a size flags : Nat)
    (h : reg.Free a size) :
    reg.Free (Block.create c s a size flags).1.addr (Block.create c s a size flags).1.size := by
  rw [create_addr, create_size]
  exact h

theorem inv_find_map (c : Consts) (lay : Layout) (hlay : lay.WF) (reg : Registry) (s : VM)
    (orig al flags : Nat) (hwf : reg.WF) (hd : reg.Disjoint) :
    (find_map c lay reg s orig al flags).state.1.WF ∧
    (find_map c lay reg s orig al flags).state.1.Disjoint := by
  unfold find_map
  by_cases h1 : al < 0x10000 ∨ al ≠ 0x80000000 >>> countl_zero al
  · rw [if_pos h1]
    exact ⟨hwf, hd⟩
  rw [if_neg h1]
  by_cases h2 : align orig 0x10000 = 0
  · rw [if_pos h2]
    exact ⟨hwf, hd⟩
  rw [if_neg h2]
  obtain ⟨_, hal2, _⟩ := valid_align al (by omega) (by
    by_contra hne
    exact h1 (Or.inr hne))
  rcases _find_map_spec c lay hlay reg s (align orig 0x10000) al flags hwf hal2 (by omega)
      (u32_lt _) with ⟨a, ha, _, _, _, hfree, _⟩ | ⟨hn, _⟩
  · rw [ha, and_then_ok]
    simp only []
    rw [state_ok]
    exact ⟨wf_append reg _ hwf (slot_ok_of_free reg _ (create_free c reg s a _ flags hfree)),
      disjoint_append reg _ hd (create_free c reg s a _ flags hfree)⟩
  · rw [hn, and_then_ok]
    exact ⟨hwf, hd⟩

theorem inv_reserve_map (c : Consts) (lay : Layout) (hlay : lay.WF) (reg : Registry) (s : VM)
    (location addr area_size flags : Nat) (hwf : reg.WF) (hd : reg.Disjoint)
    (hs32 : area_size < 4294967296) :
    (reserve_map c lay reg s location addr area_size flags).state.1.WF ∧
    (reserve_map c lay reg s location addr area_size flags).state.1.Disjoint := by
  unfold reserve_map
  cases h1 : _get_map lay reg location addr with
  | some area => exact ⟨hwf, hd⟩
  | none =>
    simp only []
    by_cases h2 : location ≠ lay.any ∧ location < reg.length
    · rw [if_pos h2]
      cases h3 : reg.getD location none with
      | some loc => exact ⟨hwf, hd⟩
      | none =>
        simp only []
        rcases _find_map_spec c lay hlay reg s area_size 0x10000000 flags hwf (by decide)
            (by decide) hs32 with ⟨a, ha, _, _, _, hfree, _⟩ | ⟨hn, _⟩
        · rw [ha, and_then_ok, state_ok]
          exact inv_set reg location _ hwf hd (fun b hb => by
            injection hb with hb
            rw [← hb]
            exact create_free c reg s a _ flags hfree)
        · rw [hn, and_then_ok, state_ok]
          exact inv_set reg location none hwf hd (fun b hb => by cases hb)
    · rw [if_neg h2]
      exact inv_map c reg s addr area_size flags hwf hd hs32

theorem unmap_loop_cases (reg : Registry) (use_count : Nat → Nat) (addr : Nat)
    (must_be_empty : Bool) (i : Nat) (rest : List (Option Block)) (hrest : reg.drop i = rest) :
    unmap_loop reg use_count addr must_be_empty i rest = (reg, none) ∨
    (∃ j b, i ≤ j ∧ reg[j]? = some (some b) ∧ b.addr = addr ∧
      ((unmap_loop reg use_count addr must_be_empty i rest = (reg, some b) ∧
          must_be_empty = true ∧ (use_count j ≠ 1 ∨ b.imp_used ≠ 0)) ∨
       (unmap_loop reg use_count addr must_be_empty i rest = (reg.eraseIdx j, some b) ∧
          (must_be_empty = true → b.flags &&& 0x3 = 0 ∧ use_count j = 1 ∧ b.imp_used = 0)))) := by
  induction rest generalizing i with
  | nil =>
    left
    rfl
  | cons x t ih =>
    have hx : reg[i]? = some x := by
      have := List.getElem?_drop reg i 0
      rw [hrest] at this
      simpa using this.symm
    have ht : reg.drop (i + 1) = t := by
      have := List.drop_drop 1 i reg
      rw [hrest] at this
      simpa [Nat.add_comm] using this.symm
    have hstep : ∀ r, r = unmap_loop reg use_count addr must_be_empty (i + 1) t →
        r = (reg, none) ∨
        (∃ j b, i ≤ j ∧ reg[j]? = some (some b) ∧ b.addr = addr ∧
          ((r = (reg, some b) ∧
              must_be_empty = true ∧ (use_count j ≠ 1 ∨ b.imp_used ≠ 0)) ∨
           (r = (reg.eraseIdx j, some b) ∧
              (must_be_empty = true → b.flags &&& 0x3 = 0 ∧ use_count j = 1
                ∧ b.imp_used = 0)))) := by
      intro r hr
      rw [hr]
      rcases ih (i + 1) ht with h | ⟨j, b, hj, h⟩
      · exact Or.inl h
      · exact Or.inr ⟨j, b, by omega, h⟩
    cases x with
    | none =>
      rw [unmap_loop]
      exact hstep _ rfl
    | some block =>
      rw [unmap_loop]
      by_cases ha : block.addr = addr
      · rw [if_pos ha]
        by_cases h1 : must_be_empty = true ∧ block.flags &&& 0x3 ≠ 0
        · rw [if_pos h1]
          exact hstep _ rfl
        rw [if_neg h1]
        by_cases h2 : must_be_empty = false ∧ block.flags &&& 0x3 ≠ 2
        · rw [if_pos h2]
          exact hstep _ rfl
        rw [if_neg h2]
        by_cases h3 : must_be_empty = true ∧ (use_count i ≠ 1 ∨ block.imp_used ≠ 0)
        · rw [if_pos h3]
          exact Or.inr ⟨i, block, Nat.le_refl _, hx, ha, Or.inl ⟨rfl, h3.1, h3.2⟩⟩
        · rw [if_neg h3]
          refine Or.inr ⟨i, block, Nat.le_refl _, hx, ha, Or.inr ⟨rfl, ?_⟩⟩
          intro hm
          refine ⟨?_, ?_, ?_⟩
          · by_contra hf
            exact h1 ⟨hm, hf⟩
          · by_contra hu
            exact h3 ⟨hm, Or.inl hu⟩
          · by_contra hu
            exact h3 ⟨hm, Or.inr hu⟩
      · rw [if_neg ha]
        exact hstep _ rfl

theorem inv_eraseIdx (reg : Registry) (j : Nat) (hwf : reg.WF) (hd : reg.Disjoint) :
    Registry.WF (reg.eraseIdx j) ∧ Registry.Disjoint (reg.eraseIdx j) :=
  ⟨fun slot hslot => hwf slot (List.mem_of_mem_eraseIdx hslot),
   List.Pairwise.sublist (List.eraseIdx_sublist reg j) hd⟩

theorem inv_unmap (lay : Layout) (reg : Registry) (use_count : Nat → Nat) (addr : Nat)
    (must_be_empty : Bool) (hwf : reg.WF) (hd : reg.Disjoint) :
    (unmap lay reg use_count addr must_be_empty).1.WF ∧
    (unmap lay reg use_count addr must_be_empty).1.Disjoint := by
  unfold unmap
  rcases unmap_loop_cases reg use_count addr must_be_empty lay.memory_location_max _ rfl with
    h | ⟨j, b, _, _, _, ⟨h, _⟩ | ⟨h, _⟩⟩
  · rw [h]
    exact ⟨hwf, hd⟩
  · rw [h]
    exact ⟨hwf, hd⟩
  · rw [h]
    exact inv_eraseIdx reg j hwf hd

/-- C15: when the live blocks of the registry have non-empty ranges inside the
32-bit address space that are pairwise disjoint, the same holds after every
call of `map`, `find_map`, `reserve_map` and `unmap`, whatever the arguments
and the outcome. -/
theorem registry_disjoint_preserved (c : Consts) (lay : Layout) (hlay : lay.WF)
    (reg : Registry) (s : VM) (hwf : reg.WF) (hd : reg.Disjoint) :
    (∀ addr size flags, size < 4294967296 →
      (map c reg s addr size flags).state.1.WF ∧
      (map c reg s addr size flags).state.1.Disjoint) ∧
    (∀ orig al flags,
      (find_map c lay reg s orig al flags).state.1.WF ∧
      (find_map c lay reg s orig al flags).state.1.Disjoint) ∧
    (∀ location addr area_size flags, area_size < 4294967296 →
      (reserve_map c lay reg s location addr area_size flags).state.1.WF ∧
      (reserve_map c lay reg s location addr area_size flags).state.1.Disjoint) ∧
    (∀ use_count addr must_be_empty,
      (unmap lay reg use_count addr must_be_empty).1.WF ∧
      (unmap lay reg use_count addr must_be_empty).1.Disjoint) :=
  ⟨fun addr size flags hs => inv_map c reg s addr size flags hwf hd hs,
   fun orig al flags => inv_find_map c lay hlay reg s orig al flags hwf hd,
   fun location addr area_size flags hs =>
     inv_reserve_map c lay hlay reg s location addr area_size flags hwf hd hs,
   fun use_count addr must_be_empty => inv_unmap lay reg use_count addr must_be_empty hwf hd⟩

theorem ps3Layout_wf : ps3Layout.WF := by
  constructor <;> decide

theorem init_disjoint : (init ps3Consts ps3Layout VM.empty).1.Disjoint := by
  unfold Registry.Disjoint
  decide

/-- Witness of C15: the registry made by `init` has disjoint live blocks, and
so has the registry after a block of `0x10000` bytes was mapped at
`0x30000000`. -/
theorem registry_disjoint_preserved_witness :
    (map ps3Consts (init ps3Consts ps3Layout VM.empty).1 VM.empty 0x30000000 0x10000 0).state.1.length
        = 8 ∧
    (map ps3Consts (init ps3Consts ps3Layout VM.empty).1 VM.empty 0x30000000 0x10000 0).state.1.Disjoint :=
  ⟨by decide,
   ((registry_disjoint_preserved ps3Consts ps3Layout ps3Layout_wf
      (init ps3Consts ps3Layout VM.empty).1 VM.empty init_wf init_disjoint).1
      0x30000000 0x10000 0 (by decide)).2⟩

/-- The powers of two from `0x10000` on pass the alignment check of
`find_map`. -/
theorem pow2_valid (k : Nat) (h1 : 16 ≤ k) (h2 : k ≤ 31) :
    ¬ (2 ^ k < 0x10000 ∨ 2 ^ k ≠ 0x80000000 >>> countl_zero (2 ^ k)) := by
  interval_cases k <;> decide

/-- C16: for an alignment `al = 2 ^ k` with `16 ≤ k ≤ 31`, `find_map` returns,
and it returns null or a new block, appended to the registry, of the size
`align orig_size 0x10000` at the lowest multiple of `al` in
`[mem_user64k_base, mem_rsx_base)` at which a block of that size lies in the
address space and overlaps no live block.  It returns null exactly when the
rounded size is `0` or there is no such multiple, and then the registry is
unchanged. -/
theorem find_map_spec (c : Consts) (lay : Layout) (hlay : lay.WF) (reg : Registry) (s : VM)
    (orig_size al flags k : Nat) (hwf : reg.WF) (hk1 : 16 ≤ k) (hk2 : k ≤ 31)
    (hal : al = 2 ^ k) :
    ∃ reg1 s1 ret, find_map c lay reg s orig_size al flags = Res.ok (reg1, s1) ret ∧
      (ret = none ↔ (align orig_size 0x10000 = 0 ∨
        ¬ ∃ a, al ∣ a ∧ lay.mem_user64k_base ≤ a ∧ a < lay.mem_rsx_base ∧
          reg.Free a (align orig_size 0x10000))) ∧
      (ret = none → reg1 = reg) ∧
      (∀ b, ret = some b →
        reg1 = reg ++ [some b] ∧ b.size = align orig_size 0x10000 ∧ b.flags = flags ∧
        b.m_map = [] ∧
        al ∣ b.addr ∧ lay.mem_user64k_base ≤ b.addr ∧ b.addr < lay.mem_rsx_base ∧
        reg.Free b.addr b.size ∧
        ∀ y, al ∣ y → lay.mem_user64k_base ≤ y → y < b.addr → ¬ reg.Free y b.size) := by
  have hv : ¬ (al < 0x10000 ∨ al ≠ 0x80000000 >>> countl_zero al) := by
    rw [hal]
    exact pow2_valid k hk1 hk2
  have hal2 : al ∣ 4294967296 := by
    rw [hal]
    exact (Nat.pow_dvd_pow_iff_le_right (by decide)).2 (by omega : k ≤ 32)
  have hal1 : 1 ≤ al := by
    rw [hal]
    exact Nat.one_le_two_pow
  unfold find_map
  rw [if_neg hv]
  by_cases h2 : align orig_size 0x10000 = 0
  · rw [if_pos h2]
    exact ⟨reg, s, none, rfl, ⟨fun _ => Or.inl h2, fun _ => rfl⟩, fun _ => rfl,
      fun b hb => by cases hb⟩
  rw [if_neg h2]
  rcases _find_map_spec c lay hlay reg s (align orig_size 0x10000) al flags hwf hal2 hal1
      (u32_lt _) with ⟨a, ha, hdvd, hlo, hhi, hfree, hmin⟩ | ⟨hn, hnone⟩
  · rw [ha, and_then_ok]
    refine ⟨_, _, _, rfl, ⟨fun h => (by cases h), fun h => ?_⟩, fun h => (by cases h), ?_⟩
    · rcases h with h | h
      · exact absurd h h2
      · exact absurd ⟨a, hdvd, hlo, hhi, hfree⟩ h
    · intro b hb
      injection hb with hb
      subst hb
      rw [create_addr, create_size, create_flags, create_m_map]
      exact ⟨rfl, rfl, rfl, rfl, hdvd, hlo, hhi, hfree, hmin⟩
  · rw [hn, and_then_ok]
    refine ⟨_, _, _, rfl, ⟨fun _ => Or.inr ?_, fun _ => rfl⟩, fun _ => rfl, fun b hb => by cases hb⟩
    rintro ⟨y, hy1, hy2, hy3, hy4⟩
    exact hnone y hy1 hy2 hy3 hy4

/-- Witness of C16: in the registry made by `init`, the first search position
`0x20000000` is taken by the block "user 64k", and `find_map` with the
alignment `0x10000000` places a block of `0x10000` bytes at `0x30000000`. -/
theorem find_map_spec_witness :
    ((find_map ps3Consts ps3Layout (init ps3Consts ps3Layout VM.empty).1 VM.empty 0x10000
        0x10000000 0).value.map fun ret => ret.map Block.addr) = some (some 0x30000000) ∧
    ∃ reg1 s1 ret,
      find_map ps3Consts ps3Layout (init ps3Consts ps3Layout VM.empty).1 VM.empty 0x10000
        0x10000000 0 = Res.ok (reg1, s1) ret ∧
      (ret = none ↔ (align 0x10000 0x10000 = 0 ∨
        ¬ ∃ a, 0x10000000 ∣ a ∧ ps3Layout.mem_user64k_base ≤ a ∧ a < ps3Layout.mem_rsx_base ∧
          (init ps3Consts ps3Layout VM.empty).1.Free a (align 0x10000 0x10000))) ∧
      (ret = none → reg1 = (init ps3Consts ps3Layout VM.empty).1) ∧
      (∀ b, ret = some b →
        reg1 = (init ps3Consts ps3Layout VM.empty).1 ++ [some b] ∧
        b.size = align 0x10000 0x10000 ∧ b.flags = 0 ∧
        b.m_map = [] ∧
        0x10000000 ∣ b.addr ∧ ps3Layout.mem_user64k_base ≤ b.addr ∧
        b.addr < ps3Layout.mem_rsx_base ∧
        (init ps3Consts ps3Layout VM.empty).1.Free b.addr b.size ∧
        ∀ y, 0x10000000 ∣ y → ps3Layout.mem_user64k_base ≤ y → y < b.addr →
          ¬ (init ps3Consts ps3Layout VM.empty).1.Free y b.size) :=
  ⟨by decide,
   find_map_spec ps3Consts ps3Layout ps3Layout_wf (init ps3Consts ps3Layout VM.empty).1
    VM.empty 0x10000 0x10000000 0 28 init_wf (by decide) (by decide) (by decide)⟩

/-- In a registry of non-empty, pairwise disjoint blocks no two slots hold
blocks with the same address. -/
theorem block_at_unique (reg : Registry) (hwf : reg.WF) (hd : reg.Disjoint) (i j : Nat)
    (b1 b2 : Block) (h1 : reg[i]? = some (some b1)) (h2 : reg[j]? = some (some b2))
    (ha : b1.addr = b2.addr) : i = j := by
  obtain ⟨hi, e1⟩ := List.getElem?_eq_some.1 h1
  obtain ⟨hj, e2⟩ := List.getElem?_eq_some.1 h2
  have hs1 := slot_ok_some b1 (hwf _ (e1 ▸ List.getElem_mem hi))
  have hs2 := slot_ok_some b2 (hwf _ (e2 ▸ List.getElem_mem hj))
  have hp := List.pairwise_iff_getElem.1 hd
  by_contra hne
  rcases Nat.lt_or_gt_of_ne hne with hlt | hgt
  · have := hp i j hi hj hlt
    rw [e1, e2] at this
    unfold slots_disjoint at this
    simp only [decide_eq_true_eq] at this
    omega
  · have := hp j i hj hi hgt
    rw [e1, e2] at this
    unfold slots_disjoint at this
    simp only [decide_eq_true_eq] at this
    omega

/-- C17: with `must_be_empty = true`, `unmap(addr)` leaves the registry as it
is or erases one slot, and the slot erased is a dynamic one (its index is not
below `memory_location_max`) whose block starts at `addr`, has `imp_used() = 0`
and `use_count() = 1`.  When the blocks of the registry are non-empty and
pairwise disjoint and the block at `addr` has `imp_used() ≠ 0` or
`use_count() ≠ 1`, the registry is left unchanged. -/
theorem unmap_must_be_empty (lay : Layout) (reg : Registry) (use_count : Nat → Nat)
    (addr : Nat) (hwf : reg.WF) (hd : reg.Disjoint) :
    ((unmap lay reg use_count addr true).1 = reg ∨
      ∃ j b, lay.memory_location_max ≤ j ∧ reg[j]? = some (some b) ∧ b.addr = addr ∧
        b.imp_used = 0 ∧ use_count j = 1 ∧
        unmap lay reg use_count addr true = (reg.eraseIdx j, some b)) ∧
    (∀ j b, reg[j]? = some (some b) → b.addr = addr →
      (b.imp_used ≠ 0 ∨ use_count j ≠ 1) →
      (unmap lay reg use_count addr true).1 = reg) := by
  have hcases := unmap_loop_cases reg use_count addr true lay.memory_location_max _ rfl
  unfold unmap
  rcases hcases with h | ⟨j, b, hj, hb, hba, ⟨h, _⟩ | ⟨h, hm⟩⟩
  · rw [h]
    exact ⟨Or.inl rfl, fun _ _ _ _ _ => rfl⟩
  · rw [h]
    exact ⟨Or.inl rfl, fun _ _ _ _ _ => rfl⟩
  · rw [h]
    obtain ⟨_, hu, hi⟩ := hm rfl
    refine ⟨Or.inr ⟨j, b, hj, hb, hba, hi, hu, rfl⟩, ?_⟩
    intro j2 b2 hb2 hba2 hbusy
    have hjj := block_at_unique reg hwf hd j j2 b b2 hb hb2 (by omega)
    subst hjj
    rw [hb] at hb2
    injection hb2 with hb2
    injection hb2 with hb2
    subst hb2
    omega

theorem mapped_registry_wf : mapped_registry.WF := by
  unfold Registry.WF
  decide

theorem mapped_registry_disjoint : mapped_registry.Disjoint := by
  unfold Registry.Disjoint
  decide

/-- Witness of C17: the block mapped at `0x30000000` sits in the dynamic slot 7;
while a second owner holds it, `unmap(0x30000000, true)` leaves the registry
unchanged. -/
theorem unmap_must_be_empty_witness :
    (mapped_registry[7]?.map fun slot => slot.map Block.addr) = some (some 0x30000000) ∧
    (unmap ps3Layout mapped_registry (fun _ => 2) 0x30000000 true).1 = mapped_registry :=
  ⟨by decide,
   (unmap_must_be_empty ps3Layout mapped_registry (fun _ => 2) 0x30000000
      mapped_registry_wf mapped_registry_disjoint).2 7
      (Block.create ps3Consts VM.empty 0x30000000 0x10000 0).1 (by rfl) (by rfl)
      (Or.inr (by decide))⟩

/-- The slot of a symbolic location is what `_get_map` returns for it. -/
theorem get_map_loc (lay : Layout) (reg : Registry) (L a : Nat) (x : Option Block)
    (hL : L ≠ lay.any) (h : reg[L]? = some x) : _get_map lay reg L a = x := by
  obtain ⟨hlt, e⟩ := List.getElem?_eq_some.1 h
  unfold _get_map
  rw [if_pos hL, if_pos hlt, List.getD_eq_getElem?_getD, h]
  rfl

theorem slot_append (reg : Registry) (L : Nat) (x y : Option Block) (h : reg[L]? = some x) :
    (reg ++ [y])[L]? = some x := by
  obtain ⟨hlt, _⟩ := List.getElem?_eq_some.1 h
  rw [List.getElem?_append_left hlt, h]

theorem slot_map (c : Consts) (reg : Registry) (s : VM) (addr size flags L : Nat)
    (x : Option Block) (h : reg[L]? = some x) :
    (_map c reg s addr size flags).state.1[L]? = some x := by
  unfold _map
  by_cases h1 : size = 0 ∨ (size ||| addr) % 4096 ≠ 0
  · rw [if_pos h1]
    exact h
  rw [if_neg h1]
  by_cases h2 : ¬ _test_map reg addr size = true
  · rw [if_pos h2]
    exact h
  rw [if_neg h2]
  by_cases h3 : any_page_set s.g_pages (size / 4096) (addr / 4096) = true
  · rw [if_pos h3]
    exact h
  rw [if_neg h3, state_ok]
  exact slot_append reg L x _ h

theorem slot_find_map (c : Consts) (lay : Layout) (reg : Registry) (s : VM)
    (orig al flags L : Nat) (x : Option Block) (h : reg[L]? = some x) :
    (find_map c lay reg s orig al flags).state.1[L]? = some x := by
  unfold find_map
  by_cases h1 : al < 0x10000 ∨ al ≠ 0x80000000 >>> countl_zero al
  · rw [if_pos h1]
    exact h
  rw [if_neg h1]
  by_cases h2 : align orig 0x10000 = 0
  · rw [if_pos h2]
    exact h
  rw [if_neg h2]
  generalize _find_map c lay reg s (align orig 0x10000) al flags = r
  cases r with
  | ok s0 v0 =>
    rw [and_then_ok]
    cases v0 with
    | none => exact h
    | some b => exact slot_append reg L x _ h
  | fatal s0 => exact h
  | hang s0 => exact h

theorem slot_reserve_map (c : Consts) (lay : Layout) (reg : Registry) (s : VM)
    (loc addr size flags L : Nat) (b : Block) (h : reg[L]? = some (some b)) :
    (reserve_map c lay reg s loc addr size flags).state.1[L]? = some (some b) := by
  unfold reserve_map
  cases h1 : _get_map lay reg loc addr with
  | some area => exact h
  | none =>
    simp only []
    by_cases h2 : loc ≠ lay.any ∧ loc < reg.length
    · rw [if_pos h2]
      cases h3 : reg.getD loc none with
      | some l => exact h
      | none =>
        simp only []
        have hne : loc ≠ L := by
          intro e
          rw [e, List.getD_eq_getElem?_getD, h] at h3
          cases h3
        generalize _find_map c lay reg s size 0x10000000 flags = r
        cases r with
        | ok s0 v0 =>
          rw [and_then_ok, state_ok, List.getElem?_set_ne hne]
          exact h
        | fatal s0 => exact h
        | hang s0 => exact h
    · rw [if_neg h2]
      exact slot_map c reg s addr size flags L _ h

theorem slot_unmap (lay : Layout) (reg : Registry) (use_count : Nat → Nat) (addr : Nat)
    (must_be_empty : Bool) (L : Nat) (x : Option Block) (hmax : L < lay.memory_location_max)
    (h : reg[L]? = some x) :
    (unmap lay reg use_count addr must_be_empty).1[L]? = some x := by
  unfold unmap
  rcases unmap_loop_cases reg use_count addr must_be_empty lay.memory_location_max _ rfl with
    h1 | ⟨j, b, hj, _, _, ⟨h1, _⟩ | ⟨h1, _⟩⟩
  · rw [h1]
    exact h
  · rw [h1]
    exact h
  · rw [h1]
    show (reg.eraseIdx j)[L]? = some x
    rw [List.getElem?_eraseIdx, if_pos (by omega)]
    exact h

/-- C18: when the slot of the well-known location `L` is empty and
`reserve_map(L, addr, area_size, flags)` returns a block `b`, then `get(L)`
returns `b` in the registry after the call; and in every registry whose slot
`L` holds `b`, each `reserve_map(L, ...)` returns `b` and changes neither the
registry nor the state, and slot `L` still holds `b` after each call of `map`,
`find_map`, `reserve_map` and `unmap`. -/
theorem reserve_map_once (c : Consts) (lay : Layout) (reg : Registry) (s : VM)
    (L addr area_size flags : Nat) (reg1 : Registry) (s1 : VM) (b : Block)
    (hL : L ≠ lay.any) (hmax : L < lay.memory_location_max) (hempty : reg[L]? = some none)
    (hres : reserve_map c lay reg s L addr area_size flags = Res.ok (reg1, s1) (some b)) :
    (∀ a, get lay reg1 L a = some b) ∧
    (∀ reg2 : Registry, reg2[L]? = some (some b) →
      (∀ s2 addr2 size2 flags2,
        reserve_map c lay reg2 s2 L addr2 size2 flags2 = Res.ok (reg2, s2) (some b)) ∧
      (∀ s2 addr2 size2 flags2,
        (map c reg2 s2 addr2 size2 flags2).state.1[L]? = some (some b)) ∧
      (∀ s2 orig al flags2,
        (find_map c lay reg2 s2 orig al flags2).state.1[L]? = some (some b)) ∧
      (∀ s2 loc addr2 size2 flags2,
        (reserve_map c lay reg2 s2 loc addr2 size2 flags2).state.1[L]? = some (some b)) ∧
      (∀ use_count addr2 must_be_empty,
        (unmap lay reg2 use_count addr2 must_be_empty).1[L]? = some (some b))) := by
  constructor
  · obtain ⟨hlt, _⟩ := List.getElem?_eq_some.1 hempty
    have hg : _get_map lay reg L addr = none := get_map_loc lay reg L addr none hL hempty
    have hd : reg.getD L none = none := by
      rw [List.getD_eq_getElem?_getD, hempty]
      rfl
    unfold reserve_map at hres
    rw [hg] at hres
    simp only [] at hres
    rw [if_pos ⟨hL, hlt⟩, hd] at hres
    simp only [] at hres
    obtain ⟨s0, v0, _, hk⟩ := and_then_eq_ok _ _ _ _ _ hres
    injection hk with hk1 hk2
    injection hk1 with hk1 _
    subst hk2
    intro a
    unfold get
    apply get_map_loc lay reg1 L a _ hL
    rw [← hk1, List.getElem?_set_self hlt]
  · intro reg2 h2
    refine ⟨?_, ?_, ?_, ?_, ?_⟩
    · intro s2 addr2 size2 flags2
      unfold reserve_map
      rw [get_map_loc lay reg2 L addr2 _ hL h2]
    · intro s2 addr2 size2 flags2
      exact slot_map c reg2 s2 addr2 size2 flags2 L _ h2
    · intro s2 orig al flags2
      exact slot_find_map c lay reg2 s2 orig al flags2 L _ h2
    · intro s2 loc addr2 size2 flags2
      exact slot_reserve_map c lay reg2 s2 loc addr2 size2 flags2 L b h2
    · intro use_count addr2 must_be_empty
      exact slot_unmap lay reg2 use_count addr2 must_be_empty L _ hmax h2

/-- Witness of C18: the slot 2 is empty after `init`; `reserve_map` for it
makes a block at `0x30000000`, which `get` returns afterwards. -/
theorem reserve_map_once_witness :
    (init ps3Consts ps3Layout VM.empty).1[2]? = some none ∧
    get ps3Layout
      (reserve_map ps3Consts ps3Layout (init ps3Consts ps3Layout VM.empty).1 VM.empty 2 0
        0x10000000 0).state.1 2 0
      = some (Block.create ps3Consts VM.empty 0x30000000 0x10000000 0).1 :=
  ⟨by rfl,
   (reserve_map_once ps3Consts ps3Layout (init ps3Consts ps3Layout VM.empty).1 VM.empty 2 0
      0x10000000 0
      (reserve_map ps3Consts ps3Layout (init ps3Consts ps3Layout VM.empty).1 VM.empty 2 0
        0x10000000 0).state.1
      (reserve_map ps3Consts ps3Layout (init ps3Consts ps3Layout VM.empty).1 VM.empty 2 0
        0x10000000 0).state.2
      (Block.create ps3Consts VM.empty 0x30000000 0x10000000 0).1
      (by decide) (by decide) (by rfl) (by rfl)).1 0⟩

/-! ## The page invariant -/

theorem and_then_state {σ τ α β : Type} (P : σ → Prop) (Q : τ → Prop) (r : Res σ α)
    (emb : σ → τ) (k : σ → α → Res τ β) (hr : P r.state) (hemb : ∀ s, P s → Q (emb s))
    (hk : ∀ s v, P s → Q (k s v).state) : Q (r.and_then emb k).state := by
  cases r with
  | ok s v => exact hk s v hr
  | fatal s => exact hemb s hr
  | hang s => exact hemb s hr

theorem verify_state {σ : Type} (cond : Bool) (s : σ) : (verify cond s).state = s := by
  unfold verify
  cases cond <;> rfl

theorem pageinv_exchange (c : Consts) (s : VM) (i v : Nat) (h : PageInv c s.g_pages)
    (hv : v = 0 ∨ v &&& c.page_allocated = c.page_allocated) :
    PageInv c (s.exchange i v).g_pages := by
  intro j
  rw [exchange_g_pages]
  by_cases hj : j = i
  · rw [if_pos hj]
    exact hv
  · rw [if_neg hj]
    exact h j

theorem pageinv_page_map_set (c : Consts) (v : Nat)
    (hv : v &&& c.page_allocated = c.page_allocated) (n i : Nat) (s : VM)
    (h : PageInv c s.g_pages) : PageInv c (page_map_set v n i s).state.g_pages := by
  induction n generalizing i s with
  | zero => exact h
  | succ n ih =>
    unfold page_map_set
    simp only []
    by_cases h0 : s.g_pages i ≠ 0
    · rw [if_pos h0]
      exact pageinv_exchange c s i v h (Or.inr hv)
    · rw [if_neg h0]
      exact ih (i + 1) _ (pageinv_exchange c s i v h (Or.inr hv))

theorem pageinv_page_map (c : Consts) (s : VM) (addr flags size : Nat) (shm : Option Shm)
    (h : PageInv c s.g_pages) : PageInv c (_page_map c s addr flags size shm).state.g_pages := by
  unfold _page_map
  split_ifs
  · exact h
  · exact h
  · apply pageinv_page_map_set c _ (or_and_right_self _ _)
    rw [page_map_calls_g_pages]
    exact h

theorem pageinv_page_unmap_clear (c : Consts) (n i : Nat) (s : VM)
    (h : PageInv c s.g_pages) : PageInv c (page_unmap_clear c n i s).state.g_pages := by
  induction n generalizing i s with
  | zero => exact h
  | succ n ih =>
    unfold page_unmap_clear
    simp only []
    by_cases h0 : s.g_pages i &&& c.page_allocated = 0
    · rw [if_pos h0]
      exact pageinv_exchange c s i 0 h (Or.inl rfl)
    · rw [if_neg h0]
      exact ih (i + 1) _ (pageinv_exchange c s i 0 h (Or.inl rfl))

theorem pageinv_page_unmap (c : Consts) (s : VM) (addr max_size : Nat) (shm : Option Shm)
    (h : PageInv c s.g_pages) :
    PageInv c (_page_unmap c s addr max_size shm).state.g_pages := by
  unfold _page_unmap
  by_cases h1 : max_size = 0 ∨ (max_size ||| addr) % 4096 ≠ 0
  · rw [if_pos h1]
    exact h
  · rw [if_neg h1]
    cases hscan : page_unmap_scan c s.g_pages (max_size / 4096) (addr / 4096) 0 false with
    | none => exact h
    | some x =>
      obtain ⟨size, is_exec⟩ := x
      simp only []
      refine and_then_state (fun t : VM => PageInv c t.g_pages) (fun t : VM => PageInv c t.g_pages)
        _ _ _ (pageinv_page_unmap_clear c _ _ s h) (fun t ht => ht) ?_
      intro t _ ht
      show PageInv c (page_unmap_calls c t addr size shm is_exec).g_pages
      rw [page_unmap_calls_g_pages]
      exact ht

theorem pageinv_mark_guard (c : Consts) (s : VM) (addr size : Nat) (h : PageInv c s.g_pages) :
    PageInv c (mark_guard_pages c s addr size).state.g_pages := by
  unfold mark_guard_pages
  simp only []
  refine and_then_state (fun t : VM => PageInv c t.g_pages) (fun t : VM => PageInv c t.g_pages)
    _ _ _ ?_ (fun t ht => ht) ?_
  · rw [verify_state]
    exact pageinv_exchange c s _ _ h (Or.inr (Nat.and_self _))
  · intro t _ ht
    rw [verify_state]
    exact pageinv_exchange c t _ _ ht (Or.inr (Nat.and_self _))

theorem pageinv_clear_guard (c : Consts) (s : VM) (addr size : Nat) (h : PageInv c s.g_pages) :
    PageInv c (clear_guard_pages c s addr size).state.g_pages := by
  unfold clear_guard_pages
  simp only []
  refine and_then_state (fun t : VM => PageInv c t.g_pages) (fun t : VM => PageInv c t.g_pages)
    _ _ _ ?_ (fun t ht => ht) ?_
  · rw [verify_state]
    exact pageinv_exchange c s _ _ h (Or.inl rfl)
  · intro t _ ht
    rw [verify_state]
    exact pageinv_exchange c t _ _ ht (Or.inl rfl)

theorem pageinv_try_alloc (c : Consts) (b : Block) (s : VM) (addr flags size : Nat)
    (shm : Option Shm) (h : PageInv c s.g_pages) :
    PageInv c (b.try_alloc c s addr flags size shm).state.2.g_pages := by
  unfold Block.try_alloc
  by_cases hany : any_page_set s.g_pages
      (u32 (addr + size + 4294967295) / 4096 + 1 - addr / 4096) (addr / 4096) = true
  · rw [if_pos hany]
    exact h
  · rw [if_neg hany]
    simp only []
    refine and_then_state (fun t : VM => PageInv c t.g_pages) (fun x : Block × VM => PageInv c x.2.g_pages)
      _ _ _ ?_ (fun t ht => ht) ?_
    · by_cases hg : b.flags &&& 0x10 ≠ 0
      · rw [if_pos hg]
        exact pageinv_mark_guard c s addr size h
      · rw [if_neg hg]
        exact h
    · intro t _ ht
      refine and_then_state (fun t : VM => PageInv c t.g_pages) (fun x : Block × VM => PageInv c x.2.g_pages)
        _ _ _ (pageinv_page_map c t _ _ _ shm ht) (fun t ht => ht) ?_
      intro t2 _ ht2
      exact ht2

theorem pageinv_alloc_loop (c : Consts) (b : Block) (flags al size pflags : Nat)
    (shm : Option Shm) (fuel a : Nat) (s : VM) (h : PageInv c s.g_pages) :
    PageInv c (Block.alloc_loop c b flags al size pflags shm fuel a s).state.2.g_pages := by
  induction fuel generalizing a s with
  | zero => exact h
  | succ fuel ih =>
    unfold Block.alloc_loop
    by_cases hc : a + size ≤ b.addr + b.size
    · rw [if_pos hc]
      refine and_then_state (fun x : Block × VM => PageInv c x.2.g_pages) (fun x : Block × VM => PageInv c x.2.g_pages)
        _ _ _ (pageinv_try_alloc c b s a pflags size shm h) (fun t ht => ht) ?_
      intro x done hx
      cases done with
      | true =>
        rw [if_pos rfl]
        exact hx
      | false =>
        rw [if_neg (by decide)]
        exact ih _ _ hx
    · rw [if_neg hc]
      exact h

theorem pageinv_alloc (c : Consts) (b : Block) (s : VM) (orig al : Nat)
    (src : Option (Option Shm)) (flags : Nat) (h : PageInv c s.g_pages) :
    PageInv c (b.alloc c s orig al src flags).state.2.g_pages := by
  unfold Block.alloc
  simp only []
  generalize (if src.isNone = true then b.flags else flags) = fl
  split_ifs
  · exact h
  · exact h
  · split
    · exact h
    · exact pageinv_alloc_loop c b _ _ _ _ _ _ _ s h
    · exact pageinv_alloc_loop c b _ _ _ _ _ _ _ s h
    · exact pageinv_alloc_loop c b _ _ _ _ _ _ _ _ h

theorem pageinv_falloc (c : Consts) (b : Block) (s : VM) (addr orig : Nat)
    (src : Option (Option Shm)) (flags : Nat) (h : PageInv c s.g_pages) :
    PageInv c (b.falloc c s addr orig src flags).state.2.g_pages := by
  have hfin : ∀ (t : VM) (pf sz : Nat) (shm : Option Shm), PageInv c t.g_pages →
      PageInv c (b.falloc_finish c t addr pf sz shm).state.2.g_pages := by
    intro t pf sz shm ht
    unfold Block.falloc_finish
    refine and_then_state (fun x : Block × VM => PageInv c x.2.g_pages) (fun x : Block × VM => PageInv c x.2.g_pages)
      _ _ _ (pageinv_try_alloc c b t addr pf sz shm ht) (fun t ht => ht) ?_
    intro x done hx
    cases done with
    | true =>
      rw [if_pos rfl]
      exact hx
    | false =>
      rw [if_neg (by decide)]
      exact hx
  unfold Block.falloc
  simp only []
  generalize (if src.isNone = true then b.flags else flags) = fl
  split_ifs
  · exact h
  · split
    · exact h
    · exact hfin s _ _ _ h
    · exact hfin s _ _ _ h
    · exact hfin _ _ _ _ h

theorem pageinv_dealloc (c : Consts) (b : Block) (s : VM) (addr : Nat)
    (src : Option (Option Shm)) (h : PageInv c s.g_pages) :
    PageInv c (b.dealloc c s addr src).state.2.g_pages := by
  unfold Block.dealloc
  simp only []
  split
  · exact h
  · rename_i fsize fshm _
    unfold Block.dealloc_found
    simp only []
    by_cases hown : owner_mismatch src fshm = true
    · rw [if_pos hown]
      exact h
    · rw [if_neg hown]
      refine and_then_state (fun t : VM => PageInv c t.g_pages) (fun x : Block × VM => PageInv c x.2.g_pages)
        _ _ _ ?_ (fun t ht => ht) ?_
      · by_cases hg : b.flags &&& 0x10 ≠ 0
        · rw [if_pos hg]
          exact pageinv_clear_guard c s _ _ h
        · rw [if_neg hg]
          exact h
      · intro t _ ht
        refine and_then_state (fun t : VM => PageInv c t.g_pages) (fun x : Block × VM => PageInv c x.2.g_pages)
          _ _ _ (pageinv_page_unmap c t _ _ _ ht) (fun t ht => ht) ?_
        intro t2 r ht2
        refine and_then_state (fun x : Block × VM => PageInv c x.2.g_pages) (fun x : Block × VM => PageInv c x.2.g_pages)
          _ _ _ ?_ (fun t ht => ht) ?_
        · rw [verify_state]
          exact ht2
        · intro x _ hx
          exact hx

theorem testBit_lt_8 (a i : Nat) (ha : a < 256) (hi : a.testBit i = true) : i < 8 := by
  by_contra hge
  have h1 : a < 2 ^ i :=
    Nat.lt_of_lt_of_le ha (by
      have : (256 : Nat) = 2 ^ 8 := by norm_num
      rw [this]
      exact Nat.pow_le_pow_right (by norm_num) (by omega))
  rw [Nat.testBit_lt_two_pow h1] at hi
  exact absurd hi (by decide)

theorem u8_not_testBit (x i : Nat) :
    (u8_not x).testBit i = (decide (i < 8) ^^ x.testBit i) := by
  unfold u8_not
  have : (255 : Nat) = 2 ^ 8 - 1 := by norm_num
  rw [Nat.testBit_xor, this, Nat.testBit_two_pow_sub_one]

/-- The value that `page_protect` stores keeps the allocated bits when each of
them that is to be cleared is also to be set. -/
theorem protect_keeps_allocated (a old set clear : Nat) (ha : a < 256)
    (hold : old &&& a = a) (hcl : clear &&& a &&& set = clear &&& a) :
    ((old ||| (set &&& u8_not (set &&& clear)))
      &&& u8_not (clear &&& u8_not (set &&& clear))) &&& a = a := by
  apply Nat.eq_of_testBit_eq
  intro i
  have h1 := congrArg (fun z => Nat.testBit z i) hold
  have h2 := congrArg (fun z => Nat.testBit z i) hcl
  simp only [Nat.testBit_and, Nat.testBit_or, u8_not_testBit] at h1 h2 ⊢
  cases hai : a.testBit i
  · simp
  · have h8 : decide (i < 8) = true := decide_eq_true (testBit_lt_8 a i ha hai)
    rw [hai] at h1 h2
    rw [h8]
    cases ho : old.testBit i <;> cases hs : set.testBit i <;> cases hc : clear.testBit i <;>
      simp [ho, hs, hc] at h1 h2 ⊢

theorem page_protect_test_eq_true (c : Consts) (pages : Pages) (ft : Nat) (n i : Nat) :
    page_protect_test c pages ft n i = true ↔
      ∀ j, i ≤ j → j < i + n → pages j &&& ft = ft ||| c.page_allocated := by
  induction n generalizing i with
  | zero =>
    simp only [page_protect_test, true_iff]
    intro j h1 h2
    omega
  | succ n ih =>
    simp only [page_protect_test]
    by_cases h : pages i &&& ft = ft ||| c.page_allocated
    · simp only [h, ne_eq, not_true_eq_false, if_false, ih]
      constructor
      · intro hj j h1 h2
        by_cases hji : j = i
        · subst hji
          exact h
        · exact hj j (by omega) (by omega)
      · intro hj j h1 h2
        exact hj j (by omega) (by omega)
    · simp only [h, ne_eq, not_false_eq_true, if_true, Bool.false_eq_true, false_iff]
      intro hj
      exact h (hj i (Nat.le_refl i) (by omega))

/-- The page table after the second loop of `page_protect`. -/
theorem page_protect_loop_g_pages (c : Consts) (fs fc last : Nat) (n i start sv : Nat) (s : VM)
    (j : Nat) :
    (page_protect_loop c fs fc last n i start sv s).g_pages j =
      if i ≤ j ∧ j < i + n ∧ j < last then (s.g_pages j ||| fs) &&& u8_not fc
      else s.g_pages j := by
  induction n generalizing i start sv s with
  | zero =>
    unfold page_protect_loop
    rw [if_neg (by omega)]
  | succ n ih =>
    unfold page_protect_loop
    simp only []
    have key : ∀ (t : VM), t.g_pages = (if i < last then s.exchange i
        ((s.g_pages i ||| fs) &&& u8_not fc) else s).g_pages →
        ∀ st v, (page_protect_loop c fs fc last n (i + 1) st v t).g_pages j =
          if i ≤ j ∧ j < i + (n + 1) ∧ j < last then (s.g_pages j ||| fs) &&& u8_not fc
          else s.g_pages j := by
      intro t ht st v
      rw [ih, ht]
      by_cases hil : i < last
      · rw [if_pos hil, exchange_g_pages]
        by_cases hji : j = i
        · subst hji
          rw [if_neg (by omega), if_pos rfl, if_pos ⟨Nat.le_refl _, by omega, hil⟩]
        · rw [if_neg hji]
          by_cases hr : i + 1 ≤ j ∧ j < i + 1 + n ∧ j < last
          · rw [if_pos hr, if_pos (by omega)]
          · rw [if_neg hr, if_neg (by omega)]
      · rw [if_neg hil]
        rw [if_neg (by omega), if_neg (by omega)]
    by_cases hnv : (if i < last then (s.g_pages i ||| fs) &&& u8_not fc
        &&& (c.page_readable ||| c.page_writable) else 255) ≠ sv
    · rw [if_pos hnv]
      apply key
      by_cases hps : u32 ((i - start) * 4096) ≠ 0
      · rw [if_pos hps, emit_g_pages]
      · rw [if_neg hps]
    · rw [if_neg hnv]
      exact key _ rfl _ _


theorem pageinv_page_protect (c : Consts) (s : VM) (addr size ft fs fc : Nat)
    (h : PageInv c s.g_pages) (hA : c.page_allocated < 256)
    (hcl : fc &&& c.page_allocated &&& fs = fc &&& c.page_allocated) :
    PageInv c (page_protect c s addr size ft fs fc).state.g_pages := by
  unfold page_protect
  simp only []
  by_cases h1 : size = 0 ∨ (size ||| addr) % 4096 ≠ 0
  · rw [if_pos h1]
    exact h
  rw [if_neg h1]
  by_cases h2 : ¬ page_protect_test c s.g_pages (ft ||| c.page_allocated) (size / 4096)
      (addr / 4096) = true
  · rw [if_pos h2]
    exact h
  rw [if_neg h2]
  by_cases h3 : fs &&& u8_not (fs &&& fc) = 0 ∧ fc &&& u8_not (fs &&& fc) = 0
  · rw [if_pos h3]
    exact h
  rw [if_neg h3]
  rw [not_not, page_protect_test_eq_true] at h2
  rw [state_ok]
  intro j
  rw [page_protect_loop_g_pages]
  by_cases hr : addr / 4096 ≤ j ∧ j < addr / 4096 + (size / 4096 + 1)
      ∧ j < addr / 4096 + size / 4096
  · rw [if_pos hr]
    right
    have hold : s.g_pages j &&& c.page_allocated = c.page_allocated := by
      have := h2 j hr.1 hr.2.2
      rw [Nat.lor_assoc, Nat.or_self, and_or_eq_iff] at this
      exact this.1
    exact protect_keeps_allocated c.page_allocated (s.g_pages j) fs fc hA hold hcl
  · rw [if_neg hr]
    exact h j

theorem one_page_vm_inv : PageInv ps3Consts one_page_vm.g_pages := by
  intro i
  by_cases h : i = 16
  · right
    subst h
    decide
  · left
    show (if i = 16 then 131 else 0) = 0
    rw [if_neg h]

/-- C20, counterexample: `page_protect` with `page_allocated` in `flags_clear`
and not in `flags_set` leaves page 16 with the flags 3, which are neither zero
nor contain the allocated bit, although the invariant held before. -/
theorem page_protect_breaks_invariant :
    PageInv ps3Consts one_page_vm.g_pages ∧
    (page_protect ps3Consts one_page_vm 0x10000 0x1000 0 0 128).value = some true ∧
    ¬ PageInv ps3Consts (page_protect ps3Consts one_page_vm 0x10000 0x1000 0 0 128).state.g_pages := by
  refine ⟨one_page_vm_inv, by decide, ?_⟩
  intro h
  have h16 := h 16
  revert h16
  decide

/-- C20, amended: the page invariant (a page has no flags or has the allocated
bits) is preserved by every call of `alloc`, `falloc` and `dealloc`, whatever
the outcome, and by every call of `page_protect` in which each allocated bit of
`flags_clear` is also in `flags_set`. -/
theorem page_invariant_preserved (c : Consts) (s : VM) (h : PageInv c s.g_pages)
    (hA : c.page_allocated < 256) :
    (∀ (b : Block) (orig al : Nat) (src : Option (Option Shm)) (flags : Nat),
      PageInv c (b.alloc c s orig al src flags).state.2.g_pages) ∧
    (∀ (b : Block) (addr orig : Nat) (src : Option (Option Shm)) (flags : Nat),
      PageInv c (b.falloc c s addr orig src flags).state.2.g_pages) ∧
    (∀ (b : Block) (addr : Nat) (src : Option (Option Shm)),
      PageInv c (b.dealloc c s addr src).state.2.g_pages) ∧
    (∀ addr size flags_test flags_set flags_clear : Nat,
      flags_clear &&& c.page_allocated &&& flags_set = flags_clear &&& c.page_allocated →
      PageInv c (page_protect c s addr size flags_test flags_set flags_clear).state.g_pages) :=
  ⟨fun b orig al src flags => pageinv_alloc c b s orig al src flags h,
   fun b addr orig src flags => pageinv_falloc c b s addr orig src flags h,
   fun b addr src => pageinv_dealloc c b s addr src h,
   fun addr size ft fs fc hcl => pageinv_page_protect c s addr size ft fs fc h hA hcl⟩

/-- Witness of C20: clearing the writable flag of the one mapped page. -/
theorem page_invariant_preserved_witness :
    (page_protect ps3Consts one_page_vm 0x10000 0x1000 0 0 2).state.g_pages 16 = 129 ∧
    PageInv ps3Consts (page_protect ps3Consts one_page_vm 0x10000 0x1000 0 0 2).state.g_pages :=
  ⟨by decide,
   (page_invariant_preserved ps3Consts one_page_vm one_page_vm_inv (by decide)).2.2.2
    0x10000 0x1000 0 0 2 (by decide)⟩

/-! ## The order of the calls and the page-table stores -/

theorem mem_ite_singleton {α : Type} (p : Prop) [Decidable p] (x e : α)
    (h : e ∈ (if p then [x] else [])) : e = x := by
  by_cases hp : p
  · rw [if_pos hp] at h
    exact List.mem_singleton.1 h
  · rw [if_neg hp] at h
    cases h

theorem page_stores_no_call (v : Nat) (n i : Nat) :
    ∀ e ∈ page_stores v n i, Event.is_page_store e = true := by
  induction n generalizing i with
  | zero =>
    intro e he
    cases he
  | succ n ih =>
    intro e he
    rw [page_stores] at he
    rcases List.mem_cons.1 he with h | h
    · rw [h]
      rfl
    · exact ih (i + 1) e h

theorem page_map_set_trace (v : Nat) (n i : Nat) (s s1 : VM)
    (h : page_map_set v n i s = Res.ok s1 ()) :
    s1.trace = s.trace ++ page_stores v n i := by
  induction n generalizing i s with
  | zero =>
    rw [page_map_set] at h
    injection h with h
    rw [← h, page_stores, List.append_nil]
  | succ n ih =>
    rw [page_map_set] at h
    by_cases hold : s.g_pages i ≠ 0
    · rw [if_pos hold] at h
      cases h
    · rw [if_neg hold] at h
      rw [ih (i + 1) _ h, page_stores]
      show (s.trace ++ [_]) ++ _ = _
      rw [List.append_assoc]
      rfl

theorem page_unmap_clear_trace (c : Consts) (n i : Nat) (s s1 : VM)
    (h : page_unmap_clear c n i s = Res.ok s1 ()) :
    s1.trace = s.trace ++ page_stores 0 n i := by
  induction n generalizing i s with
  | zero =>
    rw [page_unmap_clear] at h
    injection h with h
    rw [← h, page_stores, List.append_nil]
  | succ n ih =>
    rw [page_unmap_clear] at h
    by_cases hold : s.g_pages i &&& c.page_allocated = 0
    · rw [if_pos hold] at h
      cases h
    · rw [if_neg hold] at h
      rw [ih (i + 1) _ h, page_stores]
      show (s.trace ++ [_]) ++ _ = _
      rw [List.append_assoc]
      rfl

/-- The calls that `_page_map` makes between its two loops. -/
theorem page_map_calls_trace (c : Consts) (s : VM) (addr flags size : Nat) (shm : Option Shm) :
    (page_map_calls c s addr flags size shm).trace = s.trace ++
      ((if c.rsx_present = true then [Event.rsx_mapped addr size] else []) ++
       [match shm with
        | none => Event.memory_protect addr size Protection.rw
        | some h => Event.shm_map h.id addr] ++
       (if flags &&& c.page_executable ≠ 0 then [Event.exec_commit addr size] else []) ++
       (if c.ppu_debug = true then [Event.stat_commit addr size] else [])) := by
  unfold page_map_calls
  cases shm with
  | none =>
    simp only []
    split_ifs <;> simp [VM.emit]
  | some h =>
    simp only []
    split_ifs <;> simp [VM.emit, VM.set_shareable]

/-- The calls that `_page_unmap` makes after its two loops. -/
theorem page_unmap_calls_trace (c : Consts) (s : VM) (addr size : Nat) (shm : Option Shm)
    (is_exec : Bool) :
    (page_unmap_calls c s addr size shm is_exec).trace = s.trace ++
      ((if c.rsx_present = true then [Event.rsx_unmapped addr size] else []) ++
       (match shm with
        | none => [Event.memory_protect addr size Protection.no, Event.memset_zero addr size]
        | some h => [Event.shm_unmap h.id addr]) ++
       (if is_exec = true then [Event.exec_decommit addr size] else []) ++
       (if c.ppu_debug = true then [Event.stat_decommit addr size] else [])) := by
  unfold page_unmap_calls
  cases shm with
  | none =>
    simp only []
    split_ifs <;> simp [VM.emit, VM.set_shareable]
  | some h =>
    simp only []
    split_ifs <;> simp [VM.emit, VM.set_shareable]

/-- C21: in every call of `_page_map` that returns, the trace grows by the
calls to the render thread and the operating system followed by the stores to
the page-table entries of the range, and by nothing else: the notification
`on_notify_memory_mapped` (made when a render thread exists) and the call that
maps or unprotects the memory come before the first store of the allocated
flags, and there is at least one such store. -/
theorem page_map_order (c : Consts) (s s1 : VM) (addr flags size : Nat) (shm : Option Shm)
    (h : _page_map c s addr flags size shm = Res.ok s1 ()) :
    ∃ calls, s1.trace = s.trace ++ calls
        ++ page_stores (flags ||| c.page_allocated) (size / 4096) (addr / 4096) ∧
      (∀ e ∈ calls, Event.is_page_store e = false) ∧
      (c.rsx_present = true → Event.rsx_mapped addr size ∈ calls) ∧
      (match shm with
        | none => Event.memory_protect addr size Protection.rw
        | some hd => Event.shm_map hd.id addr) ∈ calls ∧
      1 ≤ size / 4096 := by
  unfold _page_map at h
  by_cases h1 : size = 0 ∨ (size ||| addr) % 4096 ≠ 0 ∨ flags &&& c.page_allocated ≠ 0
  · rw [if_pos h1] at h
    cases h
  rw [if_neg h1] at h
  by_cases h2 : any_page_set s.g_pages (size / 4096) (addr / 4096) = true
  · rw [if_pos h2] at h
    cases h
  rw [if_neg h2] at h
  have ht := page_map_set_trace _ _ _ _ _ h
  rw [page_map_calls_trace] at ht
  refine ⟨_, ht, ?_, ?_, ?_, ?_⟩
  · intro e he
    rcases List.mem_append.1 he with he | he
    · rcases List.mem_append.1 he with he | he
      · rcases List.mem_append.1 he with he | he
        · rw [mem_ite_singleton _ _ _ he]
          rfl
        · rw [List.mem_singleton.1 he]
          cases shm <;> rfl
      · rw [mem_ite_singleton _ _ _ he]
        rfl
    · rw [mem_ite_singleton _ _ _ he]
      rfl
  · intro hr
    rw [if_pos hr]
    simp
  · cases shm <;> simp
  · have hs : size % 4096 = 0 := by
      have := (or_mod_4096 size addr).1 (by
        by_contra hne
        exact h1 (Or.inr (Or.inl hne)))
      exact this.1
    have : size ≠ 0 := fun h0 => h1 (Or.inl h0)
    omega

/-- Witness of C21: mapping one page at `0x10000` with a render thread
present. -/
theorem page_map_order_witness :
    ∃ calls, (_page_map rsxConsts VM.empty 0x10000 3 0x1000 none).state.trace =
        VM.empty.trace ++ calls
          ++ page_stores (3 ||| rsxConsts.page_allocated) (0x1000 / 4096) (0x10000 / 4096) ∧
      (∀ e ∈ calls, Event.is_page_store e = false) ∧
      (rsxConsts.rsx_present = true → Event.rsx_mapped 0x10000 0x1000 ∈ calls) ∧
      Event.memory_protect 0x10000 0x1000 Protection.rw ∈ calls ∧
      1 ≤ 0x1000 / 4096 :=
  page_map_order rsxConsts VM.empty (_page_map rsxConsts VM.empty 0x10000 3 0x1000 none).state
    0x10000 3 0x1000 none (by rfl)

/-- C22, counterexample: unmapping the one mapped page with a render thread
present; the store that clears the page-table entry is the first event, before
the notification of the render thread and the calls that unmap the memory. -/
theorem page_unmap_clears_first :
    (_page_unmap rsxConsts one_page_vm 0x10000 0x1000 none).value = some 0x1000 ∧
    (_page_unmap rsxConsts one_page_vm 0x10000 0x1000 none).state.trace =
      [Event.page_flags 16 0, Event.rsx_unmapped 0x10000 0x1000,
       Event.memory_protect 0x10000 0x1000 Protection.no,
       Event.memset_zero 0x10000 0x1000] := by
  decide

/-- C22, amended: in every call of `_page_unmap` that returns, the trace grows
by the stores that clear the page-table entries of the range followed by the
calls to the render thread and the operating system, and by nothing else: the
flags are cleared first, the notification `on_notify_memory_unmapped` (made
when a render thread exists) is the first call, and the call that unmaps the
memory and the decommits follow it. -/
theorem page_unmap_order (c : Consts) (s s1 : VM) (addr max_size n : Nat) (shm : Option Shm)
    (h : _page_unmap c s addr max_size shm = Res.ok s1 n) :
    ∃ calls, s1.trace = s.trace ++ page_stores 0 (n / 4096) (addr / 4096) ++ calls ∧
      (∀ e ∈ calls, Event.is_page_store e = false) ∧
      (c.rsx_present = true → ∃ rest, calls = Event.rsx_unmapped addr n :: rest) ∧
      (match shm with
        | none => Event.memory_protect addr n Protection.no
        | some hd => Event.shm_unmap hd.id addr) ∈ calls := by
  unfold _page_unmap at h
  by_cases h1 : max_size = 0 ∨ (max_size ||| addr) % 4096 ≠ 0
  · rw [if_pos h1] at h
    cases h
  rw [if_neg h1] at h
  cases hscan : page_unmap_scan c s.g_pages (max_size / 4096) (addr / 4096) 0 false with
  | none =>
    rw [hscan] at h
    cases h
  | some r =>
    obtain ⟨size, is_exec⟩ := r
    rw [hscan] at h
    simp only [] at h
    obtain ⟨s0, v0, hclear, hk⟩ := and_then_eq_ok _ _ _ _ _ h
    injection hk with hk1 hk2
    subst hk2
    have ht := page_unmap_clear_trace c _ _ _ _ hclear
    have ht2 := page_unmap_calls_trace c s0 addr size shm is_exec
    rw [hk1, ht] at ht2
    refine ⟨_, ht2, ?_, ?_, ?_⟩
    · intro e he
      rcases List.mem_append.1 he with he | he
      · rcases List.mem_append.1 he with he | he
        · rcases List.mem_append.1 he with he | he
          · rw [mem_ite_singleton _ _ _ he]
            rfl
          · cases shm with
            | none =>
              rcases List.mem_cons.1 he with he | he
              · rw [he]
                rfl
              · rw [List.mem_singleton.1 he]
                rfl
            | some hd =>
              rw [List.mem_singleton.1 he]
              rfl
        · rw [mem_ite_singleton _ _ _ he]
          rfl
      · rw [mem_ite_singleton _ _ _ he]
        rfl
    · intro hr
      rw [if_pos hr]
      exact ⟨_, rfl⟩
    · cases shm <;> simp

/-- Witness of C22: unmapping the one mapped page with a render thread
present. -/
theorem page_unmap_order_witness :
    ∃ calls, (_page_unmap rsxConsts one_page_vm 0x10000 0x1000 none).state.trace =
        one_page_vm.trace ++ page_stores 0 (0x1000 / 4096) (0x10000 / 4096) ++ calls ∧
      (∀ e ∈ calls, Event.is_page_store e = false) ∧
      (rsxConsts.rsx_present = true → ∃ rest, calls = Event.rsx_unmapped 0x10000 0x1000 :: rest) ∧
      Event.memory_protect 0x10000 0x1000 Protection.no ∈ calls :=
  page_unmap_order rsxConsts one_page_vm
    (_page_unmap rsxConsts one_page_vm 0x10000 0x1000 none).state 0x10000 0x1000 0x1000 none
    (by rfl)

/-! ## Invalid alignments -/

/-- A value that passes the power-of-two test of `alloc` is zero or a power of
two. -/
theorem pow2_of_check (al : Nat) (h : al = 0x80000000 >>> countl_zero al) :
    al = 0 ∨ ∃ k, al = 2 ^ k := by
  have hk : countl_zero al ≤ 32 := Nat.sub_le _ _
  generalize countl_zero al = k at h hk
  interval_cases k
  all_goals first
    | exact Or.inl (by simpa using h)
    | (right; first
        | exact ⟨31, by simpa using h⟩ | exact ⟨30, by simpa using h⟩
        | exact ⟨29, by simpa using h⟩ | exact ⟨28, by simpa using h⟩
        | exact ⟨27, by simpa using h⟩ | exact ⟨26, by simpa using h⟩
        | exact ⟨25, by simpa using h⟩ | exact ⟨24, by simpa using h⟩
        | exact ⟨23, by simpa using h⟩ | exact ⟨22, by simpa using h⟩
        | exact ⟨21, by simpa using h⟩ | exact ⟨20, by simpa using h⟩
        | exact ⟨19, by simpa using h⟩ | exact ⟨18, by simpa using h⟩
        | exact ⟨17, by simpa using h⟩ | exact ⟨16, by simpa using h⟩
        | exact ⟨15, by simpa using h⟩ | exact ⟨14, by simpa using h⟩
        | exact ⟨13, by simpa using h⟩ | exact ⟨12, by simpa using h⟩
        | exact ⟨11, by simpa using h⟩ | exact ⟨10, by simpa using h⟩
        | exact ⟨9, by simpa using h⟩ | exact ⟨8, by simpa using h⟩
        | exact ⟨7, by simpa using h⟩ | exact ⟨6, by simpa using h⟩
        | exact ⟨5, by simpa using h⟩ | exact ⟨4, by simpa using h⟩
        | exact ⟨3, by simpa using h⟩ | exact ⟨2, by simpa using h⟩
        | exact ⟨1, by simpa using h⟩ | exact ⟨0, by simpa using h⟩)

theorem min_page_size_pos (flags : Nat) : 0x1000 ≤ min_page_size flags := by
  unfold min_page_size
  split_ifs <;> omega

/-- C23, amended: `block_t::alloc` raises a fatal error whenever `align` is
below the minimum page size of the flags in force (the flags of the block when
`src` is null, the flags passed when it is not) or is not a power of two, for
every `orig_size`; the block and the global state are then as before the
call. -/
theorem alloc_invalid_align (c : Consts) (b : Block) (s : VM) (orig_size al : Nat)
    (src : Option (Option Shm)) (flags : Nat)
    (h : al < min_page_size (if src.isNone then b.flags else flags) ∨ ¬ ∃ k, al = 2 ^ k) :
    b.alloc c s orig_size al src flags = Res.fatal (b, s) := by
  have hcond : al < min_page_size (if src.isNone then b.flags else flags)
      ∨ al ≠ 0x80000000 >>> countl_zero al := by
    by_cases h1 : al < min_page_size (if src.isNone then b.flags else flags)
    · exact Or.inl h1
    · right
      intro he
      rcases pow2_of_check al he with h0 | hp
      · have := min_page_size_pos (if src.isNone then b.flags else flags)
        omega
      · rcases h with h | h
        · exact h1 h
        · exact h hp
  unfold Block.alloc
  simp only []
  rw [if_pos hcond]

/-- Witness of C23: the alignment `0x1000` in the block "SPU reserved", whose
minimum page size is `0x10000`, with `orig_size = 0`. -/
theorem alloc_invalid_align_witness :
    spu_block.alloc ps3Consts VM.empty 0 0x1000 none 0 = Res.fatal (spu_block, VM.empty) :=
  alloc_invalid_align ps3Consts spu_block VM.empty 0 0x1000 none 0 (Or.inl (by decide))

/-! ## `check_addr` on an empty range -/

/-- C29, counterexample: with no page mapped, `check_addr(1, 0, 0)` tests
page 0 and returns `false`, and so does `check_addr(0, 0, 0)`. -/
theorem check_addr_empty_range_false :
    check_addr ps3Consts VM.empty.g_pages 1 0 0 = false ∧
    check_addr ps3Consts VM.empty.g_pages 0 0 0 = false := by
  decide

/-- C29, amended: `check_addr(addr, 0, flags)` returns `true` for every page
table when `addr` is a non-zero multiple of 4096; when `addr` is not a
multiple of 4096 it returns whether the page of `addr` has the allocated bits
and `flags`; for `addr = 0` it returns whether every page of the address space
has them. -/
theorem check_addr_empty_range (c : Consts) (pages : Pages) (addr flags : Nat)
    (haddr : addr < 4294967296) :
    (1 ≤ addr → addr % 4096 = 0 → check_addr c pages addr 0 flags = true) ∧
    (addr % 4096 ≠ 0 → (check_addr c pages addr 0 flags = true ↔
      pages (addr / 4096) &&& (flags ||| c.page_allocated) = flags ||| c.page_allocated)) ∧
    (addr = 0 → (check_addr c pages addr 0 flags = true ↔
      ∀ j, j < 0x100000 →
        pages j &&& (flags ||| c.page_allocated) = flags ||| c.page_allocated)) := by
  have hov : ¬ (u32 (addr + 0) < addr ∧ u32 (addr + 0) ≠ 0) := by
    unfold u32
    omega
  have hmax : 1 ≤ addr → u32 (addr + 0 + 4294967295) / 4096 = (addr - 1) / 4096 := by
    intro h
    unfold u32
    have : (addr + 0 + 4294967295) % 4294967296 = addr - 1 := by omega
    rw [this]
  refine ⟨?_, ?_, ?_⟩
  · intro h1 h4
    unfold check_addr
    rw [if_neg hov]
    simp only []
    rw [hmax h1, check_loop_eq_true]
    intro j hj1 hj2
    omega
  · intro h4
    have h1 : 1 ≤ addr := by omega
    unfold check_addr
    rw [if_neg hov]
    simp only []
    rw [hmax h1, check_loop_eq_true]
    have hn : (addr - 1) / 4096 + 1 - addr / 4096 = 1 := by omega
    rw [hn]
    constructor
    · intro h
      exact h (addr / 4096) (Nat.le_refl _) (by omega)
    · intro h j hj1 hj2
      have : j = addr / 4096 := by omega
      rw [this]
      exact h
  · intro h0
    subst h0
    unfold check_addr
    rw [if_neg hov]
    simp only []
    rw [check_loop_eq_true]
    have hn : u32 (0 + 0 + 4294967295) / 4096 + 1 - 0 / 4096 = 0x100000 := by decide
    rw [hn]
    constructor
    · intro h j hj
      exact h j (by omega) (by omega)
    · intro h j _ hj
      exact h j (by omega)

/-- Witness of C29: the address `0x10000` in a page table without any mapped
page. -/
theorem check_addr_empty_range_witness :
    check_addr ps3Consts VM.empty.g_pages 0x10000 0 0 = true :=
  (check_addr_empty_range ps3Consts VM.empty.g_pages 0x10000 0 (by decide)).1
    (by decide) (by decide)

/-! ## The result of `page_protect` -/

theorem and_u8_not_and (x y : Nat) : x &&& u8_not (x &&& y) = x &&& u8_not y := by
  apply Nat.eq_of_testBit_eq
  intro i
  simp only [Nat.testBit_and, u8_not_testBit]
  cases x.testBit i <;> cases y.testBit i <;> cases decide (i < 8) <;> rfl

theorem and_u8_not_and_right (x y : Nat) : y &&& u8_not (x &&& y) = y &&& u8_not x := by
  rw [Nat.land_comm x y]
  exact and_u8_not_and y x

theorem or_zero_and_u8_not_zero (x : Nat) (hx : x < 256) : (x ||| 0) &&& u8_not 0 = x := by
  apply Nat.eq_of_testBit_eq
  intro i
  simp only [Nat.testBit_and, Nat.testBit_or, u8_not_testBit, Nat.zero_testBit, Bool.or_false,
    Bool.xor_false]
  by_cases hi : i < 8
  · simp [hi]
  · have : x.testBit i = false := by
      apply Nat.testBit_lt_two_pow
      calc x < 256 := hx
        _ = 2 ^ 8 := by norm_num
        _ ≤ 2 ^ i := Nat.pow_le_pow_right (by norm_num) (by omega)
    simp [hi, this]

/-- C30: `page_protect` raises a fatal error when `size = 0` or `addr` or
`size` is not a multiple of 4096.  Otherwise, when some page of the range lacks
the allocated bits or a bit of `flags_test`, it returns `false` and the state
is unchanged; when every page of the range has them, it returns `true`, every
page of the range gets the flags
`(old | (flags_set & ~flags_clear)) & ~(flags_clear & ~flags_set)` and every
other page keeps its flags. -/
theorem page_protect_spec (c : Consts) (s : VM) (addr size flags_test flags_set flags_clear : Nat)
    (hbytes : ∀ j, s.g_pages j < 256) :
    ((size = 0 ∨ addr % 4096 ≠ 0 ∨ size % 4096 ≠ 0) →
      page_protect c s addr size flags_test flags_set flags_clear = Res.fatal s) ∧
    (1 ≤ size → addr % 4096 = 0 → size % 4096 = 0 →
      ((∃ j, addr / 4096 ≤ j ∧ j < addr / 4096 + size / 4096 ∧
          (s.g_pages j &&& c.page_allocated ≠ c.page_allocated
            ∨ s.g_pages j &&& flags_test ≠ flags_test)) →
        page_protect c s addr size flags_test flags_set flags_clear = Res.ok s false) ∧
      ((∀ j, addr / 4096 ≤ j → j < addr / 4096 + size / 4096 →
          s.g_pages j &&& c.page_allocated = c.page_allocated
            ∧ s.g_pages j &&& flags_test = flags_test) →
        ∃ s1, page_protect c s addr size flags_test flags_set flags_clear = Res.ok s1 true ∧
          ∀ j, s1.g_pages j =
            if addr / 4096 ≤ j ∧ j < addr / 4096 + size / 4096 then
              (s.g_pages j ||| (flags_set &&& u8_not flags_clear))
                &&& u8_not (flags_clear &&& u8_not flags_set)
            else s.g_pages j)) := by
  have htest : page_protect_test c s.g_pages (flags_test ||| c.page_allocated) (size / 4096)
      (addr / 4096) = true ↔
      ∀ j, addr / 4096 ≤ j → j < addr / 4096 + size / 4096 →
        s.g_pages j &&& c.page_allocated = c.page_allocated
          ∧ s.g_pages j &&& flags_test = flags_test := by
    rw [page_protect_test_eq_true]
    constructor
    · intro h j h1 h2
      have := h j h1 h2
      rw [Nat.lor_assoc, Nat.or_self, and_or_eq_iff] at this
      exact this
    · intro h j h1 h2
      rw [Nat.lor_assoc, Nat.or_self, and_or_eq_iff]
      exact h j h1 h2
  refine ⟨?_, ?_⟩
  · intro h
    have h1 : size = 0 ∨ (size ||| addr) % 4096 ≠ 0 := by
      by_cases h0 : size = 0
      · exact Or.inl h0
      · right
        intro hz
        have := (or_mod_4096 size addr).1 hz
        rcases h with h | h | h
        · exact h0 h
        · exact h this.2
        · exact h this.1
    unfold page_protect
    rw [if_pos h1]
  · intro hs ha4 hs4
    have h1 : ¬ (size = 0 ∨ (size ||| addr) % 4096 ≠ 0) := by
      have := (or_mod_4096 size addr).2 ⟨hs4, ha4⟩
      intro h
      rcases h with h | h
      · omega
      · exact h this
    refine ⟨?_, ?_⟩
    · rintro ⟨j, hj1, hj2, hj⟩
      have h2 : ¬ page_protect_test c s.g_pages (flags_test ||| c.page_allocated) (size / 4096)
          (addr / 4096) = true := by
        intro ht
        have := htest.1 ht j hj1 hj2
        rcases hj with hj | hj
        · exact hj this.1
        · exact hj this.2
      unfold page_protect
      simp only []
      rw [if_neg h1, if_pos h2]
    · intro hall
      have h2 : ¬ ¬ page_protect_test c s.g_pages (flags_test ||| c.page_allocated)
          (size / 4096) (addr / 4096) = true := not_not.2 (htest.2 hall)
      unfold page_protect
      simp only []
      rw [if_neg h1, if_neg h2]
      by_cases h3 : flags_set &&& u8_not (flags_set &&& flags_clear) = 0
          ∧ flags_clear &&& u8_not (flags_set &&& flags_clear) = 0
      · rw [if_pos h3]
        refine ⟨s, rfl, ?_⟩
        intro j
        rw [← and_u8_not_and flags_set flags_clear,
          ← and_u8_not_and_right flags_set flags_clear, h3.1, h3.2,
          or_zero_and_u8_not_zero _ (hbytes j)]
        rw [ite_self]
      · rw [if_neg h3]
        refine ⟨_, rfl, ?_⟩
        intro j
        rw [page_protect_loop_g_pages, and_u8_not_and, and_u8_not_and_right]
        by_cases hr : addr / 4096 ≤ j ∧ j < addr / 4096 + size / 4096
        · rw [if_pos hr, if_pos ⟨hr.1, by omega, hr.2⟩]
        · rw [if_neg hr, if_neg (fun h => hr ⟨h.1, h.2.2⟩)]

/-- Witness of C30: clearing the writable flag of the one mapped page. -/
theorem page_protect_spec_witness :
    ∃ s1, page_protect ps3Consts one_page_vm 0x10000 0x1000 1 0 2 = Res.ok s1 true ∧
      ∀ j, s1.g_pages j =
        if 0x10000 / 4096 ≤ j ∧ j < 0x10000 / 4096 + 0x1000 / 4096 then
          (one_page_vm.g_pages j ||| (0 &&& u8_not 2)) &&& u8_not (2 &&& u8_not 0)
        else one_page_vm.g_pages j :=
  ((page_protect_spec ps3Consts one_page_vm 0x10000 0x1000 1 0 2
    (fun j => by
      show (if j = 16 then 131 else 0) < 256
      split_ifs <;> decide)).2 (by decide) (by decide) (by decide)).2
    (fun j h1 h2 => by
      have hj : j = 16 := by omega
      subst hj
      decide)

/-! ## The alignment of the address of `falloc` -/

/-- C27, counterexample: the block "SPU reserved" has no flag `0x100`, so its
minimum page size is `0x10000`; `falloc(0xE0001000, 0x10000)` succeeds at an
address that is no multiple of `0x10000` and maps the page `0xE0001`. -/
theorem falloc_4k_address :
    min_page_size spu_block.flags = 0x10000 ∧
    0xE0001000 % 0x10000 ≠ 0 ∧
    (spu_block.falloc ps3Consts VM.empty 0xE0001000 0x10000 none 0).value = some 0xE0001000 ∧
    (spu_block.falloc ps3Consts VM.empty 0xE0001000 0x10000 none 0).state.2.g_pages 0xE0001
      = 195 := by
  decide

/-- In a block without guard pages `try_alloc` at an address that is no
multiple of 4096 finds a page of the range in use, or raises the fatal error
of `_page_map`; the block and the state are unchanged. -/
theorem try_alloc_misaligned (c : Consts) (b : Block) (s : VM) (addr pflags size : Nat)
    (shm : Option Shm) (hng : b.flags &&& 0x10 = 0) (haddr : addr < 4294967296)
    (ha4 : addr % 4096 ≠ 0) :
    b.try_alloc c s addr pflags size shm = Res.ok (b, s) false ∨
    b.try_alloc c s addr pflags size shm = Res.fatal (b, s) := by
  have h1 : guard_off b.flags 0x1000 = 0 := by
    unfold guard_off; rw [if_neg (not_not.2 hng)]
  have hpa : u32 (addr + 0) = addr := by
    unfold u32
    omega
  unfold Block.try_alloc
  by_cases hany : any_page_set s.g_pages (u32 (addr + size + 4294967295) / 4096 + 1 - addr / 4096)
      (addr / 4096) = true
  · rw [if_pos hany]
    exact Or.inl rfl
  · rw [if_neg hany]
    right
    simp only []
    rw [if_neg (not_not.2 hng), h1, hpa, and_then_ok]
    have hpm : ∀ sz, _page_map c s addr pflags sz shm = Res.fatal s := by
      intro sz
      unfold _page_map
      rw [if_pos]
      right
      left
      intro hz
      exact ha4 ((or_mod_4096 sz addr).1 hz).2
    rw [hpm]
    rfl

/-- C27, amended: `falloc` with the block's own flags returns a non-zero
address only when `addr` is a multiple of `0x1000`, whatever the minimum page
size of the block; at an address that is no multiple of `0x1000` it returns 0
or raises a fatal error, and the block and every page-table entry are
unchanged. -/
theorem falloc_alignment (c : Consts) (b : Block) (s : VM) (addr orig flags : Nat)
    (haddr : addr < 4294967296) :
    (∀ b1 s1 r, b.falloc c s addr orig none flags = Res.ok (b1, s1) r → r ≠ 0 →
      addr % 0x1000 = 0) ∧
    (addr % 0x1000 ≠ 0 →
      ∃ s1, (∀ j, s1.g_pages j = s.g_pages j) ∧
        (b.falloc c s addr orig none flags = Res.ok (b, s1) 0 ∨
         b.falloc c s addr orig none flags = Res.fatal (b, s1))) := by
  have hmis : addr % 0x1000 ≠ 0 →
      ∃ s1, (∀ j, s1.g_pages j = s.g_pages j) ∧
        (b.falloc c s addr orig none flags = Res.ok (b, s1) 0 ∨
         b.falloc c s addr orig none flags = Res.fatal (b, s1)) := by
    intro ha4
    by_cases h : align orig (min_page_size b.flags) = 0 ∨ addr < b.addr
        ∨ orig > align orig (min_page_size b.flags)
        ∨ addr + align orig (min_page_size b.flags) > b.addr + b.size ∨ b.flags &&& 0x10 ≠ 0
    · refine ⟨s, fun _ => rfl, Or.inl ?_⟩
      unfold Block.falloc
      simp only [Option.isNone_none, if_true]
      rw [if_pos h]
    · obtain ⟨shm, s0, hs0, e0⟩ := falloc_own_flags c b s addr orig flags h
      have hng : b.flags &&& 0x10 = 0 := by
        by_contra hne
        exact h (Or.inr (Or.inr (Or.inr (Or.inr hne))))
      refine ⟨s0, fun j => by rw [hs0], ?_⟩
      rw [e0]
      unfold Block.falloc_finish
      rcases try_alloc_misaligned c b s0 addr (page_flags_of c b.flags)
        (align orig (min_page_size b.flags)) shm hng haddr ha4 with ht | ht
      · left
        rw [ht, and_then_ok, if_neg (by decide)]
      · right
        rw [ht]
        rfl
  refine ⟨?_, hmis⟩
  intro b1 s1 r hres hr
  by_contra ha4
  obtain ⟨s2, _, h0 | hf⟩ := hmis ha4
  · rw [h0] at hres
    injection hres with _ hres
    exact hr hres.symm
  · rw [hf] at hres
    cases hres

/-- Witness of C27: `falloc` at `0xE0000800` in the block "SPU reserved"
changes nothing. -/
theorem falloc_alignment_witness :
    ∃ s1, (∀ j, s1.g_pages j = VM.empty.g_pages j) ∧
      (spu_block.falloc ps3Consts VM.empty 0xE0000800 0x10000 none 0 = Res.ok (spu_block, s1) 0 ∨
       spu_block.falloc ps3Consts VM.empty 0xE0000800 0x10000 none 0
        = Res.fatal (spu_block, s1)) :=
  (falloc_alignment ps3Consts spu_block VM.empty 0xE0000800 0x10000 0 (by decide)).2
    (by decide)

/-! ## The search of `block_t::alloc` -/

/-- The powers of two of the `u32` range pass the power-of-two test of
`alloc`. -/
theorem pow2_check (k : Nat) (hk : k ≤ 31) : 2 ^ k = 0x80000000 >>> countl_zero (2 ^ k) := by
  interval_cases k <;> decide

theorem pow2_dvd (k : Nat) (hk : k ≤ 31) : 2 ^ k ∣ 4294967296 :=
  (Nat.pow_dvd_pow_iff_le_right (by decide)).2 (by omega : k ≤ 32)

theorem range_free_iff (pages : Pages) (a size : Nat) (ha4 : a % 4096 = 0)
    (hs4 : size % 4096 = 0) (hs : 1 ≤ size) :
    range_free pages a size ↔ ∀ j, a / 4096 ≤ j → j < a / 4096 + size / 4096 → pages j = 0 := by
  unfold range_free
  constructor
  · intro h j h1 h2
    exact h j h1 (by omega)
  · intro h j h1 h2
    exact h j h1 (by omega)

/-- The search loop of `alloc`, started at a multiple `a` of `al` in a block
whose end is at least `al` below `2^32`: it ends at the first position from `a`
on at which the range fits in the block and is free, or with 0 and the state
unchanged when there is no such position. -/
theorem alloc_loop_spec (c : Consts) (b : Block) (al size pflags : Nat) (shm : Option Shm)
    (hal : al ∣ 4294967296) (hal4 : 4096 ∣ al)
    (hnw : b.addr + b.size + al ≤ 4294967296)
    (hs4 : size % 4096 = 0) (hsz : 2 * guard_off b.flags 0x1000 < size)
    (hpf : pflags &&& c.page_allocated = 0)
    (fuel a : Nat) (s : VM) (hdvd : al ∣ a) (ha : a < 4294967296)
    (hfuel : ∃ q, a + q * al = 4294967296 ∧ q ≤ fuel) :
    (∃ x x1, al ∣ x ∧ a ≤ x ∧ x + size ≤ b.addr + b.size ∧ range_free s.g_pages x size ∧
      (∀ y, al ∣ y → a ≤ y → y < x → ¬ range_free s.g_pages y size) ∧
      Block.alloc_loop c b b.flags al size pflags shm fuel a s
        = Res.ok x1 (x + guard_off b.flags 0x1000)) ∨
    (Block.alloc_loop c b b.flags al size pflags shm fuel a s = Res.ok (b, s) 0 ∧
      ∀ y, al ∣ y → a ≤ y → y + size ≤ b.addr + b.size → ¬ range_free s.g_pages y size) := by
  have hal1 : 1 ≤ al := by
    rcases Nat.eq_zero_or_pos al with h | h
    · rw [h] at hal
      have := Nat.eq_zero_of_zero_dvd hal
      omega
    · exact h
  have hs1 : 1 ≤ size := by omega
  induction fuel generalizing a with
  | zero =>
    exfalso
    obtain ⟨q, h1, h2⟩ := hfuel
    have : q = 0 := by omega
    subst this
    omega
  | succ fuel ih =>
    have ha4 : a % 4096 = 0 := Nat.mod_eq_zero_of_dvd (Nat.dvd_trans hal4 hdvd)
    rw [Block.alloc_loop]
    by_cases hfit : a + size ≤ b.addr + b.size
    · rw [if_pos hfit]
      by_cases hfree : range_free s.g_pages a size
      · -- the position is free
        left
        obtain ⟨s1, e1, _, _⟩ := try_alloc_ok c b s a pflags size shm ha4 hs4 hsz (by omega)
          (by omega) hpf ((range_free_iff _ _ _ ha4 hs4 hs1).1 hfree)
        have hret : u32 (a + guard_off b.flags 0x1000) = a + guard_off b.flags 0x1000 := by
          unfold u32
          have : a + guard_off b.flags 0x1000 < 4294967296 := by omega
          exact Nat.mod_eq_of_lt this
        refine ⟨a, ({ b with m_map := m_insert a (size, shm) b.m_map }, s1), hdvd, Nat.le_refl _,
          hfit, hfree, ?_, ?_⟩
        · intro y _ h1 h2
          omega
        · rw [e1, and_then_ok, if_pos rfl, hret]
      · -- a page of the range is in use
        have hbusy : b.try_alloc c s a pflags size shm = Res.ok (b, s) false := by
          unfold range_free at hfree
          push_neg at hfree
          obtain ⟨j, hj1, hj2, hj3⟩ := hfree
          exact try_alloc_busy c b s a pflags size shm hs1 (by omega) j hj1 hj2 hj3
        have hu : u32 (a + al) = a + al := by
          unfold u32
          exact Nat.mod_eq_of_lt (by omega)
        rw [hbusy, and_then_ok, if_neg (by decide), hu]
        obtain ⟨q, hq1, hq2⟩ := hfuel
        have hq0 : q ≠ 0 := by
          intro h0
          subst h0
          omega
        obtain ⟨q1, rfl⟩ := Nat.exists_eq_succ_of_ne_zero hq0
        have hstep := ih (a + al) (Nat.dvd_add hdvd (Nat.dvd_refl _)) (by omega)
          ⟨q1, by rw [← hq1, Nat.succ_mul]; omega, by omega⟩
        rcases hstep with ⟨x, x1, h1, h2, h3, h4, h5, h6⟩ | ⟨h1, h2⟩
        · left
          refine ⟨x, x1, h1, by omega, h3, h4, ?_, h6⟩
          intro y hy1 hy2 hy3
          by_cases hya : y = a
          · rw [hya]
            exact hfree
          · have := multiple_step al a y hdvd hy1 (by omega)
            exact h5 y hy1 this hy3
        · right
          refine ⟨h1, ?_⟩
          intro y hy1 hy2 hy3
          by_cases hya : y = a
          · rw [hya]
            exact hfree
          · have := multiple_step al a y hdvd hy1 (by omega)
            exact h2 y hy1 this hy3
    · rw [if_neg hfit]
      right
      refine ⟨rfl, ?_⟩
      intro y _ h1 h2
      omega

/-- The number of positions that the search loop of `alloc` probes from a
position `a` on, when the positions cannot wrap. -/
theorem alloc_probes_le (c : Consts) (b : Block) (al size pflags : Nat) (shm : Option Shm)
    (hal1 : 1 ≤ al) (hs1 : 1 ≤ size) (hnw : b.addr + b.size + al ≤ 4294967296)
    (fuel a : Nat) (s : VM) :
    Block.alloc_probes c b al size pflags shm fuel a s
      ≤ if a + size ≤ b.addr + b.size then (b.addr + b.size - size - a) / al + 1 else 0 := by
  induction fuel generalizing a s with
  | zero =>
    rw [Block.alloc_probes]
    exact Nat.zero_le _
  | succ fuel ih =>
    rw [Block.alloc_probes]
    by_cases hfit : a + size ≤ b.addr + b.size
    · rw [if_pos hfit, if_pos hfit]
      have hu : u32 (a + al) = a + al := by
        unfold u32
        exact Nat.mod_eq_of_lt (by omega)
      have hone : 1 ≤ (b.addr + b.size - size - a) / al + 1 := Nat.le_add_left 1 _
      cases ht : b.try_alloc c s a pflags size shm with
      | ok x done =>
        cases done with
        | true => exact hone
        | false =>
          show Block.alloc_probes c b al size pflags shm fuel (u32 (a + al)) x.2 + 1 ≤ _
          rw [hu]
          have hnext := ih (a + al) x.2
          by_cases hfit2 : a + al + size ≤ b.addr + b.size
          · rw [if_pos hfit2] at hnext
            have hdiv : (b.addr + b.size - size - a) / al
                = (b.addr + b.size - size - (a + al)) / al + 1 := by
              have : b.addr + b.size - size - a = (b.addr + b.size - size - (a + al)) + al := by
                omega
              rw [this, Nat.add_div_right _ (by omega)]
            omega
          · rw [if_neg hfit2] at hnext
            have h0 : Block.alloc_probes c b al size pflags shm fuel (a + al) x.2 = 0 :=
              Nat.le_zero.1 hnext
            rw [h0]
            exact hone
      | fatal x => exact hone
      | hang x => exact hone
    · rw [if_neg hfit, if_neg hfit]

/-- The size that `alloc` computes in `u32` is the total size whenever the
total size fits in the block; when it does not fit, the size test of `alloc`
fails. -/
theorem alloc_size_total (flags orig bsize : Nat) (ho : 1 ≤ orig) (ho32 : orig < 4294967296)
    (hb : bsize < 4294967296) :
    (total_size flags orig ≤ bsize →
      u32 (align orig (min_page_size flags) + guard_off flags 0x2000) = total_size flags orig ∧
      ¬ (orig = 0 ∨ u32 (align orig (min_page_size flags) + guard_off flags 0x2000) = 0
        ∨ orig > u32 (align orig (min_page_size flags) + guard_off flags 0x2000)
        ∨ u32 (align orig (min_page_size flags) + guard_off flags 0x2000) > bsize)) ∧
    (bsize < total_size flags orig →
      (orig = 0 ∨ u32 (align orig (min_page_size flags) + guard_off flags 0x2000) = 0
        ∨ orig > u32 (align orig (min_page_size flags) + guard_off flags 0x2000)
        ∨ u32 (align orig (min_page_size flags) + guard_off flags 0x2000) > bsize)) ∧
    orig ≤ total_size flags orig ∧ total_size flags orig % 4096 = 0 ∧
    2 * guard_off flags 0x1000 < total_size flags orig := by
  unfold total_size align u32 min_page_size guard_off
  split_ifs <;> omega

/-- With a null `src`, a valid alignment and a valid size, `alloc` is its
search loop, run in a state with the same page table. -/
theorem alloc_own_loop (c : Consts) (b : Block) (s : VM) (orig al flags : Nat)
    (hv : ¬ (al < min_page_size b.flags ∨ al ≠ 0x80000000 >>> countl_zero al))
    (hsz : ¬ (orig = 0 ∨ u32 (align orig (min_page_size b.flags) + guard_off b.flags 0x2000) = 0
      ∨ orig > u32 (align orig (min_page_size b.flags) + guard_off b.flags 0x2000)
      ∨ u32 (align orig (min_page_size b.flags) + guard_off b.flags 0x2000) > b.size)) :
    ∃ shm s0, s0.g_pages = s.g_pages ∧
      b.alloc c s orig al none flags
        = Block.alloc_loop c b b.flags al
            (u32 (align orig (min_page_size b.flags) + guard_off b.flags 0x2000))
            (page_flags_of c b.flags) shm (4294967296 / al) (align b.addr al) s0 := by
  unfold Block.alloc
  simp only [Option.isNone_none, if_true]
  rw [if_neg hv, if_neg hsz]
  cases hm : b.m_common with
  | some m => exact ⟨none, s, rfl, rfl⟩
  | none => exact ⟨_, (s.make_shm c _).2, rfl, rfl⟩

/-- With a null `src` and a valid alignment, `alloc` returns 0 at once when
the size test fails. -/
theorem alloc_bad_size (c : Consts) (b : Block) (s : VM) (orig al flags : Nat)
    (hv : ¬ (al < min_page_size b.flags ∨ al ≠ 0x80000000 >>> countl_zero al))
    (hsz : orig = 0 ∨ u32 (align orig (min_page_size b.flags) + guard_off b.flags 0x2000) = 0
      ∨ orig > u32 (align orig (min_page_size b.flags) + guard_off b.flags 0x2000)
      ∨ u32 (align orig (min_page_size b.flags) + guard_off b.flags 0x2000) > b.size) :
    b.alloc c s orig al none flags = Res.ok (b, s) 0 := by
  unfold Block.alloc
  simp only [Option.isNone_none, if_true]
  rw [if_neg hv, if_pos hsz]

/-- C24, evaluation at the failing input: the first `alloc(0x10000,
0x40000000)` in the block "SPU reserved" returns 0, and yet the page-table
entry of page 0 has changed and the sub-allocation map has an entry at
address 0. -/
theorem alloc_zero_after_mapping :
    (spu_block.alloc ps3Consts VM.empty 0x10000 0x40000000 none 0).value = some 0 ∧
    VM.empty.g_pages 0 = 0 ∧
    (spu_block.alloc ps3Consts VM.empty 0x10000 0x40000000 none 0).state.2.g_pages 0 = 195 ∧
    spu_block.m_map = [] ∧
    ((spu_block.alloc ps3Consts VM.empty 0x10000 0x40000000 none 0).state.1.m_map.map
      fun e => (e.1, e.2.1)) = [(0, 0x10000)] := by
  decide

/-! ## Range locks against the writer lock -/

theorem next_slot_lt (i : Nat) (h : i < 6) : next_slot i < 6 := by
  unfold next_slot
  split_ifs <;> omega

theorem shl_or_eq (a e : Nat) (ha : a < 4294967296) :
    e <<< 32 ||| a = 4294967296 * e + a := by
  have h := @Nat.mul_add_lt_is_or 32 a (by simpa using ha) e
  rw [Nat.shiftLeft_eq, Nat.mul_comm]
  simpa using h.symm

theorem step_writer_rpc (shareable : Nat → Nat) (t : Nat) (s : Sys) :
    (step_writer shareable t s).rpc = s.rpc ∧
    (step_writer shareable t s).g_range_locks = s.g_range_locks := by
  obtain ⟨g, locks, wh, rd, rpc, wpc⟩ := s
  unfold step_writer
  cases wpc with
  | start =>
    simp only []
    split_ifs <;> exact ⟨rfl, rfl⟩
  | set_addr =>
    simp only []
    split_ifs <;> exact ⟨rfl, rfl⟩
  | drain i =>
    simp only []
    split_ifs <;> exact ⟨rfl, rfl⟩
  | locked => exact ⟨rfl, rfl⟩
  | unlock => exact ⟨rfl, rfl⟩
  | done => exact ⟨rfl, rfl⟩

/-- While every slot is in use, a step of the thread in `range_lock` leaves
the slots as they are and the thread looking for a free slot. -/
theorem searching_step (shareable : Nat → Nat) (addr end_ : Nat) (s : Sys)
    (hfull : ∀ i, i < 6 → s.g_range_locks i ≠ 0) (h : s.rpc.searching) :
    (step_range shareable addr end_ s).rpc.searching ∧
    (step_range shareable addr end_ s).g_range_locks = s.g_range_locks := by
  obtain ⟨g, locks, wh, rd, rpc, wpc⟩ := s
  simp only at hfull h
  cases rpc with
  | start =>
    unfold step_range
    simp only []
    split_ifs
    · exact ⟨by show 0 < 6; decide, rfl⟩
    · exact ⟨trivial, rfl⟩
  | register a1 i =>
    unfold step_range
    simp only []
    rw [if_neg (hfull i h)]
    exact ⟨next_slot_lt i h, rfl⟩
  | lock_shared =>
    unfold step_range
    simp only []
    split_ifs
    · exact ⟨trivial, rfl⟩
    · exact ⟨by show 0 < 6; decide, rfl⟩
  | register_locked i =>
    unfold step_range
    simp only []
    rw [if_neg (hfull i h)]
    exact ⟨next_slot_lt i h, rfl⟩
  | recheck a1 i => exact absurd h id
  | clear i => exact absurd h id
  | unlock_shared i => exact absurd h id
  | returned i => exact absurd h id
  | released => exact absurd h id

theorem searching_run (shareable : Nat → Nat) (addr end_ t : Nat) (schedule : List Tid)
    (s : Sys) (hfull : ∀ i, i < 6 → s.g_range_locks i ≠ 0) (h : s.rpc.searching) :
    (run shareable addr end_ t schedule s).rpc.searching ∧
    (run shareable addr end_ t schedule s).g_range_locks = s.g_range_locks := by
  induction schedule generalizing s with
  | nil => exact ⟨h, rfl⟩
  | cons x rest ih =>
    cases x with
    | range =>
      rw [run]
      obtain ⟨h1, h2⟩ := searching_step shareable addr end_ s hfull h
      obtain ⟨h3, h4⟩ := ih _ (by rw [h2]; exact hfull) h1
      exact ⟨h3, by rw [h4, h2]⟩
    | writer =>
      rw [run]
      obtain ⟨h1, h2⟩ := step_writer_rpc shareable t s
      obtain ⟨h3, h4⟩ := ih _ (by rw [h2]; exact hfull) (by rw [h1]; exact h)
      exact ⟨h3, by rw [h4, h2]⟩

theorem index_ok_step (shareable : Nat → Nat) (addr end_ : Nat) (s : Sys)
    (h : s.rpc.index_ok) : (step_range shareable addr end_ s).rpc.index_ok := by
  obtain ⟨g, locks, wh, rd, rpc, wpc⟩ := s
  simp only at h
  cases rpc with
  | start =>
    unfold step_range
    simp only []
    split_ifs
    · show 0 < 6
      decide
    · trivial
  | register a1 i =>
    unfold step_range
    simp only []
    split_ifs
    · exact h
    · exact next_slot_lt i h
  | recheck a1 i =>
    unfold step_range
    simp only []
    split_ifs
    · exact h
    · exact h
  | clear i => trivial
  | lock_shared =>
    unfold step_range
    simp only []
    split_ifs
    · trivial
    · show 0 < 6
      decide
  | register_locked i =>
    unfold step_range
    simp only []
    split_ifs
    · exact h
    · exact next_slot_lt i h
  | unlock_shared i => exact h
  | returned i => trivial
  | released => trivial

theorem index_ok_run (shareable : Nat → Nat) (addr end_ t : Nat) (schedule : List Tid)
    (s : Sys) (h : s.rpc.index_ok) : (run shareable addr end_ t schedule s).rpc.index_ok := by
  induction schedule generalizing s with
  | nil => exact h
  | cons x rest ih =>
    cases x with
    | range =>
      rw [run]
      exact ih _ (index_ok_step shareable addr end_ s h)
    | writer =>
      rw [run]
      exact ih _ (by rw [(step_writer_rpc shareable t s).1]; exact h)

/-- C25, counterexample: with all six slots in use, after 14 steps of
`range_lock(0x20000000, 0x20000080)`, more than two scans of the slots, the
call has not returned: it is in `_register_range_lock`, about to test slot 1
once more, and the slots are as before. -/
theorem range_lock_spins :
    (run no_shareable 0x20000000 0x20000080 0x20000000 (List.replicate 14 Tid.range)
      (Sys.init full_locks)).rpc = RangePc.register 0x2000008020000000 1 ∧
    ∀ i, i < 6 →
      (run no_shareable 0x20000000 0x20000080 0x20000000 (List.replicate 14 Tid.range)
        (Sys.init full_locks)).g_range_locks i = 1 := by
  decide

/-- C25, amended: when all six range-lock slots hold a non-zero value,
`range_lock(addr, end)` does not return, whatever the two threads do: it keeps
scanning the slots, which stay as they are, until a slot is given back.  A call
of `range_lock` that returns, returns the pointer to one of the six slots. -/
theorem range_lock_waits (shareable : Nat → Nat) (addr end_ t : Nat) (s0 : Sys)
    (h0 : s0.rpc = RangePc.start) (schedule : List Tid) :
    ((∀ i, i < 6 → s0.g_range_locks i ≠ 0) →
      (∀ i, (run shareable addr end_ t schedule s0).rpc ≠ RangePc.returned i) ∧
      (run shareable addr end_ t schedule s0).rpc ≠ RangePc.released ∧
      ∀ i, (run shareable addr end_ t schedule s0).g_range_locks i = s0.g_range_locks i) ∧
    (∀ i, (run shareable addr end_ t schedule s0).rpc = RangePc.returned i → i < 6) := by
  constructor
  · intro hfull
    obtain ⟨h1, h2⟩ := searching_run shareable addr end_ t schedule s0 hfull
      (by rw [h0]; trivial)
    refine ⟨?_, ?_, fun i => by rw [h2]⟩
    · intro i hi
      rw [hi] at h1
      exact h1
    · intro hi
      rw [hi] at h1
      exact h1
  · intro i hi
    have := index_ok_run shareable addr end_ t schedule s0 (by rw [h0]; trivial)
    rw [hi] at this
    exact this

/-- Witness of C25: all six slots in use, 14 steps of `range_lock`. -/
theorem range_lock_waits_witness :
    (run no_shareable 0x20000000 0x20000080 0x20000000 (List.replicate 14 Tid.range)
      (Sys.init full_locks)).rpc ≠ RangePc.released ∧
    (run no_shareable 0x20000000 0x20000080 0x20000000 (List.replicate 14 Tid.range)
      (Sys.init full_locks)).rpc ≠ RangePc.returned 0 :=
  ⟨((range_lock_waits no_shareable 0x20000000 0x20000080 0x20000000 (Sys.init full_locks) rfl
      (List.replicate 14 Tid.range)).1 (fun _ _ => Nat.one_ne_zero)).2.1,
   ((range_lock_waits no_shareable 0x20000000 0x20000080 0x20000000 (Sys.init full_locks) rfl
      (List.replicate 14 Tid.range)).1 (fun _ _ => Nat.one_ne_zero)).1 0⟩

/-! ## The values of `test_addr` -/

theorem canon_addr_le (shareable : Nat → Nat) (addr : Nat) :
    canon_addr shareable addr ≤ addr := by
  unfold canon_addr
  split_ifs
  · exact Nat.and_le_left
  · exact Nat.le_refl _

theorem and_ffff (x : Nat) : x &&& 0xffff = x % 0x10000 :=
  Nat.and_pow_two_sub_one_eq_mod x 16

theorem canon_end_pos (shareable : Nat → Nat) (addr end_ : Nat) (h : 1 ≤ end_) :
    1 ≤ canon_end shareable addr end_ := by
  unfold canon_end
  split_ifs
  · exact Nat.le_add_left 1 _
  · exact h

theorem canon_end_lt (shareable : Nat → Nat) (addr end_ : Nat) (h : end_ < 4294967296) :
    canon_end shareable addr end_ < 4294967296 := by
  unfold canon_end
  split_ifs
  · rw [and_ffff]
    omega
  · exact h

/-- With a target whose size field is zero, `test_addr` compares the
canonical addresses. -/
theorem test_addr_single (shareable : Nat → Nat) (t addr end_ : Nat) (ht : t < 4294967296) :
    test_addr shareable t addr end_ =
      if canon_addr shareable addr > canon_addr shareable t
          ∨ canon_end shareable addr end_ ≤ canon_addr shareable t then
        canon_end shareable addr end_ <<< 32 ||| canon_addr shareable addr
      else 0 := by
  have ht32 : u32 (t >>> 32) = 0 := by
    unfold u32
    rw [Nat.shiftRight_eq_div_pow]
    have : t / 2 ^ 32 = 0 := Nat.div_eq_of_lt (by omega)
    rw [this]
  unfold test_addr canon_addr canon_end
  rw [if_neg (not_not.2 ht32)]

/-- With a target whose size field is not zero, `test_addr` compares the
range with the target range. -/
theorem test_addr_sized (shareable : Nat → Nat) (target addr end_ : Nat)
    (h : u32 (target >>> 32) ≠ 0) :
    test_addr shareable target addr end_ =
      if addr ≥ u32 (u32 target + u32 (target >>> 32)) ∨ end_ ≤ u32 target then
        canon_end shareable addr end_ <<< 32 ||| canon_addr shareable addr
      else 0 := by
  unfold test_addr canon_addr canon_end
  rw [if_pos h]
  by_cases hc : addr ≥ u32 (u32 target + u32 (target >>> 32)) ∨ end_ ≤ u32 target
  · rw [if_pos hc, if_pos hc]
    split_ifs <;> rfl
  · rw [if_neg hc, if_neg hc]

theorem lock_value_parts (addr1 end1 : Nat) (ha : addr1 < 4294967296)
    (he : end1 < 4294967296) :
    u32 (end1 <<< 32 ||| addr1) = addr1 ∧ u32 ((end1 <<< 32 ||| addr1) >>> 32) = end1 := by
  unfold u32
  rw [shl_or_eq addr1 end1 ha, Nat.shiftRight_eq_div_pow]
  omega

theorem lock_value_ne_zero (addr1 end1 : Nat) (ha : addr1 < 4294967296)
    (h : 1 ≤ addr1 ∨ 1 ≤ end1) : end1 <<< 32 ||| addr1 ≠ 0 := by
  rw [shl_or_eq addr1 end1 ha]
  omega

/-- The drain loop of `writer_lock` waits at a slot holding
`end1 << 32 | addr1` exactly when its address lies in `[addr1, end1)`. -/
theorem drain_passes_iff (t1 addr1 end1 : Nat) (ha : addr1 < 4294967296)
    (he : end1 < 4294967296) :
    drain_passes t1 (end1 <<< 32 ||| addr1) = false ↔ addr1 ≤ t1 ∧ t1 < end1 := by
  obtain ⟨e1, e2⟩ := lock_value_parts addr1 end1 ha he
  unfold drain_passes
  rw [e1, e2]
  by_cases h1 : addr1 > t1
  · rw [if_pos h1]
    constructor
    · intro h
      cases h
    · intro h
      omega
  · rw [if_neg h1]
    by_cases h2 : end1 ≤ t1
    · rw [if_pos h2]
      constructor
      · intro h
        cases h
      · intro h
        omega
    · rw [if_neg h2]
      exact ⟨fun _ => by omega, fun _ => rfl⟩

/-- The writer in its drain loop at slot `i` stays at the slot exactly when
the drain test does not pass the value of the slot. -/
theorem step_writer_spins (shareable : Nat → Nat) (t : Nat) (s : Sys) (i : Nat)
    (hw : s.wpc = WriterPc.drain i) :
    (step_writer shareable t s).wpc = WriterPc.drain i
      ↔ drain_passes (canon_addr shareable t) (s.g_range_locks i) = false := by
  unfold step_writer
  rw [hw]
  simp only []
  change (if drain_passes (canon_addr shareable t) (s.g_range_locks i) = true then _ else s).wpc
    = _ ↔ _
  cases hd : drain_passes (canon_addr shareable t) (s.g_range_locks i) with
  | false =>
    rw [if_neg (by decide)]
    exact ⟨fun _ => rfl, fun _ => hw⟩
  | true =>
    rw [if_pos rfl]
    constructor
    · intro h
      exfalso
      by_cases h6 : i + 1 = 6
      · rw [if_pos h6] at h
        cases h
      · rw [if_neg h6] at h
        have : i + 1 = i := by
          injection h
        omega
    · intro h
      cases h

/-- C33, counterexample: with every page shareable, the range
`[0x2000FF80, 0x20010080)` crosses a 64 KiB boundary and the value of the fast
path has the start `0xFF80` above the end `0x80`; for the range
`[0x20000000, 0x20010000)` the value of the slow path, the one for the target
`UINT32_MAX`, is 0. -/
theorem lock_value_inverted :
    test_addr all_shareable 0 0x2000FF80 0x20010080 = 0x80 <<< 32 ||| 0xFF80 ∧
    u32 (test_addr all_shareable 0 0x2000FF80 0x20010080) = 0xFF80 ∧
    u32 (test_addr all_shareable 0 0x2000FF80 0x20010080 >>> 32) = 0x80 ∧
    test_addr all_shareable 0xffffffff 0x20000000 0x20010000 = 0 := by
  decide

/-- C33, amended: for `addr < end`, a non-zero value of `test_addr`, the value
that `range_lock` stores on its fast path, has the canonical start in its low
32 bits and the canonical end in its high 32 bits.  When the page of `addr` is
not shareable these are `addr` and `end`.  When it is shareable they are the
offsets `addr % 0x10000` and `(end - 1) % 0x10000 + 1`, the start below
`0x10000` and the end in `[1, 0x10000]`, and the start is below the end when
the range lies inside one 64 KiB page.  The value stored on the slow path is
not zero when page `0xffff` is not shareable. -/
theorem lock_value_range (shareable : Nat → Nat) (g addr end_ : Nat)
    (h : addr < end_) (he : end_ < 4294967296) :
    (test_addr shareable g addr end_ ≠ 0 →
      u32 (test_addr shareable g addr end_) = canon_addr shareable addr ∧
      u32 (test_addr shareable g addr end_ >>> 32) = canon_end shareable addr end_) ∧
    (shareable (addr >>> 16) = 0 →
      canon_addr shareable addr = addr ∧ canon_end shareable addr end_ = end_) ∧
    (shareable (addr >>> 16) ≠ 0 →
      canon_addr shareable addr = addr % 0x10000 ∧
      canon_end shareable addr end_ = (end_ - 1) % 0x10000 + 1 ∧
      canon_addr shareable addr < 0x10000 ∧
      1 ≤ canon_end shareable addr end_ ∧ canon_end shareable addr end_ ≤ 0x10000 ∧
      (addr / 0x10000 = (end_ - 1) / 0x10000 →
        canon_addr shareable addr < canon_end shareable addr end_)) ∧
    (shareable 0xffff = 0 → test_addr shareable 0xffffffff addr end_ ≠ 0) := by
  have ha1 : canon_addr shareable addr < 4294967296 :=
    Nat.lt_of_le_of_lt (canon_addr_le shareable addr) (by omega)
  have he1 := canon_end_lt shareable addr end_ he
  have hv : canon_end shareable addr end_ <<< 32 ||| canon_addr shareable addr ≠ 0 :=
    lock_value_ne_zero _ _ ha1 (Or.inr (canon_end_pos shareable addr end_ (by omega)))
  refine ⟨?_, ?_, ?_, ?_⟩
  · intro hnz
    have hval : test_addr shareable g addr end_
        = canon_end shareable addr end_ <<< 32 ||| canon_addr shareable addr := by
      by_cases hg : u32 (g >>> 32) ≠ 0
      · rw [test_addr_sized shareable g addr end_ hg] at hnz ⊢
        by_cases hc : addr ≥ u32 (u32 g + u32 (g >>> 32)) ∨ end_ ≤ u32 g
        · rw [if_pos hc]
        · rw [if_neg hc] at hnz
          exact absurd rfl hnz
      · unfold test_addr at hnz ⊢
        rw [if_neg hg] at hnz ⊢
        simp only [] at hnz ⊢
        split_ifs at hnz ⊢ <;> first
          | (exfalso; exact hnz rfl)
          | (unfold canon_end canon_addr; rw [if_pos ‹_›, if_pos ‹_›])
          | (unfold canon_end canon_addr; rw [if_neg ‹_›, if_neg ‹_›])
    rw [hval]
    exact lock_value_parts _ _ ha1 he1
  · intro hs
    unfold canon_addr canon_end
    rw [if_neg (not_not.2 hs), if_neg (not_not.2 hs)]
    exact ⟨rfl, rfl⟩
  · intro hs
    have e1 : canon_addr shareable addr = addr % 0x10000 := by
      unfold canon_addr
      rw [if_pos hs, and_ffff]
    have e2 : canon_end shareable addr end_ = (end_ - 1) % 0x10000 + 1 := by
      unfold canon_end
      rw [if_pos hs, and_ffff]
      have : u32 (end_ + 4294967295) = end_ - 1 := by
        unfold u32
        omega
      rw [this]
    rw [e1, e2]
    refine ⟨rfl, rfl, ?_, ?_, ?_, ?_⟩
    · omega
    · omega
    · omega
    · intro hp
      omega
  · intro hs
    have n3 : ¬ shareable (0xffffffff >>> 16) ≠ 0 := by
      have : 0xffffffff >>> 16 = 0xffff := by decide
      rw [this]
      exact not_not.2 hs
    have hc3 : canon_addr shareable 0xffffffff = 0xffffffff := by
      unfold canon_addr
      rw [if_neg n3]
    rw [test_addr_single shareable 0xffffffff addr end_ (by decide), hc3,
      if_pos (Or.inr (by omega))]
    exact hv

/-- Witness of C33: the range `[0x20000000, 0x20000080)`, nothing shareable. -/
theorem lock_value_range_witness :
    canon_addr no_shareable 0x20000000 = 0x20000000 ∧
    canon_end no_shareable 0x20000000 0x20000080 = 0x20000080 :=
  (lock_value_range no_shareable 0 0x20000000 0x20000080 (by decide) (by decide)).2.1 rfl

theorem or_shl_eq (a e : Nat) (ha : a < 4294967296) :
    a ||| e <<< 32 = 4294967296 * e + a := by
  rw [Nat.lor_comm]
  exact shl_or_eq a e ha

/-- C34: for a range `[a, a + n)` with `n > 0` that ends below `2^32`,
published by `_lock_shareable_cache` as `a | n << 32`, and a range
`[addr, end)` with `addr < end`, the test of the fast path of `range_lock`
returns 0 exactly when `addr < a + n` and `a < end`, that is when the two
ranges overlap. -/
theorem test_addr_overlap (shareable : Nat → Nat) (a n addr end_ : Nat)
    (hn : 0 < n) (hb : a + n < 4294967296) (h : addr < end_) (he : end_ < 4294967296) :
    test_addr shareable (shareable_lock_value a (u32 (a + n))) addr end_ = 0
      ↔ addr < a + n ∧ a < end_ := by
  have ha1 : canon_addr shareable addr < 4294967296 :=
    Nat.lt_of_le_of_lt (canon_addr_le shareable addr) (by omega)
  have hv : canon_end shareable addr end_ <<< 32 ||| canon_addr shareable addr ≠ 0 :=
    lock_value_ne_zero _ _ ha1 (Or.inr (canon_end_pos shareable addr end_ (by omega)))
  have e0 : u32 (u32 (a + n) + 4294967296 - a) = n := by
    unfold u32
    omega
  have hval : shareable_lock_value a (u32 (a + n)) = 4294967296 * n + a := by
    unfold shareable_lock_value
    rw [e0]
    exact or_shl_eq a n (by omega)
  have e1 : u32 (shareable_lock_value a (u32 (a + n))) = a := by
    rw [hval]
    unfold u32
    omega
  have e2 : u32 (shareable_lock_value a (u32 (a + n)) >>> 32) = n := by
    rw [hval, Nat.shiftRight_eq_div_pow]
    unfold u32
    omega
  have e3 : u32 (a + n) = a + n := by
    unfold u32
    omega
  rw [test_addr_sized shareable _ addr end_ (by rw [e2]; omega), e1, e2, e3]
  by_cases hc : addr ≥ a + n ∨ end_ ≤ a
  · rw [if_pos hc]
    constructor
    · intro h0
      exact absurd h0 hv
    · intro h0
      omega
  · rw [if_neg hc]
    exact ⟨fun _ => by omega, fun _ => rfl⟩

/-- Witness of C34: the locked range `[0x20000000, 0x20010000)` and the range
`[0x20000040, 0x200000C0)` inside it. -/
theorem test_addr_overlap_witness :
    test_addr no_shareable (shareable_lock_value 0x20000000 (u32 (0x20000000 + 0x10000)))
      0x20000040 0x200000C0 = 0 :=
  (test_addr_overlap no_shareable 0x20000000 0x10000 0x20000040 0x200000C0 (by decide)
    (by decide) (by decide) (by decide)).2 ⟨by decide, by decide⟩

/-- C34, failing input: the range `[0xFFFF0000, 2^32)` is published as
`0xFFFF0000 | 0x10000 << 32`; the range `[0xFFFF0000, 0xFFFF0080)` lies inside
it, yet the test of the fast path returns the value of the range, not 0: the
sum `target_addr + target_size` wraps to 0. -/
theorem test_addr_wrapped_lock :
    shareable_lock_value 0xFFFF0000 (u32 (0xFFFF0000 + 0x10000)) = 0x10000FFFF0000 ∧
    test_addr no_shareable (shareable_lock_value 0xFFFF0000 (u32 (0xFFFF0000 + 0x10000)))
      0xFFFF0000 0xFFFF0080 = 0xFFFF0080 <<< 32 ||| 0xFFFF0000 ∧
    test_addr no_shareable (shareable_lock_value 0xFFFF0000 (u32 (0xFFFF0000 + 0x10000)))
      0xFFFF0000 0xFFFF0080 ≠ 0 := by
  decide

/-! ## The outcomes of `block_t::alloc` -/

/-- The search loop of `alloc` never ends in a fatal error when the positions
are multiples of 4096, the size is a multiple of 4096 that leaves room between
the guard pages, and the block lies in the address space. -/
theorem alloc_loop_not_fatal (c : Consts) (b : Block) (flags al size pflags : Nat)
    (shm : Option Shm) (hal : al ∣ 4294967296) (hal4 : 4096 ∣ al)
    (hb : b.addr + b.size ≤ 4294967296)
    (hs4 : size % 4096 = 0) (hsz : 2 * guard_off b.flags 0x1000 < size)
    (hs32 : size < 4294967296) (hpf : pflags &&& c.page_allocated = 0)
    (fuel a : Nat) (s : VM) (hdvd : al ∣ a) (x : Block × VM) :
    Block.alloc_loop c b flags al size pflags shm fuel a s ≠ Res.fatal x := by
  have hs1 : 1 ≤ size := by omega
  induction fuel generalizing a with
  | zero =>
    rw [Block.alloc_loop]
    intro h
    cases h
  | succ fuel ih =>
    have ha4 : a % 4096 = 0 := Nat.mod_eq_zero_of_dvd (Nat.dvd_trans hal4 hdvd)
    rw [Block.alloc_loop]
    by_cases hfit : a + size ≤ b.addr + b.size
    · rw [if_pos hfit]
      by_cases hfree : range_free s.g_pages a size
      · obtain ⟨s1, e1, _, _⟩ := try_alloc_ok c b s a pflags size shm ha4 hs4 hsz hs32
          (by omega) hpf ((range_free_iff _ _ _ ha4 hs4 hs1).1 hfree)
        rw [e1, and_then_ok, if_pos rfl]
        intro h
        cases h
      · have hbusy : b.try_alloc c s a pflags size shm = Res.ok (b, s) false := by
          unfold range_free at hfree
          push_neg at hfree
          obtain ⟨j, hj1, hj2, hj3⟩ := hfree
          exact try_alloc_busy c b s a pflags size shm hs1 (by omega) j hj1 hj2 hj3
        rw [hbusy, and_then_ok, if_neg (by decide)]
        exact ih (u32 (a + al)) (u32_add_dvd a al hal hdvd)
    · rw [if_neg hfit]
      intro h
      cases h

/-- C36: in a block inside the address space, `alloc(orig_size, align)` with a
valid alignment, made with the flags of the block and without an external
backing, never ends in a fatal error.  When `block.addr + block.size + align
<= 2^32` it returns, and whenever it returns a non-zero address every page of
`[r, r + orig_size)` has the allocated bit. -/
theorem alloc_never_fatal (c : Consts) (hc : c.WF) (b : Block) (s : VM) (orig al flags : Nat)
    (hb : b.addr + b.size ≤ 4294967296) (horig : orig < 4294967296)
    (hmin : min_page_size b.flags ≤ al) (hpow : al = 0x80000000 >>> countl_zero al) :
    (∀ x, b.alloc c s orig al none flags ≠ Res.fatal x) ∧
    (b.addr + b.size + al ≤ 4294967296 → ∃ x r, b.alloc c s orig al none flags = Res.ok x r) ∧
    (∀ x r, b.alloc c s orig al none flags = Res.ok x r → r ≠ 0 →
      ∀ j, r / 4096 ≤ j → j ≤ (r + orig - 1) / 4096 →
        x.2.g_pages j &&& c.page_allocated = c.page_allocated) := by
  have hmps := min_page_size_pos b.flags
  obtain ⟨hal4, hal, _⟩ := valid_align al (by omega) hpow
  have hal1 : 1 ≤ al := by omega
  have hv : ¬ (al < min_page_size b.flags ∨ al ≠ 0x80000000 >>> countl_zero al) := by
    intro h
    rcases h with h | h
    · omega
    · exact h hpow
  have hdvd0 := align_dvd b.addr al hal
  have hg2 : guard_off b.flags 0x2000 = 2 * guard_off b.flags 0x1000 := by
    unfold guard_off
    split_ifs <;> rfl
  have hg1 : guard_off b.flags 0x1000 = 4096 * guard_off b.flags 1 := by
    unfold guard_off
    split_ifs <;> rfl
  refine ⟨?_, ?_, ?_⟩
  · intro x
    by_cases hsz : orig = 0
        ∨ u32 (align orig (min_page_size b.flags) + guard_off b.flags 0x2000) = 0
        ∨ orig > u32 (align orig (min_page_size b.flags) + guard_off b.flags 0x2000)
        ∨ u32 (align orig (min_page_size b.flags) + guard_off b.flags 0x2000) > b.size
    · rw [alloc_bad_size c b s orig al flags hv hsz]
      intro h
      cases h
    · obtain ⟨shm, s0, _, e0⟩ := alloc_own_loop c b s orig al flags hv hsz
      obtain ⟨h1, h2, h3, h4, h5, h6⟩ := alloc_size_facts b.flags orig b.size horig hsz
      rw [e0, h4]
      exact alloc_loop_not_fatal c b b.flags al _ _ shm hal hal4 hb (by omega) (by omega) h5
        (page_flags_of_disj c hc b.flags) _ _ s0 hdvd0 x
  · intro hnw
    obtain ⟨_, hlt0, _⟩ := align_least b.addr al (by omega) hal hal1
    by_cases hsz : orig = 0
        ∨ u32 (align orig (min_page_size b.flags) + guard_off b.flags 0x2000) = 0
        ∨ orig > u32 (align orig (min_page_size b.flags) + guard_off b.flags 0x2000)
        ∨ u32 (align orig (min_page_size b.flags) + guard_off b.flags 0x2000) > b.size
    · exact ⟨_, _, alloc_bad_size c b s orig al flags hv hsz⟩
    · obtain ⟨shm, s0, _, e0⟩ := alloc_own_loop c b s orig al flags hv hsz
      obtain ⟨h1, h2, h3, h4, h5, h6⟩ := alloc_size_facts b.flags orig b.size horig hsz
      rw [h4] at e0
      have hfuel : ∃ q, align b.addr al + q * al = 4294967296 ∧ q ≤ 4294967296 / al := by
        obtain ⟨m, hm1, hm2⟩ := fuel_bound 4294967296 (align b.addr al) al hal hdvd0 hlt0
        exact ⟨m, hm1, Nat.le_of_succ_le_succ hm2⟩
      rcases alloc_loop_spec c b al _ (page_flags_of c b.flags) shm hal
          hal4 hnw (show (align orig (min_page_size b.flags) + guard_off b.flags 0x2000) % 4096
            = 0 by omega) (by omega) (page_flags_of_disj c hc b.flags) (4294967296 / al)
          (align b.addr al) s0 hdvd0 hlt0 hfuel with ⟨x, x1, _, _, _, _, _, h6⟩ | ⟨h1, _⟩
      · exact ⟨_, _, e0.trans h6⟩
      · exact ⟨_, _, e0.trans h1⟩
  · intro x r h hr j hj1 hj2
    obtain ⟨b1, s1⟩ := x
    obtain ⟨addr, shm, ho1, ho2, hA4, _, ha4, _, hra, hend, _, _, hp⟩ :=
      alloc_ok_spec c hc b s orig al flags hb horig b1 s1 r h hr
    show s1.g_pages j &&& c.page_allocated = c.page_allocated
    rw [hp j, if_pos (by omega)]
    exact or_and_right_self _ _

/-- Witness of C36: 0x10000 bytes with alignment 0x10000 in the user-64k block
of an empty address space. -/
theorem alloc_never_fatal_witness :
    (user64k_block.alloc ps3Consts VM.empty 0x10000 0x10000 none 0).value.isSome = true :=
  match (alloc_never_fatal ps3Consts ps3Consts_wf user64k_block VM.empty 0x10000 0x10000 0
      (by decide) (by decide) (by decide) (by decide)).2.1 (by decide) with
  | ⟨_, _, h⟩ => by rw [h]; rfl

/-- C36, failing input: the block "SPU reserved" ends at `2^32`.  After four
calls `alloc(0x10000, 0x40000000)`, which return 0, 0x40000000, 0x80000000 and
0xC0000000, every position of the search is in use and the position wraps
from 0xC0000000 to 0: the fifth call never leaves the search loop. -/
theorem alloc_hangs :
    spu_block.addr + spu_block.size = 4294967296 ∧
    (alloc_times ps3Consts 0x10000 0x40000000 4 (spu_block, VM.empty)).1.m_map.map
      (fun e => (e.1, e.2.1))
      = [(0, 0x10000), (0x40000000, 0x10000), (0x80000000, 0x10000), (0xC0000000, 0x10000)] ∧
    ((alloc_times ps3Consts 0x10000 0x40000000 4 (spu_block, VM.empty)).1.alloc ps3Consts
      (alloc_times ps3Consts 0x10000 0x40000000 4 (spu_block, VM.empty)).2
      0x10000 0x40000000 none 0).hangs = true := by
  decide

/-! ## The invariant of a block -/

theorem mem_m_insert (k : Nat) (v : Nat × Option Shm) (m : SubMap)
    (e : Nat × (Nat × Option Shm)) (h : e ∈ m_insert k v m) : e = (k, v) ∨ e ∈ m := by
  induction m with
  | nil =>
    simp only [m_insert, List.mem_singleton] at h
    exact Or.inl h
  | cons e1 t ih =>
    obtain ⟨k1, v1⟩ := e1
    unfold m_insert at h
    by_cases h1 : k < k1
    · rw [if_pos h1] at h
      rcases List.mem_cons.1 h with h | h
      · exact Or.inl h
      · exact Or.inr h
    · rw [if_neg h1] at h
      by_cases h2 : k = k1
      · rw [if_pos h2] at h
        rcases List.mem_cons.1 h with h | h
        · exact Or.inl h
        · exact Or.inr (List.mem_cons_of_mem _ h)
      · rw [if_neg h2] at h
        rcases List.mem_cons.1 h with h | h
        · exact Or.inr (h ▸ List.mem_cons_self _ _)
        · rcases ih h with h | h
          · exact Or.inl h
          · exact Or.inr (List.mem_cons_of_mem _ h)

theorem pairwise_m_insert (R : Nat × (Nat × Option Shm) → Nat × (Nat × Option Shm) → Prop)
    (k : Nat) (v : Nat × Option Shm) (m : SubMap) (hm : m.Pairwise R)
    (h1 : ∀ e ∈ m, R (k, v) e) (h2 : ∀ e ∈ m, R e (k, v)) :
    (m_insert k v m).Pairwise R := by
  induction m with
  | nil => exact List.pairwise_singleton _ _
  | cons e1 t ih =>
    obtain ⟨k1, v1⟩ := e1
    have ht := (List.pairwise_cons.1 hm)
    unfold m_insert
    by_cases c1 : k < k1
    · rw [if_pos c1]
      exact List.pairwise_cons.2 ⟨h1, hm⟩
    · rw [if_neg c1]
      by_cases c2 : k = k1
      · rw [if_pos c2]
        exact List.pairwise_cons.2 ⟨fun e he => h1 e (List.mem_cons_of_mem _ he), ht.2⟩
      · rw [if_neg c2]
        refine List.pairwise_cons.2 ⟨?_, ih ht.2 (fun e he => h1 e (List.mem_cons_of_mem _ he))
          (fun e he => h2 e (List.mem_cons_of_mem _ he))⟩
        intro e he
        rcases mem_m_insert k v t e he with h | h
        · rw [h]
          exact h2 _ (List.mem_cons_self _ _)
        · exact ht.1 e h

theorem m_find_some_mem (m : SubMap) (k : Nat) (v : Nat × Option Shm)
    (h : m_find m k = some v) : (k, v) ∈ m := by
  induction m with
  | nil => simp [m_find] at h
  | cons e1 t ih =>
    obtain ⟨k1, v1⟩ := e1
    unfold m_find at h
    by_cases hk : k1 = k
    · rw [if_pos hk] at h
      cases h
      rw [hk]
      exact List.mem_cons_self _ _
    · rw [if_neg hk] at h
      exact List.mem_cons_of_mem _ (ih h)

theorem m_erase_sublist (k : Nat) (m : SubMap) : (m_erase k m).Sublist m := by
  induction m with
  | nil => exact List.Sublist.refl _
  | cons e1 t ih =>
    obtain ⟨k1, v1⟩ := e1
    unfold m_erase
    by_cases hk : k1 = k
    · rw [if_pos hk]
      exact List.sublist_cons_self _ _
    · rw [if_neg hk]
      exact List.Sublist.cons₂ _ ih

/-- An entry that stays in the map after the entry found under `k` is erased
is related to the erased entry by every symmetric relation that holds pairwise
in the map. -/
theorem m_erase_rel (R : Nat × (Nat × Option Shm) → Nat × (Nat × Option Shm) → Prop)
    (hsym : ∀ x y, R x y → R y x) (k : Nat) (v : Nat × Option Shm) (m : SubMap)
    (hm : m.Pairwise R) (h : m_find m k = some v) : ∀ e ∈ m_erase k m, R (k, v) e := by
  induction m with
  | nil => simp [m_find] at h
  | cons e1 t ih =>
    obtain ⟨k1, v1⟩ := e1
    have ht := (List.pairwise_cons.1 hm)
    unfold m_find at h
    unfold m_erase
    by_cases hk : k1 = k
    · rw [if_pos hk] at h ⊢
      cases h
      rw [← hk]
      exact ht.1
    · rw [if_neg hk] at h ⊢
      intro e he
      rcases List.mem_cons.1 he with he | he
      · rw [he]
        exact hsym _ _ (ht.1 _ (m_find_some_mem t k v h))
      · exact ih ht.2 h e he

/-- The block with a new entry over pages that were free is consistent. -/
theorem consistent_insert (c : Consts) (hc : c.WF) (b : Block) (pages pages1 : Pages)
    (addr size : Nat) (shm : Option Shm) (h : b.Consistent c pages)
    (ha4 : addr % 4096 = 0) (hs4 : size % 4096 = 0) (hs1 : 1 ≤ size)
    (hz : ∀ j, addr / 4096 ≤ j → j < addr / 4096 + size / 4096 → pages j = 0)
    (hin : ∀ j, addr / 4096 ≤ j → j < addr / 4096 + size / 4096 →
      pages1 j &&& c.page_allocated = c.page_allocated)
    (hout : ∀ j, ¬ (addr / 4096 ≤ j ∧ j < addr / 4096 + size / 4096) → pages1 j = pages j) :
    Block.Consistent c { b with m_map := m_insert addr (size, shm) b.m_map } pages1 := by
  have hfree : ∀ e ∈ b.m_map, ∀ j, e.1 / 4096 ≤ j → j < (e.1 + e.2.1 + 4095) / 4096 →
      ¬ (addr / 4096 ≤ j ∧ j < addr / 4096 + size / 4096) := by
    intro e he j h1 h2 h3
    have hm := h.mapped e he j h1 h2
    exact ne_zero_of_and_eq _ _ hc.allocated_ne hm (hz j h3.1 h3.2)
  have hdis : ∀ e ∈ b.m_map, addr + size ≤ e.1 ∨ e.1 + e.2.1 ≤ addr := by
    intro e he
    have hne := h.nonempty e he
    by_contra hcon
    push_neg at hcon
    by_cases hle : addr ≤ e.1
    · exact hfree e he (e.1 / 4096) (Nat.le_refl _) (by omega) ⟨by omega, by omega⟩
    · exact hfree e he (addr / 4096) (by omega) (by omega) ⟨Nat.le_refl _, by omega⟩
  refine ⟨h.range, ?_, ?_, ?_⟩
  · intro e he
    rcases mem_m_insert _ _ _ e he with rfl | he
    · exact hs1
    · exact h.nonempty e he
  · intro e he j h1 h2
    rcases mem_m_insert _ _ _ e he with rfl | he
    · exact hin j h1 (by
        have : (addr + size + 4095) / 4096 = addr / 4096 + size / 4096 := by omega
        change j < (addr + size + 4095) / 4096 at h2
        omega)
    · rw [hout j (hfree e he j h1 h2)]
      exact h.mapped e he j h1 h2
  · apply pairwise_m_insert _ _ _ _ h.disjoint
    · intro e he
      exact hdis e he
    · intro e he
      exact (hdis e he).symm

/-- The block with a new entry over pages that were free is sound. -/
theorem sound_insert (c : Consts) (hc : c.WF) (b : Block) (pages pages1 : Pages)
    (addr size : Nat) (shm : Option Shm) (h : b.Sound c pages)
    (ha4 : addr % 4096 = 0) (hs4 : size % 4096 = 0)
    (hsz : 2 * guard_off b.flags 0x1000 < size) (hend : addr + size ≤ 4294967296)
    (hz : ∀ j, addr / 4096 ≤ j → j < addr / 4096 + size / 4096 → pages j = 0)
    (hin : ∀ j, addr / 4096 ≤ j → j < addr / 4096 + size / 4096 →
      pages1 j &&& c.page_allocated = c.page_allocated)
    (hout : ∀ j, ¬ (addr / 4096 ≤ j ∧ j < addr / 4096 + size / 4096) → pages1 j = pages j) :
    Block.Sound c { b with m_map := m_insert addr (size, shm) b.m_map } pages1 := by
  refine ⟨consistent_insert c hc b pages pages1 addr size shm h.consistent ha4 hs4 (by omega)
    hz hin hout, ?_, ?_, ?_⟩
  · intro e he
    rcases mem_m_insert _ _ _ e he with rfl | he
    · exact hend
    · exact h.bounded e he
  · intro e he
    rcases mem_m_insert _ _ _ e he with rfl | he
    · exact hsz
    · exact h.guarded e he
  · intro e he
    rcases mem_m_insert _ _ _ e he with rfl | he
    · exact ⟨ha4, hs4⟩
    · exact h.aligned e he

/-- The page table after a successful `try_alloc`: the pages of the range have
the allocated bit and the other pages are as before. -/
theorem try_alloc_pages (c : Consts) (b : Block) (s s1 : VM) (addr pflags size : Nat)
    (hp : ∀ j, s1.g_pages j =
        if addr / 4096 + guard_off b.flags 1 ≤ j
            ∧ j + guard_off b.flags 1 < addr / 4096 + size / 4096 then
          pflags ||| c.page_allocated
        else if addr / 4096 ≤ j ∧ j < addr / 4096 + size / 4096 then c.page_allocated
        else s.g_pages j) :
    (∀ j, addr / 4096 ≤ j → j < addr / 4096 + size / 4096 →
      s1.g_pages j &&& c.page_allocated = c.page_allocated) ∧
    (∀ j, ¬ (addr / 4096 ≤ j ∧ j < addr / 4096 + size / 4096) →
      s1.g_pages j = s.g_pages j) := by
  constructor
  · intro j h1 h2
    rw [hp j]
    by_cases hg : addr / 4096 + guard_off b.flags 1 ≤ j
        ∧ j + guard_off b.flags 1 < addr / 4096 + size / 4096
    · rw [if_pos hg]
      exact or_and_right_self _ _
    · rw [if_neg hg, if_pos ⟨h1, h2⟩]
      exact Nat.and_self _
  · intro j hj
    have hg1 : guard_off b.flags 1 = 0 ∨ guard_off b.flags 1 = 1 := by
      unfold guard_off
      split_ifs
      · exact Or.inr rfl
      · exact Or.inl rfl
    rw [hp j, if_neg (by omega), if_neg hj]

theorem sound_of_map_nil (c : Consts) (b : Block) (pages : Pages)
    (hr : b.addr + b.size ≤ 4294967296) (hm : b.m_map = []) : b.Sound c pages := by
  refine ⟨consistent_of_map_nil c b pages hr hm, ?_, ?_, ?_⟩ <;>
  · intro e he
    rw [hm] at he
    cases he

/-- Two entries of the map of a sound block have no page in common. -/
theorem sound_no_shared_page (c : Consts) (b : Block) (pages : Pages) (h : b.Sound c pages) :
    b.m_map.Pairwise fun e1 e2 => ∀ j,
      ¬ ((e1.1 / 4096 ≤ j ∧ j < (e1.1 + e1.2.1 + 4095) / 4096)
        ∧ (e2.1 / 4096 ≤ j ∧ j < (e2.1 + e2.2.1 + 4095) / 4096)) := by
  have ha := h.aligned
  have hd := h.consistent.disjoint
  generalize b.m_map = m at ha hd
  induction m with
  | nil => exact List.Pairwise.nil
  | cons e t ih =>
    have ht := List.pairwise_cons.1 hd
    refine List.pairwise_cons.2 ⟨?_, ih (fun x hx => ha x (List.mem_cons_of_mem _ hx)) ht.2⟩
    intro x hx j hj
    have h1 := ha e (List.mem_cons_self _ _)
    have h2 := ha x (List.mem_cons_of_mem _ hx)
    have h3 := ht.1 x hx
    omega

theorem eq_ok_of_value {σ α : Type} (r : Res σ α) (v : α) (h : r.value = some v) :
    r = Res.ok r.state v := by
  cases r with
  | ok s0 v0 =>
    cases h
    rfl
  | fatal s0 => cases h
  | hang s0 => cases h

theorem align_min_page (orig flags : Nat) : align orig (min_page_size flags) % 4096 = 0 := by
  have hd : min_page_size flags ∣ 4294967296 := by
    unfold min_page_size
    split_ifs
    · exact ⟨1048576, by decide⟩
    · exact ⟨65536, by decide⟩
  have h4 : 4096 ∣ min_page_size flags := by
    unfold min_page_size
    split_ifs
    · exact ⟨1, by decide⟩
    · exact ⟨16, by decide⟩
  exact Nat.mod_eq_zero_of_dvd (Nat.dvd_trans h4 (align_dvd orig _ hd))

theorem verify_eq_ok {σ : Type} (cond : Bool) (s x : σ) (u : Unit)
    (h : verify cond s = Res.ok x u) : cond = true ∧ x = s := by
  unfold verify at h
  cases cond with
  | true =>
    rw [if_pos rfl] at h
    cases h
    exact ⟨rfl, rfl⟩
  | false =>
    rw [if_neg (by decide)] at h
    cases h

theorem page_unmap_clear_frame (c : Consts) (n i : Nat) (s s1 : VM)
    (h : page_unmap_clear c n i s = Res.ok s1 ()) :
    ∀ j, ¬ (i ≤ j ∧ j < i + n) → s1.g_pages j = s.g_pages j := by
  induction n generalizing i s with
  | zero =>
    unfold page_unmap_clear at h
    cases h
    intro j _
    rfl
  | succ n ih =>
    unfold page_unmap_clear at h
    simp only [] at h
    by_cases hold : s.g_pages i &&& c.page_allocated = 0
    · rw [if_pos hold] at h
      cases h
    · rw [if_neg hold] at h
      intro j hj
      rw [ih (i + 1) (s.exchange i 0) h j (by omega), exchange_g_pages, if_neg (by omega)]

/-- A call of `_page_unmap` that returns `r` had page-aligned arguments and
changed no page outside the `r / 4096` pages from `addr / 4096` on. -/
theorem _page_unmap_frame (c : Consts) (s : VM) (addr max_size : Nat) (shm : Option Shm)
    (s1 : VM) (r : Nat) (h : _page_unmap c s addr max_size shm = Res.ok s1 r) :
    max_size ≠ 0 ∧ max_size % 4096 = 0 ∧ addr % 4096 = 0 ∧
    ∀ j, ¬ (addr / 4096 ≤ j ∧ j < addr / 4096 + r / 4096) → s1.g_pages j = s.g_pages j := by
  unfold _page_unmap at h
  by_cases hbad : max_size = 0 ∨ (max_size ||| addr) % 4096 ≠ 0
  · rw [if_pos hbad] at h
    cases h
  · rw [if_neg hbad] at h
    push_neg at hbad
    obtain ⟨h0, h4⟩ := hbad
    obtain ⟨hm4, ha4⟩ := (or_mod_4096 max_size addr).1 h4
    refine ⟨h0, hm4, ha4, ?_⟩
    cases hscan : page_unmap_scan c s.g_pages (max_size / 4096) (addr / 4096) 0 false with
    | none =>
      rw [hscan] at h
      cases h
    | some p =>
      obtain ⟨size, is_exec⟩ := p
      rw [hscan] at h
      simp only [] at h
      obtain ⟨s0, v0, e1, e2⟩ := and_then_eq_ok _ _ _ _ _ h
      cases e2
      intro j hj
      rw [page_unmap_calls_g_pages]
      exact page_unmap_clear_frame c _ _ s s0 e1 j hj

theorem clear_guard_pages_frame (c : Consts) (s s1 : VM) (addr size : Nat)
    (h : clear_guard_pages c s addr size = Res.ok s1 ()) :
    ∀ j, j ≠ u32 (addr / 4096 + 4294967295) → j ≠ addr / 4096 + size / 4096 →
      s1.g_pages j = s.g_pages j := by
  unfold clear_guard_pages at h
  simp only [] at h
  obtain ⟨s0, v0, e1, e2⟩ := and_then_eq_ok _ _ _ _ _ h
  obtain ⟨_, hs0⟩ := verify_eq_ok _ _ _ _ e1
  obtain ⟨_, hs1⟩ := verify_eq_ok _ _ _ _ e2
  intro j hj1 hj2
  rw [hs1, exchange_g_pages, if_neg hj2, hs0, exchange_g_pages, if_neg hj1]

/-- A call of `dealloc` that returns leaves a sound block sound. -/
theorem dealloc_sound (c : Consts) (b : Block) (s : VM) (addr : Nat)
    (src : Option (Option Shm)) (b1 : Block) (s1 : VM) (r : Nat)
    (h : b.Sound c s.g_pages) (haddr : addr < 4294967296)
    (e : b.dealloc c s addr src = Res.ok (b1, s1) r) : b1.Sound c s1.g_pages := by
  unfold Block.dealloc at e
  simp only [] at e
  cases hfind : m_find b.m_map (u32 (addr + 4294967296 - guard_off b.flags 0x1000)) with
  | none =>
    rw [hfind] at e
    cases e
    exact h
  | some v =>
    obtain ⟨fsize, fshm⟩ := v
    rw [hfind] at e
    simp only [] at e
    unfold Block.dealloc_found at e
    by_cases hown : owner_mismatch src fshm = true
    · rw [if_pos hown] at e
      cases e
      exact h
    · rw [if_neg hown] at e
      simp only [] at e
      have hmem := m_find_some_mem _ _ _ hfind
      have hbd := h.bounded _ hmem
      have hgd := h.guarded _ hmem
      simp only [] at hbd hgd
      obtain ⟨s2, u2, e2, e⟩ := and_then_eq_ok _ _ _ _ _ e
      obtain ⟨s3, r3, e3, e⟩ := and_then_eq_ok _ _ _ _ _ e
      obtain ⟨x, u4, e4, e⟩ := and_then_eq_ok _ _ _ _ _ e
      obtain ⟨hr3, hx⟩ := verify_eq_ok _ _ _ _ e4
      have hr3 := of_decide_eq_true hr3
      cases e
      rw [hx]
      obtain ⟨hne, hs4, ha4, hframe⟩ := _page_unmap_frame c s2 addr _ fshm s3 r3 e3
      rw [← hr3] at hframe
      -- every changed page is a page of the entry
      have hpages : ∀ j,
          ¬ (u32 (addr + 4294967296 - guard_off b.flags 0x1000) / 4096 ≤ j
            ∧ j < (u32 (addr + 4294967296 - guard_off b.flags 0x1000) + fsize + 4095) / 4096) →
          s3.g_pages j = s.g_pages j := by
        intro j hj
        rcases guard_off_cases b.flags 0x1000 with ⟨hg, h1⟩ | ⟨hg, h1⟩
        · have h2 : guard_off b.flags 0x2000 = 0x2000 := by
            unfold guard_off; rw [if_pos hg]
          rw [h1] at hj hgd hbd
          rw [h2] at hframe hs4 hne e2
          rw [if_pos hg] at e2
          have hcg := clear_guard_pages_frame c s s2 addr _ e2
          unfold u32 at hj hbd hframe hs4 hne hcg
          rw [hframe j (by omega), hcg j (by omega) (by omega)]
        · have h2 : guard_off b.flags 0x2000 = 0 := by
            unfold guard_off; rw [if_neg (not_not.2 hg)]
          rw [h1] at hj hgd hbd
          rw [h2] at hframe hs4 hne
          rw [if_neg (not_not.2 hg)] at e2
          cases e2
          unfold u32 at hj hbd hframe hs4 hne
          rw [hframe j (by omega)]
      have hkey4 : u32 (addr + 4294967296 - guard_off b.flags 0x1000) % 4096 = 0 := by
        rcases guard_off_cases b.flags 0x1000 with ⟨hg, h1⟩ | ⟨hg, h1⟩ <;>
        · rw [h1]
          unfold u32
          omega
      have hf4 : fsize % 4096 = 0 := by
        rcases guard_off_cases b.flags 0x1000 with ⟨hg, h1⟩ | ⟨hg, h1⟩
        · have h2 : guard_off b.flags 0x2000 = 0x2000 := by
            unfold guard_off; rw [if_pos hg]
          rw [h2] at hs4
          rw [h1] at hgd
          unfold u32 at hs4
          omega
        · have h2 : guard_off b.flags 0x2000 = 0 := by
            unfold guard_off; rw [if_neg (not_not.2 hg)]
          rw [h2] at hs4
          unfold u32 at hs4
          omega
      have hsub := m_erase_sublist (u32 (addr + 4294967296 - guard_off b.flags 0x1000)) b.m_map
      have hrel := m_erase_rel
        (fun e1 e2 => e1.1 + e1.2.1 ≤ e2.1 ∨ e2.1 + e2.2.1 ≤ e1.1)
        (fun _ _ hxy => hxy.symm) _ _ b.m_map h.consistent.disjoint hfind
      refine ⟨⟨h.consistent.range, ?_, ?_, ?_⟩, ?_, ?_, ?_⟩
      · intro e he
        exact h.consistent.nonempty e (hsub.subset he)
      · intro e he j hj1 hj2
        have hd := hrel e he
        simp only [] at hd
        show s3.g_pages j &&& c.page_allocated = c.page_allocated
        rw [hpages j (by omega)]
        exact h.consistent.mapped e (hsub.subset he) j hj1 hj2
      · exact List.Pairwise.sublist hsub h.consistent.disjoint
      · intro e he
        exact h.bounded e (hsub.subset he)
      · intro e he
        exact h.guarded e (hsub.subset he)
      · intro e he
        exact h.aligned e (hsub.subset he)

/-! ## The protection calls of `page_protect` -/

theorem masked_ne_ff (c : Consts) (hc : c.WF) (x : Nat) :
    x &&& (c.page_readable ||| c.page_writable) ≠ 0xff := by
  intro h
  obtain ⟨i, hi⟩ := Nat.ne_zero_implies_bit_true hc.allocated_ne
  have h1 := congrArg (fun z => Nat.testBit z i) hc.readable_disj
  have h2 := congrArg (fun z => Nat.testBit z i) hc.writable_disj
  have h3 := congrArg (fun z => Nat.testBit z i) h
  simp only [Nat.testBit_and, Nat.testBit_or, hi, Bool.and_true, Nat.zero_testBit] at h1 h2 h3
  rw [h1, h2] at h3
  have hi8 : i < 8 := by
    by_contra hge
    have : c.page_allocated.testBit i = false := by
      apply Nat.testBit_lt_two_pow
      calc c.page_allocated < 256 := hc.allocated_lt
        _ = 2 ^ 8 := by norm_num
        _ ≤ 2 ^ i := Nat.pow_le_pow_right (by norm_num) (by omega)
    rw [this] at hi
    cases hi
  have h255 : Nat.testBit 255 i = true := by
    interval_cases i <;> rfl
  rw [h255] at h3
  simp at h3

theorem calls_of_append (a b : List Event) : calls_of (a ++ b) = calls_of a ++ calls_of b := by
  unfold calls_of
  exact List.filter_append _ _

theorem runs_tile_cons (r : Nat × Nat) (rs : List (Nat × Nat)) (lo hi : Nat) :
    runs_tile (r :: rs) lo hi = true ↔ r.1 = lo ∧ 1 ≤ r.2 ∧ runs_tile rs (lo + r.2) hi = true := by
  rw [runs_tile, Bool.and_eq_true, Bool.and_eq_true, decide_eq_true_eq, decide_eq_true_eq,
    and_assoc]

theorem runs_tile_nil (lo hi : Nat) : runs_tile [] lo hi = true ↔ lo = hi := by
  unfold runs_tile
  exact decide_eq_true_iff

theorem runs_tile_head (rs : List (Nat × Nat)) (lo hi : Nat) (h : runs_tile rs lo hi = true) :
    ∀ y ∈ rs.head?, y.1 = lo := by
  cases rs with
  | nil =>
    intro y hy
    cases hy
  | cons r t =>
    intro y hy
    simp only [List.head?_cons, Option.mem_def, Option.some.injEq] at hy
    rw [← hy]
    exact ((runs_tile_cons r t lo hi).1 h).1

/-- The second loop of `page_protect` from iteration `i` on, with the pending
run `[start, i)` of value `sv`: the calls it issues are the maximal runs of
equal values of `U` that tile `[start, last)`. -/
theorem page_protect_loop_runs (c : Consts) (fs fc last : Nat) (U : Nat → Nat)
    (hU : ∀ j, U j ≠ 0xff) (n i start sv : Nat) (s : VM)
    (hn : i + n = last + 1) (hsi : start ≤ i) (hil : i ≤ last)
    (hsz : (last - start) * 4096 < 4294967296)
    (hsv : start = i → sv = 0xff)
    (hpend : ∀ j, start ≤ j → j < i → U j = sv)
    (hfut : ∀ j, i ≤ j → j < last →
      ((s.g_pages j ||| fs) &&& u8_not fc) &&& (c.page_readable ||| c.page_writable) = U j) :
    ∃ evs runs,
      (page_protect_loop c fs fc last n i start sv s).trace = s.trace ++ evs ∧
      calls_of evs = runs.map (fun r =>
        Event.memory_protect (r.1 * 4096) (r.2 * 4096) (protection_of c (U r.1))) ∧
      runs_tile runs start last = true ∧
      (∀ r ∈ runs, ∀ j, r.1 ≤ j → j < r.1 + r.2 → U j = U r.1) ∧
      runs.Chain' (fun a b => U a.1 ≠ U b.1) := by
  induction n generalizing i start sv s with
  | zero => omega
  | succ n ih =>
    have hsv2 : start < i → sv = U start ∧ sv ≠ 0xff := by
      intro h
      have := hpend start (Nat.le_refl _) h
      exact ⟨this.symm, this ▸ hU start⟩
    rw [page_protect_loop]
    simp only []
    by_cases hlt : i < last
    · -- a page of the range
      rw [if_pos hlt, if_pos hlt, hfut i (Nat.le_refl _) hlt]
      have hfut1 : ∀ (t : VM), t.g_pages = (s.exchange i
          ((s.g_pages i ||| fs) &&& u8_not fc)).g_pages →
          ∀ j, i + 1 ≤ j → j < last →
          ((t.g_pages j ||| fs) &&& u8_not fc) &&& (c.page_readable ||| c.page_writable)
            = U j := by
        intro t ht j h1 h2
        rw [ht, exchange_g_pages, if_neg (by omega)]
        exact hfut j (by omega) h2
      by_cases hnv : U i ≠ sv
      · rw [if_pos hnv]
        have hu : u32 ((i - start) * 4096) = (i - start) * 4096 := by
          unfold u32
          apply Nat.mod_eq_of_lt
          have : (i - start) * 4096 ≤ (last - start) * 4096 :=
            Nat.mul_le_mul_right _ (by omega)
          omega
        rw [hu]
        by_cases hst : start = i
        · -- no pending run
          have h0 : ¬ (i - start) * 4096 ≠ 0 := by
            rw [hst, Nat.sub_self]
            decide
          rw [if_neg h0]
          obtain ⟨evs, runs, e1, e2, e3, e4, e5⟩ := ih (i + 1) i (U i)
            (s.exchange i ((s.g_pages i ||| fs) &&& u8_not fc)) (by omega) (by omega) (by omega)
            (by
              have : (last - i) * 4096 ≤ (last - start) * 4096 :=
                Nat.mul_le_mul_right _ (by omega)
              omega)
            (by omega)
            (by
              intro j h1 h2
              have : j = i := by omega
              rw [this])
            (hfut1 _ rfl)
          refine ⟨Event.page_flags i ((s.g_pages i ||| fs) &&& u8_not fc) :: evs, runs,
            ?_, ?_, ?_, e4, e5⟩
          · rw [e1]
            show (s.trace ++ [_]) ++ evs = _
            rw [List.append_assoc]
            rfl
          · rw [← e2]
            rfl
          · rw [hst]
            exact e3
        · -- the pending run is flushed
          have hlt2 : start < i := by omega
          have h0 : (i - start) * 4096 ≠ 0 := by
            have : 1 ≤ i - start := by omega
            have := Nat.mul_le_mul_right 4096 this
            omega
          rw [if_pos h0]
          obtain ⟨evs, runs, e1, e2, e3, e4, e5⟩ := ih (i + 1) i (U i)
            ((s.exchange i ((s.g_pages i ||| fs) &&& u8_not fc)).emit
              (Event.memory_protect (start * 4096) ((i - start) * 4096) (protection_of c sv)))
            (by omega) (by omega) (by omega)
            (by
              have : (last - i) * 4096 ≤ (last - start) * 4096 :=
                Nat.mul_le_mul_right _ (by omega)
              omega)
            (by omega)
            (by
              intro j h1 h2
              have : j = i := by omega
              rw [this])
            (hfut1 _ rfl)
          refine ⟨Event.page_flags i ((s.g_pages i ||| fs) &&& u8_not fc)
              :: Event.memory_protect (start * 4096) ((i - start) * 4096) (protection_of c sv)
              :: evs, (start, i - start) :: runs, ?_, ?_, ?_, ?_, ?_⟩
          · rw [e1]
            show ((s.trace ++ [_]) ++ [_]) ++ evs = _
            rw [List.append_assoc, List.append_assoc]
            rfl
          · rw [List.map_cons, ← e2, (hsv2 hlt2).1]
            rfl
          · rw [runs_tile_cons]
            refine ⟨rfl, by simp only []; omega, ?_⟩
            have : start + (i - start) = i := by omega
            simp only []
            rw [this]
            exact e3
          · intro r hr j h1 h2
            rcases List.mem_cons.1 hr with hr | hr
            · rw [hr] at h1 h2 ⊢
              simp only [] at h1 h2 ⊢
              rw [hpend j h1 (by omega), (hsv2 hlt2).1]
            · exact e4 r hr j h1 h2
          · rw [List.chain'_cons']
            refine ⟨?_, e5⟩
            intro y hy
            rw [runs_tile_head runs i last e3 y hy]
            simp only []
            rw [← (hsv2 hlt2).1]
            exact fun h => hnv h.symm
      · -- the pending run goes on
        rw [if_neg hnv]
        have hnv1 : U i = sv := not_not.1 hnv
        have hlt2 : start < i := by
          by_contra hge
          have : start = i := by omega
          exact hU i (hnv1.trans (hsv this))
        obtain ⟨evs, runs, e1, e2, e3, e4, e5⟩ := ih (i + 1) start sv
          (s.exchange i ((s.g_pages i ||| fs) &&& u8_not fc)) (by omega) (by omega) (by omega)
          hsz (by omega)
          (by
            intro j h1 h2
            by_cases hji : j = i
            · rw [hji]
              exact hnv1
            · exact hpend j h1 (by omega))
          (hfut1 _ rfl)
        refine ⟨Event.page_flags i ((s.g_pages i ||| fs) &&& u8_not fc) :: evs, runs,
          ?_, ?_, e3, e4, e5⟩
        · rw [e1]
          show (s.trace ++ [_]) ++ evs = _
          rw [List.append_assoc]
          rfl
        · rw [← e2]
          rfl
    · -- the iteration after the last page
      have hil2 : i = last := by omega
      have hn0 : n = 0 := by omega
      subst hn0
      rw [if_neg hlt, if_neg hlt]
      by_cases hst : start = i
      · rw [hsv hst, if_neg (by decide)]
        rw [page_protect_loop]
        refine ⟨[], [], (List.append_nil _).symm, rfl, ?_, ?_, List.chain'_nil⟩
        · rw [runs_tile_nil]
          omega
        · intro r hr
          cases hr
      · have hlt2 : start < i := by omega
        have hne : (255 : Nat) ≠ sv := fun h => (hsv2 hlt2).2 h.symm
        rw [if_pos hne]
        have hu : u32 ((i - start) * 4096) = (i - start) * 4096 := by
          unfold u32
          apply Nat.mod_eq_of_lt
          rw [hil2]
          exact hsz
        have h0 : (i - start) * 4096 ≠ 0 := by
          have : 1 ≤ i - start := by omega
          have := Nat.mul_le_mul_right 4096 this
          omega
        rw [hu, if_pos h0, page_protect_loop]
        refine ⟨[Event.memory_protect (start * 4096) ((i - start) * 4096) (protection_of c sv)],
          [(start, i - start)], rfl, ?_, ?_, ?_, List.chain'_singleton _⟩
        · rw [List.map_singleton, (hsv2 hlt2).1]
          rfl
        · rw [runs_tile_cons, runs_tile_nil]
          refine ⟨rfl, by simp only []; omega, ?_⟩
          simp only []
          omega
        · intro r hr j h1 h2
          rw [List.mem_singleton.1 hr] at h1 h2 ⊢
          simp only [] at h1 h2 ⊢
          rw [hpend j h1 (by omega), (hsv2 hlt2).1]

theorem runs_tile_bounds (rs : List (Nat × Nat)) (lo hi : Nat)
    (h : runs_tile rs lo hi = true) : ∀ r ∈ rs, lo ≤ r.1 ∧ r.1 + r.2 ≤ hi := by
  induction rs generalizing lo with
  | nil =>
    intro r hr
    cases hr
  | cons x t ih =>
    obtain ⟨h1, h2, h3⟩ := (runs_tile_cons x t lo hi).1 h
    have hle : lo + x.2 ≤ hi := by
      cases t with
      | nil =>
        have := (runs_tile_nil _ _).1 h3
        omega
      | cons y t2 =>
        have hy := ih (lo + x.2) h3 y (List.mem_cons_self _ _)
        have hy1 := ((runs_tile_cons y t2 _ hi).1 h3).1
        omega
    intro r hr
    rcases List.mem_cons.1 hr with hr | hr
    · rw [hr]
      omega
    · have := ih (lo + x.2) h3 r hr
      omega

theorem and_mask_writable (x r w : Nat) : x &&& (r ||| w) &&& w = x &&& w := by
  apply Nat.eq_of_testBit_eq
  intro i
  simp only [Nat.testBit_and, Nat.testBit_or]
  cases x.testBit i <;> cases r.testBit i <;> cases w.testBit i <;> rfl

theorem and_mask_readable (x r w : Nat) : x &&& (r ||| w) &&& r = x &&& r := by
  apply Nat.eq_of_testBit_eq
  intro i
  simp only [Nat.testBit_and, Nat.testBit_or]
  cases x.testBit i <;> cases r.testBit i <;> cases w.testBit i <;> rfl

theorem protection_of_masked (c : Consts) (x : Nat) :
    protection_of c (x &&& (c.page_readable ||| c.page_writable))
      = if x &&& c.page_writable ≠ 0 then Protection.rw
        else if x &&& c.page_readable ≠ 0 then Protection.ro else Protection.no := by
  unfold protection_of
  rw [and_mask_writable, and_mask_readable]

/-- C31: a call of `page_protect` on a range inside the address space that
returns `true` and sets or clears a flag appends to the trace, besides the
stores to the page table, exactly the calls of `utils::memory_protect` of a
list of runs: the runs tile the pages of `[addr, addr + size)` in increasing
order, without a wrap of an address or a size, the new readable and writable bits are the same on all pages of a run
and differ between consecutive runs, and the protection of a run is
read-write when its pages are writable, read-only when they are only readable
and no-access otherwise. -/
theorem page_protect_runs (c : Consts) (hc : c.WF) (s : VM)
    (addr size flags_test flags_set flags_clear : Nat) (s1 : VM)
    (hsize : size < 4294967296) (h32 : addr + size ≤ 4294967296)
    (hok : page_protect c s addr size flags_test flags_set flags_clear = Res.ok s1 true)
    (hchg : ¬ (flags_set &&& u8_not (flags_set &&& flags_clear) = 0
      ∧ flags_clear &&& u8_not (flags_set &&& flags_clear) = 0)) :
    ∃ evs runs,
      s1.trace = s.trace ++ evs ∧
      calls_of evs = runs.map (fun r =>
        Event.memory_protect (r.1 * 4096) (r.2 * 4096)
          (if s1.g_pages r.1 &&& c.page_writable ≠ 0 then Protection.rw
           else if s1.g_pages r.1 &&& c.page_readable ≠ 0 then Protection.ro
           else Protection.no)) ∧
      runs_tile runs (addr / 4096) (addr / 4096 + size / 4096) = true ∧
      (∀ r ∈ runs, addr ≤ r.1 * 4096 ∧ r.1 * 4096 + r.2 * 4096 ≤ addr + size
        ∧ r.1 * 4096 + r.2 * 4096 ≤ 4294967296) ∧
      (∀ r ∈ runs, ∀ j, r.1 ≤ j → j < r.1 + r.2 →
        s1.g_pages j &&& (c.page_readable ||| c.page_writable)
          = s1.g_pages r.1 &&& (c.page_readable ||| c.page_writable)) ∧
      runs.Chain' (fun a b =>
        s1.g_pages a.1 &&& (c.page_readable ||| c.page_writable)
          ≠ s1.g_pages b.1 &&& (c.page_readable ||| c.page_writable)) := by
  unfold page_protect at hok
  by_cases h1 : size = 0 ∨ (size ||| addr) % 4096 ≠ 0
  · rw [if_pos h1] at hok
    cases hok
  · rw [if_neg h1] at hok
    simp only [] at hok
    push_neg at h1
    obtain ⟨hs0, h4⟩ := h1
    obtain ⟨hs4, ha4⟩ := (or_mod_4096 size addr).1 h4
    by_cases h2 : ¬ page_protect_test c s.g_pages (flags_test ||| c.page_allocated)
        (size / 4096) (addr / 4096) = true
    · rw [if_pos h2] at hok
      cases hok
    · rw [if_neg h2, if_neg hchg] at hok
      have hs1 : s1 = page_protect_loop c (flags_set &&& u8_not (flags_set &&& flags_clear))
          (flags_clear &&& u8_not (flags_set &&& flags_clear)) (addr / 4096 + size / 4096)
          (size / 4096 + 1) (addr / 4096) (addr / 4096) 0xff s := by
        cases hok
        rfl
      have hp : ∀ j, addr / 4096 ≤ j → j < addr / 4096 + size / 4096 →
          ((s.g_pages j ||| (flags_set &&& u8_not (flags_set &&& flags_clear)))
            &&& u8_not (flags_clear &&& u8_not (flags_set &&& flags_clear)))
            &&& (c.page_readable ||| c.page_writable)
          = s1.g_pages j &&& (c.page_readable ||| c.page_writable) := by
        intro j hj1 hj2
        rw [hs1, page_protect_loop_g_pages, if_pos ⟨hj1, by omega, hj2⟩]
      obtain ⟨evs, runs, e1, e2, e3, e4, e5⟩ := page_protect_loop_runs c
        (flags_set &&& u8_not (flags_set &&& flags_clear))
        (flags_clear &&& u8_not (flags_set &&& flags_clear)) (addr / 4096 + size / 4096)
        (fun j => s1.g_pages j &&& (c.page_readable ||| c.page_writable))
        (fun j => masked_ne_ff c hc _) (size / 4096 + 1) (addr / 4096) (addr / 4096) 0xff s
        (by omega) (Nat.le_refl _) (by omega)
        (by
          rw [Nat.add_sub_cancel_left]
          omega)
        (fun _ => rfl)
        (fun j h1 h2 => by omega) hp
      rw [← hs1] at e1
      refine ⟨evs, runs, e1, ?_, e3, ?_, e4, e5⟩
      · rw [e2]
        apply List.map_congr_left
        intro r _
        rw [protection_of_masked]
      · intro r hr
        have := runs_tile_bounds runs _ _ e3 r hr
        omega

/-- Witness of C31: clearing the writable flag of the one mapped page issues
one call, which makes the page read-only. -/
theorem page_protect_runs_witness :
    ∃ evs runs,
      (page_protect ps3Consts one_page_vm 0x10000 0x1000 0 0 2).state.trace
        = one_page_vm.trace ++ evs ∧
      calls_of evs = runs.map (fun r =>
        Event.memory_protect (r.1 * 4096) (r.2 * 4096)
          (if (page_protect ps3Consts one_page_vm 0x10000 0x1000 0 0 2).state.g_pages r.1
              &&& ps3Consts.page_writable ≠ 0 then Protection.rw
           else if (page_protect ps3Consts one_page_vm 0x10000 0x1000 0 0 2).state.g_pages r.1
              &&& ps3Consts.page_readable ≠ 0 then Protection.ro
           else Protection.no)) ∧
      runs_tile runs (0x10000 / 4096) (0x10000 / 4096 + 0x1000 / 4096) = true :=
  match page_protect_runs ps3Consts ps3Consts_wf one_page_vm 0x10000 0x1000 0 0 2
      (page_protect ps3Consts one_page_vm 0x10000 0x1000 0 0 2).state (by decide) (by decide)
      (eq_ok_of_value _ true (by decide)) (by decide) with
  | ⟨evs, runs, h1, h2, h3, _⟩ => ⟨evs, runs, h1, h2, h3⟩

/-! ## `try_alloc` and `alloc` with any handle and any flags -/

theorem and_then_res {σ τ α β : Type} (P : σ → Prop) (Q : Res τ β → Prop) (r : Res σ α)
    (emb : σ → τ) (k : σ → α → Res τ β) (hr : P r.state)
    (hf : ∀ s, P s → Q (Res.fatal (emb s))) (hh : ∀ s, P s → Q (Res.hang (emb s)))
    (hk : ∀ s v, P s → Q (k s v)) : Q (r.and_then emb k) := by
  cases r with
  | ok s v => exact hk s v hr
  | fatal s => exact hf s hr
  | hang s => exact hh s hr

theorem gain_refl (c : Consts) (pages : Pages) : PageGain c pages pages :=
  fun _ => Or.inl rfl

theorem gain_exchange (c : Consts) (pages : Pages) (s : VM) (i v : Nat)
    (h : PageGain c pages s.g_pages) (hv : v &&& c.page_allocated = c.page_allocated) :
    PageGain c pages (s.exchange i v).g_pages := by
  intro j
  rw [exchange_g_pages]
  by_cases hj : j = i
  · rw [if_pos hj]
    exact Or.inr hv
  · rw [if_neg hj]
    exact h j

theorem gain_page_map_set (c : Consts) (pages : Pages) (v : Nat)
    (hv : v &&& c.page_allocated = c.page_allocated) (n i : Nat) (s : VM)
    (h : PageGain c pages s.g_pages) : PageGain c pages (page_map_set v n i s).state.g_pages := by
  induction n generalizing i s with
  | zero => exact h
  | succ n ih =>
    unfold page_map_set
    simp only []
    by_cases h0 : s.g_pages i ≠ 0
    · rw [if_pos h0]
      exact gain_exchange c pages s i v h hv
    · rw [if_neg h0]
      exact ih (i + 1) _ (gain_exchange c pages s i v h hv)

theorem gain_page_map (c : Consts) (pages : Pages) (s : VM) (addr flags size : Nat)
    (shm : Option Shm) (h : PageGain c pages s.g_pages) :
    PageGain c pages (_page_map c s addr flags size shm).state.g_pages := by
  unfold _page_map
  split_ifs
  · exact h
  · exact h
  · apply gain_page_map_set c pages _ (or_and_right_self _ _)
    rw [page_map_calls_g_pages]
    exact h

theorem gain_mark_guard (c : Consts) (pages : Pages) (s : VM) (addr size : Nat)
    (h : PageGain c pages s.g_pages) :
    PageGain c pages (mark_guard_pages c s addr size).state.g_pages := by
  unfold mark_guard_pages
  simp only []
  refine and_then_state (fun t : VM => PageGain c pages t.g_pages)
    (fun t : VM => PageGain c pages t.g_pages) _ _ _ ?_ (fun t ht => ht) ?_
  · rw [verify_state]
    exact gain_exchange c pages s _ _ h (Nat.and_self _)
  · intro t _ ht
    rw [verify_state]
    exact gain_exchange c pages t _ _ ht (Nat.and_self _)

/-- Whatever its arguments and its outcome, `try_alloc` only stores values with
the allocated bits, and it leaves the block as it is unless it returns
`true`. -/
theorem try_alloc_gain (c : Consts) (b : Block) (s : VM) (addr pflags size : Nat)
    (shm : Option Shm) :
    ((b.try_alloc c s addr pflags size shm).value ≠ some true →
      (b.try_alloc c s addr pflags size shm).state.1 = b) ∧
    PageGain c s.g_pages (b.try_alloc c s addr pflags size shm).state.2.g_pages := by
  unfold Block.try_alloc
  by_cases hany : any_page_set s.g_pages
      (u32 (addr + size + 4294967295) / 4096 + 1 - addr / 4096) (addr / 4096) = true
  · rw [if_pos hany]
    exact ⟨fun _ => rfl, gain_refl c _⟩
  · rw [if_neg hany]
    simp only []
    refine and_then_res (fun t : VM => PageGain c s.g_pages t.g_pages)
      (fun r : Res (Block × VM) Bool =>
        (r.value ≠ some true → r.state.1 = b) ∧ PageGain c s.g_pages r.state.2.g_pages)
      _ _ _ ?_ (fun t ht => ⟨fun _ => rfl, ht⟩) (fun t ht => ⟨fun _ => rfl, ht⟩) ?_
    · by_cases hg : b.flags &&& 0x10 ≠ 0
      · rw [if_pos hg]
        exact gain_mark_guard c _ s addr size (gain_refl c _)
      · rw [if_neg hg]
        exact gain_refl c _
    · intro t _ ht
      refine and_then_res (fun t : VM => PageGain c s.g_pages t.g_pages)
        (fun r : Res (Block × VM) Bool =>
          (r.value ≠ some true → r.state.1 = b) ∧ PageGain c s.g_pages r.state.2.g_pages)
        _ _ _ (gain_page_map c _ t _ _ _ shm ht) (fun t ht => ⟨fun _ => rfl, ht⟩)
        (fun t ht => ⟨fun _ => rfl, ht⟩) ?_
      intro t2 _ ht2
      exact ⟨fun h => absurd rfl h, ht2⟩

theorem _page_map_args (c : Consts) (s : VM) (addr flags size : Nat) (shm : Option Shm)
    (s1 : VM) (u : Unit) (h : _page_map c s addr flags size shm = Res.ok s1 u) :
    size ≠ 0 ∧ size % 4096 = 0 ∧ addr % 4096 = 0 := by
  unfold _page_map at h
  by_cases h1 : size = 0 ∨ (size ||| addr) % 4096 ≠ 0 ∨ flags &&& c.page_allocated ≠ 0
  · rw [if_pos h1] at h
    cases h
  · push_neg at h1
    obtain ⟨h2, h3, _⟩ := h1
    obtain ⟨h4, h5⟩ := (or_mod_4096 size addr).1 h3
    exact ⟨h2, h4, h5⟩

/-- A call of `try_alloc` that returns `true`, on a size that is a non-zero
multiple of 4096 and a range inside the address space, was made at a multiple
of 4096 with room between the guard pages, and every page of the range was
free. -/
theorem try_alloc_inv (c : Consts) (hc : c.WF) (b : Block) (s : VM) (addr pflags size : Nat)
    (shm : Option Shm) (x : Block × VM) (hs4 : size % 4096 = 0) (hs1 : 1 ≤ size)
    (hend : addr + size ≤ 4294967296)
    (h : b.try_alloc c s addr pflags size shm = Res.ok x true) :
    addr % 4096 = 0 ∧ 2 * guard_off b.flags 0x1000 < size ∧
    (∀ j, addr / 4096 ≤ j → j < addr / 4096 + size / 4096 → s.g_pages j = 0) := by
  have hany := try_alloc_eq_ok_true c b s addr pflags size shm x h
  rw [any_page_set_eq_false] at hany
  have hmax : u32 (addr + size + 4294967295) = addr + size - 1 := by
    unfold u32
    omega
  rw [hmax] at hany
  have hz : ∀ j, addr / 4096 ≤ j → j < addr / 4096 + size / 4096 → s.g_pages j = 0 := by
    intro j h1 h2
    exact hany j h1 (by omega)
  unfold Block.try_alloc at h
  rw [hmax, if_neg (by
    rw [Bool.not_eq_true, any_page_set_eq_false]
    exact hany)] at h
  simp only [] at h
  obtain ⟨s2, u2, e2, h⟩ := and_then_eq_ok _ _ _ _ _ h
  obtain ⟨s3, u3, e3, _⟩ := and_then_eq_ok _ _ _ _ _ h
  obtain ⟨hp0, hp4, hpa4⟩ := _page_map_args c s2 _ _ _ shm s3 u3 e3
  rcases guard_off_cases b.flags 0x1000 with ⟨hg, h1⟩ | ⟨hg, h1⟩
  · have h2 : guard_off b.flags 0x2000 = 0x2000 := by
      unfold guard_off; rw [if_pos hg]
    rw [if_pos hg] at e2
    unfold mark_guard_pages at e2
    simp only [] at e2
    obtain ⟨t1, v1, f1, f2⟩ := and_then_eq_ok _ _ _ _ _ e2
    obtain ⟨_, ht1⟩ := verify_eq_ok _ _ _ _ f1
    obtain ⟨hc2, _⟩ := verify_eq_ok _ _ _ _ f2
    have hc2 := of_decide_eq_true hc2
    rw [ht1, exchange_g_pages] at hc2
    have hne : u32 (addr / 4096 + size / 4096 + 4294967295) ≠ addr / 4096 := by
      intro heq
      rw [if_pos heq] at hc2
      exact hc.allocated_ne hc2
    rw [h1] at hpa4 ⊢
    rw [h2] at hp0 hp4
    unfold u32 at hp0 hp4 hpa4 hne
    refine ⟨by omega, by omega, hz⟩
  · have h2 : guard_off b.flags 0x2000 = 0 := by
      unfold guard_off; rw [if_neg (not_not.2 hg)]
    rw [h1] at hpa4 ⊢
    unfold u32 at hpa4
    refine ⟨by omega, by omega, hz⟩

/-- The search loop of `alloc` uses its argument `flags` only for the offset of
the returned address. -/
theorem alloc_loop_flags_congr (c : Consts) (b : Block) (f1 f2 al size pflags : Nat)
    (shm : Option Shm) (h : guard_off f1 0x1000 = guard_off f2 0x1000) (fuel a : Nat) (s : VM) :
    Block.alloc_loop c b f1 al size pflags shm fuel a s
      = Block.alloc_loop c b f2 al size pflags shm fuel a s := by
  induction fuel generalizing a s with
  | zero =>
    rw [Block.alloc_loop, Block.alloc_loop]
  | succ fuel ih =>
    rw [Block.alloc_loop, Block.alloc_loop]
    by_cases hfit : a + size ≤ b.addr + b.size
    · rw [if_pos hfit, if_pos hfit]
      cases b.try_alloc c s a pflags size shm with
      | ok x done =>
        rw [and_then_ok, and_then_ok]
        cases done with
        | true => rw [if_pos rfl, if_pos rfl, h]
        | false => rw [if_neg (by decide), if_neg (by decide), ih]
      | fatal x => rfl
      | hang x => rfl
    · rw [if_neg hfit, if_neg hfit]

/-- The handle with which `alloc` and `falloc` call `try_alloc`. -/
theorem alloc_any_loop (c : Consts) (b : Block) (s : VM) (orig al : Nat)
    (src : Option (Option Shm)) (flags : Nat)
    (hv : ¬ (al < min_page_size (b.flags_in_force src flags)
      ∨ al ≠ 0x80000000 >>> countl_zero al))
    (hsz : ¬ (orig = 0
      ∨ u32 (align orig (min_page_size (b.flags_in_force src flags))
          + guard_off (b.flags_in_force src flags) 0x2000) = 0
      ∨ orig > u32 (align orig (min_page_size (b.flags_in_force src flags))
          + guard_off (b.flags_in_force src flags) 0x2000)
      ∨ u32 (align orig (min_page_size (b.flags_in_force src flags))
          + guard_off (b.flags_in_force src flags) 0x2000) > b.size))
    (hcs : b.m_common = none ∨ src = none) :
    ∃ shm s0, s0.g_pages = s.g_pages ∧
      (b.m_common = none → src = none →
        shm = some (s.make_shm c
          (u32 (align orig (min_page_size (b.flags_in_force src flags))
            + guard_off (b.flags_in_force src flags) 0x2000))).1) ∧
      (∀ h, src = some h → shm = h) ∧
      b.alloc c s orig al src flags
        = Block.alloc_loop c b (b.flags_in_force src flags) al
            (u32 (align orig (min_page_size (b.flags_in_force src flags))
              + guard_off (b.flags_in_force src flags) 0x2000))
            (page_flags_of c (b.flags_in_force src flags)) shm (4294967296 / al)
            (align b.addr al) s0 := by
  unfold Block.flags_in_force at *
  unfold Block.alloc
  simp only []
  rw [if_neg hv, if_neg hsz]
  cases hm : b.m_common with
  | some m =>
    cases hsrc : src with
    | some h =>
      rcases hcs with h1 | h1
      · rw [hm] at h1
        cases h1
      · rw [hsrc] at h1
        cases h1
    | none =>
      refine ⟨none, s, rfl, (fun h1 => by cases h1), (fun h h1 => by cases h1), rfl⟩
  | none =>
    cases hsrc : src with
    | some h =>
      refine ⟨h, s, rfl, (fun _ h1 => by cases h1), (fun h2 h1 => ?_), rfl⟩
      injection h1
    | none =>
      exact ⟨_, (s.make_shm c _).2, rfl, (fun _ _ => rfl), (fun h h1 => by cases h1), rfl⟩

theorem alloc_any_bad_align (c : Consts) (b : Block) (s : VM) (orig al : Nat)
    (src : Option (Option Shm)) (flags : Nat)
    (hv : al < min_page_size (b.flags_in_force src flags)
      ∨ al ≠ 0x80000000 >>> countl_zero al) :
    b.alloc c s orig al src flags = Res.fatal (b, s) := by
  unfold Block.flags_in_force at hv
  unfold Block.alloc
  simp only []
  rw [if_pos hv]

theorem alloc_any_bad_size (c : Consts) (b : Block) (s : VM) (orig al : Nat)
    (src : Option (Option Shm)) (flags : Nat)
    (hv : ¬ (al < min_page_size (b.flags_in_force src flags)
      ∨ al ≠ 0x80000000 >>> countl_zero al))
    (hsz : orig = 0
      ∨ u32 (align orig (min_page_size (b.flags_in_force src flags))
          + guard_off (b.flags_in_force src flags) 0x2000) = 0
      ∨ orig > u32 (align orig (min_page_size (b.flags_in_force src flags))
          + guard_off (b.flags_in_force src flags) 0x2000)
      ∨ u32 (align orig (min_page_size (b.flags_in_force src flags))
          + guard_off (b.flags_in_force src flags) 0x2000) > b.size) :
    b.alloc c s orig al src flags = Res.ok (b, s) 0 := by
  unfold Block.flags_in_force at hv hsz
  unfold Block.alloc
  simp only []
  rw [if_neg hv, if_pos hsz]

theorem alloc_any_common (c : Consts) (b : Block) (s : VM) (orig al : Nat)
    (src : Option (Option Shm)) (flags : Nat)
    (hv : ¬ (al < min_page_size (b.flags_in_force src flags)
      ∨ al ≠ 0x80000000 >>> countl_zero al))
    (hsz : ¬ (orig = 0
      ∨ u32 (align orig (min_page_size (b.flags_in_force src flags))
          + guard_off (b.flags_in_force src flags) 0x2000) = 0
      ∨ orig > u32 (align orig (min_page_size (b.flags_in_force src flags))
          + guard_off (b.flags_in_force src flags) 0x2000)
      ∨ u32 (align orig (min_page_size (b.flags_in_force src flags))
          + guard_off (b.flags_in_force src flags) 0x2000) > b.size))
    (hcs : ¬ (b.m_common = none ∨ src = none)) :
    b.alloc c s orig al src flags = Res.fatal (b, s) := by
  unfold Block.flags_in_force at hv hsz
  unfold Block.alloc
  simp only []
  rw [if_neg hv, if_neg hsz]
  push_neg at hcs
  cases hm : b.m_common with
  | none => exact absurd hm hcs.1
  | some m =>
    cases hsrc : src with
    | none => exact absurd hsrc hcs.2
    | some h => rfl

theorem guard_off_agree (f g : Nat) (h : f &&& 0x10 ≠ 0 ↔ g &&& 0x10 ≠ 0) (x : Nat) :
    guard_off f x = guard_off g x := by
  unfold guard_off
  by_cases hf : f &&& 0x10 ≠ 0
  · rw [if_pos hf, if_pos (h.1 hf)]
  · rw [if_neg hf, if_neg (fun hg => hf (h.2 hg))]

theorem flags_in_force_none (b : Block) (flags : Nat) : b.flags_in_force none flags = b.flags :=
  rfl

/-- The state of the page table and of the block after a successful `alloc`
that returned a non-zero address `r`, made with flags in force whose bit
`0x10` is that of the block: the entry starts at `r - guard_off b.flags 0x1000`,
its pages were free before, the pages of `[r, r + rounded size)` hold
`pflags | page_allocated`, the guard pages hold `page_allocated`, and nothing
else changed. -/
theorem alloc_ok_any (c : Consts) (hc : c.WF) (b : Block) (s : VM) (orig al : Nat)
    (src : Option (Option Shm)) (flags : Nat)
    (hb : b.addr + b.size ≤ 4294967296) (horig : orig < 4294967296)
    (hagree : b.flags_in_force src flags &&& 0x10 ≠ 0 ↔ b.flags &&& 0x10 ≠ 0)
    (b1 : Block) (s1 : VM) (r : Nat)
    (h : b.alloc c s orig al src flags = Res.ok (b1, s1) r) (hr : r ≠ 0) :
    ∃ addr shm,
      1 ≤ orig ∧ orig ≤ align orig (min_page_size (b.flags_in_force src flags)) ∧
      align orig (min_page_size (b.flags_in_force src flags)) % 4096 = 0 ∧
      al ∣ addr ∧ addr % 4096 = 0 ∧
      align orig (min_page_size (b.flags_in_force src flags)) + guard_off b.flags 0x2000
        < 4294967296 ∧
      r = addr + guard_off b.flags 0x1000 ∧
      addr + (align orig (min_page_size (b.flags_in_force src flags))
        + guard_off b.flags 0x2000) ≤ b.addr + b.size ∧
      (∀ j, addr / 4096 ≤ j →
        j < addr / 4096 + (align orig (min_page_size (b.flags_in_force src flags))
          + guard_off b.flags 0x2000) / 4096 →
        s.g_pages j = 0) ∧
      b1 = { b with
        m_map := m_insert addr
          (align orig (min_page_size (b.flags_in_force src flags))
            + guard_off b.flags 0x2000, shm) b.m_map } ∧
      (∀ j, s1.g_pages j =
        if addr / 4096 + guard_off b.flags 1 ≤ j ∧ j + guard_off b.flags 1
            < addr / 4096
              + (align orig (min_page_size (b.flags_in_force src flags))
                + guard_off b.flags 0x2000) / 4096 then
          page_flags_of c (b.flags_in_force src flags) ||| c.page_allocated
        else if addr / 4096 ≤ j ∧ j
            < addr / 4096
              + (align orig (min_page_size (b.flags_in_force src flags))
                + guard_off b.flags 0x2000) / 4096 then
          c.page_allocated
        else s.g_pages j) := by
  by_cases halign : al < min_page_size (b.flags_in_force src flags)
      ∨ al ≠ 0x80000000 >>> countl_zero al
  · rw [alloc_any_bad_align c b s orig al src flags halign] at h
    cases h
  by_cases hsz : orig = 0
      ∨ u32 (align orig (min_page_size (b.flags_in_force src flags))
          + guard_off (b.flags_in_force src flags) 0x2000) = 0
      ∨ orig > u32 (align orig (min_page_size (b.flags_in_force src flags))
          + guard_off (b.flags_in_force src flags) 0x2000)
      ∨ u32 (align orig (min_page_size (b.flags_in_force src flags))
          + guard_off (b.flags_in_force src flags) 0x2000) > b.size
  · rw [alloc_any_bad_size c b s orig al src flags halign hsz] at h
    injection h with h1 h2
    exact absurd h2.symm hr
  by_cases hcs : b.m_common = none ∨ src = none
  swap
  · rw [alloc_any_common c b s orig al src flags halign hsz hcs] at h
    cases h
  obtain ⟨shm, s0, hs0, _, _, e0⟩ := alloc_any_loop c b s orig al src flags halign hsz hcs
  obtain ⟨ho1, ho2, hA4, hsize, hs32, hsb⟩ :=
    alloc_size_facts (b.flags_in_force src flags) orig b.size horig hsz
  rw [e0, hsize] at h
  rw [guard_off_agree _ _ hagree] at h hs32 hsb
  clear e0 hsize hsz
  generalize b.flags_in_force src flags = f at *
  have hmps : 4096 ≤ min_page_size f := min_page_size_pos f
  obtain ⟨hal1, hal2, _⟩ := valid_align al (by omega) (by
    by_contra hne
    exact halign (Or.inr hne))
  rcases alloc_loop_eq_ok c b f al _ _ shm (fun x => al ∣ x)
      (fun x hx => u32_add_dvd x al hal2 hx) _ _ s0 (b1, s1) r (align_dvd b.addr al hal2) h
    with ⟨_, h0⟩ | ⟨addr, hdvd, hend, hta, hraddr⟩
  · exact absurd h0 hr
  rw [guard_off_agree _ _ hagree] at hraddr
  have ha4 : addr % 4096 = 0 := Nat.mod_eq_zero_of_dvd (Nat.dvd_trans hal1 hdvd)
  have hg2 : guard_off b.flags 0x2000 = 2 * guard_off b.flags 0x1000 := by
    unfold guard_off
    split_ifs <;> rfl
  have hg1 : guard_off b.flags 0x1000 = 4096 * guard_off b.flags 1 := by
    unfold guard_off
    split_ifs <;> rfl
  have hg01 : guard_off b.flags 1 ≤ 1 := by
    unfold guard_off
    split_ifs <;> omega
  have hany := try_alloc_eq_ok_true c b s0 addr _ _ shm _ hta
  rw [any_page_set_eq_false] at hany
  have hz0 : ∀ j, addr / 4096 ≤ j →
      j < addr / 4096 + (align orig (min_page_size f) + guard_off b.flags 0x2000) / 4096 →
      s0.g_pages j = 0 := by
    intro j hj1 hj2
    apply hany j hj1
    unfold u32
    omega
  obtain ⟨s1', e1, p1, _⟩ := try_alloc_ok c b s0 addr (page_flags_of c f)
    (align orig (min_page_size f) + guard_off b.flags 0x2000) shm ha4 (by omega)
    (by omega) hs32 (by omega) (page_flags_of_disj c hc f) hz0
  rw [e1] at hta
  injection hta with hx _
  injection hx with hb1 hs1
  subst hs1
  refine ⟨addr, shm, ho1, ho2, hA4, hdvd, ha4, hs32, ?_, hend, ?_, hb1.symm, ?_⟩
  · rw [hraddr]
    unfold u32
    omega
  · intro j hj1 hj2
    rw [← hs0]
    exact hz0 j hj1 hj2
  · intro j
    rw [p1 j, hs0]

/-! ## `alloc` followed by `dealloc`, and the guard pages, for any handle -/

/-- A successful `alloc`, made with flags in force whose bit `0x10` is that of
the block, followed by `dealloc` of the returned address: the call returns the
rounded size, the block is as before the `alloc` and so is every entry of the
page table. -/
theorem alloc_then_dealloc_any (c : Consts) (hc : c.WF) (b : Block) (s : VM) (orig al : Nat)
    (src : Option (Option Shm)) (flags : Nat)
    (hcons : b.Consistent c s.g_pages) (horig : orig < 4294967296)
    (hagree : b.flags_in_force src flags &&& 0x10 ≠ 0 ↔ b.flags &&& 0x10 ≠ 0)
    (b1 : Block) (s1 : VM) (r : Nat)
    (h : b.alloc c s orig al src flags = Res.ok (b1, s1) r) (hr : r ≠ 0) :
    ∃ s2, b1.dealloc c s1 r none
        = Res.ok (b, s2) (align orig (min_page_size (b.flags_in_force src flags))) ∧
      (∀ j, s2.g_pages j = s.g_pages j) ∧
      (∀ j, r / 4096 ≤ j →
        j < r / 4096 + align orig (min_page_size (b.flags_in_force src flags)) / 4096 →
        s.g_pages j = 0) := by
  obtain ⟨addr, shm, ho1, ho2, hA4, _, ha4, hs32, hra, hend, hz, hb1, hp⟩ :=
    alloc_ok_any c hc b s orig al src flags hcons.range horig hagree b1 s1 r h hr
  generalize b.flags_in_force src flags = f at *
  have hb := hcons.range
  have hg2 : guard_off b.flags 0x2000 = 2 * guard_off b.flags 0x1000 := by
    unfold guard_off
    split_ifs <;> rfl
  have hg1 : guard_off b.flags 0x1000 = 4096 * guard_off b.flags 1 := by
    unfold guard_off
    split_ifs <;> rfl
  have hg01 : guard_off b.flags 1 ≤ 1 := by
    unfold guard_off
    split_ifs <;> omega
  -- the key was not in the map before
  have hnone : m_find b.m_map addr = none := by
    rw [m_find_eq_none_iff]
    intro e he hk
    have h1 := hcons.mapped e he (e.1 / 4096) (Nat.le_refl _) (by
      have := hcons.nonempty e he
      omega)
    have h2 := hz (e.1 / 4096) (by rw [hk]) (by rw [hk]; omega)
    exact ne_zero_of_and_eq _ _ hc.allocated_ne h1 h2
  have hfl : b1.flags = b.flags := by rw [hb1]
  have hmap : b1.m_map = m_insert addr
      (align orig (min_page_size f) + guard_off b.flags 0x2000, shm) b.m_map := by
    rw [hb1]
  obtain ⟨s2, e2, p2, _⟩ := dealloc_mapped c b1 s1 addr (align orig (min_page_size f))
    (page_flags_of c f ||| c.page_allocated) none shm
    (by rw [or_and_right_self]; exact hc.allocated_ne) ha4 hA4 (by omega)
    (by rw [hfl]; omega) (by rw [hfl]; omega)
    (by rw [hfl, hmap, m_find_insert_self])
    (owner_mismatch_none shm)
    (by
      intro j
      rw [hfl]
      by_cases h1 : addr / 4096 + guard_off b.flags 1 ≤ j ∧ j + guard_off b.flags 1
          < addr / 4096
            + (align orig (min_page_size f) + guard_off b.flags 0x2000) / 4096
      · rw [if_pos h1, hp j, if_pos h1]
      · rw [if_neg h1]
        by_cases h2 : addr / 4096 ≤ j ∧ j
            < addr / 4096
              + (align orig (min_page_size f) + guard_off b.flags 0x2000) / 4096
        · rw [if_pos h2, hp j, if_neg h1, if_pos h2]
        · rw [if_neg h2])
  have hblk : { b1 with m_map := m_erase addr b1.m_map } = b := by
    rw [hmap, m_erase_insert _ _ _ hnone, hb1]
  rw [hblk, hfl, ← hra] at e2
  rw [hfl] at p2
  refine ⟨s2, e2, ?_, ?_⟩
  · intro j
    rw [p2 j, hp j]
    by_cases h2 : addr / 4096 ≤ j ∧ j
        < addr / 4096
          + (align orig (min_page_size f) + guard_off b.flags 0x2000) / 4096
    · rw [if_pos h2, hz j h2.1 h2.2]
    · rw [if_neg h2, if_neg (by omega), if_neg h2]
  · intro j hj1 hj2
    exact hz j (by omega) (by omega)

/-- C5, counterexample: the block "user 64k" has no guard pages.  `alloc` of
`0x10000` bytes with a handle and the flags `0x211`, which have the bit `0x10`,
maps `[0x20000000, 0x20012000)` and returns `0x20001000`; `dealloc(0x20001000)`
finds no entry under that key, returns 0 and leaves the pages mapped.  The
block `guard_block` has guard pages.  `alloc` of `0x10000` bytes with a handle
and the flags 0, which lack the bit `0x10`, returns the key `0x40000000`;
`dealloc(0x40000000)` looks for the key `0x3FFFF000`, returns 0 and leaves
the pages mapped. -/
theorem alloc_dealloc_foreign_flags :
    user64k_block.flags &&& 0x10 = 0 ∧
    (user64k_block.alloc ps3Consts VM.empty 0x10000 0x10000 (some (some ext_shm)) 0x211).value
      = some 0x20001000 ∧
    ((user64k_block.alloc ps3Consts VM.empty 0x10000 0x10000
        (some (some ext_shm)) 0x211).state.1.dealloc ps3Consts
      (user64k_block.alloc ps3Consts VM.empty 0x10000 0x10000
        (some (some ext_shm)) 0x211).state.2 0x20001000 none).value = some 0 ∧
    ((user64k_block.alloc ps3Consts VM.empty 0x10000 0x10000
        (some (some ext_shm)) 0x211).state.1.dealloc ps3Consts
      (user64k_block.alloc ps3Consts VM.empty 0x10000 0x10000
        (some (some ext_shm)) 0x211).state.2 0x20001000 none).state.2.g_pages 0x20001 = 163 ∧
    VM.empty.g_pages 0x20001 = 0 ∧
    guard_block.flags &&& 0x10 ≠ 0 ∧
    (guard_block.alloc ps3Consts VM.empty 0x10000 0x10000 (some (some ext_shm)) 0).value
      = some 0x40000000 ∧
    ((guard_block.alloc ps3Consts VM.empty 0x10000 0x10000
        (some (some ext_shm)) 0).state.1.dealloc ps3Consts
      (guard_block.alloc ps3Consts VM.empty 0x10000 0x10000
        (some (some ext_shm)) 0).state.2 0x40000000 none).value = some 0 ∧
    ((guard_block.alloc ps3Consts VM.empty 0x10000 0x10000
        (some (some ext_shm)) 0).state.1.dealloc ps3Consts
      (guard_block.alloc ps3Consts VM.empty 0x10000 0x10000
        (some (some ext_shm)) 0).state.2 0x40000000 none).state.2.g_pages 0x40001 = 195 ∧
    VM.empty.g_pages 0x40001 = 0 := by
  decide

/-- C5, amended: a successful `alloc`, with or without a handle, whose flags
in force (the flags of the block, or the flags passed with a handle) have the
bit `0x10` exactly when the block has it, followed by `dealloc` of the
returned address, leaves the block (hence its sub-allocation map) and every
entry of the page table, guard pages included, as they were before the
`alloc`; every page of the allocation has all flags cleared. -/
theorem alloc_dealloc_roundtrip (c : Consts) (hc : c.WF) (b : Block) (s : VM)
    (orig al : Nat) (src : Option (Option Shm)) (flags : Nat)
    (hcons : b.Consistent c s.g_pages) (horig : orig < 4294967296)
    (hagree : b.flags_in_force src flags &&& 0x10 ≠ 0 ↔ b.flags &&& 0x10 ≠ 0)
    (b1 : Block) (s1 : VM) (r : Nat)
    (h : b.alloc c s orig al src flags = Res.ok (b1, s1) r) (hr : r ≠ 0) :
    ∃ b2 s2 v, b1.dealloc c s1 r none = Res.ok (b2, s2) v ∧
      b2.m_map = b.m_map ∧ b2 = b ∧
      (∀ j, s2.g_pages j = s.g_pages j) ∧
      (∀ j, r / 4096 ≤ j →
        j < r / 4096 + align orig (min_page_size (b.flags_in_force src flags)) / 4096 →
        s2.g_pages j = 0) := by
  obtain ⟨s2, e2, p2, z2⟩ :=
    alloc_then_dealloc_any c hc b s orig al src flags hcons horig hagree b1 s1 r h hr
  refine ⟨b, s2, _, e2, rfl, rfl, p2, ?_⟩
  intro j hj1 hj2
  rw [p2 j]
  exact z2 j hj1 hj2

/-- Witness of C5: 0x10000 bytes with a handle and the flags of the block in
the user-64k block of an empty address space. -/
theorem alloc_dealloc_roundtrip_witness :
    ∃ b2 s2 v,
      (user64k_block.alloc ps3Consts VM.empty 0x10000 0x10000
        (some (some ext_shm)) 0x201).state.1.dealloc ps3Consts
        (user64k_block.alloc ps3Consts VM.empty 0x10000 0x10000
          (some (some ext_shm)) 0x201).state.2
        0x20000000 none = Res.ok (b2, s2) v ∧
      b2.m_map = user64k_block.m_map ∧ b2 = user64k_block ∧
      (∀ j, s2.g_pages j = VM.empty.g_pages j) ∧
      (∀ j, 0x20000000 / 4096 ≤ j →
        j < 0x20000000 / 4096
          + align 0x10000 (min_page_size
              (user64k_block.flags_in_force (some (some ext_shm)) 0x201)) / 4096 →
        s2.g_pages j = 0) :=
  alloc_dealloc_roundtrip ps3Consts ps3Consts_wf user64k_block VM.empty 0x10000 0x10000
    (some (some ext_shm)) 0x201
    (consistent_of_map_nil _ _ _ (by decide) rfl) (by decide) (by decide)
    (user64k_block.alloc ps3Consts VM.empty 0x10000 0x10000 (some (some ext_shm)) 0x201).state.1
    (user64k_block.alloc ps3Consts VM.empty 0x10000 0x10000 (some (some ext_shm)) 0x201).state.2
    0x20000000 (eq_ok_of_value _ _ (by decide)) (by decide)

/-- C10, counterexample: in the guard-paged block `guard_block`, `alloc` of
`0x10000` bytes with a handle and the flags 0, which lack the bit `0x10`,
returns `0x40000000`, the key of the entry: the page below the returned address
is not mapped, the page at the returned address is the lower guard page, and
the entry spans `[0x40000000, 0x40010000)`. -/
theorem alloc_guard_foreign_flags :
    guard_block.flags &&& 0x10 ≠ 0 ∧
    (guard_block.alloc ps3Consts VM.empty 0x10000 0x10000 (some (some ext_shm)) 0).value
      = some 0x40000000 ∧
    (guard_block.alloc ps3Consts VM.empty 0x10000 0x10000
      (some (some ext_shm)) 0).state.2.g_pages 0x3FFFF = 0 ∧
    (guard_block.alloc ps3Consts VM.empty 0x10000 0x10000
      (some (some ext_shm)) 0).state.2.g_pages 0x40000 = ps3Consts.page_allocated ∧
    (guard_block.alloc ps3Consts VM.empty 0x10000 0x10000
      (some (some ext_shm)) 0).state.1.m_map.map (fun e => (e.1, e.2.1))
      = [(0x40000000, 0x10000)] := by
  decide

/-- C10, amended: after a successful `alloc` in a guard-paged block (flag
`0x10`), with or without a handle, whose flags in force have the bit `0x10`,
that returned `r`, with `sz` the rounded size: the page below `r` and the page
at `r + sz` hold exactly `page_allocated`, which has no readable and no
writable bit, `check_addr` with the readable or the writable flag fails on
every range that starts in one of the two pages, and the recorded entry starts
at `r - 0x1000` and has the size `sz + 0x2000`. -/
theorem alloc_guard_bracket (c : Consts) (hc : c.WF) (b : Block) (s : VM)
    (orig al : Nat) (src : Option (Option Shm)) (flags : Nat)
    (hcons : b.Consistent c s.g_pages) (horig : orig < 4294967296)
    (hguard : b.flags &&& 0x10 ≠ 0)
    (hforce : b.flags_in_force src flags &&& 0x10 ≠ 0)
    (b1 : Block) (s1 : VM) (r : Nat)
    (h : b.alloc c s orig al src flags = Res.ok (b1, s1) r) (hr : r ≠ 0) :
    0x1000 ≤ r ∧
    s1.g_pages (r / 4096 - 1) = c.page_allocated ∧
    s1.g_pages ((r + align orig (min_page_size (b.flags_in_force src flags))) / 4096)
      = c.page_allocated ∧
    c.page_allocated &&& c.page_readable = 0 ∧
    c.page_allocated &&& c.page_writable = 0 ∧
    (∀ a n, (a / 4096 = r / 4096 - 1
        ∨ a / 4096 = (r + align orig (min_page_size (b.flags_in_force src flags))) / 4096) →
      1 ≤ n → n < 4294967296 →
      check_addr c s1.g_pages a n c.page_readable = false ∧
      check_addr c s1.g_pages a n c.page_writable = false) ∧
    ∃ shm, m_find b1.m_map (r - 0x1000)
      = some (align orig (min_page_size (b.flags_in_force src flags)) + 0x2000, shm) := by
  obtain ⟨addr, shm, ho1, ho2, hA4, _, ha4, hs32, hra, hend, hz, hb1, hp⟩ :=
    alloc_ok_any c hc b s orig al src flags hcons.range horig
      ⟨fun _ => hguard, fun _ => hforce⟩ b1 s1 r h hr
  generalize b.flags_in_force src flags = f at *
  have hb := hcons.range
  have h1 : guard_off b.flags 0x1000 = 0x1000 := by
    unfold guard_off; rw [if_pos hguard]
  have h2 : guard_off b.flags 0x2000 = 0x2000 := by
    unfold guard_off; rw [if_pos hguard]
  have h3 : guard_off b.flags 1 = 1 := by
    unfold guard_off; rw [if_pos hguard]
  rw [h1] at hra
  rw [h2] at hs32 hend hz hb1 hp
  rw [h3] at hp
  have hlo : s1.g_pages (r / 4096 - 1) = c.page_allocated := by
    rw [hp, if_neg (by omega), if_pos (by omega)]
  have hhi : s1.g_pages ((r + align orig (min_page_size f)) / 4096) = c.page_allocated := by
    rw [hp, if_neg (by omega), if_pos (by omega)]
  have hR : c.page_allocated &&& c.page_readable = 0 := by
    rw [Nat.land_comm]; exact hc.readable_disj
  have hW : c.page_allocated &&& c.page_writable = 0 := by
    rw [Nat.land_comm]; exact hc.writable_disj
  have hfail : ∀ a n f, f ≠ 0 → c.page_allocated &&& f = 0 →
      s1.g_pages (a / 4096) = c.page_allocated → a < 4294967296 →
      1 ≤ n → n < 4294967296 → check_addr c s1.g_pages a n f = false := by
    intro a n f hf hdisj hpage ha hn1 hn2
    by_cases hle : a + n ≤ 4294967296
    · rw [← Bool.not_eq_true, check_addr_iff c s1.g_pages a n f hn1 hle]
      intro hall
      have := (hall (a / 4096) (Nat.le_refl _) (by omega)).2
      rw [hpage, hdisj] at this
      exact hf this.symm
    · exact check_addr_wrap c s1.g_pages a n f ha hn2 (by omega)
  refine ⟨by omega, hlo, hhi, hR, hW, ?_, shm, ?_⟩
  · intro a n ha hn1 hn2
    have ha32 : a < 4294967296 := by omega
    rcases ha with ha | ha
    · rw [← ha] at hlo
      exact ⟨hfail a n _ hc.readable_ne hR hlo ha32 hn1 hn2,
        hfail a n _ hc.writable_ne hW hlo ha32 hn1 hn2⟩
    · rw [← ha] at hhi
      exact ⟨hfail a n _ hc.readable_ne hR hhi ha32 hn1 hn2,
        hfail a n _ hc.writable_ne hW hhi ha32 hn1 hn2⟩
  · have hkey : r - 0x1000 = addr := by omega
    rw [hkey, hb1]
    exact m_find_insert_self _ _ _

/-- Witness of C10: 0x10000 bytes with a handle and the flags `0x10` in
`guard_block`. -/
theorem alloc_guard_bracket_witness :
    (guard_block.alloc ps3Consts VM.empty 0x10000 0x10000 (some (some ext_shm)) 0x10).value
      = some 0x40001000 ∧
    (guard_block.alloc ps3Consts VM.empty 0x10000 0x10000
      (some (some ext_shm)) 0x10).state.2.g_pages 0x40000 = ps3Consts.page_allocated ∧
    (guard_block.alloc ps3Consts VM.empty 0x10000 0x10000
      (some (some ext_shm)) 0x10).state.2.g_pages 0x40011 = ps3Consts.page_allocated := by
  obtain ⟨_, hlo, hhi, _⟩ := alloc_guard_bracket ps3Consts ps3Consts_wf guard_block VM.empty
    0x10000 0x10000 (some (some ext_shm)) 0x10
    (consistent_of_map_nil _ _ _ (by decide) rfl) (by decide) (by decide) (by decide)
    (guard_block.alloc ps3Consts VM.empty 0x10000 0x10000 (some (some ext_shm)) 0x10).state.1
    (guard_block.alloc ps3Consts VM.empty 0x10000 0x10000 (some (some ext_shm)) 0x10).state.2
    0x40001000 (eq_ok_of_value _ _ (by decide)) (by decide)
  exact ⟨by decide, hlo, hhi⟩

/-! ## The search of `block_t::alloc`, for any handle -/

/-- C28, counterexample: in a block at address 0 without guard pages, with no
page mapped, `alloc(0x10000, 0x10000)` maps the position 0 and returns 0,
although the position 0 fits in the block and all its pages are free.  In the
guard-paged block `guard_block`, `alloc` of `0x10000` bytes with a handle and
the flags 0 returns the position `0x40000000` itself, not the position plus
`0x1000`; in the block "user 64k", which has no guard pages, `alloc` with a
handle and the flags `0x211` returns the position plus `0x1000`.  In the
stack block, which has a common backing, `alloc` with a handle does not
return. -/
theorem alloc_zero_or_foreign :
    zero_block.addr + zero_block.size + 0x10000 ≤ 4294967296 ∧
    total_size zero_block.flags 0x10000 = 0x10000 ∧
    0 + total_size zero_block.flags 0x10000 ≤ zero_block.addr + zero_block.size ∧
    (∀ j, j < 16 → VM.empty.g_pages j = 0) ∧
    (zero_block.alloc ps3Consts VM.empty 0x10000 0x10000 none 0).value = some 0 ∧
    (zero_block.alloc ps3Consts VM.empty 0x10000 0x10000 none 0).state.2.g_pages 0 = 195 ∧
    guard_block.flags &&& 0x10 ≠ 0 ∧
    guard_block.addr + guard_block.size + 0x10000 ≤ 4294967296 ∧
    (guard_block.alloc ps3Consts VM.empty 0x10000 0x10000 (some (some ext_shm)) 0).value
      = some 0x40000000 ∧
    user64k_block.flags &&& 0x10 = 0 ∧
    user64k_block.addr + user64k_block.size + 0x10000 ≤ 4294967296 ∧
    (user64k_block.alloc ps3Consts VM.empty 0x10000 0x10000 (some (some ext_shm)) 0x211).value
      = some 0x20001000 ∧
    (user64k_block.alloc ps3Consts VM.empty 0x10000 0x10000 (some (some ext_shm))
      0x211).state.1.m_map = [(0x20000000, (0x12000, some ext_shm))] ∧
    stack_block.m_common.isSome = true ∧
    (stack_block.alloc ps3Consts stack_vm 0x1000 0x1000 (some (some ext_shm)) 0x111).value
      = none ∧
    (stack_block.alloc ps3Consts stack_vm 0x1000 0x1000 (some (some ext_shm)) 0x111).hangs
      = false := by
  decide

/-- C28, amended: in a block that does not start at address 0 or has guard
pages, with `block.addr + block.size + align <= 2^32`, `alloc` with
`orig_size >= 1`, a valid alignment, flags in force (the flags of the block, or
the flags passed with a handle) that have the bit `0x10` exactly when the
block has it, and no handle passed to a block with a common backing, returns.
When some multiple `a` of `align` with `a >= block.addr` and
`a + total size <= block.addr + block.size` has all pages of
`[a, a + total size)` free, the result is the lowest such `a`, plus `0x1000`
in a guard-paged block; the result is 0 exactly when there is no such `a`, and
then the block and the page table are unchanged.  The search loop probes at
most `block.size / align + 1` positions. -/
theorem alloc_first_fit (c : Consts) (hc : c.WF) (b : Block) (s : VM) (orig al : Nat)
    (src : Option (Option Shm)) (flags k : Nat)
    (hk : al = 2 ^ k) (hk31 : k ≤ 31) (hmin : min_page_size (b.flags_in_force src flags) ≤ al)
    (hnw : b.addr + b.size + al ≤ 4294967296)
    (hpos : 1 ≤ b.addr ∨ b.flags &&& 0x10 ≠ 0)
    (ho : 1 ≤ orig) (ho32 : orig < 4294967296)
    (hagree : b.flags_in_force src flags &&& 0x10 ≠ 0 ↔ b.flags &&& 0x10 ≠ 0)
    (hcs : b.m_common = none ∨ src = none) :
    ∃ x1 r, b.alloc c s orig al src flags = Res.ok x1 r ∧
      ((∃ a, al ∣ a ∧ b.addr ≤ a ∧
          a + total_size (b.flags_in_force src flags) orig ≤ b.addr + b.size ∧
          range_free s.g_pages a (total_size (b.flags_in_force src flags) orig)) →
        ∃ x, al ∣ x ∧ b.addr ≤ x ∧
          x + total_size (b.flags_in_force src flags) orig ≤ b.addr + b.size ∧
          range_free s.g_pages x (total_size (b.flags_in_force src flags) orig) ∧
          (∀ y, al ∣ y → b.addr ≤ y →
            y + total_size (b.flags_in_force src flags) orig ≤ b.addr + b.size →
            range_free s.g_pages y (total_size (b.flags_in_force src flags) orig) → x ≤ y) ∧
          r = x + guard_off b.flags 0x1000) ∧
      (r = 0 ↔ ¬ ∃ a, al ∣ a ∧ b.addr ≤ a ∧
          a + total_size (b.flags_in_force src flags) orig ≤ b.addr + b.size ∧
          range_free s.g_pages a (total_size (b.flags_in_force src flags) orig)) ∧
      (r = 0 → x1.1 = b ∧ ∀ j, x1.2.g_pages j = s.g_pages j) ∧
      (∀ shm fuel s0,
        Block.alloc_probes c b al (total_size (b.flags_in_force src flags) orig)
          (page_flags_of c (b.flags_in_force src flags)) shm fuel
          (align b.addr al) s0 ≤ b.size / al + 1) := by
  have hal : al ∣ 4294967296 := by
    rw [hk]
    exact pow2_dvd k hk31
  have hmps := min_page_size_pos (b.flags_in_force src flags)
  have hal1 : 1 ≤ al := by omega
  have hk12 : 12 ≤ k := by
    by_contra hlt
    have : 2 ^ k < 2 ^ 12 := Nat.pow_lt_pow_right (by decide) (by omega)
    rw [← hk] at this
    omega
  have hal4 : 4096 ∣ al := by
    rw [hk]
    exact (Nat.pow_dvd_pow_iff_le_right (by decide : 1 < 2)).2 hk12
  have hv : ¬ (al < min_page_size (b.flags_in_force src flags) ∨ al ≠ 0x80000000 >>> countl_zero al) := by
    intro h
    rcases h with h | h
    · omega
    · apply h
      rw [hk]
      exact pow2_check k hk31
  obtain ⟨hfit, hnofit, hle, hT4, hTg⟩ :=
    alloc_size_total (b.flags_in_force src flags) orig b.size ho ho32 (by omega)
  rw [guard_off_agree _ _ hagree] at hTg
  have hT1 : 1 ≤ total_size (b.flags_in_force src flags) orig := by omega
  -- the start of the search
  obtain ⟨hdvd0, hlt0, hstart⟩ := align_least b.addr al (by omega) hal hal1
  have hstart1 : b.addr ≤ align b.addr al ∧ ∀ y, al ∣ y → b.addr ≤ y → align b.addr al ≤ y := by
    rcases hstart with h | ⟨_, h⟩
    · exact h
    · exfalso
      have hmod := Nat.div_add_mod (b.addr + (al - 1)) al
      have hr := Nat.mod_lt (b.addr + (al - 1)) (show al > 0 by omega)
      rw [Nat.mul_comm] at hmod
      have := h ((b.addr + (al - 1)) / al * al) (Nat.dvd_mul_left _ _) (by omega)
      omega
  -- the number of probes
  have hprobes : ∀ shm fuel s0,
      Block.alloc_probes c b al (total_size (b.flags_in_force src flags) orig) (page_flags_of c (b.flags_in_force src flags)) shm fuel
        (align b.addr al) s0 ≤ b.size / al + 1 := by
    intro shm fuel s0
    have h := alloc_probes_le c b al (total_size (b.flags_in_force src flags) orig) (page_flags_of c (b.flags_in_force src flags)) shm
      hal1 hT1 hnw fuel (align b.addr al) s0
    by_cases hf : align b.addr al + total_size (b.flags_in_force src flags) orig ≤ b.addr + b.size
    · rw [if_pos hf] at h
      have hd : (b.addr + b.size - total_size (b.flags_in_force src flags) orig - align b.addr al) / al
          ≤ b.size / al := Nat.div_le_div_right (by omega)
      omega
    · rw [if_neg hf] at h
      have h0 := Nat.le_zero.1 h
      rw [h0]
      exact Nat.zero_le _
  by_cases hTb : total_size (b.flags_in_force src flags) orig ≤ b.size
  · -- the size is valid: the search loop runs
    obtain ⟨hsize, hsz⟩ := hfit hTb
    obtain ⟨shm, s0, hs0, _, _, e0⟩ := alloc_any_loop c b s orig al src flags hv hsz hcs
    rw [hsize, alloc_loop_flags_congr c b _ b.flags al _ _ shm
      (guard_off_agree _ _ hagree 0x1000)] at e0
    have hfuel : ∃ q, align b.addr al + q * al = 4294967296 ∧ q ≤ 4294967296 / al := by
      obtain ⟨m, hm1, hm2⟩ := fuel_bound 4294967296 (align b.addr al) al hal hdvd0 hlt0
      exact ⟨m, hm1, Nat.le_of_succ_le_succ hm2⟩
    rcases alloc_loop_spec c b al (total_size (b.flags_in_force src flags) orig) (page_flags_of c (b.flags_in_force src flags)) shm hal
        hal4 hnw hT4 hTg (page_flags_of_disj c hc _) (4294967296 / al) (align b.addr al)
        s0 hdvd0 hlt0 hfuel with ⟨x, x1, h1, h2, h3, h4, h5, h6⟩ | ⟨h1, h2⟩
    · -- a position was found
      rw [hs0] at h4 h5
      have hx : al ∣ x ∧ b.addr ≤ x ∧ x + total_size (b.flags_in_force src flags) orig ≤ b.addr + b.size ∧
          range_free s.g_pages x (total_size (b.flags_in_force src flags) orig) := ⟨h1, by omega, h3, h4⟩
      have hr : x + guard_off b.flags 0x1000 ≠ 0 := by
        rcases hpos with hp | hp
        · omega
        · have : guard_off b.flags 0x1000 = 0x1000 := by
            unfold guard_off
            rw [if_pos hp]
          omega
      refine ⟨x1, x + guard_off b.flags 0x1000, ?_, ?_, ?_, ?_, hprobes⟩
      · rw [e0, h6]
      · intro _
        refine ⟨x, hx.1, hx.2.1, hx.2.2.1, hx.2.2.2, ?_, rfl⟩
        intro y hy1 hy2 _ hy4
        by_contra hlt
        exact h5 y hy1 (hstart1.2 y hy1 hy2) (by omega) hy4
      · constructor
        · intro h0
          exact absurd h0 hr
        · intro hno
          exact absurd ⟨x, hx⟩ hno
      · intro h0
        exact absurd h0 hr
    · -- no position is free
      rw [hs0] at h2
      have hno : ¬ ∃ a, al ∣ a ∧ b.addr ≤ a ∧ a + total_size (b.flags_in_force src flags) orig ≤ b.addr + b.size ∧
          range_free s.g_pages a (total_size (b.flags_in_force src flags) orig) := by
        rintro ⟨a, ha1, ha2, ha3, ha4⟩
        exact h2 a ha1 (hstart1.2 a ha1 ha2) ha3 ha4
      refine ⟨(b, s0), 0, ?_, ?_, ?_, ?_, hprobes⟩
      · rw [e0, h1]
      · intro h
        exact absurd h hno
      · exact ⟨fun _ => hno, fun _ => rfl⟩
      · intro _
        exact ⟨rfl, fun j => by rw [hs0]⟩
  · -- the total size exceeds the block
    have hno : ¬ ∃ a, al ∣ a ∧ b.addr ≤ a ∧ a + total_size (b.flags_in_force src flags) orig ≤ b.addr + b.size ∧
        range_free s.g_pages a (total_size (b.flags_in_force src flags) orig) := by
      rintro ⟨a, _, ha2, ha3, _⟩
      omega
    refine ⟨(b, s), 0, alloc_any_bad_size c b s orig al src flags hv (hnofit (by omega)), ?_, ?_, ?_,
      hprobes⟩
    · intro h
      exact absurd h hno
    · exact ⟨fun _ => hno, fun _ => rfl⟩
    · intro _
      exact ⟨rfl, fun _ => rfl⟩

/-- Witness of C28: `alloc(0x10000, 0x10000)` with a handle and the flags of
the block in the block "user 64k" with no page mapped. -/
theorem alloc_first_fit_witness :
    ∃ x1 r, user64k_block.alloc ps3Consts VM.empty 0x10000 0x10000 (some (some ext_shm)) 0x201
        = Res.ok x1 r ∧
      (r = 0 ↔ ¬ ∃ a, 0x10000 ∣ a ∧ user64k_block.addr ≤ a ∧
        a + total_size (user64k_block.flags_in_force (some (some ext_shm)) 0x201) 0x10000
          ≤ user64k_block.addr + user64k_block.size ∧
        range_free VM.empty.g_pages a
          (total_size (user64k_block.flags_in_force (some (some ext_shm)) 0x201) 0x10000)) :=
  match alloc_first_fit ps3Consts ps3Consts_wf user64k_block VM.empty 0x10000 0x10000
      (some (some ext_shm)) 0x201 16
      (by decide) (by decide) (by decide) (by decide) (Or.inl (by decide)) (by decide)
      (by decide) (by decide) (Or.inl rfl) with
  | ⟨x1, r, h1, _, h3, _⟩ => ⟨x1, r, h1, h3⟩

/-! ## The addresses that `dealloc` accepts -/

theorem try_alloc_ok_map (c : Consts) (b : Block) (s : VM) (addr pflags size : Nat)
    (shm : Option Shm) (x : Block × VM)
    (h : b.try_alloc c s addr pflags size shm = Res.ok x true) :
    x.1 = { b with m_map := m_insert addr (size, shm) b.m_map } := by
  unfold Block.try_alloc at h
  by_cases hany : any_page_set s.g_pages
      (u32 (addr + size + 4294967295) / 4096 + 1 - addr / 4096) (addr / 4096) = true
  · rw [if_pos hany] at h
    injection h with h1 h2
    exact absurd h2 (by decide)
  · rw [if_neg hany] at h
    obtain ⟨s2, v2, _, h2⟩ := and_then_eq_ok _ _ _ _ _ h
    obtain ⟨s3, v3, _, h3⟩ := and_then_eq_ok _ _ _ _ _ h2
    injection h3 with h4 _
    rw [← h4]

/-- A call of `falloc` that returns a non-zero address returns its argument
`addr` and has added an entry with the key `addr`; its flags in force lack the
bit `0x10`. -/
theorem falloc_ok_any (c : Consts) (b : Block) (s : VM) (addr orig : Nat)
    (src : Option (Option Shm)) (flags : Nat) (b1 : Block) (s1 : VM) (r : Nat)
    (h : b.falloc c s addr orig src flags = Res.ok (b1, s1) r) (hr : r ≠ 0) :
    r = addr ∧ b.flags_in_force src flags &&& 0x10 = 0 ∧
    ∃ shm, b1 = { b with
      m_map := m_insert addr
        (align orig (min_page_size (b.flags_in_force src flags)), shm) b.m_map } := by
  have hfin : ∀ (t : VM) (pf sz : Nat) (shm : Option Shm),
      b.falloc_finish c t addr pf sz shm = Res.ok (b1, s1) r →
      r = addr ∧ b1 = { b with m_map := m_insert addr (sz, shm) b.m_map } := by
    intro t pf sz shm hf
    unfold Block.falloc_finish at hf
    obtain ⟨x, done, e1, e2⟩ := and_then_eq_ok _ _ _ _ _ hf
    cases done with
    | true =>
      rw [if_pos rfl] at e2
      injection e2 with e3 e4
      have := try_alloc_ok_map c b t addr pf sz shm x e1
      rw [e3] at this
      exact ⟨e4.symm, this⟩
    | false =>
      rw [if_neg (by decide)] at e2
      injection e2 with _ e4
      exact absurd e4.symm hr
  unfold Block.flags_in_force
  unfold Block.falloc at h
  simp only [] at h
  generalize (if src.isNone = true then b.flags else flags) = f at *
  by_cases hbad : align orig (min_page_size f) = 0 ∨ addr < b.addr
      ∨ orig > align orig (min_page_size f)
      ∨ addr + align orig (min_page_size f) > b.addr + b.size ∨ f &&& 0x10 ≠ 0
  · rw [if_pos hbad] at h
    injection h with _ h2
    exact absurd h2.symm hr
  · rw [if_neg hbad] at h
    have hng : f &&& 0x10 = 0 := by
      by_contra hcon
      exact hbad (Or.inr (Or.inr (Or.inr (Or.inr hcon))))
    cases hm : b.m_common with
    | some m =>
      rw [hm] at h
      cases hsrc : src with
      | some hd =>
        rw [hsrc] at h
        cases h
      | none =>
        rw [hsrc] at h
        obtain ⟨h1, h2⟩ := hfin _ _ _ _ h
        rw [hm] at h2
        exact ⟨h1, hng, _, h2⟩
    | none =>
      rw [hm] at h
      cases hsrc : src with
      | some hd =>
        rw [hsrc] at h
        obtain ⟨h1, h2⟩ := hfin _ _ _ _ h
        rw [hm] at h2
        exact ⟨h1, hng, _, h2⟩
      | none =>
        rw [hsrc] at h
        obtain ⟨h1, h2⟩ := hfin _ _ _ _ h
        rw [hm] at h2
        exact ⟨h1, hng, _, h2⟩

theorem dealloc_not_found (c : Consts) (b : Block) (s : VM) (a : Nat)
    (src : Option (Option Shm)) (ha : a < 4294967296)
    (hkeys : ∀ e ∈ b.m_map, e.1 < 4294967296)
    (h : ∀ e ∈ b.m_map, a ≠ u32 (e.1 + guard_off b.flags 0x1000)) :
    b.dealloc c s a src = Res.ok (b, s) 0 := by
  unfold Block.dealloc
  simp only []
  have hnone : m_find b.m_map (u32 (a + 4294967296 - guard_off b.flags 0x1000)) = none := by
    rw [m_find_eq_none_iff]
    intro e he hk
    apply h e he
    have := hkeys e he
    unfold u32 guard_off at hk ⊢
    split_ifs at hk ⊢ <;> omega
  rw [hnone]

/-- The block after a `dealloc` that returns: it is the block before when
the result is 0; otherwise the entry found under the key of `a` is erased,
and in a map with distinct keys no entry is left under that key. -/
theorem dealloc_ok_block (c : Consts) (b : Block) (s : VM) (a : Nat)
    (src : Option (Option Shm)) (b1 : Block) (s1 : VM) (r : Nat)
    (hs : SubMap.Sorted b.m_map) (h : b.dealloc c s a src = Res.ok (b1, s1) r) :
    b1.flags = b.flags ∧ (∀ e ∈ b1.m_map, e ∈ b.m_map) ∧
    (r = 0 → b1 = b ∧ s1 = s) ∧
    (r ≠ 0 → ∀ e ∈ b1.m_map, e.1 ≠ u32 (a + 4294967296 - guard_off b.flags 0x1000)) := by
  unfold Block.dealloc at h
  simp only [] at h
  cases hfind : m_find b.m_map (u32 (a + 4294967296 - guard_off b.flags 0x1000)) with
  | none =>
    rw [hfind] at h
    injection h with h1 h2
    injection h1 with h3 h4
    rw [← h3, ← h4]
    exact ⟨rfl, fun e he => he, fun _ => ⟨rfl, rfl⟩, fun hr => absurd h2.symm hr⟩
  | some v =>
    obtain ⟨fsize, fshm⟩ := v
    rw [hfind] at h
    simp only [] at h
    unfold Block.dealloc_found at h
    by_cases hown : owner_mismatch src fshm = true
    · rw [if_pos hown] at h
      injection h with h1 h2
      injection h1 with h3 h4
      rw [← h3, ← h4]
      exact ⟨rfl, fun e he => he, fun _ => ⟨rfl, rfl⟩, fun hr => absurd h2.symm hr⟩
    · rw [if_neg hown] at h
      simp only [] at h
      obtain ⟨s2, u2, e2, h⟩ := and_then_eq_ok _ _ _ _ _ h
      obtain ⟨s3, r3, e3, h⟩ := and_then_eq_ok _ _ _ _ _ h
      obtain ⟨x, u4, e4, h⟩ := and_then_eq_ok _ _ _ _ _ h
      obtain ⟨hr3, hx⟩ := verify_eq_ok _ _ _ _ e4
      have hr3 := of_decide_eq_true hr3
      obtain ⟨hne, _, _, _⟩ := _page_unmap_frame c s2 a _ fshm s3 r3 e3
      injection h with h1 h2
      injection h1 with h3 h4
      rw [← h3]
      have hsub := m_erase_sublist (u32 (a + 4294967296 - guard_off b.flags 0x1000)) b.m_map
      have hrel := m_erase_rel (fun e1 e2 => e1.1 ≠ e2.1) (fun _ _ hxy => hxy.symm) _ _ b.m_map
        (List.Pairwise.imp (fun hxy => Nat.ne_of_lt hxy) hs) hfind
      refine ⟨rfl, fun e he => hsub.subset he, fun hr => ?_, fun _ e he => (hrel e he).symm⟩
      rw [hr] at h2
      exact absurd h2 hne

/-- C7, counterexample: in the guard-paged block `guard_block`, `alloc` of
`0x10000` bytes with a handle and the flags 0, which lack the bit `0x10`,
returns `0x40000000`; `dealloc(0x40001000)`, of an address that no call
returned, returns `0xE000`, removes the entry and unmaps its pages.  The
same holds after `falloc(0x40000000, 0x10000)` with a handle and the
flags 0. -/
theorem dealloc_accepts_unreturned :
    (guard_block.alloc ps3Consts VM.empty 0x10000 0x10000 (some (some ext_shm)) 0).value
      = some 0x40000000 ∧
    ((guard_block.alloc ps3Consts VM.empty 0x10000 0x10000
        (some (some ext_shm)) 0).state.1.dealloc ps3Consts
      (guard_block.alloc ps3Consts VM.empty 0x10000 0x10000
        (some (some ext_shm)) 0).state.2 0x40001000 none).value = some 0xE000 ∧
    (guard_block.alloc ps3Consts VM.empty 0x10000 0x10000
      (some (some ext_shm)) 0).state.1.m_map.map (fun e => (e.1, e.2.1))
      = [(0x40000000, 0x10000)] ∧
    ((guard_block.alloc ps3Consts VM.empty 0x10000 0x10000
        (some (some ext_shm)) 0).state.1.dealloc ps3Consts
      (guard_block.alloc ps3Consts VM.empty 0x10000 0x10000
        (some (some ext_shm)) 0).state.2 0x40001000 none).state.1.m_map = [] ∧
    ((guard_block.alloc ps3Consts VM.empty 0x10000 0x10000
        (some (some ext_shm)) 0).state.1.dealloc ps3Consts
      (guard_block.alloc ps3Consts VM.empty 0x10000 0x10000
        (some (some ext_shm)) 0).state.2 0x40001000 none).state.2.g_pages 0x40001 = 0 ∧
    (guard_block.alloc ps3Consts VM.empty 0x10000 0x10000
      (some (some ext_shm)) 0).state.2.g_pages 0x40001 = 195 ∧
    (guard_block.falloc ps3Consts VM.empty 0x40000000 0x10000 (some (some ext_shm)) 0).value
      = some 0x40000000 ∧
    ((guard_block.falloc ps3Consts VM.empty 0x40000000 0x10000
        (some (some ext_shm)) 0).state.1.dealloc ps3Consts
      (guard_block.falloc ps3Consts VM.empty 0x40000000 0x10000
        (some (some ext_shm)) 0).state.2 0x40001000 none).value = some 0xE000 ∧
    ((guard_block.falloc ps3Consts VM.empty 0x40000000 0x10000
        (some (some ext_shm)) 0).state.1.dealloc ps3Consts
      (guard_block.falloc ps3Consts VM.empty 0x40000000 0x10000
        (some (some ext_shm)) 0).state.2 0x40001000 none).state.1.m_map = [] := by
  decide

/-- C7, amended: `dealloc(a)` returns 0 and changes neither the block nor the
global state when `a` minus the guard offset of the block is not the key of an
entry of the sub-allocation map, and also when an ownership token is passed
whose pointer differs from the handle stored in the entry found.  The entry
that a successful `alloc` adds, made with flags in force that have the bit
`0x10` exactly when the block has it, has the key `r` minus the guard offset,
`r` being the returned address, and so has the entry that a successful
`falloc` adds in a block without guard pages: after such a call `dealloc`
rejects every address other than `r` that it rejected before.  After a
`dealloc(a)` that returned, `dealloc` rejects every address that it rejected
before, and also `a` when the result was not 0. -/
theorem dealloc_rejects_unreturned (c : Consts) (hc : c.WF) (b : Block) (s : VM)
    (hb : b.addr + b.size ≤ 4294967296) (hkeys : ∀ e ∈ b.m_map, e.1 < 4294967296) :
    (∀ a src, a < 4294967296 →
      ((∀ e ∈ b.m_map, a ≠ u32 (e.1 + guard_off b.flags 0x1000)) ∨
        ∃ token fsize fshm, src = some token ∧
          m_find b.m_map (u32 (a + 4294967296 - guard_off b.flags 0x1000))
            = some (fsize, fshm) ∧
          shm_ptr fshm ≠ shm_ptr token) →
      b.dealloc c s a src = Res.ok (b, s) 0) ∧
    (∀ orig al src flags b1 s1 r, orig < 4294967296 →
      (b.flags_in_force src flags &&& 0x10 ≠ 0 ↔ b.flags &&& 0x10 ≠ 0) →
      b.alloc c s orig al src flags = Res.ok (b1, s1) r → r ≠ 0 →
      (∃ key size shm, b1 = { b with m_map := m_insert key (size, shm) b.m_map } ∧
        key < 4294967296 ∧ r = u32 (key + guard_off b.flags 0x1000)) ∧
      ∀ a tok, a < 4294967296 → a ≠ r →
        (∀ e ∈ b.m_map, a ≠ u32 (e.1 + guard_off b.flags 0x1000)) →
        b1.dealloc c s1 a tok = Res.ok (b1, s1) 0) ∧
    (∀ addr orig src flags b1 s1 r, addr < 4294967296 → b.flags &&& 0x10 = 0 →
      b.falloc c s addr orig src flags = Res.ok (b1, s1) r → r ≠ 0 →
      (∃ size shm, b1 = { b with m_map := m_insert r (size, shm) b.m_map } ∧
        r < 4294967296 ∧ r = u32 (r + guard_off b.flags 0x1000)) ∧
      ∀ a tok, a < 4294967296 → a ≠ r →
        (∀ e ∈ b.m_map, a ≠ u32 (e.1 + guard_off b.flags 0x1000)) →
        b1.dealloc c s1 a tok = Res.ok (b1, s1) 0) ∧
    (∀ a src b1 s1 r, a < 4294967296 → SubMap.Sorted b.m_map →
      b.dealloc c s a src = Res.ok (b1, s1) r →
      ∀ a2 tok, a2 < 4294967296 →
        ((a2 = a ∧ r ≠ 0) ∨ ∀ e ∈ b.m_map, a2 ≠ u32 (e.1 + guard_off b.flags 0x1000)) →
        b1.dealloc c s1 a2 tok = Res.ok (b1, s1) 0) := by
  refine ⟨?_, ?_, ?_, ?_⟩
  · intro a src ha h
    rcases h with h | ⟨token, fsize, fshm, hsrc, hfind, hne⟩
    · exact dealloc_not_found c b s a src ha hkeys h
    · unfold Block.dealloc
      simp only []
      rw [hfind]
      simp only []
      unfold Block.dealloc_found
      have hown : owner_mismatch src fshm = true := by
        rw [hsrc]
        unfold owner_mismatch
        simp only []
        exact decide_eq_true hne
      rw [hown, if_pos rfl]
  · intro orig al src flags b1 s1 r horig hagree h hr
    obtain ⟨addr, shm, _, _, _, _, _, hs32, hra, hend, _, hb1, _⟩ :=
      alloc_ok_any c hc b s orig al src flags hb horig hagree b1 s1 r h hr
    have hg2 : guard_off b.flags 0x2000 = 2 * guard_off b.flags 0x1000 := by
      unfold guard_off
      split_ifs <;> rfl
    have hru : r = u32 (addr + guard_off b.flags 0x1000) := by
      rw [hra]
      unfold u32
      omega
    refine ⟨⟨addr, _, shm, hb1, by omega, hru⟩, ?_⟩
    intro a tok ha har hold
    apply dealloc_not_found c b1 s1 a tok ha
    · intro e he
      rw [hb1] at he
      rcases mem_m_insert _ _ _ e he with rfl | he
      · show addr < 4294967296
        omega
      · exact hkeys e he
    · intro e he
      have hfl : b1.flags = b.flags := by rw [hb1]
      rw [hfl]
      rw [hb1] at he
      rcases mem_m_insert _ _ _ e he with rfl | he
      · rw [← hru]
        exact har
      · exact hold e he
  · intro addr orig src flags b1 s1 r haddr hng h hr
    obtain ⟨hra, _, shm, hb1⟩ := falloc_ok_any c b s addr orig src flags b1 s1 r h hr
    have hg : guard_off b.flags 0x1000 = 0 := by
      unfold guard_off
      rw [if_neg (not_not.2 hng)]
    have hru : r = u32 (r + guard_off b.flags 0x1000) := by
      rw [hg]
      unfold u32
      omega
    rw [← hra] at hb1
    refine ⟨⟨_, shm, hb1, by omega, hru⟩, ?_⟩
    intro a tok ha har hold
    apply dealloc_not_found c b1 s1 a tok ha
    · intro e he
      rw [hb1] at he
      rcases mem_m_insert _ _ _ e he with rfl | he
      · show r < 4294967296
        omega
      · exact hkeys e he
    · intro e he
      have hfl : b1.flags = b.flags := by rw [hb1]
      rw [hfl]
      rw [hb1] at he
      rcases mem_m_insert _ _ _ e he with rfl | he
      · rw [← hru]
        exact har
      · exact hold e he
  · intro a src b1 s1 r ha hs h a2 tok ha2 hcase
    obtain ⟨hfl, hsub, _, hgone⟩ := dealloc_ok_block c b s a src b1 s1 r hs h
    apply dealloc_not_found c b1 s1 a2 tok ha2
    · intro e he
      exact hkeys e (hsub e he)
    · intro e he
      rw [hfl]
      rcases hcase with ⟨h1, h2⟩ | h1
      · have hk := hgone h2 e he
        have hlt := hkeys e (hsub e he)
        rw [h1]
        intro heq
        apply hk
        unfold u32 guard_off at heq ⊢
        split_ifs at heq ⊢ <;> omega
      · exact h1 e (hsub e he)

/-- Witness of C7: in the user-64k block with one allocation at `0x20000000`,
the interior address `0x20001000` is not deallocated. -/
theorem dealloc_rejects_unreturned_witness :
    (user64k_block.alloc ps3Consts VM.empty 0x10000 0x10000 none 0).state.1.dealloc ps3Consts
      (user64k_block.alloc ps3Consts VM.empty 0x10000 0x10000 none 0).state.2 0x20001000 none
    = Res.ok ((user64k_block.alloc ps3Consts VM.empty 0x10000 0x10000 none 0).state.1,
        (user64k_block.alloc ps3Consts VM.empty 0x10000 0x10000 none 0).state.2) 0 :=
  (dealloc_rejects_unreturned ps3Consts ps3Consts_wf
    (user64k_block.alloc ps3Consts VM.empty 0x10000 0x10000 none 0).state.1
    (user64k_block.alloc ps3Consts VM.empty 0x10000 0x10000 none 0).state.2
    (by decide) (by decide)).1 0x20001000 none (by decide) (Or.inl (by decide))

/-! ## Block consistency, for any handle and any outcome -/

theorem consistent_gain (c : Consts) (b : Block) (pages pages1 : Pages)
    (h : b.Consistent c pages) (hg : PageGain c pages pages1) : b.Consistent c pages1 := by
  refine ⟨h.range, h.nonempty, ?_, h.disjoint⟩
  intro e he j h1 h2
  rcases hg j with hj | hj
  · rw [hj]
    exact h.mapped e he j h1 h2
  · exact hj

theorem sound_gain (c : Consts) (b : Block) (pages pages1 : Pages)
    (h : b.Sound c pages) (hg : PageGain c pages pages1) : b.Sound c pages1 :=
  ⟨consistent_gain c b pages pages1 h.consistent hg, h.bounded, h.guarded, h.aligned⟩

/-- One call of `try_alloc` from the search loop or from `falloc`: whatever
its outcome, the property `P` holds afterwards when it is kept by stores of
values with the allocated bits and by the insertion of an entry over free
pages. -/
theorem try_alloc_keeps (P : Block → Pages → Prop) (c : Consts) (hc : c.WF) (b : Block)
    (s : VM) (addr pflags size : Nat) (shm : Option Shm)
    (hs4 : size % 4096 = 0) (hs1 : 1 ≤ size) (hs32 : size < 4294967296)
    (hend : addr + size ≤ 4294967296) (hpf : pflags &&& c.page_allocated = 0)
    (hgain : ∀ pages pages1, P b pages → PageGain c pages pages1 → P b pages1)
    (hins : ∀ (pages pages1 : Pages), P b pages → addr % 4096 = 0 →
      2 * guard_off b.flags 0x1000 < size →
      (∀ j, addr / 4096 ≤ j → j < addr / 4096 + size / 4096 → pages j = 0) →
      (∀ j, addr / 4096 ≤ j → j < addr / 4096 + size / 4096 →
        pages1 j &&& c.page_allocated = c.page_allocated) →
      (∀ j, ¬ (addr / 4096 ≤ j ∧ j < addr / 4096 + size / 4096) → pages1 j = pages j) →
      P { b with m_map := m_insert addr (size, shm) b.m_map } pages1)
    (h : P b s.g_pages) :
    P (b.try_alloc c s addr pflags size shm).state.1
      (b.try_alloc c s addr pflags size shm).state.2.g_pages := by
  have hg := try_alloc_gain c b s addr pflags size shm
  cases hres : b.try_alloc c s addr pflags size shm with
  | ok x done =>
    cases done with
    | true =>
      obtain ⟨ha4, hsz, hz⟩ := try_alloc_inv c hc b s addr pflags size shm x hs4 hs1 hend hres
      obtain ⟨s1, e1, p1, _⟩ := try_alloc_ok c b s addr pflags size shm ha4 hs4 hsz hs32
        hend hpf hz
      obtain ⟨q1, q2⟩ := try_alloc_pages c b s s1 addr pflags size p1
      rw [e1] at hres
      injection hres with hx _
      rw [← hx]
      exact hins s.g_pages s1.g_pages h ha4 hsz hz q1 q2
    | false =>
      have hx := try_alloc_eq_ok_false c b s addr pflags size shm x hres
      rw [hx]
      exact h
  | fatal x =>
    rw [hres] at hg
    have hx1 : x.1 = b := hg.1 (fun hv => by cases hv)
    show P x.1 x.2.g_pages
    rw [hx1]
    exact hgain _ _ h hg.2
  | hang x =>
    rw [hres] at hg
    have hx1 : x.1 = b := hg.1 (fun hv => by cases hv)
    show P x.1 x.2.g_pages
    rw [hx1]
    exact hgain _ _ h hg.2

/-- The search loop of `alloc` ends, whatever its outcome, in a state with the
property `P`. -/
theorem alloc_loop_keeps_any (P : Block → Pages → Prop) (c : Consts) (hc : c.WF) (b : Block)
    (flags al size pflags : Nat) (shm : Option Shm)
    (hb : b.addr + b.size ≤ 4294967296)
    (hs4 : size % 4096 = 0) (hs1 : 1 ≤ size) (hs32 : size < 4294967296)
    (hpf : pflags &&& c.page_allocated = 0)
    (hgain : ∀ pages pages1, P b pages → PageGain c pages pages1 → P b pages1)
    (hins : ∀ (pages pages1 : Pages) (a : Nat), P b pages → a % 4096 = 0 →
      2 * guard_off b.flags 0x1000 < size → a + size ≤ 4294967296 →
      (∀ j, a / 4096 ≤ j → j < a / 4096 + size / 4096 → pages j = 0) →
      (∀ j, a / 4096 ≤ j → j < a / 4096 + size / 4096 →
        pages1 j &&& c.page_allocated = c.page_allocated) →
      (∀ j, ¬ (a / 4096 ≤ j ∧ j < a / 4096 + size / 4096) → pages1 j = pages j) →
      P { b with m_map := m_insert a (size, shm) b.m_map } pages1)
    (fuel a : Nat) (s : VM) (h : P b s.g_pages) :
    P (Block.alloc_loop c b flags al size pflags shm fuel a s).state.1
      (Block.alloc_loop c b flags al size pflags shm fuel a s).state.2.g_pages := by
  induction fuel generalizing a s with
  | zero =>
    rw [Block.alloc_loop]
    exact h
  | succ fuel ih =>
    rw [Block.alloc_loop]
    by_cases hfit : a + size ≤ b.addr + b.size
    · rw [if_pos hfit]
      have hk := try_alloc_keeps P c hc b s a pflags size shm hs4 hs1 hs32 (by omega) hpf hgain
        (fun pages pages1 hP ha4 hsz hz q1 q2 =>
          hins pages pages1 a hP ha4 hsz (by omega) hz q1 q2) h
      cases hres : b.try_alloc c s a pflags size shm with
      | ok x done =>
        rw [hres] at hk
        rw [and_then_ok]
        cases done with
        | true =>
          rw [if_pos rfl]
          exact hk
        | false =>
          rw [if_neg (by decide)]
          have hx := try_alloc_eq_ok_false c b s a pflags size shm x hres
          rw [hx]
          exact ih _ _ h
      | fatal x =>
        rw [hres] at hk
        exact hk
      | hang x =>
        rw [hres] at hk
        exact hk
    · rw [if_neg hfit]
      exact h

/-- The call of `alloc`, with any handle and any flags, ends, whatever its
outcome, in a state with the property `P`. -/
theorem alloc_keeps_any (P : Block → Pages → Prop) (c : Consts) (hc : c.WF) (b : Block)
    (s : VM) (orig al : Nat) (src : Option (Option Shm)) (flags : Nat)
    (hb : b.addr + b.size ≤ 4294967296) (horig : orig < 4294967296)
    (hgain : ∀ pages pages1, P b pages → PageGain c pages pages1 → P b pages1)
    (hins : ∀ (pages pages1 : Pages) (a size : Nat) (shm : Option Shm), P b pages →
      a % 4096 = 0 → size % 4096 = 0 → 2 * guard_off b.flags 0x1000 < size →
      a + size ≤ 4294967296 →
      (∀ j, a / 4096 ≤ j → j < a / 4096 + size / 4096 → pages j = 0) →
      (∀ j, a / 4096 ≤ j → j < a / 4096 + size / 4096 →
        pages1 j &&& c.page_allocated = c.page_allocated) →
      (∀ j, ¬ (a / 4096 ≤ j ∧ j < a / 4096 + size / 4096) → pages1 j = pages j) →
      P { b with m_map := m_insert a (size, shm) b.m_map } pages1)
    (h : P b s.g_pages) :
    P (b.alloc c s orig al src flags).state.1
      (b.alloc c s orig al src flags).state.2.g_pages := by
  by_cases hv : al < min_page_size (b.flags_in_force src flags)
      ∨ al ≠ 0x80000000 >>> countl_zero al
  · rw [alloc_any_bad_align c b s orig al src flags hv]
    exact h
  by_cases hsz : orig = 0
      ∨ u32 (align orig (min_page_size (b.flags_in_force src flags))
          + guard_off (b.flags_in_force src flags) 0x2000) = 0
      ∨ orig > u32 (align orig (min_page_size (b.flags_in_force src flags))
          + guard_off (b.flags_in_force src flags) 0x2000)
      ∨ u32 (align orig (min_page_size (b.flags_in_force src flags))
          + guard_off (b.flags_in_force src flags) 0x2000) > b.size
  · rw [alloc_any_bad_size c b s orig al src flags hv hsz]
    exact h
  by_cases hcs : b.m_common = none ∨ src = none
  swap
  · rw [alloc_any_common c b s orig al src flags hv hsz hcs]
    exact h
  obtain ⟨shm, s0, hs0, _, _, e0⟩ := alloc_any_loop c b s orig al src flags hv hsz hcs
  obtain ⟨h1, h2, h3, h4, h5, h6⟩ :=
    alloc_size_facts (b.flags_in_force src flags) orig b.size horig hsz
  have hG : guard_off (b.flags_in_force src flags) 0x2000 = 0
      ∨ guard_off (b.flags_in_force src flags) 0x2000 = 0x2000 := by
    unfold guard_off
    split_ifs
    · exact Or.inr rfl
    · exact Or.inl rfl
  rw [e0, h4]
  apply alloc_loop_keeps_any P c hc b _ al _ _ shm hb (by omega) (by omega) h5
    (page_flags_of_disj c hc _) hgain
  · intro pages pages1 a hP ha4 hsz2 hend hz q1 q2
    exact hins pages pages1 a _ shm hP ha4 (by omega) hsz2 hend hz q1 q2
  · rw [hs0]
    exact h

/-- The call of `falloc`, with any handle and any flags, ends, whatever its
outcome, in a state with the property `P`. -/
theorem falloc_keeps_any (P : Block → Pages → Prop) (c : Consts) (hc : c.WF) (b : Block)
    (s : VM) (addr orig : Nat) (src : Option (Option Shm)) (flags : Nat)
    (hb : b.addr + b.size ≤ 4294967296)
    (hgain : ∀ pages pages1, P b pages → PageGain c pages pages1 → P b pages1)
    (hins : ∀ (pages pages1 : Pages) (a size : Nat) (shm : Option Shm), P b pages →
      a % 4096 = 0 → size % 4096 = 0 → 2 * guard_off b.flags 0x1000 < size →
      a + size ≤ 4294967296 →
      (∀ j, a / 4096 ≤ j → j < a / 4096 + size / 4096 → pages j = 0) →
      (∀ j, a / 4096 ≤ j → j < a / 4096 + size / 4096 →
        pages1 j &&& c.page_allocated = c.page_allocated) →
      (∀ j, ¬ (a / 4096 ≤ j ∧ j < a / 4096 + size / 4096) → pages1 j = pages j) →
      P { b with m_map := m_insert a (size, shm) b.m_map } pages1)
    (h : P b s.g_pages) :
    P (b.falloc c s addr orig src flags).state.1
      (b.falloc c s addr orig src flags).state.2.g_pages := by
  unfold Block.falloc
  simp only []
  generalize (if src.isNone = true then b.flags else flags) = f
  by_cases hbad : align orig (min_page_size f) = 0 ∨ addr < b.addr
      ∨ orig > align orig (min_page_size f)
      ∨ addr + align orig (min_page_size f) > b.addr + b.size ∨ f &&& 0x10 ≠ 0
  · rw [if_pos hbad]
    exact h
  · rw [if_neg hbad]
    have hs4 := align_min_page orig f
    have hs1 : 1 ≤ align orig (min_page_size f) := by
      rcases Nat.eq_zero_or_pos (align orig (min_page_size f)) with hz | hz
      · exact absurd (Or.inl hz) hbad
      · exact hz
    have hend : addr + align orig (min_page_size f) ≤ b.addr + b.size := by
      by_contra hcon
      exact hbad (Or.inr (Or.inr (Or.inr (Or.inl (by omega)))))
    have hs32 : align orig (min_page_size f) < 4294967296 := by
      unfold align
      exact u32_lt _
    have hfin : ∀ (t : VM) (shm : Option Shm), P b t.g_pages →
        P (b.falloc_finish c t addr (page_flags_of c f) (align orig (min_page_size f))
            shm).state.1
          (b.falloc_finish c t addr (page_flags_of c f) (align orig (min_page_size f))
            shm).state.2.g_pages := by
      intro t shm ht
      have hk := try_alloc_keeps P c hc b t addr (page_flags_of c f)
        (align orig (min_page_size f)) shm hs4 hs1 hs32 (by omega)
        (page_flags_of_disj c hc f) hgain
        (fun pages pages1 hP ha4 hsz hz q1 q2 =>
          hins pages pages1 addr _ shm hP ha4 hs4 hsz (by omega) hz q1 q2) ht
      unfold Block.falloc_finish
      cases hres : b.try_alloc c t addr (page_flags_of c f) (align orig (min_page_size f))
          shm with
      | ok x done =>
        rw [hres] at hk
        rw [and_then_ok]
        cases done with
        | true =>
          rw [if_pos rfl]
          exact hk
        | false =>
          rw [if_neg (by decide)]
          exact hk
      | fatal x =>
        rw [hres] at hk
        exact hk
      | hang x =>
        rw [hres] at hk
        exact hk
    split
    · exact h
    · exact hfin s _ h
    · exact hfin s _ h
    · exact hfin _ _ h

/-- A call of `clear_guard_pages` that returns found `page_allocated` on both
guard pages, which are two different pages. -/
theorem clear_guard_pages_inv (c : Consts) (hc : c.WF) (s s1 : VM) (addr size : Nat)
    (h : clear_guard_pages c s addr size = Res.ok s1 ()) :
    s.g_pages (u32 (addr / 4096 + 4294967295)) = c.page_allocated ∧
    s.g_pages (addr / 4096 + size / 4096) = c.page_allocated ∧
    addr / 4096 + size / 4096 ≠ u32 (addr / 4096 + 4294967295) := by
  unfold clear_guard_pages at h
  simp only [] at h
  obtain ⟨s0, v0, e1, e2⟩ := and_then_eq_ok _ _ _ _ _ h
  obtain ⟨h1, hs0⟩ := verify_eq_ok _ _ _ _ e1
  obtain ⟨h2, _⟩ := verify_eq_ok _ _ _ _ e2
  have h1 := of_decide_eq_true h1
  have h2 := of_decide_eq_true h2
  rw [hs0, exchange_g_pages] at h2
  by_cases hj : addr / 4096 + size / 4096 = u32 (addr / 4096 + 4294967295)
  · rw [if_pos hj] at h2
    exact absurd h2.symm hc.allocated_ne
  · rw [if_neg hj] at h2
    exact ⟨h1, h2, hj⟩

/-- A call of `dealloc` that returns leaves a consistent block consistent,
when the page table has no entry beyond its `2^20` pages. -/
theorem dealloc_consistent (c : Consts) (hc : c.WF) (b : Block) (s : VM) (addr : Nat)
    (src : Option (Option Shm)) (b1 : Block) (s1 : VM) (r : Nat)
    (h : b.Consistent c s.g_pages) (haddr : addr < 4294967296)
    (hpg : ∀ j, 1048576 ≤ j → s.g_pages j = 0)
    (e : b.dealloc c s addr src = Res.ok (b1, s1) r) : b1.Consistent c s1.g_pages := by
  unfold Block.dealloc at e
  simp only [] at e
  cases hfind : m_find b.m_map (u32 (addr + 4294967296 - guard_off b.flags 0x1000)) with
  | none =>
    rw [hfind] at e
    cases e
    exact h
  | some v =>
    obtain ⟨fsize, fshm⟩ := v
    rw [hfind] at e
    simp only [] at e
    unfold Block.dealloc_found at e
    by_cases hown : owner_mismatch src fshm = true
    · rw [if_pos hown] at e
      cases e
      exact h
    · rw [if_neg hown] at e
      simp only [] at e
      have hmem := m_find_some_mem _ _ _ hfind
      have hpos := h.nonempty _ hmem
      simp only [] at hpos
      obtain ⟨s2, u2, e2, e⟩ := and_then_eq_ok _ _ _ _ _ e
      obtain ⟨s3, r3, e3, e⟩ := and_then_eq_ok _ _ _ _ _ e
      obtain ⟨x, u4, e4, e⟩ := and_then_eq_ok _ _ _ _ _ e
      obtain ⟨hr3, hx⟩ := verify_eq_ok _ _ _ _ e4
      have hr3 := of_decide_eq_true hr3
      cases e
      rw [hx]
      obtain ⟨hne, hs4, ha4, hframe⟩ := _page_unmap_frame c s2 addr _ fshm s3 r3 e3
      rw [← hr3] at hframe
      -- every changed page is a whole page of the entry, and the key is aligned
      have hpages : u32 (addr + 4294967296 - guard_off b.flags 0x1000) % 4096 = 0 ∧ ∀ j,
          ¬ (u32 (addr + 4294967296 - guard_off b.flags 0x1000) / 4096 ≤ j
            ∧ j < (u32 (addr + 4294967296 - guard_off b.flags 0x1000) + fsize) / 4096) →
          s3.g_pages j = s.g_pages j := by
        rcases guard_off_cases b.flags 0x1000 with ⟨hg, h1⟩ | ⟨hg, h1⟩
        · have h2 : guard_off b.flags 0x2000 = 0x2000 := by
            unfold guard_off; rw [if_pos hg]
          rw [h1]
          rw [h2] at hframe hs4 hne e2
          rw [if_pos hg] at e2
          have hcg := clear_guard_pages_frame c s s2 addr _ e2
          obtain ⟨g1, g2, g3⟩ := clear_guard_pages_inv c hc s s2 addr _ e2
          have hlo : u32 (addr / 4096 + 4294967295) < 1048576 := by
            by_contra hcon
            rw [hpg _ (by omega)] at g1
            exact hc.allocated_ne g1.symm
          have hhi : addr / 4096 + u32 (fsize + 4294967296 - 0x2000) / 4096 < 1048576 := by
            by_contra hcon
            rw [hpg _ (by omega)] at g2
            exact hc.allocated_ne g2.symm
          unfold u32 at hframe hs4 hne hcg hlo hhi ⊢
          refine ⟨by omega, ?_⟩
          intro j hj
          rw [hframe j (by omega), hcg j (by omega) (by omega)]
        · have h2 : guard_off b.flags 0x2000 = 0 := by
            unfold guard_off; rw [if_neg (not_not.2 hg)]
          rw [h1]
          rw [h2] at hframe hs4 hne
          rw [if_neg (not_not.2 hg)] at e2
          cases e2
          unfold u32 at hframe hs4 hne ⊢
          refine ⟨by omega, ?_⟩
          intro j hj
          rw [hframe j (by omega)]
      obtain ⟨hkey4, hpages⟩ := hpages
      have hsub := m_erase_sublist (u32 (addr + 4294967296 - guard_off b.flags 0x1000)) b.m_map
      have hrel := m_erase_rel
        (fun e1 e2 => e1.1 + e1.2.1 ≤ e2.1 ∨ e2.1 + e2.2.1 ≤ e1.1)
        (fun _ _ hxy => hxy.symm) _ _ b.m_map h.disjoint hfind
      refine ⟨h.range, ?_, ?_, ?_⟩
      · intro e he
        exact h.nonempty e (hsub.subset he)
      · intro e he j hj1 hj2
        have hd := hrel e he
        simp only [] at hd
        show s3.g_pages j &&& c.page_allocated = c.page_allocated
        rw [hpages j (by omega)]
        exact h.mapped e (hsub.subset he) j hj1 hj2
      · exact List.Pairwise.sublist hsub h.disjoint

/-- C35, counterexample: in the stack block (guard pages) after
`alloc(0x1000, 0x1000)` and `page_protect` of the lower guard page to
readable, the block is consistent; `dealloc(0xD0001000)` clears that guard
page, fails the `verify` on its old value and ends in the fatal error with
the entry still in the map, so the block is no longer consistent. -/
theorem dealloc_fatal_breaks_consistency :
    protected_guard.1.Consistent ps3Consts protected_guard.2.g_pages ∧
    protected_guard.1.m_map = [(0xD0000000, (0x3000, none))] ∧
    protected_guard.2.g_pages 0xD0000 = 129 ∧
    (protected_guard.1.dealloc ps3Consts protected_guard.2 0xD0001000 none).value = none ∧
    (protected_guard.1.dealloc ps3Consts protected_guard.2 0xD0001000 none).hangs = false ∧
    (protected_guard.1.dealloc ps3Consts protected_guard.2 0xD0001000 none).state.1.m_map
      = [(0xD0000000, (0x3000, none))] ∧
    (protected_guard.1.dealloc ps3Consts protected_guard.2 0xD0001000 none).state.2.g_pages
      0xD0000 = 0 ∧
    ¬ (protected_guard.1.dealloc ps3Consts protected_guard.2 0xD0001000 none).state.1.Consistent
      ps3Consts
      (protected_guard.1.dealloc ps3Consts protected_guard.2 0xD0001000 none).state.2.g_pages := by
  have hm : protected_guard.1.m_map = [(0xD0000000, (0x3000, none))] := by decide
  have hm1 : (protected_guard.1.dealloc ps3Consts protected_guard.2 0xD0001000 none).state.1.m_map
      = [(0xD0000000, (0x3000, none))] := by decide
  have hp1 : (protected_guard.1.dealloc ps3Consts protected_guard.2 0xD0001000
      none).state.2.g_pages 0xD0000 = 0 := by decide
  refine ⟨⟨by decide, ?_, ?_, ?_⟩, hm, by decide, by decide, by decide, hm1, hp1, ?_⟩
  · intro e he
    rw [hm] at he
    rcases List.mem_singleton.1 he with rfl
    decide
  · intro e he j h1 h2
    rw [hm] at he
    rcases List.mem_singleton.1 he with rfl
    have h3 : 0xD0000 ≤ j := h1
    have h4 : j < 0xD0003 := h2
    interval_cases j <;> decide
  · rw [hm]
    exact List.pairwise_singleton _ _
  · intro h
    have h2 := h.mapped (0xD0000000, (0x3000, none)) (by rw [hm1]; exact List.mem_singleton.2 rfl)
      0xD0000 (by decide) (by decide)
    rw [hp1] at h2
    exact absurd h2 (by decide)

/-- C35, amended: block consistency (the block lies in the 32-bit address
space, the entries of the sub-allocation map are non-empty, describe pairwise
disjoint ranges `[base, base + size)`, and every page of every entry has the
allocated bit) is preserved by `alloc` and by `falloc` with any handle and
any flags, whatever their outcome, and by every `dealloc` that returns, with
any handle, when the page table has no entry beyond its `2^20` pages.  The
same holds of `Block.Sound`, which adds the facts that `alloc` and `falloc`
establish for every entry, and in a sound block two entries have no page in
common. -/
theorem block_consistency_kept (c : Consts) (hc : c.WF) (b : Block) (s : VM) :
    (b.Consistent c s.g_pages →
      (∀ orig al src flags, orig < 4294967296 →
        (b.alloc c s orig al src flags).state.1.Consistent c
          (b.alloc c s orig al src flags).state.2.g_pages) ∧
      (∀ addr orig src flags,
        (b.falloc c s addr orig src flags).state.1.Consistent c
          (b.falloc c s addr orig src flags).state.2.g_pages) ∧
      (∀ addr src b1 s1 r, addr < 4294967296 → (∀ j, 1048576 ≤ j → s.g_pages j = 0) →
        b.dealloc c s addr src = Res.ok (b1, s1) r → b1.Consistent c s1.g_pages)) ∧
    (b.Sound c s.g_pages →
      (∀ orig al src flags, orig < 4294967296 →
        (b.alloc c s orig al src flags).state.1.Sound c
          (b.alloc c s orig al src flags).state.2.g_pages) ∧
      (∀ addr orig src flags,
        (b.falloc c s addr orig src flags).state.1.Sound c
          (b.falloc c s addr orig src flags).state.2.g_pages) ∧
      (∀ addr src b1 s1 r, addr < 4294967296 →
        b.dealloc c s addr src = Res.ok (b1, s1) r → b1.Sound c s1.g_pages)) ∧
    (∀ b1 pages, Block.Sound c b1 pages →
      b1.Consistent c pages ∧
      b1.m_map.Pairwise fun e1 e2 => ∀ j,
        ¬ ((e1.1 / 4096 ≤ j ∧ j < (e1.1 + e1.2.1 + 4095) / 4096)
          ∧ (e2.1 / 4096 ≤ j ∧ j < (e2.1 + e2.2.1 + 4095) / 4096))) := by
  have hcons : ∀ (pages pages1 : Pages) (a size : Nat) (shm : Option Shm),
      b.Consistent c pages →
      a % 4096 = 0 → size % 4096 = 0 → 2 * guard_off b.flags 0x1000 < size →
      a + size ≤ 4294967296 →
      (∀ j, a / 4096 ≤ j → j < a / 4096 + size / 4096 → pages j = 0) →
      (∀ j, a / 4096 ≤ j → j < a / 4096 + size / 4096 →
        pages1 j &&& c.page_allocated = c.page_allocated) →
      (∀ j, ¬ (a / 4096 ≤ j ∧ j < a / 4096 + size / 4096) → pages1 j = pages j) →
      Block.Consistent c { b with m_map := m_insert a (size, shm) b.m_map } pages1 := by
    intro pages pages1 a size shm h ha4 hs4 hsz _ hz q1 q2
    exact consistent_insert c hc b pages pages1 a size shm h ha4 hs4 (by omega) hz q1 q2
  have hsound : ∀ (pages pages1 : Pages) (a size : Nat) (shm : Option Shm),
      b.Sound c pages →
      a % 4096 = 0 → size % 4096 = 0 → 2 * guard_off b.flags 0x1000 < size →
      a + size ≤ 4294967296 →
      (∀ j, a / 4096 ≤ j → j < a / 4096 + size / 4096 → pages j = 0) →
      (∀ j, a / 4096 ≤ j → j < a / 4096 + size / 4096 →
        pages1 j &&& c.page_allocated = c.page_allocated) →
      (∀ j, ¬ (a / 4096 ≤ j ∧ j < a / 4096 + size / 4096) → pages1 j = pages j) →
      Block.Sound c { b with m_map := m_insert a (size, shm) b.m_map } pages1 := by
    intro pages pages1 a size shm h ha4 hs4 hsz hend hz q1 q2
    exact sound_insert c hc b pages pages1 a size shm h ha4 hs4 hsz hend hz q1 q2
  refine ⟨fun h => ⟨?_, ?_, ?_⟩, fun h => ⟨?_, ?_, ?_⟩, ?_⟩
  · intro orig al src flags ho
    exact alloc_keeps_any (fun b1 pages => Block.Consistent c b1 pages) c hc b s orig al src
      flags h.range ho (consistent_gain c b) hcons h
  · intro addr orig src flags
    exact falloc_keeps_any (fun b1 pages => Block.Consistent c b1 pages) c hc b s addr orig src
      flags h.range (consistent_gain c b) hcons h
  · intro addr src b1 s1 r ha hpg e
    exact dealloc_consistent c hc b s addr src b1 s1 r h ha hpg e
  · intro orig al src flags ho
    exact alloc_keeps_any (fun b1 pages => Block.Sound c b1 pages) c hc b s orig al src
      flags h.consistent.range ho (sound_gain c b) hsound h
  · intro addr orig src flags
    exact falloc_keeps_any (fun b1 pages => Block.Sound c b1 pages) c hc b s addr orig src
      flags h.consistent.range (sound_gain c b) hsound h
  · intro addr src b1 s1 r ha e
    exact dealloc_sound c b s addr src b1 s1 r h ha e
  · intro b1 pages h1
    exact ⟨h1.consistent, sound_no_shared_page c b1 pages h1⟩

/-- Witness of C35: in the user-64k block of an empty address space,
`alloc(0x10000, 0x10000)` with an external handle and the flags `0x211`
leaves a consistent block with one entry. -/
theorem block_consistency_kept_witness :
    (user64k_block.alloc ps3Consts VM.empty 0x10000 0x10000 (some (some ext_shm))
      0x211).state.1.Consistent ps3Consts
      (user64k_block.alloc ps3Consts VM.empty 0x10000 0x10000 (some (some ext_shm))
        0x211).state.2.g_pages ∧
    (user64k_block.alloc ps3Consts VM.empty 0x10000 0x10000 (some (some ext_shm))
      0x211).state.1.m_map = [(0x20000000, (0x12000, some ext_shm))] :=
  ⟨((block_consistency_kept ps3Consts ps3Consts_wf user64k_block VM.empty).1
      (consistent_of_map_nil ps3Consts user64k_block VM.empty.g_pages (by decide) rfl)).1
      0x10000 0x10000 (some (some ext_shm)) 0x211 (by decide),
   by decide⟩

/-! ## The handle that `get` finds at an address no entry covers -/

theorem m_upper_prev_some (a : Nat) (m : SubMap) (p : Nat × (Nat × Option Shm)) :
    ∃ e, m_upper_prev a m (some p) = some e := by
  induction m generalizing p with
  | nil => exact ⟨p, rfl⟩
  | cons x t ih =>
    unfold m_upper_prev
    by_cases hx : a < x.1
    · rw [if_pos hx]
      exact ⟨p, rfl⟩
    · rw [if_neg hx]
      exact ih x

/-- In a sorted map with an entry at or below `a`, `m_upper_prev` finds an
entry. -/
theorem m_upper_prev_found (a : Nat) (m : SubMap) (hs : SubMap.Sorted m)
    (h : ∃ e ∈ m, e.1 ≤ a) : ∃ e, m_upper_prev a m none = some e := by
  cases m with
  | nil =>
    obtain ⟨e, he, _⟩ := h
    cases he
  | cons x t =>
    unfold SubMap.Sorted at hs
    rw [List.pairwise_cons] at hs
    have hxa : ¬ a < x.1 := by
      obtain ⟨e, he, hle⟩ := h
      rcases List.mem_cons.1 he with h1 | h1
      · subst h1
        omega
      · have := hs.1 e h1
        omega
    unfold m_upper_prev
    rw [if_neg hxa]
    exact m_upper_prev_some a t x

/-- The block after `try_alloc`, whatever its outcome: the block before, or
the block with the new entry. -/
theorem try_alloc_block (c : Consts) (b : Block) (s : VM) (addr pflags size : Nat)
    (shm : Option Shm) :
    (b.try_alloc c s addr pflags size shm).state.1 = b ∨
    (b.try_alloc c s addr pflags size shm).state.1
      = { b with m_map := m_insert addr (size, shm) b.m_map } := by
  have hg := (try_alloc_gain c b s addr pflags size shm).1
  cases hres : b.try_alloc c s addr pflags size shm with
  | ok x done =>
    cases done with
    | true => exact Or.inr (try_alloc_ok_map c b s addr pflags size shm x hres)
    | false =>
      rw [hres] at hg
      exact Or.inl (hg (fun hv => by cases hv))
  | fatal x =>
    rw [hres] at hg
    exact Or.inl (hg (fun hv => by cases hv))
  | hang x =>
    rw [hres] at hg
    exact Or.inl (hg (fun hv => by cases hv))

/-- The block after the search loop of `alloc`, whatever its outcome: the
block before, or the block with one new entry of the size and the handle
passed. -/
theorem alloc_loop_block (c : Consts) (b : Block) (flags al size pflags : Nat)
    (shm : Option Shm) (fuel a : Nat) (s : VM) :
    (Block.alloc_loop c b flags al size pflags shm fuel a s).state.1 = b ∨
    ∃ a1, (Block.alloc_loop c b flags al size pflags shm fuel a s).state.1
      = { b with m_map := m_insert a1 (size, shm) b.m_map } := by
  induction fuel generalizing a s with
  | zero =>
    rw [Block.alloc_loop]
    exact Or.inl rfl
  | succ fuel ih =>
    rw [Block.alloc_loop]
    by_cases hfit : a + size ≤ b.addr + b.size
    · rw [if_pos hfit]
      have hk := try_alloc_block c b s a pflags size shm
      cases hres : b.try_alloc c s a pflags size shm with
      | ok x done =>
        rw [hres] at hk
        rw [and_then_ok]
        cases done with
        | true =>
          rw [if_pos rfl]
          rcases hk with hk | hk
          · exact Or.inl hk
          · exact Or.inr ⟨a, hk⟩
        | false =>
          rw [if_neg (by decide)]
          exact ih _ _
      | fatal x =>
        rw [hres] at hk
        rcases hk with hk | hk
        · exact Or.inl hk
        · exact Or.inr ⟨a, hk⟩
      | hang x =>
        rw [hres] at hk
        rcases hk with hk | hk
        · exact Or.inl hk
        · exact Or.inr ⟨a, hk⟩
    · rw [if_neg hfit]
      exact Or.inl rfl

theorem handle_fits_insert (c : Consts) (s : VM) (m : SubMap) (a size : Nat)
    (h : ∀ e ∈ m, handle_fits e = true) :
    ∀ e ∈ m_insert a (size, some (s.make_shm c size).1) m, handle_fits e = true := by
  intro e he
  rcases mem_m_insert _ _ _ e he with rfl | he
  · unfold handle_fits VM.make_shm
    exact decide_eq_true (Nat.le_refl _)
  · exact h e he

/-- In a block without a common object, the handle that `alloc` creates when
it is given none has the size of the entry. -/
theorem alloc_handle_fits (c : Consts) (b : Block) (s : VM) (orig al flags : Nat)
    (hm : b.m_common = none) (h : ∀ e ∈ b.m_map, handle_fits e = true) :
    ∀ e ∈ (b.alloc c s orig al none flags).state.1.m_map, handle_fits e = true := by
  by_cases hv : al < min_page_size (b.flags_in_force none flags)
      ∨ al ≠ 0x80000000 >>> countl_zero al
  · rw [alloc_any_bad_align c b s orig al none flags hv]
    exact h
  by_cases hsz : orig = 0
      ∨ u32 (align orig (min_page_size (b.flags_in_force none flags))
          + guard_off (b.flags_in_force none flags) 0x2000) = 0
      ∨ orig > u32 (align orig (min_page_size (b.flags_in_force none flags))
          + guard_off (b.flags_in_force none flags) 0x2000)
      ∨ u32 (align orig (min_page_size (b.flags_in_force none flags))
          + guard_off (b.flags_in_force none flags) 0x2000) > b.size
  · rw [alloc_any_bad_size c b s orig al none flags hv hsz]
    exact h
  obtain ⟨shm, s0, _, hshm, _, e0⟩ := alloc_any_loop c b s orig al none flags hv hsz (Or.inl hm)
  rw [e0, hshm hm rfl]
  rcases alloc_loop_block c b (b.flags_in_force none flags) al _
    (page_flags_of c (b.flags_in_force none flags)) _ (4294967296 / al) (align b.addr al) s0
    with h1 | ⟨a1, h1⟩
  · rw [h1]
    exact h
  · rw [h1]
    exact handle_fits_insert c s b.m_map a1 _ h

/-- In a block without a common object, the handle that `falloc` creates when
it is given none has the size of the entry. -/
theorem falloc_handle_fits (c : Consts) (b : Block) (s : VM) (addr orig flags : Nat)
    (hm : b.m_common = none) (h : ∀ e ∈ b.m_map, handle_fits e = true) :
    ∀ e ∈ (b.falloc c s addr orig none flags).state.1.m_map, handle_fits e = true := by
  unfold Block.falloc
  simp only []
  rw [hm]
  simp only [Option.isNone_none, if_true]
  by_cases hbad : align orig (min_page_size b.flags) = 0 ∨ addr < b.addr
      ∨ orig > align orig (min_page_size b.flags)
      ∨ addr + align orig (min_page_size b.flags) > b.addr + b.size ∨ b.flags &&& 0x10 ≠ 0
  · rw [if_pos hbad]
    exact h
  · rw [if_neg hbad]
    unfold Block.falloc_finish
    have hk := try_alloc_block c b (s.make_shm c (align orig (min_page_size b.flags))).2 addr
      (page_flags_of c b.flags) (align orig (min_page_size b.flags))
      (some (s.make_shm c (align orig (min_page_size b.flags))).1)
    have hfit := handle_fits_insert c s b.m_map addr (align orig (min_page_size b.flags)) h
    cases hres : b.try_alloc c (s.make_shm c (align orig (min_page_size b.flags))).2 addr
        (page_flags_of c b.flags) (align orig (min_page_size b.flags))
        (some (s.make_shm c (align orig (min_page_size b.flags))).1) with
    | ok x done =>
      rw [hres] at hk
      rw [and_then_ok]
      have hx : ∀ e ∈ x.1.m_map, handle_fits e = true := by
        rcases hk with hk | hk
        · change x.1 = b at hk
          rw [hk]
          exact h
        · change x.1 = _ at hk
          rw [hk]
          exact hfit
      cases done with
      | true =>
        rw [if_pos rfl]
        exact hx
      | false =>
        rw [if_neg (by decide)]
        exact hx
    | fatal x =>
      rw [hres] at hk
      rcases hk with hk | hk
      · change x.1 = b at hk
        show ∀ e ∈ x.1.m_map, handle_fits e = true
        rw [hk]
        exact h
      · change x.1 = _ at hk
        show ∀ e ∈ x.1.m_map, handle_fits e = true
        rw [hk]
        exact hfit
    | hang x =>
      rw [hres] at hk
      rcases hk with hk | hk
      · change x.1 = b at hk
        show ∀ e ∈ x.1.m_map, handle_fits e = true
        rw [hk]
        exact h
      · change x.1 = _ at hk
        show ∀ e ∈ x.1.m_map, handle_fits e = true
        rw [hk]
        exact hfit

/-- C12, counterexample: two addresses of a block that no entry covers and at
which `get` returns a handle.  The stack block is backed by one common object;
after `alloc(0x1000, 0x1000)` its only entry spans `[0xD0000000, 0xD0003000)`
and `get(0xD0010000, 1)` returns the common handle.  The user-64k block has
no common object; after `alloc(0x10000, 0x10000)` with an external handle of
`0x20000` bytes its only entry spans `[0x20000000, 0x20010000)` and
`get(0x20010000, 1)` returns that handle. -/
theorem get_uncovered_nonnull :
    (∀ e ∈ (stack_block.alloc ps3Consts stack_vm 0x1000 0x1000 none 0).state.1.m_map,
      ¬ (e.1 ≤ 0xD0010000 ∧ 0xD0010000 < e.1 + e.2.1)) ∧
    (stack_block.alloc ps3Consts stack_vm 0x1000 0x1000 none 0).state.1.get 0xD0010000 1
      = some (0xD0000000, some { id := 0, size := 0x10000000, flags := 0 }) ∧
    user64k_block.m_common = none ∧
    (user64k_block.alloc ps3Consts VM.empty 0x10000 0x10000 (some (some ext_shm))
      0x201).value = some 0x20000000 ∧
    (user64k_block.alloc ps3Consts VM.empty 0x10000 0x10000 (some (some ext_shm))
      0x201).state.1.m_map = [(0x20000000, (0x10000, some ext_shm))] ∧
    (user64k_block.alloc ps3Consts VM.empty 0x10000 0x10000 (some (some ext_shm))
      0x201).state.1.get 0x20010000 1 = some (0x20000000, some ext_shm) := by
  decide

/-- C12, amended: `get` returns a null handle for every range that is not
contained in the block.  At an address of the block that no entry covers it
returns a null handle when `size = 0` and when no entry starts at or below
the address.  Otherwise, for a range inside the block, with `e` the last
entry that starts at or below the address: in a block with a common object
`get` returns the common handle; in a block without one it returns a null
handle exactly when `addr + size` is above the base of `e` plus the size of
the handle of `e`, and the handle of `e` when it is not, so it returns a null
handle for every size when the handles are no larger than their entries.
The handles that `alloc` and `falloc` create when they are given none have
the size of their entry. -/
theorem get_uncovered_cases (b : Block) (addr size : Nat) :
    ((addr < b.addr ∨ addr + size > b.addr + b.size) → b.get addr size = some (addr, none)) ∧
    ((∀ e ∈ b.m_map, 0 < e.2.1) →
      (∀ e ∈ b.m_map, ¬ (e.1 ≤ addr ∧ addr < e.1 + e.2.1)) →
      (b.m_common = none → (∀ e ∈ b.m_map, handle_fits e = true) →
        b.get addr size = some (addr, none)) ∧
      (size = 0 → b.get addr size = some (addr, none)) ∧
      ((∀ e ∈ b.m_map, addr < e.1) → b.get addr size = some (addr, none)) ∧
      (∀ common, b.m_common = some common → 1 ≤ size →
        ¬ (addr < b.addr ∨ addr + size > b.addr + b.size) → SubMap.Sorted b.m_map →
        (∃ e ∈ b.m_map, e.1 ≤ addr) → b.get addr size = some (b.addr, some common)) ∧
      (∀ e h, b.m_common = none → 1 ≤ size →
        ¬ (addr < b.addr ∨ addr + size > b.addr + b.size) → SubMap.Sorted b.m_map →
        e ∈ b.m_map → e.1 ≤ addr → (∀ x ∈ b.m_map, e.1 < x.1 → addr < x.1) →
        e.2.2 = some h →
        (addr + size > e.1 + h.size → b.get addr size = some (addr, none)) ∧
        (addr + size ≤ e.1 + h.size → b.get addr size = some (e.1, some h)))) ∧
    (b.m_common = none → (∀ e ∈ b.m_map, handle_fits e = true) →
      ∀ (c : Consts) (s : VM),
        (∀ orig al flags, ∀ e ∈ (b.alloc c s orig al none flags).state.1.m_map,
          handle_fits e = true) ∧
        (∀ a orig flags, ∀ e ∈ (b.falloc c s a orig none flags).state.1.m_map,
          handle_fits e = true)) := by
  refine ⟨?_, ?_, ?_⟩
  · intro h
    unfold Block.get
    rw [if_pos h]
  · intro hne hunc
    have hfound : ∀ found, m_upper_prev addr b.m_map none = some found →
        found ∈ b.m_map ∧ found.1 ≤ addr ∧ found.1 ≠ addr ∧ found.1 + found.2.1 ≤ addr := by
      intro found hf
      rcases m_upper_prev_mem addr b.m_map none found hf with ⟨h1, h2⟩ | h1
      · have h3 := hunc found h1
        have h4 := hne found h1
        exact ⟨h1, h2, by omega, by omega⟩
      · cases h1
    refine ⟨?_, ?_, ?_, ?_, ?_⟩
    · intro hcommon hhandles
      unfold Block.get
      by_cases hout : addr < b.addr ∨ addr + size > b.addr + b.size
      · rw [if_pos hout]
      · rw [if_neg hout]
        cases hf : m_upper_prev addr b.m_map none with
        | none => rfl
        | some found =>
          obtain ⟨hm, hle, hne1, hend⟩ := hfound found hf
          obtain ⟨h, hh, hsz⟩ : ∃ h, found.2.2 = some h ∧ h.size ≤ found.2.1 := by
            have hfit := hhandles found hm
            unfold handle_fits at hfit
            cases hh : found.2.2 with
            | none =>
              rw [hh] at hfit
              cases hfit
            | some h =>
              rw [hh] at hfit
              exact ⟨h, rfl, of_decide_eq_true hfit⟩
          simp only []
          by_cases hs0 : size = 0 ∧ found.1 ≠ addr
          · rw [if_pos hs0]
          · rw [if_neg hs0, hcommon]
            simp only []
            rw [hh]
            simp only []
            rw [if_pos (by omega)]
    · intro hs0
      unfold Block.get
      by_cases hout : addr < b.addr ∨ addr + size > b.addr + b.size
      · rw [if_pos hout]
      · rw [if_neg hout]
        cases hf : m_upper_prev addr b.m_map none with
        | none => rfl
        | some found =>
          obtain ⟨_, _, hne1, _⟩ := hfound found hf
          simp only []
          rw [if_pos ⟨hs0, hne1⟩]
    · intro hall
      unfold Block.get
      by_cases hout : addr < b.addr ∨ addr + size > b.addr + b.size
      · rw [if_pos hout]
      · rw [if_neg hout, m_upper_prev_all_gt addr b.m_map none hall]
    · intro common hcommon hs1 hin hsorted hex
      obtain ⟨found, hf⟩ := m_upper_prev_found addr b.m_map hsorted hex
      unfold Block.get
      rw [if_neg hin, hf]
      simp only []
      rw [if_neg (by omega), hcommon]
    · intro e h hcommon hs1 hin hsorted he hle hno hh
      have hf := m_upper_prev_sorted addr b.m_map none e hsorted he hle hno
      constructor
      · intro hgt
        unfold Block.get
        rw [if_neg hin, hf]
        simp only []
        rw [if_neg (by omega), hcommon]
        simp only []
        rw [hh]
        simp only []
        rw [if_pos hgt]
      · intro hle2
        unfold Block.get
        rw [if_neg hin, hf]
        simp only []
        rw [if_neg (by omega), hcommon]
        simp only []
        rw [hh]
        simp only []
        rw [if_neg (by omega)]
  · intro hm hfit c s
    exact ⟨fun orig al flags => alloc_handle_fits c b s orig al flags hm hfit,
      fun a orig flags => falloc_handle_fits c b s a orig flags hm hfit⟩

/-- Witness of C12: in the user-64k block with one allocation at
`0x20000000`, made without a handle, the next 64 KiB page is not covered and
`get` returns a null handle there. -/
theorem get_uncovered_cases_witness :
    (user64k_block.alloc ps3Consts VM.empty 0x10000 0x10000 none 0).state.1.get
      0x20010000 0x1000 = some (0x20010000, none) :=
  ((get_uncovered_cases (user64k_block.alloc ps3Consts VM.empty 0x10000 0x10000 none 0).state.1
    0x20010000 0x1000).2.1 (by decide) (by decide)).1 (by decide)
    (((get_uncovered_cases user64k_block 0 0).2.2 (by decide)
      (fun e he => by cases he) ps3Consts VM.empty).1 0x10000 0x10000 0)

/-! ## The invariant of `range_lock` and `writer_lock` -/

theorem writer_ok_mono (locks0 locks : Nat → Nat) (rpc0 rpc : RangePc) (wpc : WriterPc)
    (h : writer_ok locks0 rpc0 wpc)
    (hn : ∀ i, rpc ≠ RangePc.returned i) : writer_ok locks rpc wpc := by
  cases wpc with
  | drain k => exact ⟨h.1, fun i hi => absurd hi (hn i)⟩
  | locked => exact fun i hi => absurd hi (hn i)
  | _ => trivial

theorem inv_init (shareable : Nat → Nat) (addr end_ t : Nat) (locks : Nat → Nat) :
    LockInv shareable addr end_ t (Sys.init locks) :=
  ⟨rfl, rfl, rfl, (fun h => by cases h), trivial, trivial⟩

/-- A step of the thread in `range_lock` preserves the invariant. -/
theorem inv_step_range (shareable : Nat → Nat) (addr end_ t : Nat)
    (hZ : test_addr shareable t addr end_ = 0)
    (h1 : test_addr shareable 0 addr end_ ≠ 0 →
      drain_passes (if shareable (t >>> 16) ≠ 0 then t &&& 0xffff else t)
        (test_addr shareable 0 addr end_) = false)
    (h2 : test_addr shareable 0xffffffff addr end_ ≠ 0 →
      drain_passes (if shareable (t >>> 16) ≠ 0 then t &&& 0xffff else t)
        (test_addr shareable 0xffffffff addr end_) = false)
    (s : Sys) (h : LockInv shareable addr end_ t s) :
    LockInv shareable addr end_ t (step_range shareable addr end_ s) := by
  obtain ⟨g, locks, wh, rd, rpc, wpc⟩ := s
  obtain ⟨ha, hm, hs, he, hr, hw⟩ := h
  simp only at ha hm hs he hr hw
  have hgt : wpc.has_addr = true → test_addr shareable g addr end_ = 0 := by
    intro hwa
    rw [hwa] at ha
    simp only [if_true] at ha
    rw [ha, hZ]
  have hg0 : wpc.has_addr = false → g = 0 := by
    intro hwa
    rw [hwa] at ha
    simpa using ha
  cases rpc with
  | start =>
    unfold step_range
    simp only []
    by_cases hg : test_addr shareable g addr end_ ≠ 0
    · rw [if_pos hg]
      have hwa : wpc.has_addr = false := by
        cases hwa : wpc.has_addr
        · rfl
        · exact absurd (hgt hwa) hg
      have := hg0 hwa
      subst this
      exact ⟨ha, hm, hs, (fun h => by cases h), ⟨rfl, hg, by decide⟩,
        writer_ok_mono _ _ _ _ _ hw (fun i hi => by cases hi)⟩
    · rw [if_neg hg]
      exact ⟨ha, hm, hs, (fun h => by cases h), trivial,
        writer_ok_mono _ _ _ _ _ hw (fun i hi => by cases hi)⟩
  | register a1 i =>
    unfold step_range
    simp only []
    by_cases hl : locks i = 0
    · rw [if_pos hl]
      refine ⟨ha, hm, hs, (fun h => by cases h), ⟨hr.1, hr.2.1, hr.2.2, ?_⟩,
        writer_ok_mono _ _ _ _ _ hw (fun i hi => by cases hi)⟩
      show (if i = i then a1 else locks i) = a1
      rw [if_pos rfl]
    · rw [if_neg hl]
      exact ⟨ha, hm, hs, (fun h => by cases h), ⟨hr.1, hr.2.1, next_slot_lt i hr.2.2⟩,
        writer_ok_mono _ _ _ _ _ hw (fun i hi => by cases hi)⟩
  | recheck a1 i =>
    unfold step_range
    simp only []
    by_cases hl : a1 = test_addr shareable g addr end_
    · rw [if_pos hl]
      have hwa : wpc.has_addr = false := by
        cases hwa : wpc.has_addr
        · rfl
        · exfalso
          rw [hgt hwa] at hl
          exact hr.2.1 hl
      refine ⟨ha, hm, hs, (fun h => by cases h), ⟨hr.2.2.1, ?_, ?_⟩, ?_⟩
      · intro _
        show drain_passes _ (locks i) = false
        rw [hr.2.2.2, hr.1]
        exact h1 (hr.1 ▸ hr.2.1)
      · intro _
        show locks i ≠ 0
        rw [hr.2.2.2]
        exact hr.2.1
      · cases wpc with
        | drain k => cases hwa
        | locked => cases hwa
        | _ => trivial
    · rw [if_neg hl]
      exact ⟨ha, hm, hs, (fun h => by cases h), hr.2.2.1,
        writer_ok_mono _ _ _ _ _ hw (fun i hi => by cases hi)⟩
  | clear i =>
    exact ⟨ha, hm, hs, (fun h => by cases h), trivial,
      writer_ok_mono _ _ _ _ _ hw (fun i hi => by cases hi)⟩
  | lock_shared =>
    unfold step_range
    simp only []
    by_cases hl : wh = true
    · rw [if_pos hl]
      exact ⟨ha, hm, hs, he, hr, hw⟩
    · rw [if_neg hl]
      have hwf : wh = false := by
        cases wh
        · rfl
        · exact absurd rfl hl
      refine ⟨ha, hm, ?_, ?_, ?_, writer_ok_mono _ _ _ _ _ hw (fun i hi => by cases hi)⟩
      · show rd + 1 = 1
        have : rd = 0 := hs
        rw [this]
      · intro _
        rw [← hm]
        exact hwf
      · show 0 < 6
        decide
  | register_locked i =>
    unfold step_range
    simp only []
    by_cases hl : locks i = 0
    · rw [if_pos hl]
      refine ⟨ha, hm, hs, he, ⟨hr, ?_⟩, writer_ok_mono _ _ _ _ _ hw (fun i hi => by cases hi)⟩
      show (if i = i then _ else locks i) = _
      rw [if_pos rfl]
    · rw [if_neg hl]
      exact ⟨ha, hm, hs, he, next_slot_lt i hr,
        writer_ok_mono _ _ _ _ _ hw (fun i hi => by cases hi)⟩
  | unlock_shared i =>
    have hwm : wpc.has_mutex = false := he rfl
    refine ⟨ha, hm, ?_, (fun h => by cases h), ⟨hr.1, ?_, ?_⟩, ?_⟩
    · show rd - 1 = 0
      have : rd = 1 := hs
      rw [this]
    · intro hnz
      show drain_passes _ (locks i) = false
      have hnz : locks i ≠ 0 := hnz
      rw [hr.2] at hnz ⊢
      exact h2 hnz
    · intro hnz
      show locks i ≠ 0
      rw [hr.2]
      exact hnz
    · cases wpc with
      | drain k => cases hwm
      | locked => cases hwm
      | _ => trivial
  | returned i =>
    exact ⟨ha, hm, hs, (fun h => by cases h), trivial,
      writer_ok_mono _ _ _ _ _ hw (fun i hi => by cases hi)⟩
  | released => exact ⟨ha, hm, hs, he, hr, hw⟩

/-- A step of the writer preserves the invariant. -/
theorem inv_step_writer (shareable : Nat → Nat) (addr end_ t : Nat)
    (ht : 0x10000 ≤ t) (s : Sys) (h : LockInv shareable addr end_ t s) :
    LockInv shareable addr end_ t (step_writer shareable t s) := by
  obtain ⟨g, locks, wh, rd, rpc, wpc⟩ := s
  obtain ⟨ha, hm, hs, he, hr, hw⟩ := h
  simp only at ha hm hs he hr hw
  cases wpc with
  | start =>
    unfold step_writer
    simp only []
    by_cases hl : wh = false ∧ rd = 0
    · rw [if_pos hl]
      refine ⟨ha, rfl, hs, ?_, hr, trivial⟩
      intro hsh
      exfalso
      rw [hsh] at hs
      have : rd = 1 := hs
      omega
    · rw [if_neg hl]
      exact ⟨ha, hm, hs, he, hr, hw⟩
  | set_addr =>
    unfold step_writer
    simp only []
    rw [if_pos ht]
    exact ⟨rfl, hm, hs, he, hr, ⟨by decide, fun i _ _ => Nat.zero_le i⟩⟩
  | drain k =>
    unfold step_writer
    simp only []
    by_cases hp : drain_passes (if shareable (t >>> 16) ≠ 0 then t &&& 0xffff else t) (locks k)
        = true
    · rw [if_pos hp]
      have hne : ∀ i, rpc = RangePc.returned i → locks i ≠ 0 → k < i := by
        intro i hi hnz
        have hki := hw.2 i hi hnz
        rcases Nat.lt_or_eq_of_le hki with hlt | heq
        · exact hlt
        · exfalso
          subst hi
          subst heq
          have := hr.2.1 hnz
          rw [hp] at this
          cases this
      by_cases h6 : k + 1 = 6
      · rw [if_pos h6]
        refine ⟨ha, hm, hs, he, hr, ?_⟩
        intro i hi
        show locks i = 0
        by_contra hnz
        have h1 := hne i hi hnz
        subst hi
        have h2 := hr.1
        omega
      · rw [if_neg h6]
        refine ⟨ha, hm, hs, he, hr, ⟨?_, ?_⟩⟩
        · have := hw.1
          omega
        · intro i hi hnz
          exact hne i hi hnz
    · rw [if_neg hp]
      exact ⟨ha, hm, hs, he, hr, hw⟩
  | locked => exact ⟨rfl, hm, hs, he, hr, trivial⟩
  | unlock => exact ⟨ha, rfl, hs, fun _ => rfl, hr, trivial⟩
  | done => exact ⟨ha, hm, hs, he, hr, hw⟩

/-- The invariant holds after every schedule. -/
theorem inv_run (shareable : Nat → Nat) (addr end_ t : Nat)
    (ht : 0x10000 ≤ t)
    (hZ : test_addr shareable t addr end_ = 0)
    (h1 : test_addr shareable 0 addr end_ ≠ 0 →
      drain_passes (if shareable (t >>> 16) ≠ 0 then t &&& 0xffff else t)
        (test_addr shareable 0 addr end_) = false)
    (h2 : test_addr shareable 0xffffffff addr end_ ≠ 0 →
      drain_passes (if shareable (t >>> 16) ≠ 0 then t &&& 0xffff else t)
        (test_addr shareable 0xffffffff addr end_) = false)
    (schedule : List Tid) (s : Sys) (h : LockInv shareable addr end_ t s) :
    LockInv shareable addr end_ t (run shareable addr end_ t schedule s) := by
  induction schedule generalizing s with
  | nil => exact h
  | cons x rest ih =>
    cases x with
    | range =>
      rw [run]
      exact ih _ (inv_step_range shareable addr end_ t hZ h1 h2 s h)
    | writer =>
      rw [run]
      exact ih _ (inv_step_writer shareable addr end_ t ht s h)

theorem drain_passes_zero (t1 : Nat) : drain_passes t1 0 = true := by
  unfold drain_passes u32
  simp

theorem step_writer_drain (shareable : Nat → Nat) (t g : Nat) (locks : Nat → Nat) (wh : Bool)
    (rd : Nat) (rpc : RangePc) (i : Nat) (h0 : locks i = 0) :
    step_writer shareable t
      { g_addr_lock := g, g_range_locks := locks, writer_held := wh, readers := rd,
        rpc := rpc, wpc := WriterPc.drain i }
    = if i + 1 = 6 then
        { g_addr_lock := g, g_range_locks := locks, writer_held := wh, readers := rd,
          rpc := rpc, wpc := WriterPc.locked }
      else
        { g_addr_lock := g, g_range_locks := locks, writer_held := wh, readers := rd,
          rpc := rpc, wpc := WriterPc.drain (i + 1) } := by
  unfold step_writer
  simp only []
  rw [h0, drain_passes_zero, if_pos rfl]

/-- From free slots, eight steps of the writer bring it past its drain loop. -/
theorem writer_alone (shareable : Nat → Nat) (addr end_ t : Nat) (ht : 0x10000 ≤ t) :
    run shareable addr end_ t (List.replicate 8 Tid.writer) (Sys.init free_locks)
      = { g_addr_lock := t, g_range_locks := free_locks, writer_held := true, readers := 0,
          rpc := RangePc.start, wpc := WriterPc.locked } := by
  have e1 : step_writer shareable t (Sys.init free_locks)
      = { g_addr_lock := 0, g_range_locks := free_locks, writer_held := true, readers := 0,
          rpc := RangePc.start, wpc := WriterPc.set_addr } := by
    simp [step_writer, Sys.init]
  have e2 : step_writer shareable t
      { g_addr_lock := 0, g_range_locks := free_locks, writer_held := true, readers := 0,
        rpc := RangePc.start, wpc := WriterPc.set_addr }
      = { g_addr_lock := t, g_range_locks := free_locks, writer_held := true, readers := 0,
          rpc := RangePc.start, wpc := WriterPc.drain 0 } := by
    unfold step_writer
    simp only []
    rw [if_pos ht]
  simp only [List.replicate, run]
  rw [e1, e2, step_writer_drain _ _ _ _ _ _ _ _ rfl, if_neg (by decide),
    step_writer_drain _ _ _ _ _ _ _ _ rfl, if_neg (by decide),
    step_writer_drain _ _ _ _ _ _ _ _ rfl, if_neg (by decide),
    step_writer_drain _ _ _ _ _ _ _ _ rfl, if_neg (by decide),
    step_writer_drain _ _ _ _ _ _ _ _ rfl, if_neg (by decide),
    step_writer_drain _ _ _ _ _ _ _ _ rfl, if_pos (by decide)]

/-- When the canonical address of the writer is outside the canonical range,
an interleaving from free slots ends with the writer holding the lock while
`range_lock` has returned slot 0, which holds the lock value. -/
theorem no_exclusion_outside (shareable : Nat → Nat) (addr end_ t : Nat)
    (ht32 : t < 4294967296) (ha32 : addr < 4294967296) (ht : 0x10000 ≤ t)
    (hne : 1 ≤ addr ∨ 1 ≤ end_ ∨ shareable (addr >>> 16) ≠ 0)
    (hout : ¬ (canon_addr shareable addr ≤ canon_addr shareable t
      ∧ canon_addr shareable t < canon_end shareable addr end_)) :
    (run shareable addr end_ t (List.replicate 8 Tid.writer ++ List.replicate 3 Tid.range)
      (Sys.init free_locks)).wpc = WriterPc.locked ∧
    (run shareable addr end_ t (List.replicate 8 Tid.writer ++ List.replicate 3 Tid.range)
      (Sys.init free_locks)).rpc = RangePc.returned 0 ∧
    (run shareable addr end_ t (List.replicate 8 Tid.writer ++ List.replicate 3 Tid.range)
      (Sys.init free_locks)).g_range_locks 0
      = canon_end shareable addr end_ <<< 32 ||| canon_addr shareable addr ∧
    canon_end shareable addr end_ <<< 32 ||| canon_addr shareable addr ≠ 0 := by
  have ha1 : canon_addr shareable addr < 4294967296 :=
    Nat.lt_of_le_of_lt (canon_addr_le shareable addr) ha32
  have hval : canon_end shareable addr end_ <<< 32 ||| canon_addr shareable addr ≠ 0 := by
    apply lock_value_ne_zero _ _ ha1
    by_cases hs : shareable (addr >>> 16) ≠ 0
    · right
      unfold canon_end
      rw [if_pos hs]
      exact Nat.le_add_left 1 _
    · unfold canon_addr canon_end
      rw [if_neg hs, if_neg hs]
      rcases hne with h | h | h
      · exact Or.inl h
      · exact Or.inr h
      · exact absurd h hs
  have hv : test_addr shareable t addr end_
      = canon_end shareable addr end_ <<< 32 ||| canon_addr shareable addr := by
    rw [test_addr_single shareable t addr end_ ht32, if_pos (by omega)]
  have hnz : test_addr shareable t addr end_ ≠ 0 := by
    rw [hv]
    exact hval
  have hrun : ∀ (s : Sys), run shareable addr end_ t
      (List.replicate 8 Tid.writer ++ List.replicate 3 Tid.range) (Sys.init free_locks)
      = run shareable addr end_ t (List.replicate 3 Tid.range)
          (run shareable addr end_ t (List.replicate 8 Tid.writer) (Sys.init free_locks)) := by
    intro _
    rfl
  rw [hrun (Sys.init free_locks), writer_alone shareable addr end_ t ht]
  have e1 : step_range shareable addr end_
      { g_addr_lock := t, g_range_locks := free_locks, writer_held := true, readers := 0,
        rpc := RangePc.start, wpc := WriterPc.locked }
      = { g_addr_lock := t, g_range_locks := free_locks, writer_held := true, readers := 0,
          rpc := RangePc.register (test_addr shareable t addr end_) 0,
          wpc := WriterPc.locked } := by
    unfold step_range
    simp only []
    rw [if_pos hnz]
  have e2 : step_range shareable addr end_
      { g_addr_lock := t, g_range_locks := free_locks, writer_held := true, readers := 0,
        rpc := RangePc.register (test_addr shareable t addr end_) 0, wpc := WriterPc.locked }
      = { g_addr_lock := t,
          g_range_locks := fun j => if j = 0 then test_addr shareable t addr end_
            else free_locks j,
          writer_held := true, readers := 0,
          rpc := RangePc.recheck (test_addr shareable t addr end_) 0,
          wpc := WriterPc.locked } := by
    simp [step_range, free_locks, Sys.set_lock]
  have e3 : step_range shareable addr end_
      { g_addr_lock := t,
        g_range_locks := fun j => if j = 0 then test_addr shareable t addr end_
          else free_locks j,
        writer_held := true, readers := 0,
        rpc := RangePc.recheck (test_addr shareable t addr end_) 0, wpc := WriterPc.locked }
      = { g_addr_lock := t,
          g_range_locks := fun j => if j = 0 then test_addr shareable t addr end_
            else free_locks j,
          writer_held := true, readers := 0,
          rpc := RangePc.returned 0, wpc := WriterPc.locked } := by
    simp [step_range]
  simp only [List.replicate, run]
  rw [e1, e2, e3]
  refine ⟨rfl, rfl, ?_, ?_⟩
  · show (if 0 = 0 then test_addr shareable t addr end_ else free_locks 0) = _
    rw [if_pos rfl, hv]
  · rw [← hv]
    exact hnz

/-- The facts about `test_addr` that the invariant needs, from the
containment of the canonical address of the writer in the canonical range. -/
theorem canon_facts (shareable : Nat → Nat) (addr end_ t : Nat)
    (ht32 : t < 4294967296) (ha32 : addr < 4294967296) (he32 : end_ < 4294967296)
    (hin : canon_addr shareable addr ≤ canon_addr shareable t
      ∧ canon_addr shareable t < canon_end shareable addr end_) :
    test_addr shareable t addr end_ = 0 ∧
    (∀ g, g < 4294967296 → test_addr shareable g addr end_ ≠ 0 →
      drain_passes (canon_addr shareable t) (test_addr shareable g addr end_) = false) ∧
    (shareable 0xffff = 0 → test_addr shareable 0xffffffff addr end_ ≠ 0) := by
  have ha1 : canon_addr shareable addr < 4294967296 :=
    Nat.lt_of_le_of_lt (canon_addr_le shareable addr) ha32
  have he1 := canon_end_lt shareable addr end_ he32
  have hv : canon_end shareable addr end_ <<< 32 ||| canon_addr shareable addr ≠ 0 :=
    lock_value_ne_zero _ _ ha1 (Or.inr (by omega))
  refine ⟨?_, ?_, ?_⟩
  · rw [test_addr_single shareable t addr end_ ht32, if_neg (by omega)]
  · intro g hg hnz
    rw [test_addr_single shareable g addr end_ hg] at hnz ⊢
    by_cases hc : canon_addr shareable addr > canon_addr shareable g
        ∨ canon_end shareable addr end_ ≤ canon_addr shareable g
    · rw [if_pos hc]
      exact (drain_passes_iff _ _ _ ha1 he1).2 hin
    · rw [if_neg hc] at hnz
      exact absurd rfl hnz
  · intro hs
    have n3 : ¬ shareable (0xffffffff >>> 16) ≠ 0 := by
      have : 0xffffffff >>> 16 = 0xffff := by decide
      rw [this]
      exact not_not.2 hs
    have hc3 : canon_addr shareable 0xffffffff = 0xffffffff := by
      unfold canon_addr
      rw [if_neg n3]
    rw [test_addr_single shareable 0xffffffff addr end_ (by decide), hc3,
      if_pos (Or.inr (by omega))]
    exact hv

/-- C26, counterexample: four interleavings with `addr <= t < end` after
which the writer is past its drain loop, holding the lock.  (1) The schedule
`late_claim`: `range_lock(0x20000000, 0x20000080)` loads `g_addr_lock` before
`writer_lock(0x20000000)` stores to it and claims slot 0 after the drain loop
has left slot 0 behind, so slot 0 holds the lock value of the range.  (2) A
target below `0x10000`: `writer_lock(0x1040)` has no drain loop and holds the
lock while `range_lock(0x1000, 0x1080)` has returned slot 0, which holds its
lock value.  (3) All pages shareable and a range across a 64 KiB boundary:
the drain loop of `writer_lock(0x20010000)` passes slot 0, which
`range_lock(0x2000FFC0, 0x20010040)` has returned and which holds the value
with start `0xFFC0` and end `0x40`.  (4) All pages shareable and the range
`[0x20000000, 0x20010000)`: the slow path of `range_lock` stores the value 0
and returns slot 0, and `writer_lock(0x20000040)` passes it. -/
theorem writer_passes_range_lock :
    ((run no_shareable 0x20000000 0x20000080 0x20000000 late_claim (Sys.init free_locks)).wpc
        = WriterPc.locked ∧
      (run no_shareable 0x20000000 0x20000080 0x20000000 late_claim (Sys.init free_locks)).rpc
        = RangePc.recheck 0x2000008020000000 0 ∧
      (run no_shareable 0x20000000 0x20000080 0x20000000 late_claim
        (Sys.init free_locks)).g_range_locks 0 = 0x2000008020000000) ∧
    ((run no_shareable 0x1000 0x1080 0x1040 (range_then_writer 3 2) (Sys.init free_locks)).wpc
        = WriterPc.locked ∧
      (run no_shareable 0x1000 0x1080 0x1040 (range_then_writer 3 2) (Sys.init free_locks)).rpc
        = RangePc.returned 0 ∧
      (run no_shareable 0x1000 0x1080 0x1040 (range_then_writer 3 2)
        (Sys.init free_locks)).g_range_locks 0 = 0x108000001000) ∧
    ((run all_shareable 0x2000FFC0 0x20010040 0x20010000 (range_then_writer 3 8)
        (Sys.init free_locks)).wpc = WriterPc.locked ∧
      (run all_shareable 0x2000FFC0 0x20010040 0x20010000 (range_then_writer 3 8)
        (Sys.init free_locks)).rpc = RangePc.returned 0 ∧
      (run all_shareable 0x2000FFC0 0x20010040 0x20010000 (range_then_writer 3 8)
        (Sys.init free_locks)).g_range_locks 0 = 0x40 <<< 32 ||| 0xFFC0 ∧
      canon_addr all_shareable 0x2000FFC0 = 0xFFC0 ∧
      canon_addr all_shareable 0x20010000 = 0 ∧
      canon_end all_shareable 0x2000FFC0 0x20010040 = 0x40) ∧
    ((run all_shareable 0x20000000 0x20010000 0x20000040 (range_then_writer 4 8)
        (Sys.init free_locks)).wpc = WriterPc.locked ∧
      (run all_shareable 0x20000000 0x20010000 0x20000040 (range_then_writer 4 8)
        (Sys.init free_locks)).rpc = RangePc.returned 0 ∧
      (run all_shareable 0x20000000 0x20010000 0x20000040 (range_then_writer 4 8)
        (Sys.init free_locks)).g_range_locks 0 = 0 ∧
      test_addr all_shareable 0xffffffff 0x20000000 0x20010000 = 0 ∧
      canon_addr all_shareable 0x20000000 = 0 ∧
      canon_addr all_shareable 0x20000040 = 0x40 ∧
      canon_end all_shareable 0x20000000 0x20010000 = 0x10000) := by
  decide

/-- C26, amended: in every interleaving of `range_lock(addr, end)` and
`writer_lock(t)` with `t >= 0x10000` and the canonical address of `t` inside
the canonical range `[addr', end')`: the writer is never past its drain loop,
holding the lock, while `range_lock` has returned a slot that is not zero and
that its caller still holds; as long as the drain loop runs it has not gone
past such a slot and waits at it.  A returned slot is not zero when the value
of the slow path is not zero, which is the case when page `0xffff` is not
shareable.  The canonical containment follows from `addr <= t < end` when the
pages of `addr` and `t` are both not shareable, and when they are both
shareable and the range lies inside one 64 KiB page.  Without the canonical
containment, for a range other than `addr = end = 0` on a page that is not
shareable, there is an interleaving from free slots after which the writer
holds the lock while `range_lock` has returned a slot that is not zero. -/
theorem range_lock_blocks_writer (shareable : Nat → Nat) (addr end_ t : Nat)
    (locks : Nat → Nat) (schedule : List Tid)
    (ht32 : t < 4294967296) (ha32 : addr < 4294967296) (he32 : end_ < 4294967296) :
    (0x10000 ≤ t →
      canon_addr shareable addr ≤ canon_addr shareable t
        ∧ canon_addr shareable t < canon_end shareable addr end_ →
      ((run shareable addr end_ t schedule (Sys.init locks)).wpc = WriterPc.locked →
        ∀ i, (run shareable addr end_ t schedule (Sys.init locks)).rpc = RangePc.returned i →
          (run shareable addr end_ t schedule (Sys.init locks)).g_range_locks i = 0) ∧
      (∀ k i, (run shareable addr end_ t schedule (Sys.init locks)).wpc = WriterPc.drain k →
        (run shareable addr end_ t schedule (Sys.init locks)).rpc = RangePc.returned i →
        (run shareable addr end_ t schedule (Sys.init locks)).g_range_locks i ≠ 0 →
        k ≤ i ∧ drain_passes (canon_addr shareable t)
          ((run shareable addr end_ t schedule (Sys.init locks)).g_range_locks i) = false) ∧
      (test_addr shareable 0xffffffff addr end_ ≠ 0 →
        (∀ i, (run shareable addr end_ t schedule (Sys.init locks)).rpc = RangePc.returned i →
          (run shareable addr end_ t schedule (Sys.init locks)).g_range_locks i ≠ 0) ∧
        ((run shareable addr end_ t schedule (Sys.init locks)).wpc = WriterPc.locked →
          ∀ i, (run shareable addr end_ t schedule (Sys.init locks)).rpc
            ≠ RangePc.returned i)) ∧
      (shareable 0xffff = 0 → test_addr shareable 0xffffffff addr end_ ≠ 0)) ∧
    (shareable (addr >>> 16) = 0 → shareable (t >>> 16) = 0 → addr ≤ t → t < end_ →
      canon_addr shareable addr ≤ canon_addr shareable t
        ∧ canon_addr shareable t < canon_end shareable addr end_) ∧
    (shareable (addr >>> 16) ≠ 0 → shareable (t >>> 16) ≠ 0 → addr ≤ t → t < end_ →
      addr / 0x10000 = (end_ - 1) / 0x10000 →
      canon_addr shareable addr ≤ canon_addr shareable t
        ∧ canon_addr shareable t < canon_end shareable addr end_) ∧
    (0x10000 ≤ t → (1 ≤ addr ∨ 1 ≤ end_ ∨ shareable (addr >>> 16) ≠ 0) →
      ¬ (canon_addr shareable addr ≤ canon_addr shareable t
        ∧ canon_addr shareable t < canon_end shareable addr end_) →
      (run shareable addr end_ t (List.replicate 8 Tid.writer ++ List.replicate 3 Tid.range)
        (Sys.init free_locks)).wpc = WriterPc.locked ∧
      (run shareable addr end_ t (List.replicate 8 Tid.writer ++ List.replicate 3 Tid.range)
        (Sys.init free_locks)).rpc = RangePc.returned 0 ∧
      (run shareable addr end_ t (List.replicate 8 Tid.writer ++ List.replicate 3 Tid.range)
        (Sys.init free_locks)).g_range_locks 0 ≠ 0) := by
  refine ⟨?_, ?_, ?_, ?_⟩
  · intro ht hin
    obtain ⟨hZ, hA, hS⟩ := canon_facts shareable addr end_ t ht32 ha32 he32 hin
    have hinv := inv_run shareable addr end_ t ht hZ (hA 0 (by decide))
      (hA 0xffffffff (by decide)) schedule (Sys.init locks) (inv_init shareable addr end_ t locks)
    have hlock : (run shareable addr end_ t schedule (Sys.init locks)).wpc = WriterPc.locked →
        ∀ i, (run shareable addr end_ t schedule (Sys.init locks)).rpc = RangePc.returned i →
          (run shareable addr end_ t schedule (Sys.init locks)).g_range_locks i = 0 := by
      intro hw
      have := hinv.writer
      rw [hw] at this
      exact this
    have hret : test_addr shareable 0xffffffff addr end_ ≠ 0 →
        ∀ i, (run shareable addr end_ t schedule (Sys.init locks)).rpc = RangePc.returned i →
          (run shareable addr end_ t schedule (Sys.init locks)).g_range_locks i ≠ 0 := by
      intro hnz i hr
      have h4 := hinv.range
      rw [hr] at h4
      exact h4.2.2 hnz
    refine ⟨hlock, ?_, ?_, hS⟩
    · intro k i hw hr hnz
      have h3 := hinv.writer
      have h4 := hinv.range
      rw [hw] at h3
      rw [hr] at h4
      exact ⟨h3.2 i hr hnz, h4.2.1 hnz⟩
    · intro hnz
      refine ⟨hret hnz, ?_⟩
      intro hw i hr
      exact hret hnz i hr (hlock hw i hr)
  · intro hs1 hs2 h1 h2
    unfold canon_addr canon_end
    rw [if_neg (not_not.2 hs1), if_neg (not_not.2 hs2), if_neg (not_not.2 hs1)]
    exact ⟨h1, h2⟩
  · intro hs1 hs2 h1 h2 hp
    unfold canon_addr canon_end
    rw [if_pos hs1, if_pos hs2, if_pos hs1, and_ffff, and_ffff, and_ffff]
    have : u32 (end_ + 4294967295) = end_ - 1 := by
      unfold u32
      omega
    rw [this]
    omega
  · intro ht hne hout
    obtain ⟨h1, h2, h3, h4⟩ := no_exclusion_outside shareable addr end_ t ht32 ha32 ht hne hout
    rw [← h3] at h4
    exact ⟨h1, h2, h4⟩

/-- Witness of C26: every page shareable, `range_lock(0x20000000, 0x20000080)`
and `writer_lock(0x20000040)`; after 8 steps of the writer and 3 steps of
`range_lock` the writer holds the lock and `range_lock` has not returned. -/
theorem range_lock_blocks_writer_witness :
    (run all_shareable 0x20000000 0x20000080 0x20000040
      (List.replicate 8 Tid.writer ++ List.replicate 3 Tid.range) (Sys.init free_locks)).wpc
      = WriterPc.locked ∧
    ∀ i, (run all_shareable 0x20000000 0x20000080 0x20000040
      (List.replicate 8 Tid.writer ++ List.replicate 3 Tid.range) (Sys.init free_locks)).rpc
      ≠ RangePc.returned i :=
  ⟨by decide,
   ((((range_lock_blocks_writer all_shareable 0x20000000 0x20000080 0x20000040 free_locks
      (List.replicate 8 Tid.writer ++ List.replicate 3 Tid.range)
      (by decide) (by decide) (by decide)).1 (by decide) (by decide)).2.2.1 (by decide)).2
      (by decide))⟩

/-- C23, counterexample: the block "SPU reserved" has no flags, so its
minimum page size is `0x10000`; `alloc(0x1000, 0x1000)` with an external
handle and the flags `0x100`, whose minimum page size is `0x1000`, raises no
error: it returns `0xE0000000` and maps the page `0xE0000`. -/
theorem alloc_foreign_page_size :
    min_page_size spu_block.flags = 0x10000 ∧
    min_page_size 0x100 = 0x1000 ∧
    (spu_block.alloc ps3Consts VM.empty 0x1000 0x1000 (some (some ext_shm)) 0x100).value
      = some 0xE0000000 ∧
    (spu_block.alloc ps3Consts VM.empty 0x1000 0x1000 (some (some ext_shm)) 0x100).state.1.m_map
      = [(0xE0000000, (0x1000, some ext_shm))] ∧
    (spu_block.alloc ps3Consts VM.empty 0x1000 0x1000 (some (some ext_shm)) 0x100).state.2.g_pages
      0xE0000 = 131 ∧
    VM.empty.g_pages 0xE0000 = 0 := by
  decide

/-- C32, counterexample: for the range with `addr = end = 0` on a page that
is not shareable the lock value is 0, so the test of the fast path returns 0
for the target `0x20000000`, which does not lie in the canonical range, and
the drain test of `writer_lock(0x20000000)` passes a slot that holds this
value. -/
theorem test_addr_empty_range :
    test_addr no_shareable 0x20000000 0 0 = 0 ∧
    canon_end no_shareable 0 0 <<< 32 ||| canon_addr no_shareable 0 = 0 ∧
    drain_passes (canon_addr no_shareable 0x20000000)
      (canon_end no_shareable 0 0 <<< 32 ||| canon_addr no_shareable 0) = true ∧
    ¬ (canon_addr no_shareable 0 ≤ canon_addr no_shareable 0x20000000
      ∧ canon_addr no_shareable 0x20000000 < canon_end no_shareable 0 0) := by
  decide

/-- C32, amended: for a target `t` with zero size field and a range
`[addr, end)` with `addr` or `end` not zero or with the page of `addr`
shareable, the test of the fast path of `range_lock` returns 0 exactly when
the canonical address of `t` lies in the canonical range `[addr', end')`,
which is exactly when the drain test of `writer_lock(t)` does not pass a slot
holding `end' << 32 | addr'`, so that the writer stays at that slot; when the
test does not return 0 it returns that value. -/
theorem test_addr_agrees (shareable : Nat → Nat) (t addr end_ : Nat)
    (ht : t < 4294967296) (ha : addr < 4294967296) (he : end_ < 4294967296)
    (hne : 1 ≤ addr ∨ 1 ≤ end_ ∨ shareable (addr >>> 16) ≠ 0) :
    (test_addr shareable t addr end_ = 0 ↔
      canon_addr shareable addr ≤ canon_addr shareable t
        ∧ canon_addr shareable t < canon_end shareable addr end_) ∧
    (drain_passes (canon_addr shareable t)
        (canon_end shareable addr end_ <<< 32 ||| canon_addr shareable addr) = false ↔
      canon_addr shareable addr ≤ canon_addr shareable t
        ∧ canon_addr shareable t < canon_end shareable addr end_) ∧
    (∀ (s : Sys) (i : Nat), s.wpc = WriterPc.drain i →
      s.g_range_locks i
        = canon_end shareable addr end_ <<< 32 ||| canon_addr shareable addr →
      ((step_writer shareable t s).wpc = WriterPc.drain i ↔
        canon_addr shareable addr ≤ canon_addr shareable t
          ∧ canon_addr shareable t < canon_end shareable addr end_)) ∧
    (test_addr shareable t addr end_ ≠ 0 →
      test_addr shareable t addr end_
        = canon_end shareable addr end_ <<< 32 ||| canon_addr shareable addr) := by
  have ha1 : canon_addr shareable addr < 4294967296 :=
    Nat.lt_of_le_of_lt (canon_addr_le shareable addr) ha
  have he1 := canon_end_lt shareable addr end_ he
  have hv : canon_end shareable addr end_ <<< 32 ||| canon_addr shareable addr ≠ 0 := by
    apply lock_value_ne_zero _ _ ha1
    by_cases hs : shareable (addr >>> 16) ≠ 0
    · right
      unfold canon_end
      rw [if_pos hs]
      exact Nat.le_add_left 1 _
    · unfold canon_addr canon_end
      rw [if_neg hs, if_neg hs]
      rcases hne with h | h | h
      · exact Or.inl h
      · exact Or.inr h
      · exact absurd h hs
  have e := test_addr_single shareable t addr end_ ht
  refine ⟨?_, drain_passes_iff _ _ _ ha1 he1, ?_, ?_⟩
  · rw [e]
    by_cases hc : canon_addr shareable addr > canon_addr shareable t
        ∨ canon_end shareable addr end_ ≤ canon_addr shareable t
    · rw [if_pos hc]
      constructor
      · intro h
        exact absurd h hv
      · intro h
        omega
    · rw [if_neg hc]
      exact ⟨fun _ => by omega, fun _ => rfl⟩
  · intro s i hw hv
    rw [step_writer_spins shareable t s i hw, hv]
    exact drain_passes_iff _ _ _ ha1 he1
  · intro hnz
    rw [e] at hnz ⊢
    by_cases hc : canon_addr shareable addr > canon_addr shareable t
        ∨ canon_end shareable addr end_ ≤ canon_addr shareable t
    · rw [if_pos hc]
    · rw [if_neg hc] at hnz
      exact absurd rfl hnz

/-- Witness of C32: the range `[0x20000000, 0x20000080)` and the target
`0x20000040`, nothing shareable. -/
theorem test_addr_agrees_witness :
    test_addr no_shareable 0x20000040 0x20000000 0x20000080 = 0 ∧
    drain_passes (canon_addr no_shareable 0x20000040)
      (canon_end no_shareable 0x20000000 0x20000080 <<< 32
        ||| canon_addr no_shareable 0x20000000) = false :=
  ⟨(test_addr_agrees no_shareable 0x20000040 0x20000000 0x20000080 (by decide) (by decide)
      (by decide) (Or.inl (by decide))).1.2 (by decide),
   by decide⟩

end vm
